import Mathlib

/-!
# Virtual-memory simulator (a3) and system-call interceptor (a1): embedding and verification

The development embeds `src/a3/pagetable.c`, `src/a3/lru.c` and `src/a3/clock.c`, and, in
the namespace `Interceptor`, the system call `my_syscall` of `src/a1/interceptor.c` with the
functions it calls, and, in the namespace `ReadImage`, `get_inode_type` of
`src/fs3/readimage.c`.
Global C variables become the fields of `State`; the external collaborators
(swap file, `random()`, `posix_memalign`, `malloc`) are the fields of `World`, each a
function of the log of external events so far (`malloc` also of the number of nodes
allocated so far), so that a theorem quantified over `World` covers every behaviour of
the collaborators.  Pointers are `Option`
values (`none` is `NULL`); a dereference of `NULL`, an index outside an array
and a division by zero end the run with `Err.undefined`; `exit` ends it with one
of the `Err.exit_*` values.
-/

namespace VMSim

/-! ## Constants of the absent header `pagetable.h` -/

/-- Modelled from the spec: `pagetable.h` is absent; the byte offset takes the low 12 bits
of a virtual address ("Offset is 12 bits", "PAGE_SHIFT = 12"). -/
def PAGE_SHIFT : Nat := 12

/-- Modelled from the spec: `pagetable.h` is absent; the simulated page size used to align leaf
tables, `1 << PAGE_SHIFT`. -/
def PAGE_SIZE : Nat := 4096

/-- Modelled from the spec: `pagetable.h` is absent; "PGDIR_SHIFT shifts 24 bits". -/
def PGDIR_SHIFT : Nat := 24

/-- Modelled from the spec: `pagetable.h` is absent; the directory index is the "top 12 bits"
of a 36-bit address, so the directory has `2^12` entries. -/
def PTRS_PER_PGDIR : Nat := 4096

/-- Modelled from the spec: `pagetable.h` is absent; the leaf index is the "lower 12 bits" of
the page number, so a leaf table has `2^12` entries. -/
def PTRS_PER_PGTBL : Nat := 4096

/-- Modelled from the spec: `pagetable.h` is absent; VALID is "the lowest-order bit". -/
def PG_VALID : Nat := 1

/-- Modelled from the spec: `pagetable.h` is absent; DIRTY is the second of the four flag
bits in the low 4 bits of the packed value. -/
def PG_DIRTY : Nat := 2

/-- Modelled from the spec: `pagetable.h` is absent; REFERENCED is the third of the four flag
bits in the low 4 bits of the packed value. -/
def PG_REF : Nat := 4

/-- Modelled from the spec: `pagetable.h` is absent; "PG_ONSWAP 1000" (binary). -/
def PG_ONSWAP : Nat := 8

/-- Modelled from the spec: `pagetable.h` is absent; the sentinel INVALID of `swap_off`,
`-1` in the C header. -/
def INVALID_SWAP : Int := -1

/-- Modelled from the spec: `pagetable.h` is absent; `PAGE_MASK` is `~(PAGE_SIZE-1)` as a
64-bit `uintptr_t` mask ("lower 12 bits are 0"). -/
def PAGE_MASK : Nat := 2 ^ 64 - PAGE_SIZE

/-- The C expression `~m` converted to `unsigned int`: all 32 bits of `m` flipped. -/
def bnot32 (m : Nat) : Nat := (2 ^ 32 - 1) ^^^ m

/-- Modelled from the spec: `pagetable.h` is absent; macro `PGDIR_INDEX(x)`, stored in an
`unsigned` (32 bits) by `find_physpage`. -/
def PGDIR_INDEX (vaddr : Nat) : Nat := (vaddr >>> PGDIR_SHIFT) % 2 ^ 32

/-- Modelled from the spec: `pagetable.h` is absent; macro `PGTBL_INDEX(x)`, the middle bits
of the address. -/
def PGTBL_INDEX (vaddr : Nat) : Nat := (vaddr >>> PAGE_SHIFT) &&& (PTRS_PER_PGTBL - 1)

/-! ## Data model -/

/-- The `pgtbl_entry_t` of the header: packed `frame` (unsigned int) and `swap_off`. -/
structure pgtbl_entry_t where
  frame : Nat
  swap_off : Int
deriving DecidableEq

/-- A pointer to a page-table entry: base address of its leaf table and index in it. -/
structure PtePtr where
  tbl : Nat
  idx : Nat
deriving DecidableEq

/-- The `struct frame` of the coremap: `in_use` and the back pointer `pte`. -/
structure frame where
  in_use : Bool
  pte : Option PtePtr
deriving DecidableEq

/-- The `node_t` of lru.c. -/
structure node_t where
  frame : Nat
  next : Option Nat
  prev : Option Nat
deriving DecidableEq

/-- The `list_t` of lru.c. -/
structure list_t where
  size : Nat
  head : Option Nat
  tail : Option Nat
deriving DecidableEq

/-- External events, in the order they happen. -/
inductive Event where
  | pageout (frame : Nat) (off : Int) (ret : Int)
  | pagein (frame : Nat) (off : Int) (ret : Int)
  | init_frame (frame : Nat) (vaddr : Nat)
  | memalign (ok : Bool)
  | random (ret : Nat)
deriving DecidableEq

/-- Ways a call does not return normally. -/
inductive Err where
  | exit_swap
  | exit_pagein
  | exit_memalign
  | undefined
  | fuel
deriving DecidableEq

/-- The two replacement policies of the sources. -/
inductive Policy where
  | lru
  | clock
deriving DecidableEq

/-- Configuration and external collaborators of one simulation run.  `malloc l n` tells
whether the `malloc` of `lru_ref`, called with event log `l` when `n` nodes have been
allocated so far, returns a node (`true`) or NULL (`false`). -/
structure World where
  memsize : Nat
  policy : Policy
  SIMPAGESIZE : Nat
  swap_pageout : List Event → Nat → Int → Int
  swap_pagein : List Event → Nat → Int → Int × (Nat → Nat)
  random : List Event → Nat
  posix_memalign : List Event → Bool
  malloc : List Event → Nat → Bool

/-- All global variables of pagetable.c, lru.c and the simulator. -/
structure State where
  pgdir : Nat → Nat
  ntables : Nat
  pgtbls : Nat → Nat → pgtbl_entry_t
  coremap : Nat → frame
  physmem : Nat → Nat
  hit_count : Nat
  miss_count : Nat
  ref_count : Nat
  evict_clean_count : Nat
  evict_dirty_count : Nat
  list : list_t
  map : Nat → Option Nat
  nodes : Nat → Option node_t
  next_node : Nat
  log : List Event

/-- Read the entry a PTE pointer points at. -/
def State.pte (s : State) (p : PtePtr) : pgtbl_entry_t := s.pgtbls p.tbl p.idx

/-- Write the entry a PTE pointer points at. -/
def State.set_pte (s : State) (p : PtePtr) (e : pgtbl_entry_t) : State :=
  { s with pgtbls := fun t i => if t = p.tbl ∧ i = p.idx then e else s.pgtbls t i }

/-- Store into `p->frame`. -/
def State.set_frame (s : State) (p : PtePtr) (v : Nat) : State :=
  s.set_pte p { s.pte p with frame := v }

/-- Append an external event to the log. -/
def State.emit (s : State) (e : Event) : State := { s with log := s.log ++ [e] }

/-! ## lru.c -/

/-- Dereference a node pointer: `NULL` and pointers to freed memory are undefined. -/
def deref (nodes : Nat → Option node_t) : Option Nat → Except Err (Nat × node_t)
  | none => .error .undefined
  | some a =>
    match nodes a with
    | none => .error .undefined
    | some n => .ok (a, n)

/-- Store a node at an address of the node heap. -/
def store (nodes : Nat → Option node_t) (a : Nat) (n : node_t) : Nat → Option node_t :=
  fun b => if b = a then some n else nodes b

/-- The statement `free(victim)`. -/
def free (nodes : Nat → Option node_t) (a : Nat) : Nat → Option node_t :=
  fun b => if b = a then none else nodes b

/-- The assignment `map[i] = v`. -/
def set_map (map : Nat → Option Nat) (i : Nat) (v : Option Nat) : Nat → Option Nat :=
  fun j => if j = i then v else map j

/-- Function `lru_init`: empty list, `map` of `memsize` NULL pointers. -/
def lru_init (s : State) : State :=
  { s with list := { size := 0, head := none, tail := none }, map := fun _ => none }

/-- Function `lru_evict` of lru.c (lines 44-67): unlink the head node, clear its `map`
entry, free it and return its frame. -/
def lru_evict (w : World) (s : State) : Except Err (Nat × State) := do
  let victim := s.list.head
  let (hd, tl, nodes1) ←
    if s.list.head = s.list.tail then
      (pure ((none : Option Nat), (none : Option Nat), s.nodes) :
        Except Err (Option Nat × Option Nat × (Nat → Option node_t)))
    else do
      let (_, h) ← deref s.nodes s.list.head
      let (a, n) ← deref s.nodes h.next
      pure (h.next, s.list.tail, store s.nodes a { n with prev := none })
  let (va, v) ← deref nodes1 victim
  let pfn := v.frame
  if pfn < w.memsize then
    pure (pfn, { s with
      list := { size := (s.list.size + 2 ^ 32 - 1) % 2 ^ 32, head := hd, tail := tl },
      map := set_map s.map pfn none,
      nodes := free nodes1 va })
  else
    .error .undefined

/-- Function `lru_ref` of lru.c (lines 74-150): move the node of the referenced frame to the
tail of the list, creating the node when the frame is not tracked.  The result of `malloc`
is used unchecked (`node->frame = frame`, lines 87-88), so a NULL result is a NULL
dereference. -/
def lru_ref (w : World) (s : State) (p : PtePtr) : Except Err State := do
  let frame := (s.pte p).frame >>> PAGE_SHIFT
  if frame < w.memsize then
    match s.map frame with
    | none =>
      if w.malloc s.log s.next_node = true then
        let node := s.next_node
        let n0 : node_t := { frame := frame, next := none, prev := none }
        if s.list.size = 0 then
          pure { s with
            nodes := store s.nodes node n0,
            next_node := s.next_node + 1,
            list := { size := (s.list.size + 1) % 2 ^ 32, head := some node, tail := some node },
            map := set_map s.map frame (some node) }
        else do
          let (ta, t) ← deref s.nodes s.list.tail
          let nodes1 := store s.nodes ta { t with next := some node }
          let nodes2 := store nodes1 node { n0 with prev := s.list.tail }
          pure { s with
            nodes := nodes2,
            next_node := s.next_node + 1,
            list := { size := (s.list.size + 1) % 2 ^ 32, head := s.list.head,
                      tail := some node },
            map := set_map s.map frame (some node) }
      else
        .error .undefined
    | some targ =>
      if s.list.head = s.list.tail then
        pure s
      else if some targ = s.list.head then do
        let (_, h) ← deref s.nodes s.list.head
        let (a, n) ← deref s.nodes h.next
        let nodes1 := store s.nodes a { n with prev := none }
        let (ta, t) ← deref nodes1 s.list.tail
        let nodes2 := store nodes1 ta { t with next := some targ }
        let (_, g) ← deref nodes2 (some targ)
        let nodes3 := store nodes2 targ { g with prev := s.list.tail, next := none }
        pure { s with nodes := nodes3, list := { s.list with head := h.next, tail := some targ } }
      else if some targ = s.list.tail then
        pure s
      else do
        let (_, g) ← deref s.nodes (some targ)
        let (pa, pn) ← deref s.nodes g.prev
        let nodes1 := store s.nodes pa { pn with next := g.next }
        let (_, g1) ← deref nodes1 (some targ)
        let (na, nn) ← deref nodes1 g1.next
        let (_, g2) ← deref nodes1 (some targ)
        let nodes2 := store nodes1 na { nn with prev := g2.prev }
        let (_, g3) ← deref nodes2 (some targ)
        let nodes3 := store nodes2 targ { g3 with prev := s.list.tail, next := none }
        let (ta, t) ← deref nodes3 s.list.tail
        let nodes4 := store nodes3 ta { t with next := some targ }
        pure { s with nodes := nodes4, list := { s.list with tail := some targ } }
  else
    .error .undefined

/-- The allocation made by the call `lru_ref(p)` in state `s` succeeds: when the frame of
`p` is not tracked, so that `lru_ref` calls `malloc` for a new node, `malloc` does not
return NULL. -/
def malloc_ok (w : World) (s : State) (p : PtePtr) : Prop :=
  s.map ((s.pte p).frame >>> PAGE_SHIFT) = none → w.malloc s.log s.next_node = true

instance (w : World) (s : State) (p : PtePtr) : Decidable (malloc_ok w s p) := by
  unfold malloc_ok; exact inferInstance

/-! ## clock.c -/

/-- The loop of `clock_evict` (clock.c lines 28-37), one iteration per unit of fuel: sample
a frame with `random() % memsize`; when its REFERENCED bit is set clear it and go on,
otherwise return the frame. -/
def clock_loop (w : World) : Nat → State → Except Err (Nat × State)
  | 0, _ => .error .fuel
  | n + 1, s =>
    if w.memsize = 0 then .error .undefined
    else
      let r := w.random s.log
      let s1 := s.emit (.random r)
      let pfn := r % w.memsize
      match (s1.coremap pfn).pte with
      | none => .error .undefined
      | some p =>
        if (s1.pte p).frame &&& PG_REF ≠ 0 then
          clock_loop w n (s1.set_frame p ((s1.pte p).frame &&& bnot32 PG_REF))
        else
          .ok (pfn, s1)

/-- Function `clock_evict`: the loop, which needs at most `memsize + 1` iterations (each
iteration that does not return clears one more REFERENCED bit). -/
def clock_evict (w : World) (s : State) : Except Err (Nat × State) :=
  clock_loop w (w.memsize + 1) s

/-- Function `clock_ref`: set the REFERENCED bit. -/
def clock_ref (s : State) (p : PtePtr) : State :=
  s.set_frame p ((s.pte p).frame ||| PG_REF)

/-! ## pagetable.c -/

/-- The function pointer `evict_fcn`, bound to the configured policy. -/
def evict_fcn (w : World) (s : State) : Except Err (Nat × State) :=
  match w.policy with
  | .lru => lru_evict w s
  | .clock => clock_evict w s

/-- The function pointer `ref_fcn`, bound to the configured policy. -/
def ref_fcn (w : World) (s : State) (p : PtePtr) : Except Err State :=
  match w.policy with
  | .lru => lru_ref w s p
  | .clock => .ok (clock_ref s p)

/-- The scan `for (i = 0; i < memsize; i++) if (!coremap[i].in_use) break` of
`allocate_frame`, started at index `i` with `k` indices left. -/
def first_free (coremap : Nat → frame) : Nat → Nat → Option Nat
  | _, 0 => none
  | i, k + 1 => if (coremap i).in_use then first_free coremap (i + 1) k else some i

/-- Lines 47-62 of `allocate_frame`: a dirty victim is written to swap (fatal when the swap
file is full), its `swap_off` and ON_SWAP bit are set and `evict_dirty_count` grows; a clean
victim only makes `evict_clean_count` grow. -/
def write_back (w : World) (s : State) (frame : Nat) (pte : PtePtr) : Except Err State :=
  if (s.pte pte).frame &&& PG_DIRTY ≠ 0 then
    if w.swap_pageout s.log frame (s.pte pte).swap_off = INVALID_SWAP then .error .exit_swap
    else
      let swap_offset := w.swap_pageout s.log frame (s.pte pte).swap_off
      let s1 := s.emit (.pageout frame (s.pte pte).swap_off swap_offset)
      let s2 := s1.set_pte pte { s1.pte pte with swap_off := swap_offset }
      let s3 := s2.set_frame pte ((s2.pte pte).frame ||| PG_ONSWAP)
      .ok { s3 with evict_dirty_count := s3.evict_dirty_count + 1 }
  else
    .ok { s with evict_clean_count := s.evict_clean_count + 1 }

/-- Lines 65-68 of `allocate_frame`: clear DIRTY, then VALID, on the victim PTE. -/
def clear_victim (s : State) (pte : PtePtr) : State :=
  let s1 := s.set_frame pte ((s.pte pte).frame &&& bnot32 PG_DIRTY)
  s1.set_frame pte ((s1.pte pte).frame &&& bnot32 PG_VALID)

/-- The eviction part of `allocate_frame` (pagetable.c lines 44-68) for victim `frame`:
write the victim out when it is dirty, count the eviction, clear DIRTY and VALID. -/
def evict_victim (w : World) (s : State) (frame : Nat) : Except Err State :=
  if frame < w.memsize then
    match (s.coremap frame).pte with
    | none => .error .undefined
    | some pte => (write_back w s frame pte).bind fun s1 => .ok (clear_victim s1 pte)
  else .error .undefined

/-- The assignments `coremap[frame].in_use = 1; coremap[frame].pte = p`. -/
def State.set_coremap (s : State) (frame : Nat) (p : PtePtr) : State :=
  { s with coremap := fun i => if i = frame then { in_use := true, pte := some p }
                               else s.coremap i }

/-- Function `allocate_frame` of pagetable.c (lines 26-76). -/
def allocate_frame (w : World) (s : State) (p : PtePtr) : Except Err (Nat × State) :=
  match first_free s.coremap 0 w.memsize with
  | some frame => .ok (frame, s.set_coremap frame p)
  | none =>
    (evict_fcn w s).bind fun (frame, s1) =>
      (evict_victim w s1 frame).bind fun s2 =>
        .ok (frame, s2.set_coremap frame p)

/-- Function `init_pagetable`: every directory entry is 0. -/
def init_pagetable (s : State) : State := { s with pgdir := fun _ => 0 }

/-- Address of the `k`-th leaf table handed out by `posix_memalign`: consecutive blocks of
`PTRS_PER_PGTBL` entries of 16 bytes, all aligned to `PAGE_SIZE` and none at address 0. -/
def tbl_addr (k : Nat) : Nat := (k + 1) * (PTRS_PER_PGTBL * 16)

/-- Function `init_second_level` of pagetable.c (lines 98-121): allocate an aligned leaf
table, set every entry to `frame = 0`, `swap_off = INVALID_SWAP`, return the directory entry
`pgtbl | PG_VALID`.  The allocation fails when the collaborator says so or when the 64-bit
address space is used up. -/
def init_second_level (w : World) (s : State) : Except Err (Nat × State) :=
  if w.posix_memalign s.log = true ∧ tbl_addr (s.ntables + 1) ≤ 2 ^ 64 then
    let pgtbl := tbl_addr s.ntables
    let s1 := s.emit (.memalign true)
    .ok (pgtbl ||| PG_VALID,
      { s1 with
        ntables := s.ntables + 1,
        pgtbls := fun t i =>
          if t = pgtbl ∧ i < PTRS_PER_PGTBL then { frame := 0, swap_off := INVALID_SWAP }
          else s.pgtbls t i })
  else .error .exit_memalign

/-- Function `init_frame` of pagetable.c (lines 133-143): zero-fill the frame, then store
`vaddr` (8 bytes, little endian) at byte offset `sizeof(int) = 4` of the frame. -/
def init_frame (w : World) (s : State) (frame : Nat) (vaddr : Nat) : State :=
  let base := frame * w.SIMPAGESIZE
  { s.emit (.init_frame frame vaddr) with
    physmem := fun a =>
      if base + 4 ≤ a ∧ a < base + 12 then (vaddr >>> (8 * (a - (base + 4)))) % 256
      else if base ≤ a ∧ a < base + w.SIMPAGESIZE then 0
      else s.physmem a }

/-- The PTE pointer `&pgtbl[PGTBL_INDEX(vaddr)]` computed by `find_physpage` (lines 178-179)
from the directory entry. -/
def pte_ptr (s : State) (vaddr : Nat) : PtePtr :=
  { tbl := s.pgdir (PGDIR_INDEX vaddr) &&& PAGE_MASK, idx := PGTBL_INDEX vaddr }

/-- Lines 167-172 of `find_physpage`: allocate the leaf table when the directory entry is
not valid. -/
def walk_pagetable (w : World) (s : State) (vaddr : Nat) : Except Err State :=
  if PGDIR_INDEX vaddr < PTRS_PER_PGDIR then
    if s.pgdir (PGDIR_INDEX vaddr) &&& PG_VALID = 0 then
      (init_second_level w s).bind fun (e, s1) =>
        .ok { s1 with pgdir := fun i => if i = PGDIR_INDEX vaddr then e else s1.pgdir i }
    else .ok s
  else .error .undefined

/-- Lines 189-209 of `find_physpage`: fill the allocated frame, by `init_frame` on the first
reference and from swap otherwise, and install the frame number in the PTE.  `frame` is an
`int`, so `frame << PAGE_SHIFT` is undefined unless `frame * 4096` fits in 31 bits. -/
def fill_frame (w : World) (s : State) (pte : PtePtr) (frame : Nat) (vaddr : Nat) :
    Except Err State :=
  if (s.pte pte).frame &&& PG_ONSWAP = 0 then
    if frame < 2 ^ 19 then
      let sb := init_frame w s frame vaddr
      let sc := sb.set_frame pte (frame <<< PAGE_SHIFT)
      .ok (sc.set_frame pte ((sc.pte pte).frame ||| PG_DIRTY))
    else .error .undefined
  else
    if (w.swap_pagein s.log frame (s.pte pte).swap_off).1 ≠ 0 then .error .exit_pagein
    else if frame < 2 ^ 19 then
      let res := w.swap_pagein s.log frame (s.pte pte).swap_off
      let sb := { s.emit (.pagein frame (s.pte pte).swap_off res.1) with
        physmem := fun a =>
          if frame * w.SIMPAGESIZE ≤ a ∧ a < frame * w.SIMPAGESIZE + w.SIMPAGESIZE
          then res.2 (a - frame * w.SIMPAGESIZE) else s.physmem a }
      .ok (sb.set_frame pte (frame <<< PAGE_SHIFT))
    else .error .undefined

/-- Lines 184-211 of `find_physpage`, the branch for a PTE that is not VALID. -/
def handle_fault (w : World) (s : State) (pte : PtePtr) (vaddr : Nat) : Except Err State :=
  (allocate_frame w s pte).bind fun (frame, sa) =>
    (fill_frame w sa pte frame vaddr).bind fun sd =>
      .ok { sd with miss_count := sd.miss_count + 1 }

/-- Lines 221-226 of `find_physpage`: the status-bit updates made on every access. -/
def mark_access (s : State) (pte : PtePtr) (type : Char) : State :=
  let s1 := if type = 'M' ∨ type = 'S' then s.set_frame pte ((s.pte pte).frame ||| PG_DIRTY)
            else s
  let s2 := s1.set_frame pte ((s1.pte pte).frame ||| PG_VALID)
  let s3 := s2.set_frame pte ((s2.pte pte).frame ||| PG_REF)
  s3.set_frame pte ((s3.pte pte).frame &&& bnot32 PG_ONSWAP)

/-- Lines 184-216 of `find_physpage`: a fault when the PTE is not VALID, a hit otherwise. -/
def hit_or_fault (w : World) (s : State) (pte : PtePtr) (vaddr : Nat) : Except Err State :=
  if (s.pte pte).frame &&& PG_VALID = 0 then handle_fault w s pte vaddr
  else .ok { s with hit_count := s.hit_count + 1 }

/-- Function `find_physpage` of pagetable.c (lines 158-234).  The result is the byte offset
into `physmem` of the returned pointer, and the new state. -/
def find_physpage (w : World) (s : State) (vaddr : Nat) (type : Char) :
    Except Err (Nat × State) :=
  (walk_pagetable w s vaddr).bind fun s1 =>
    (hit_or_fault w s1 (pte_ptr s1 vaddr) vaddr).bind fun s2 =>
      (ref_fcn w (mark_access s2 (pte_ptr s1 vaddr) type) (pte_ptr s1 vaddr)).bind fun s3 =>
        .ok (((s3.pte (pte_ptr s1 vaddr)).frame >>> PAGE_SHIFT) * w.SIMPAGESIZE,
          { s3 with ref_count := s3.ref_count + 1 })

/-! ## The simulator around the fault handler -/

/-- Modelled from the spec: the driver (`sim.c`) is absent; "`init()` (reset all
state/counters)": no leaf table, no frame in use, counters 0, the policy initialised. -/
def init (w : World) : State :=
  let s0 : State :=
    { pgdir := fun _ => 0, ntables := 0,
      pgtbls := fun _ _ => { frame := 0, swap_off := INVALID_SWAP },
      coremap := fun _ => { in_use := false, pte := none },
      physmem := fun _ => 0,
      hit_count := 0, miss_count := 0, ref_count := 0,
      evict_clean_count := 0, evict_dirty_count := 0,
      list := { size := 0, head := none, tail := none },
      map := fun _ => none, nodes := fun _ => none, next_node := 0, log := [] }
  match w.policy with
  | .lru => lru_init (init_pagetable s0)
  | .clock => init_pagetable s0

/-- Modelled from the spec: the driver is absent; it "calls the page-fault handler per
access", one trace record (virtual address, access type) at a time, stopping at the first
call that does not return. -/
def run (w : World) : State → List (Nat × Char) → Except Err State
  | s, [] => .ok s
  | s, a :: tr => (find_physpage w s a.1 a.2).bind fun r => run w r.2 tr

/-! ## Predicates used in the statements -/

/-- The five counters agree in two states. -/
def SameCounters (s t : State) : Prop :=
  t.hit_count = s.hit_count ∧ t.miss_count = s.miss_count ∧ t.ref_count = s.ref_count ∧
  t.evict_clean_count = s.evict_clean_count ∧ t.evict_dirty_count = s.evict_dirty_count

/-- Shape of the counter change made by one eviction: hit, miss and reference counts stay,
and exactly one of the two eviction counters grows by one. -/
def OneEviction (s t : State) : Prop :=
  t.hit_count = s.hit_count ∧ t.miss_count = s.miss_count ∧ t.ref_count = s.ref_count ∧
  ((t.evict_clean_count = s.evict_clean_count + 1 ∧
      t.evict_dirty_count = s.evict_dirty_count) ∨
    (t.evict_clean_count = s.evict_clean_count ∧
      t.evict_dirty_count = s.evict_dirty_count + 1))

/-! ## A concrete world for worked examples -/

/-- Number of swap slots handed out so far: the page-outs in the log that asked for a new
slot. -/
def slots_used : List Event → Nat
  | [] => 0
  | .pageout _ off _ :: l => (if off = INVALID_SWAP then 1 else 0) + slots_used l
  | _ :: l => slots_used l

/-- A world with a well-behaved swap file with `nslots` slots of 16 bytes: a page-out
without a slot gets the next free slot (or fails when there is none), a page-out with a slot
keeps it, page-ins succeed and deliver zero bytes, leaf-table allocation succeeds, and
`random()` returns the number of events so far. -/
def demo_world (memsize : Nat) (policy : Policy) (nslots : Nat) : World where
  memsize := memsize
  policy := policy
  SIMPAGESIZE := 16
  swap_pageout := fun log _ off =>
    if off = INVALID_SWAP then
      (if slots_used log < nslots then (16 * slots_used log : Nat) else INVALID_SWAP)
    else off
  swap_pagein := fun _ _ _ => (0, fun _ => 0)
  random := fun log => log.length
  posix_memalign := fun _ => true
  malloc := fun _ _ => true

/-- A world whose swap file never fills up: as `demo_world`, with unboundedly many slots. -/
def ample_world (memsize : Nat) (policy : Policy) : World where
  memsize := memsize
  policy := policy
  SIMPAGESIZE := 16
  swap_pageout := fun log _ off =>
    if off = INVALID_SWAP then (16 * slots_used log : Nat) else off
  swap_pagein := fun _ _ _ => (0, fun _ => 0)
  random := fun log => log.length
  posix_memalign := fun _ => true
  malloc := fun _ _ => true

/-! ## Ghost functions over a run -/

/-- The state in which `find_physpage` calls `allocate_frame` for an access to `vaddr` made
in state `s` (the state after the directory walk), when the PTE found is not VALID; `none`
when the access makes no call. -/
def alloc_call (w : World) (s : State) (vaddr : Nat) : Option State :=
  match walk_pagetable w s vaddr with
  | .ok s1 => if (s1.pte (pte_ptr s1 vaddr)).frame &&& PG_VALID = 0 then some s1 else none
  | .error _ => none

/-- Every frame of the coremap has `in_use` set. -/
def all_in_use (w : World) (s : State) : Prop :=
  ∀ i, i < w.memsize → (s.coremap i).in_use = true

instance (w : World) (s : State) : Decidable (all_in_use w s) := by
  unfold all_in_use; exact inferInstance

/-- Number of calls of `allocate_frame`, over the accesses of a run, made in a state where
every frame is in use. -/
def full_allocs (w : World) : State → List (Nat × Char) → Nat
  | _, [] => 0
  | s, a :: tr =>
    match find_physpage w s a.1 a.2 with
    | .ok (_, t) =>
      (match alloc_call w s a.1 with
        | some s1 => if all_in_use w s1 then 1 else 0
        | none => 0) + full_allocs w t tr
    | .error _ => 0

/-- Bit `k` of a packed value; the flag bits are bits 0 (VALID), 1 (DIRTY), 2 (REFERENCED)
and 3 (ON_SWAP). -/
def tbit (x k : Nat) : Bool := x.testBit k

/-- The REFERENCED bit of the PTE held by frame `i`, `false` when the frame holds none. -/
def ref_bit (s : State) (i : Nat) : Bool :=
  match (s.coremap i).pte with
  | some p => decide ((s.pte p).frame &&& PG_REF ≠ 0)
  | none => false

/-- The frames below `memsize` whose PTE has REFERENCED set. -/
def ref_frames (w : World) (s : State) : Finset Nat :=
  (Finset.range w.memsize).filter fun i => ref_bit s i = true

/-- One iteration of the loop of `clock_evict` that does not return: the state after the
sample is logged and the REFERENCED bit of PTE `p` is cleared. -/
def clock_clear (w : World) (s : State) (p : PtePtr) : State :=
  (s.emit (.random (w.random s.log))).set_frame p
    (((s.emit (.random (w.random s.log))).pte p).frame &&& bnot32 PG_REF)

/-- The state reached by a run from the initial state (the initial state itself when the
run does not complete); used for worked examples. -/
def state_after (w : World) (tr : List (Nat × Char)) : State :=
  match run w (init w) tr with
  | .ok s => s
  | .error _ => init w

/-- Two states agree on everything outside the LRU data structure. -/
def LruOnly (s t : State) : Prop :=
  t.pgdir = s.pgdir ∧ t.ntables = s.ntables ∧ t.pgtbls = s.pgtbls ∧ t.coremap = s.coremap ∧
  t.physmem = s.physmem ∧ SameCounters s t ∧ t.log = s.log

/-- Well-formed page-table entry: the packed value fits 32 bits, VALID and ON_SWAP are not
both set, and DIRTY is set only together with VALID. -/
def PteOk (e : pgtbl_entry_t) : Prop :=
  e.frame < 2 ^ 32 ∧
  ¬ (e.frame &&& PG_VALID ≠ 0 ∧ e.frame &&& PG_ONSWAP ≠ 0) ∧
  (e.frame &&& PG_DIRTY ≠ 0 → e.frame &&& PG_VALID ≠ 0)

/-- Every page-table entry of the state is well formed. -/
def AllPteOk (s : State) : Prop := ∀ q : PtePtr, PteOk (s.pte q)

/-- The result of a call of `find_physpage` that returns (a dummy when it does not); used
for worked examples. -/
def result_of (x : Except Err (Nat × State)) (d : State) : Nat × State :=
  match x with
  | .ok r => r
  | .error _ => (0, d)

/-! ## The LRU list as a sequence of cells -/

/-- Address of the first cell of a sequence of (node address, frame) cells, `nx` when there
is none. -/
def first_addr (cells : List (Nat × Nat)) (nx : Option Nat) : Option Nat :=
  match cells with
  | [] => nx
  | c :: _ => some c.1

/-- Address of the last cell of a sequence of cells, `pv` when there is none. -/
def last_addr (pv : Option Nat) : List (Nat × Nat) → Option Nat
  | [] => pv
  | c :: rest => last_addr (some c.1) rest

/-- The nodes at the addresses of `cells` carry the frames of `cells` and are doubly linked
in this order; the `prev` of the first is `pv` and the `next` of the last is `nx`. -/
def Chain (nodes : Nat → Option node_t) : Option Nat → List (Nat × Nat) → Option Nat → Prop
  | _, [], _ => True
  | pv, c :: rest, nx =>
    nodes c.1 = some { frame := c.2, next := first_addr rest nx, prev := pv } ∧
    Chain nodes (some c.1) rest nx

/-- The LRU structure of the state is the well-formed doubly linked list of `cells`, head
first: `head`, `tail` and `size` describe it, no node and no frame occurs twice, every frame
is a valid index of `map`, and `map[f]` is the node carrying `f` when there is one and NULL
otherwise. -/
def LruRep (w : World) (s : State) (cells : List (Nat × Nat)) : Prop :=
  Chain s.nodes none cells none ∧
  s.list.head = first_addr cells none ∧ s.list.tail = last_addr none cells ∧
  s.list.size = cells.length ∧
  (cells.map Prod.fst).Nodup ∧ (cells.map Prod.snd).Nodup ∧
  (∀ c, c ∈ cells → c.2 < w.memsize ∧ c.2 < 2 ^ 20 ∧ c.1 < s.next_node) ∧
  (∀ c, c ∈ cells → s.map c.2 = some c.1) ∧
  (∀ f a, s.map f = some a → (a, f) ∈ cells)

/-- The frames of the LRU list read off the nodes, head first: follow `next` from `a` for
at most `n` nodes. -/
def walk_list (nodes : Nat → Option node_t) : Nat → Option Nat → List Nat
  | 0, _ => []
  | _ + 1, none => []
  | n + 1, some a =>
    match nodes a with
    | none => []
    | some nd => nd.frame :: walk_list nodes n nd.next

/-- The frames tracked by the LRU list of the state, least recently used first. -/
def lru_frames (s : State) : List Nat := walk_list s.nodes s.list.size s.list.head

/-- The list operation made by a reference to frame `f`: `f` moves (or is added) to the
most-recently-used end. -/
def lru_touch (l : List Nat) (f : Nat) : List Nat := l.erase f ++ [f]

/-! ## Sequences of calls to the LRU policy and reference times -/

/-- A call made to the LRU policy: `lru_ref` on the PTE at `p` whose 32-bit `frame` field
holds `v`, or `lru_evict`. -/
inductive LruOp where
  | ref (p : PtePtr) (v : Nat)
  | evict
deriving DecidableEq

/-- The frame a call `lru_ref` refers to: the frame number in the 32-bit field. -/
def ref_frame (v : Nat) : Nat := (v % 2 ^ 32) >>> PAGE_SHIFT

/-- Run a sequence of calls to `lru_ref` and `lru_evict`, stopping at the first that does
not return. -/
def lru_run (w : World) : State → List LruOp → Except Err State
  | s, [] => .ok s
  | s, .ref p v :: ops =>
    (lru_ref w (s.set_frame p (v % 2 ^ 32)) p).bind fun t => lru_run w t ops
  | s, .evict :: ops => (lru_evict w s).bind fun r => lru_run w r.2 ops

/-- Per-frame time of the most recent reference, and the current time: the bookkeeping of
the timestamp algorithm described in lru.c (a reference stores the time in the frame's
timestamp and advances the time). -/
structure Stamps where
  timestamp : Nat → Nat
  curr_time : Nat

/-- No frame referenced yet, time 0. -/
def Stamps.init : Stamps := { timestamp := fun _ => 0, curr_time := 0 }

/-- A reference to frame `f`: the time advances and is stored as the timestamp of `f`. -/
def Stamps.ref (st : Stamps) (f : Nat) : Stamps :=
  { timestamp := fun i => if i = f then st.curr_time + 1 else st.timestamp i,
    curr_time := st.curr_time + 1 }

/-- Bookkeeping of reference times along a sequence of LRU calls. -/
def stamp_op (st : Stamps) : LruOp → Stamps
  | .ref _ v => st.ref (ref_frame v)
  | .evict => st

/-- Time of the most recent `lru_ref` of frame `f` in a sequence of calls: the number of
references made up to and including it, 0 when the frame was never referenced. -/
def last_ref (ops : List LruOp) (f : Nat) : Nat := (ops.foldl stamp_op Stamps.init).timestamp f

/-- The frames of a list are ordered by strictly increasing timestamp, and each has been
referenced (its timestamp is positive and not in the future). -/
def StampSorted (st : Stamps) (l : List Nat) : Prop :=
  l.Pairwise (fun a b => st.timestamp a < st.timestamp b) ∧
  ∀ f, f ∈ l → 0 < st.timestamp f ∧ st.timestamp f ≤ st.curr_time

/-- The state after a run of LRU calls (the start state when the run does not complete);
used for worked examples. -/
def lru_after (w : World) (s : State) (ops : List LruOp) : State :=
  match lru_run w s ops with
  | .ok t => t
  | .error _ => s

/-! ## Invariants of the page directory and of the coremap -/

/-- Page directory invariant: the allocated leaf tables fit the 64-bit address space, every
valid directory entry is `tbl_addr k | PG_VALID` for an allocated table `k`, and two
different indices never hold the same valid entry. -/
def DirOk (s : State) : Prop :=
  tbl_addr s.ntables ≤ 2 ^ 64 ∧
  (∀ i, s.pgdir i &&& PG_VALID ≠ 0 → ∃ k, k < s.ntables ∧ s.pgdir i = tbl_addr k ||| PG_VALID) ∧
  (∀ i j, s.pgdir i &&& PG_VALID ≠ 0 → s.pgdir i = s.pgdir j → i = j)

/-- The directory entry used by an access to `vaddr` is valid. -/
def dir_valid (s : State) (vaddr : Nat) : Prop := s.pgdir (PGDIR_INDEX vaddr) &&& PG_VALID ≠ 0

/-- Two virtual addresses lie on the same virtual page: same directory index and same
leaf-table index. -/
def same_page (va vb : Nat) : Prop :=
  PGDIR_INDEX va = PGDIR_INDEX vb ∧ PGTBL_INDEX va = PGTBL_INDEX vb

instance (va vb : Nat) : Decidable (same_page va vb) := by
  unfold same_page; exact inferInstance

/-- The directory and the number of leaf tables agree in two states. -/
def SameDir (s t : State) : Prop := t.pgdir = s.pgdir ∧ t.ntables = s.ntables

/-- Coremap invariant: a frame in use holds a VALID PTE whose frame index is that frame, a
VALID PTE is held by the frame of its frame index, the PTEs held by frames lie in allocated
leaf tables, and the frames in use are an initial segment of the frame pool. -/
def CoreOk (w : World) (s : State) : Prop :=
  (∀ f, f < w.memsize → (s.coremap f).in_use = true →
    ∃ q, (s.coremap f).pte = some q ∧ (s.pte q).frame &&& PG_VALID ≠ 0 ∧
      (s.pte q).frame >>> PAGE_SHIFT = f) ∧
  (∀ q, (s.pte q).frame &&& PG_VALID ≠ 0 →
    (s.pte q).frame >>> PAGE_SHIFT < w.memsize ∧
    (s.coremap ((s.pte q).frame >>> PAGE_SHIFT)).in_use = true ∧
    (s.coremap ((s.pte q).frame >>> PAGE_SHIFT)).pte = some q) ∧
  (∀ f q, (s.coremap f).pte = some q → ∃ k, k < s.ntables ∧ q.tbl = tbl_addr k) ∧
  (∀ f g, g < f → f < w.memsize → (s.coremap f).in_use = true → (s.coremap g).in_use = true)

/-- Two states have the same LRU data structure. -/
def SameLru (s t : State) : Prop :=
  t.list = s.list ∧ t.map = s.map ∧ t.nodes = s.nodes ∧ t.next_node = s.next_node

/-- Two entries agree on `swap_off` and on every bit of `frame` except REFERENCED. -/
def SameButRef (e e2 : pgtbl_entry_t) : Prop :=
  e2.swap_off = e.swap_off ∧ ∀ j, j ≠ 2 → tbit e2.frame j = tbit e.frame j

/-- LRU invariant: the LRU structure is a well-formed list whose frames are exactly the
frames in use. -/
def LruOk (w : World) (s : State) : Prop :=
  ∃ cells, LruRep w s cells ∧
    ∀ f, f ∈ cells.map Prod.snd ↔ (f < w.memsize ∧ (s.coremap f).in_use = true)

/-- What the coremap invariant sees of an entry: whether it is VALID, and its frame index. -/
def mapping (e : pgtbl_entry_t) : Bool × Nat := (tbit e.frame 0, e.frame >>> PAGE_SHIFT)

/-! ## The timestamp algorithm of lru.c's doc comment -/

/-- The frame `p->frame >> PAGE_SHIFT` of the page accessed at `vaddr`, read after the
access. -/
def accessed_frame (s : State) (vaddr : Nat) : Nat :=
  (s.pte (pte_ptr s vaddr)).frame >>> PAGE_SHIFT

/-- The `lru_init` of the timestamp variant (end of lru.c): `curr_time = 0`; the timestamps
of the zero-initialised coremap are 0. -/
def ts_lru_init : Stamps := { timestamp := fun _ => 0, curr_time := 0 }

/-- The `lru_ref` of the timestamp variant: `coremap[frame].timestamp = curr_time++`. -/
def ts_lru_ref (st : Stamps) (frame : Nat) : Stamps :=
  { timestamp := fun i => if i = frame then st.curr_time else st.timestamp i,
    curr_time := st.curr_time + 1 }

/-- The scan of the timestamp variant of `lru_evict`, from index `i` with `k` indices left:
`if (coremap[i].timestamp < least_recently_used) { least_recently_used = ...; pfn = i; }`. -/
def ts_scan (ts : Nat → Nat) : Nat → Nat → Nat → Nat → Nat
  | _, 0, pfn, _ => pfn
  | i, k + 1, pfn, least =>
    if ts i < least then ts_scan ts (i + 1) k i (ts i) else ts_scan ts (i + 1) k pfn least

/-- The `lru_evict` of the timestamp variant: "scan ... to find the PTE with the oldest
timestamp", starting with `pfn = 0` and `least_recently_used = curr_time`. -/
def ts_lru_evict (st : Stamps) (memsize : Nat) : Nat :=
  ts_scan st.timestamp 0 memsize 0 st.curr_time

/-- A run of the simulator together with the bookkeeping of the timestamp variant: after
each access the reference hook of the timestamp variant is applied to the frame of the
accessed page. -/
def run_ts (w : World) : State → Stamps → List (Nat × Char) → Except Err (State × Stamps)
  | s, st, [] => .ok (s, st)
  | s, st, a :: tr =>
    (find_physpage w s a.1 a.2).bind fun r =>
      run_ts w r.2 (ts_lru_ref st (accessed_frame r.2 a.1)) tr

/-- The frames of a list are in strictly increasing order of timestamp, all in the past. -/
def TsSorted (st : Stamps) (l : List Nat) : Prop :=
  l.Pairwise (fun a b => st.timestamp a < st.timestamp b) ∧
  ∀ f, f ∈ l → st.timestamp f < st.curr_time

/-- Position in the trace (counted from 0) of the most recent access to the page of `va`,
`none` when the page was never accessed. -/
def last_access (tr : List (Nat × Char)) (va : Nat) : Option Nat :=
  (tr.foldl (fun acc a => (acc.1 + 1, if same_page a.1 va then some acc.1 else acc.2))
    ((0, none) : Nat × Option Nat)).2

/-- Every PTE held by a frame is the PTE of a page whose directory entry is valid. -/
def HeldOk (s : State) : Prop :=
  ∀ f q, (s.coremap f).pte = some q → ∃ vb, dir_valid s vb ∧ q = pte_ptr s vb

/-- The page of `va` is resident: its directory entry and its PTE are VALID. -/
def resident (s : State) (va : Nat) : Prop :=
  dir_valid s va ∧ (s.pte (pte_ptr s va)).frame &&& PG_VALID ≠ 0

/-- Invariant linking the timestamps to the run so far (`hist`): the time is the number of
accesses, the LRU list is sorted by timestamp, and the timestamp of the frame of a resident
page is the position of the last access to that page. -/
def TsInv (s : State) (st : Stamps) (hist : List (Nat × Char)) : Prop :=
  st.curr_time = hist.length ∧ TsSorted st (lru_frames s) ∧
  ∀ va, resident s va → last_access hist va = some (st.timestamp (accessed_frame s va))

/-- The timestamps after a run from the initial state (the initial timestamps when the run
does not complete); used for worked examples. -/
def stamps_after (w : World) (tr : List (Nat × Char)) : Stamps :=
  match run_ts w (init w) ts_lru_init tr with
  | .ok r => r.2
  | .error _ => ts_lru_init

/-- The PTE of the page of `va` as `find_physpage` finds it: the entry of its leaf table,
or, while the leaf table is not allocated, the entry `init_second_level` will create. -/
def page (s : State) (va : Nat) : pgtbl_entry_t :=
  if s.pgdir (PGDIR_INDEX va) &&& PG_VALID ≠ 0 then s.pte (pte_ptr s va)
  else { frame := 0, swap_off := INVALID_SWAP }

/-- The event by which `find_physpage` fills frame `f` for a faulting page whose PTE is `e`:
`init_frame` when ON_SWAP is clear, a successful `swap_pagein` from `swap_off` otherwise. -/
def fill_event (e : pgtbl_entry_t) (f va : Nat) : Event :=
  if e.frame &&& PG_ONSWAP = 0 then .init_frame f va else .pagein f e.swap_off 0

/-- PTE `e2` is what a fault of access type `ty` makes of PTE `e` with frame `f`: VALID and
REFERENCED, not ON_SWAP, frame index `f`, `swap_off` kept, and DIRTY exactly when the page
was not on swap or the access writes. -/
def Installed (e e2 : pgtbl_entry_t) (f : Nat) (ty : Char) : Prop :=
  e2.frame &&& PG_VALID ≠ 0 ∧ e2.frame &&& PG_REF ≠ 0 ∧ e2.frame &&& PG_ONSWAP = 0 ∧
  e2.frame >>> PAGE_SHIFT = f ∧ e2.swap_off = e.swap_off ∧
  (e2.frame &&& PG_DIRTY ≠ 0 ↔ (e.frame &&& PG_ONSWAP = 0 ∨ ty = 'M' ∨ ty = 'S'))

/-- The invariants of the states reached under LRU. -/
def LruInv (w : World) (s : State) : Prop :=
  AllPteOk s ∧ DirOk s ∧ CoreOk w s ∧ LruOk w s ∧ HeldOk s

/-- The events of the directory walk of an access to `va`: the allocation of a leaf table
when the directory entry is not valid. -/
def walk_events (s : State) (va : Nat) : List Event :=
  if s.pgdir (PGDIR_INDEX va) &&& PG_VALID = 0 then [.memalign true] else []

/-- The fatal case of `allocate_frame`: no frame is free, the PTE of the frame the eviction
function returns is DIRTY, and `swap_pageout` (called with that frame and the PTE's
`swap_off`) returns INVALID_SWAP. -/
def dirty_victim_swap_full (w : World) (s : State) : Prop :=
  first_free s.coremap 0 w.memsize = none ∧
  ∃ f u v, evict_fcn w s = .ok (f, u) ∧ f < w.memsize ∧ (u.coremap f).pte = some v ∧
    (u.pte v).frame &&& PG_DIRTY ≠ 0 ∧
    w.swap_pageout u.log f (u.pte v).swap_off = INVALID_SWAP

/-- Every allocated leaf table is the target of a directory entry. -/
def TblOk (s : State) : Prop :=
  ∀ k, k < s.ntables → ∃ i, i < PTRS_PER_PGDIR ∧ s.pgdir i = tbl_addr k ||| PG_VALID

/-- A world as `ample_world` whose swap file cannot be read back: `swap_pagein` reports
failure (a non-zero result). -/
def unreadable_world (memsize : Nat) (policy : Policy) : World :=
  { ample_world memsize policy with swap_pagein := fun _ _ _ => (1, fun _ => 0) }

/-- A world as `ample_world` in which the heap is used up: `malloc` returns NULL. -/
def no_heap_world (memsize : Nat) (policy : Policy) : World :=
  { ample_world memsize policy with malloc := fun _ _ => false }

/-- The state a step returns (a dummy when it does not); used for worked examples. -/
def state_of (x : Except Err State) (d : State) : State :=
  match x with
  | .ok t => t
  | .error _ => d

/-- The pages never accessed in the run so far (`hist`) have a PTE that is neither VALID
nor ON_SWAP. -/
def FreshOk (s : State) (hist : List (Nat × Char)) : Prop :=
  ∀ va, last_access hist va = none →
    (page s va).frame &&& PG_VALID = 0 ∧ (page s va).frame &&& PG_ONSWAP = 0

/-! ## Probes of the clock loop -/

/-- The entry after the statement `frame &= ~PG_REF` of `clock_evict`. -/
def clear_ref (e : pgtbl_entry_t) : pgtbl_entry_t :=
  { e with frame := e.frame &&& bnot32 PG_REF }

/-- The state after `k` probes of the loop of `clock_evict` none of which returned: each
probe logs the value of `random()` and clears the REFERENCED bit of the PTE of the sampled
frame (`clock_clear`). -/
def after_probes (w : World) : State → Nat → State
  | s, 0 => s
  | s, k + 1 =>
    match (s.coremap (w.random s.log % w.memsize)).pte with
    | some p => after_probes w (clock_clear w s p) k
    | none => s

/-- The frame sampled by probe `j` (counted from 0) of a call of `clock_evict` made in state
`s`, when the probes before it did not return: `random() % memsize`. -/
def sample (w : World) (s : State) (j : Nat) : Nat :=
  w.random (after_probes w s j).log % w.memsize

/-- Number of probes made by a call of `clock_evict` that takes state `s` to state `t`: the
number of values of `random()` logged, one per iteration of the loop. -/
def probes (s t : State) : Nat := t.log.length - s.log.length

/-- A state with `m` frames, all in use, frame `i` holding the PTE at index `i` of the first
leaf table, every PTE VALID and REFERENCED, and an empty event log. -/
def all_referenced (m : Nat) : State :=
  { init (demo_world m .clock 0) with
    coremap := fun i => { in_use := true, pte := some { tbl := tbl_addr 0, idx := i } },
    pgtbls := fun _ i =>
      { frame := ((i <<< PAGE_SHIFT) ||| PG_VALID) ||| PG_REF, swap_off := INVALID_SWAP } }

/-! ## Pages written to swap -/

/-- The PTE that an access to `vaddr` made in state `s` writes to swap: the PTE of the
victim frame chosen by the eviction function, when `allocate_frame` is called, finds no free
frame and the victim's PTE is DIRTY; `none` when the access writes nothing out. -/
def written_out (w : World) (s : State) (vaddr : Nat) : Option PtePtr :=
  match alloc_call w s vaddr with
  | none => none
  | some s1 =>
    match first_free s1.coremap 0 w.memsize with
    | some _ => none
    | none =>
      match evict_fcn w s1 with
      | .ok (f, u) =>
        (match (u.coremap f).pte with
          | some v => if (u.pte v).frame &&& PG_DIRTY ≠ 0 then some v else none
          | none => none)
      | .error _ => none

/-- Whether the page with PTE `q` is written to swap by some access of a run from `s`. -/
def ever_written (w : World) : State → List (Nat × Char) → PtePtr → Bool
  | _, [], _ => false
  | s, a :: tr, q =>
    decide (written_out w s a.1 = some q) ||
    (match find_physpage w s a.1 a.2 with
      | .ok (_, t) => ever_written w t tr q
      | .error _ => false)

/-- Only entries of allocated leaf tables have a swap offset. -/
def SwapOk (s : State) : Prop :=
  ∀ q : PtePtr, (s.pte q).swap_off ≠ INVALID_SWAP → ∃ k, k < s.ntables ∧ q.tbl = tbl_addr k

/-! ## a1/interceptor.c: the system-call interceptor -/

namespace Interceptor

/-- Values defined in headers that are not among the sources (`interceptor.h` and the kernel
headers): the four command codes, the numbers of the custom system call and of
`exit_group`, and the number of system calls. -/
structure Config where
  REQUEST_SYSCALL_INTERCEPT : Int
  REQUEST_SYSCALL_RELEASE : Int
  REQUEST_START_MONITORING : Int
  REQUEST_STOP_MONITORING : Int
  MY_CUSTOM_SYSCALL : Int
  NR_exit_group : Int
  NR_syscalls : Int

/-- The four command codes are pairwise different, as the `case` labels of the `switch` of
`my_syscall` must be. -/
def Config.distinct (c : Config) : Prop :=
  c.REQUEST_SYSCALL_INTERCEPT ≠ c.REQUEST_SYSCALL_RELEASE ∧
  c.REQUEST_SYSCALL_INTERCEPT ≠ c.REQUEST_START_MONITORING ∧
  c.REQUEST_SYSCALL_INTERCEPT ≠ c.REQUEST_STOP_MONITORING ∧
  c.REQUEST_SYSCALL_RELEASE ≠ c.REQUEST_START_MONITORING ∧
  c.REQUEST_SYSCALL_RELEASE ≠ c.REQUEST_STOP_MONITORING ∧
  c.REQUEST_START_MONITORING ≠ c.REQUEST_STOP_MONITORING

instance (c : Config) : Decidable c.distinct := by
  unfold Config.distinct; exact inferInstance

/-- The Linux error number EPERM. -/
def EPERM : Int := 1

/-- The Linux error number ENOMEM. -/
def ENOMEM : Int := 12

/-- The Linux error number EBUSY. -/
def EBUSY : Int := 16

/-- The Linux error number EINVAL. -/
def EINVAL : Int := 22

/-- What an entry of `sys_call_table`, or a saved original call `f`, points at: the kernel's
own handler of system call `n`, or one of the functions of the module. -/
inductive Handler where
  | original (n : Int)
  | interceptor
  | my_syscall
  | my_exit_group
deriving DecidableEq

/-- The struct `MyTable`: saved original call, `intercepted`, `monitored`, `listcount` and
the list `my_list` of monitored pids (most recently added first). -/
structure MyTable where
  f : Option Handler
  intercepted : Int
  monitored : Int
  listcount : Int
  my_list : List Int
deriving DecidableEq

/-- The globals of the module and what it touches of the kernel: the metadata `table`, the
system call table and whether its page is writable, the two spinlocks, and the number of
calls of `kmalloc` made so far. -/
structure Kernel where
  table : Int → MyTable
  sys_call_table : Int → Option Handler
  writable : Bool
  my_table_lock : Bool
  sys_call_table_lock : Bool
  allocs : Nat

/-- The surroundings of a call: whether the `n`-th `kmalloc` succeeds, the owner (real uid)
of the task of a pid (`none` when `pid_task(find_vpid(pid), PIDTYPE_PID)` is NULL), the pid of
the calling process and `current_uid()`. -/
structure Env where
  kmalloc : Nat → Bool
  task_uid : Int → Option Nat
  current_pid : Int
  current_uid : Nat

/-- Ways a call does not return: a NULL pointer is dereferenced. -/
inductive Fault where
  | null_deref
deriving DecidableEq

/-- The assignment of a whole entry `table[sysc]`. -/
def Kernel.set (k : Kernel) (sysc : Int) (t : MyTable) : Kernel :=
  { k with table := fun i => if i = sysc then t else k.table i }

/-- Function `add_pid_sysc` (lines 108-133): allocate a list entry and put the pid at the
front of the list of `sysc`; `-ENOMEM` when `kmalloc` returns NULL. -/
def add_pid_sysc (e : Env) (k : Kernel) (pid sysc : Int) : Int × Kernel :=
  if e.kmalloc k.allocs = true then
    (0, ({ k with allocs := k.allocs + 1 }).set sysc
      { k.table sysc with
        my_list := pid :: (k.table sysc).my_list,
        listcount := (k.table sysc).listcount + 1 })
  else (-ENOMEM, { k with allocs := k.allocs + 1 })

/-- Function `del_pid_sysc` (lines 139-166): remove the first entry with this pid; when the
list becomes empty and `monitored` is 1, `monitored` becomes 0; `-EINVAL` when the pid is
not in the list. -/
def del_pid_sysc (k : Kernel) (pid sysc : Int) : Int × Kernel :=
  if pid ∈ (k.table sysc).my_list then
    (0, k.set sysc
      { k.table sysc with
        my_list := (k.table sysc).my_list.erase pid,
        listcount := (k.table sysc).listcount - 1,
        monitored :=
          if (k.table sysc).listcount - 1 = 0 ∧ (k.table sysc).monitored = 1 then 0
          else (k.table sysc).monitored })
  else (-EINVAL, k)

/-- Function `destroy_list` (lines 208-224). -/
def destroy_list (k : Kernel) (sysc : Int) : Kernel :=
  k.set sysc { k.table sysc with my_list := [], listcount := 0, monitored := 0 }

/-- Function `check_pids_same_owner` (lines 232-240): both task pointers are dereferenced
without a NULL check. -/
def check_pids_same_owner (e : Env) (pid1 pid2 : Int) : Except Fault Int :=
  match e.task_uid pid1, e.task_uid pid2 with
  | some u1, some u2 => .ok (if u1 ≠ u2 then -EPERM else 0)
  | _, _ => .error .null_deref

/-- Function `check_pid_monitored` (lines 246-260). -/
def check_pid_monitored (k : Kernel) (sysc pid : Int) : Int :=
  if pid ∈ (k.table sysc).my_list then 1 else 0

/-- The call `spin_lock(&my_table_lock)`. -/
def Kernel.lock_table (k : Kernel) : Kernel := { k with my_table_lock := true }

/-- The call `spin_unlock(&my_table_lock)`. -/
def Kernel.unlock_table (k : Kernel) : Kernel := { k with my_table_lock := false }

/-- Function `handle_stop_monitoring` (lines 358-387). -/
def handle_stop_monitoring (k : Kernel) (syscall pid : Int) : Int × Kernel :=
  let k1 := k.lock_table
  if check_pid_monitored k1 syscall pid = 0 ∨ (k1.table syscall).intercepted = 0 then
    (-EINVAL, k1.unlock_table)
  else if pid = 0 then
    let k2 := k1.set syscall { k1.table syscall with monitored := 0 }
    (0, (destroy_list k2 syscall).unlock_table)
  else
    let k2 := (del_pid_sysc k1 pid syscall).2
    let k3 := k2.set syscall
      { k2.table syscall with monitored := if (k2.table syscall).listcount = 0 then 0 else 1 }
    (0, k3.unlock_table)

/-- Function `handle_start_monitoring` (lines 392-417). -/
def handle_start_monitoring (e : Env) (k : Kernel) (syscall pid : Int) : Int × Kernel :=
  let k1 := k.lock_table
  if (k1.table syscall).monitored = 2 ∨
      ((k1.table syscall).monitored = 1 ∧ check_pid_monitored k1 syscall pid ≠ 0) then
    (-EBUSY, k1.unlock_table)
  else if (add_pid_sysc e k1 pid syscall).1 ≠ 0 then
    (-ENOMEM, (add_pid_sysc e k1 pid syscall).2.unlock_table)
  else
    let k2 := (add_pid_sysc e k1 pid syscall).2
    let k3 := k2.set syscall { k2.table syscall with monitored := if pid = 0 then 2 else 1 }
    (0, k3.unlock_table)

/-- Function `handle_sysc_release` (lines 422-448). -/
def handle_sysc_release (k : Kernel) (syscall : Int) : Int × Kernel :=
  let k1 := k.lock_table
  if (k1.table syscall).intercepted = 0 then (-EINVAL, k1.unlock_table)
  else
    let k2 := k1.set syscall { k1.table syscall with monitored := 0, intercepted := 0 }
    let k3 := destroy_list k2 syscall
    let k4 := { k3 with sys_call_table_lock := true, writable := true }
    let k5 := { k4 with
      sys_call_table := fun i => if i = syscall then (k4.table syscall).f
                                 else k4.sys_call_table i }
    (0, { k5.unlock_table with writable := false, sys_call_table_lock := false })

/-- Function `handle_sysc_intercept` (lines 453-476). -/
def handle_sysc_intercept (k : Kernel) (syscall : Int) : Int × Kernel :=
  let k1 := k.lock_table
  if (k1.table syscall).intercepted = 1 then (-EBUSY, k1.unlock_table)
  else
    let k2 := { k1 with sys_call_table_lock := true }
    let k3 := k2.set syscall
      { k2.table syscall with f := k2.sys_call_table syscall, intercepted := 1 }
    let k4 := { k3.unlock_table with writable := true }
    let k5 := { k4 with
      sys_call_table := fun i => if i = syscall then some Handler.interceptor
                                 else k4.sys_call_table i }
    (0, { k5 with writable := false, sys_call_table_lock := false })

/-- Lines 572-579 of `my_syscall`: for the last two commands a caller that is not root is
denied when `check_pids_same_owner(current->pid, pid) != 0 || pid == 0`; the left operand is
evaluated first. -/
def monitoring_denied (c : Config) (e : Env) (cmd pid : Int) : Except Fault Bool :=
  if (cmd = c.REQUEST_START_MONITORING ∨ cmd = c.REQUEST_STOP_MONITORING) ∧
      e.current_uid ≠ 0 then
    (check_pids_same_owner e e.current_pid pid).bind fun r =>
      .ok (decide (r ≠ 0 ∨ pid = 0))
  else .ok false

/-- Lines 586-631 of `my_syscall`: the context checks and the busy checks made while
`my_table_lock` is held; the error code to return, if any. -/
def context_check (c : Config) (k : Kernel) (cmd syscall pid : Int) : Option Int :=
  if cmd = c.REQUEST_SYSCALL_RELEASE ∧ (k.table syscall).intercepted = 0 then some (-EINVAL)
  else if cmd = c.REQUEST_STOP_MONITORING ∧
      ((k.table syscall).intercepted = 0 ∨ (k.table syscall).monitored = 0 ∨
        check_pid_monitored k syscall pid = 0) then some (-EINVAL)
  else if cmd = c.REQUEST_SYSCALL_INTERCEPT ∧ (k.table syscall).intercepted = 1 then
    some (-EBUSY)
  else if cmd = c.REQUEST_START_MONITORING ∧ check_pid_monitored k syscall pid = 1 then
    some (-EBUSY)
  else none

/-- Lines 636-652 of `my_syscall`: the `switch` that calls the handler of the command; the
value the handler returns is not used. -/
def dispatch (c : Config) (e : Env) (k : Kernel) (cmd syscall pid : Int) : Kernel :=
  if cmd = c.REQUEST_SYSCALL_INTERCEPT then (handle_sysc_intercept k syscall).2
  else if cmd = c.REQUEST_SYSCALL_RELEASE then (handle_sysc_release k syscall).2
  else if cmd = c.REQUEST_START_MONITORING then (handle_start_monitoring e k syscall pid).2
  else if cmd = c.REQUEST_STOP_MONITORING then (handle_stop_monitoring k syscall pid).2
  else k

/-- Function `my_syscall` (lines 532-655): the checks in the order of the source, each
returning its error code, then the handler of the command, then `return 0`. -/
def my_syscall (c : Config) (e : Env) (k : Kernel) (cmd syscall pid : Int) :
    Except Fault (Int × Kernel) :=
  if cmd ≠ c.REQUEST_SYSCALL_INTERCEPT ∧ cmd ≠ c.REQUEST_SYSCALL_RELEASE ∧
      cmd ≠ c.REQUEST_START_MONITORING ∧ cmd ≠ c.REQUEST_STOP_MONITORING then
    .ok (-EINVAL, k)
  else if syscall < 0 ∨ syscall > c.NR_syscalls - 1 ∨ syscall = c.MY_CUSTOM_SYSCALL then
    .ok (-EINVAL, k)
  else if (cmd = c.REQUEST_START_MONITORING ∨ cmd = c.REQUEST_STOP_MONITORING) ∧
      (pid < 0 ∨ (pid > 0 ∧ e.task_uid pid = none)) then
    .ok (-EINVAL, k)
  else if (cmd = c.REQUEST_SYSCALL_INTERCEPT ∨ cmd = c.REQUEST_SYSCALL_RELEASE) ∧
      e.current_uid ≠ 0 then
    .ok (-EPERM, k)
  else
    (monitoring_denied c e cmd pid).bind fun denied =>
      if denied = true then .ok (-EPERM, k)
      else
        match context_check c k.lock_table cmd syscall pid with
        | some r => .ok (r, k.lock_table.unlock_table)
        | none => .ok (0, dispatch c e k.lock_table.unlock_table cmd syscall pid)

/-- The state after `init_function` (lines 677-712) in a kernel whose system call table
holds the original handlers: the custom call and `exit_group` are hijacked, every entry of
`table` is cleared. -/
def init_function (c : Config) : Kernel :=
  { table := fun _ => { f := none, intercepted := 0, monitored := 0, listcount := 0,
                        my_list := [] },
    sys_call_table := fun i =>
      if i = c.NR_exit_group then some Handler.my_exit_group
      else if i = c.MY_CUSTOM_SYSCALL then some Handler.my_syscall
      else some (Handler.original i),
    writable := false, my_table_lock := false, sys_call_table_lock := false, allocs := 0 }

/-- Sample values of the constants of the absent headers, used in worked examples. -/
def sample_config : Config :=
  { REQUEST_SYSCALL_INTERCEPT := 1, REQUEST_SYSCALL_RELEASE := 2,
    REQUEST_START_MONITORING := 3, REQUEST_STOP_MONITORING := 4,
    MY_CUSTOM_SYSCALL := 0, NR_exit_group := 252, NR_syscalls := 338 }

/-- A sample environment in which every `kmalloc` fails: the caller is pid 100 and root,
the pids 100 and 200 exist and belong to the users 0 and 1000. -/
def no_memory_env : Env :=
  { kmalloc := fun _ => false,
    task_uid := fun p => if p = 100 then some 0 else if p = 200 then some 1000 else none,
    current_pid := 100, current_uid := 0 }

/-- The result of a call of `my_syscall` that returns (a dummy when it does not); used for
worked examples. -/
def result_of_call (x : Except Fault (Int × Kernel)) (d : Kernel) : Int × Kernel :=
  match x with
  | .ok r => r
  | .error _ => (0, d)

/-- A sample environment with a caller that is not root: the caller is pid 200 of user
1000, pid 100 belongs to root, and the lookup of any other pid (pid 0 included) yields no
task. -/
def user_env : Env :=
  { kmalloc := fun _ => true,
    task_uid := fun p => if p = 100 then some 0 else if p = 200 then some 1000 else none,
    current_pid := 200, current_uid := 1000 }

end Interceptor

/-! ## Counting the frames in use -/

/-- Number of frames below `n` with `in_use` set in a coremap. -/
def used_below (cm : Nat → frame) (n : Nat) : Nat :=
  (List.range n).countP fun i => (cm i).in_use

/-- Number of frames (below `memsize`) with `in_use` set. -/
def in_use_count (w : World) (s : State) : Nat := used_below s.coremap w.memsize

/-- Every entry with ON_SWAP set has a swap offset. -/
def OnSwapOk (s : State) : Prop :=
  ∀ q : PtePtr, (s.pte q).frame &&& PG_ONSWAP ≠ 0 → (s.pte q).swap_off ≠ INVALID_SWAP

/-! ## fs3/readimage.c: the type of an inode -/

namespace ReadImage

/-- Modelled from the spec: `ext2.h` is absent; the ext2 code of a directory in the
file-type field of `i_mode`, 0x4000. -/
def EXT2_S_IFDIR : Nat := 0x4000

/-- Modelled from the spec: `ext2.h` is absent; the ext2 code of a regular file in the
file-type field of `i_mode`, 0x8000. -/
def EXT2_S_IFREG : Nat := 0x8000

/-- Modelled from the spec: `ext2.h` is absent; the ext2 code of a symbolic link in the
file-type field of `i_mode`, 0xA000. -/
def EXT2_S_IFLNK : Nat := 0xA000

/-- The file-type field of `i_mode`: the top four of its 16 bits. -/
def file_type_field (i_mode : Nat) : Nat := i_mode &&& 0xF000

/-- Function `get_inode_type` of readimage.c (lines 27-45), as a function of the 16-bit
`inode->i_mode`: the first of the three tests `(i_mode & C) == C` that holds decides the
result, and the result is the NUL character when none holds. -/
def get_inode_type (i_mode : Nat) : Char :=
  if i_mode &&& EXT2_S_IFDIR = EXT2_S_IFDIR then 'd'
  else if i_mode &&& EXT2_S_IFREG = EXT2_S_IFREG then 'f'
  else if i_mode &&& EXT2_S_IFLNK = EXT2_S_IFLNK then 'l'
  else Char.ofNat 0

end ReadImage

/-! ## Runs that differ only in the access types -/

/-- The part of a page-table entry that does not depend on the access types of a run: the
VALID bit, the REFERENCED bit and the frame index. -/
def pte_key (e : pgtbl_entry_t) : Bool × Bool × Nat :=
  (tbit e.frame 0, tbit e.frame 2, e.frame >>> PAGE_SHIFT)

/-- Two states agree on everything but DIRTY bits, the swap state (ON_SWAP bits, `swap_off`,
the log of swap activity), the contents of memory, the addresses of the LRU nodes and the
split of the evictions into clean and dirty ones: same directory, same coremap, same LRU
order of the frames, same VALID bit, REFERENCED bit and frame index of every page, same
hit, miss and reference counts and the same number of evictions. -/
def SameButDirty (s t : State) : Prop :=
  SameDir s t ∧ t.coremap = s.coremap ∧ lru_frames t = lru_frames s ∧
  (∀ va, pte_key (page t va) = pte_key (page s va)) ∧
  t.hit_count = s.hit_count ∧ t.miss_count = s.miss_count ∧ t.ref_count = s.ref_count ∧
  t.evict_clean_count + t.evict_dirty_count = s.evict_clean_count + s.evict_dirty_count

/-- The frame an access to `va` uses under LRU, as `find_physpage` and `allocate_frame`
choose it: the frame of the page when its PTE is VALID, else the first free frame, else the
frame at the head of the LRU list. -/
def lru_frame_for (w : World) (s : State) (va : Nat) : Nat :=
  if (page s va).frame &&& PG_VALID ≠ 0 then (page s va).frame >>> PAGE_SHIFT
  else match first_free s.coremap 0 w.memsize with
    | some f => f
    | none => (lru_frames s).headD 0

/-- What an access to the page of `va` that uses frame `f` makes of the key of the page of
`vb`, whose key was `k`: the accessed page ends VALID and REFERENCED in `f`, a different
page that was VALID in `f` loses VALID, and every other page keeps its key. -/
def key_after (same : Bool) (f : Nat) (k : Bool × Bool × Nat) : Bool × Bool × Nat :=
  if same then (true, true, f)
  else if k.1 = true ∧ k.2.2 = f then (false, k.2.1, f)
  else k

/-! ## The pages kept under LRU -/

/-- The resident pages are closed under "referenced more recently": when a page is resident,
every page whose last access in the run so far (`hist`) came later is resident too. -/
def recency_closed (s : State) (hist : List (Nat × Char)) : Prop :=
  ∀ va vb i j, resident s va → last_access hist va = some i → last_access hist vb = some j →
    i < j → resident s vb

/-! # Verification -/

/-! ## Counters -/

theorem SameCounters.rfl_ (s : State) : SameCounters s s := ⟨rfl, rfl, rfl, rfl, rfl⟩

theorem SameCounters.trans_ {s t u : State} (h1 : SameCounters s t) (h2 : SameCounters t u) :
    SameCounters s u := by
  obtain ⟨a1, a2, a3, a4, a5⟩ := h1
  obtain ⟨b1, b2, b3, b4, b5⟩ := h2
  exact ⟨b1.trans a1, b2.trans a2, b3.trans a3, b4.trans a4, b5.trans a5⟩

theorem deref_ok {nodes : Nat → Option node_t} {p : Option Nat} {a : Nat} {n : node_t}
    (h : deref nodes p = .ok (a, n)) : p = some a ∧ nodes a = some n := by
  cases p with
  | none => simp [deref] at h
  | some b =>
    simp only [deref] at h
    split at h
    · simp at h
    · rename_i m hm
      simp only [Except.ok.injEq, Prod.mk.injEq] at h
      obtain ⟨rfl, rfl⟩ := h
      exact ⟨rfl, hm⟩

theorem lru_evict_counters {w : World} {s t : State} {f : Nat}
    (h : lru_evict w s = .ok (f, t)) : SameCounters s t := by
  unfold lru_evict at h
  simp only [bind, Except.bind, pure, Except.pure] at h
  repeat' split at h
  all_goals first
    | (simp at h; done)
    | (simp only [Except.ok.injEq, Prod.mk.injEq] at h; obtain ⟨-, rfl⟩ := h; exact ⟨rfl, rfl, rfl, rfl, rfl⟩)



theorem lru_ref_counters {w : World} {s t : State} {p : PtePtr}
    (h : lru_ref w s p = .ok t) : SameCounters s t := by
  unfold lru_ref at h
  simp only [bind, Except.bind, pure, Except.pure] at h
  repeat' split at h
  all_goals first
    | (simp at h; done)
    | (simp only [Except.ok.injEq] at h; subst h; exact ⟨rfl, rfl, rfl, rfl, rfl⟩)

theorem clock_loop_counters {w : World} (n : Nat) : ∀ {s t : State} {f : Nat},
    clock_loop w n s = .ok (f, t) → SameCounters s t := by
  induction n with
  | zero => intro s t f h; simp [clock_loop] at h
  | succ n ih =>
    intro s t f h
    simp only [clock_loop] at h
    repeat' split at h
    all_goals first
      | (simp at h; done)
      | (simp only [Except.ok.injEq, Prod.mk.injEq] at h; obtain ⟨-, rfl⟩ := h
         exact ⟨rfl, rfl, rfl, rfl, rfl⟩)
      | (have h2 := ih h; exact h2)

theorem evict_fcn_counters {w : World} {s t : State} {f : Nat}
    (h : evict_fcn w s = .ok (f, t)) : SameCounters s t := by
  unfold evict_fcn at h
  split at h
  · exact lru_evict_counters h
  · exact clock_loop_counters _ h

theorem ref_fcn_counters {w : World} {s t : State} {p : PtePtr}
    (h : ref_fcn w s p = .ok t) : SameCounters s t := by
  unfold ref_fcn at h
  split at h
  · exact lru_ref_counters h
  · simp only [Except.ok.injEq] at h; subst h; exact ⟨rfl, rfl, rfl, rfl, rfl⟩

theorem write_back_counters {w : World} {s t : State} {f : Nat} {p : PtePtr}
    (h : write_back w s f p = .ok t) : OneEviction s t := by
  unfold write_back at h
  repeat' split at h
  all_goals first
    | (simp at h; done)
    | (simp only [Except.ok.injEq] at h; subst h
       simp [OneEviction, State.set_frame, State.set_pte, State.emit])

theorem bind_ok {α β : Type} {x : Except Err α} {f : α → Except Err β} {b : β}
    (h : x.bind f = .ok b) : ∃ a, x = .ok a ∧ f a = .ok b := by
  cases x with
  | error e => simp [Except.bind] at h
  | ok a => exact ⟨a, rfl, h⟩

theorem evict_victim_counters {w : World} {s t : State} {f : Nat}
    (h : evict_victim w s f = .ok t) : OneEviction s t := by
  unfold evict_victim at h
  split at h
  · split at h
    · simp at h
    · obtain ⟨s1, h1, h2⟩ := bind_ok h
      simp only [Except.ok.injEq] at h2
      subst h2
      have := write_back_counters h1
      simpa [OneEviction, clear_victim, State.set_frame, State.set_pte] using this
  · simp at h

/-- Counter effect of `allocate_frame`: nothing changes when a free frame exists, and
exactly one eviction is counted otherwise. -/
theorem allocate_frame_counters {w : World} {s t : State} {p : PtePtr} {f : Nat}
    (h : allocate_frame w s p = .ok (f, t)) :
    (first_free s.coremap 0 w.memsize ≠ none → SameCounters s t) ∧
    (first_free s.coremap 0 w.memsize = none → OneEviction s t) := by
  unfold allocate_frame at h
  split at h
  · rename_i fr hfr
    simp only [Except.ok.injEq, Prod.mk.injEq] at h
    obtain ⟨-, rfl⟩ := h
    exact ⟨fun _ => ⟨rfl, rfl, rfl, rfl, rfl⟩, fun hn => by simp [hn] at hfr⟩
  · rename_i hfr
    obtain ⟨⟨fr, s1⟩, h1, h2⟩ := bind_ok h
    obtain ⟨s2, h3, h4⟩ := bind_ok h2
    simp only [Except.ok.injEq, Prod.mk.injEq] at h4
    obtain ⟨-, rfl⟩ := h4
    refine ⟨fun hn => absurd hfr hn, fun _ => ?_⟩
    obtain ⟨a1, a2, a3, a4, a5⟩ := evict_fcn_counters h1
    obtain ⟨b1, b2, b3, b4⟩ := evict_victim_counters h3
    refine ⟨b1.trans a1, b2.trans a2, b3.trans a3, ?_⟩
    rw [← a4, ← a5]
    exact b4

theorem init_second_level_counters {w : World} {s t : State} {e : Nat}
    (h : init_second_level w s = .ok (e, t)) : SameCounters s t := by
  unfold init_second_level at h
  split at h
  · simp only [Except.ok.injEq, Prod.mk.injEq] at h
    obtain ⟨-, rfl⟩ := h
    exact ⟨rfl, rfl, rfl, rfl, rfl⟩
  · simp at h

theorem walk_pagetable_counters {w : World} {s t : State} {va : Nat}
    (h : walk_pagetable w s va = .ok t) : SameCounters s t := by
  unfold walk_pagetable at h
  split at h
  · split at h
    · obtain ⟨⟨e, s1⟩, h1, h2⟩ := bind_ok h
      simp only [Except.ok.injEq] at h2
      subst h2
      have h3 := init_second_level_counters h1
      exact h3
    · simp only [Except.ok.injEq] at h
      subst h
      exact ⟨rfl, rfl, rfl, rfl, rfl⟩
  · simp at h

theorem fill_frame_counters {w : World} {s t : State} {p : PtePtr} {f va : Nat}
    (h : fill_frame w s p f va = .ok t) : SameCounters s t := by
  unfold fill_frame at h
  repeat' split at h
  all_goals first
    | (simp at h; done)
    | (simp only [Except.ok.injEq] at h; subst h; exact ⟨rfl, rfl, rfl, rfl, rfl⟩)

theorem mark_access_counters (s : State) (p : PtePtr) (ty : Char) :
    SameCounters s (mark_access s p ty) := by
  unfold mark_access
  split <;> exact ⟨rfl, rfl, rfl, rfl, rfl⟩

/-- Counter effect of the fault branch: one miss, no hit, no reference counted yet. -/
theorem handle_fault_counters {w : World} {s t : State} {p : PtePtr} {va : Nat}
    (h : handle_fault w s p va = .ok t) :
    t.hit_count = s.hit_count ∧ t.miss_count = s.miss_count + 1 ∧
    t.ref_count = s.ref_count := by
  unfold handle_fault at h
  obtain ⟨⟨f, sa⟩, h1, h2⟩ := bind_ok h
  obtain ⟨sd, h3, h4⟩ := bind_ok h2
  simp only [Except.ok.injEq] at h4
  subst h4
  have hc := fill_frame_counters h3
  have ha := allocate_frame_counters h1
  have hs : sa.hit_count = s.hit_count ∧ sa.miss_count = s.miss_count ∧
      sa.ref_count = s.ref_count := by
    by_cases hf : first_free s.coremap 0 w.memsize = none
    · have := ha.2 hf
      exact ⟨this.1, this.2.1, this.2.2.1⟩
    · have := ha.1 hf
      exact ⟨this.1, this.2.1, this.2.2.1⟩
  refine ⟨hc.1.trans hs.1, ?_, hc.2.2.1.trans hs.2.2⟩
  show sd.miss_count + 1 = s.miss_count + 1
  rw [hc.2.1, hs.2.1]

/-- One call of `find_physpage` counts one reference and either one hit or one miss. -/
theorem find_physpage_counters {w : World} {s t : State} {va : Nat} {ty : Char} {r : Nat}
    (h : find_physpage w s va ty = .ok (r, t)) :
    t.ref_count = s.ref_count + 1 ∧
    ((t.hit_count = s.hit_count + 1 ∧ t.miss_count = s.miss_count) ∨
      (t.hit_count = s.hit_count ∧ t.miss_count = s.miss_count + 1)) := by
  unfold find_physpage at h
  obtain ⟨s1, h1, h2⟩ := bind_ok h
  obtain ⟨s2, h3, h4⟩ := bind_ok h2
  obtain ⟨s3, h5, h6⟩ := bind_ok h4
  simp only [Except.ok.injEq, Prod.mk.injEq] at h6
  obtain ⟨-, rfl⟩ := h6
  have c1 := walk_pagetable_counters h1
  have c3 := ref_fcn_counters h5
  have c2 := mark_access_counters s2 (pte_ptr s1 va) ty
  have c : s3.hit_count = s2.hit_count ∧ s3.miss_count = s2.miss_count ∧
      s3.ref_count = s2.ref_count :=
    ⟨c3.1.trans c2.1, c3.2.1.trans c2.2.1, c3.2.2.1.trans c2.2.2.1⟩
  unfold hit_or_fault at h3
  split at h3
  · have hf := handle_fault_counters h3
    refine ⟨?_, Or.inr ⟨?_, ?_⟩⟩
    · show s3.ref_count + 1 = _
      rw [c.2.2, hf.2.2, c1.2.2.1]
    · show s3.hit_count = _
      rw [c.1, hf.1, c1.1]
    · show s3.miss_count = _
      rw [c.2.1, hf.2.1, c1.2.1]
  · simp only [Except.ok.injEq] at h3
    subst h3
    refine ⟨?_, Or.inl ⟨?_, ?_⟩⟩
    · show s3.ref_count + 1 = _
      rw [c.2.2]; show s1.ref_count + 1 = _; rw [c1.2.2.1]
    · show s3.hit_count = _
      rw [c.1]; show s1.hit_count + 1 = _; rw [c1.1]
    · show s3.miss_count = _
      rw [c.2.1]; show s1.miss_count = _; rw [c1.2.1]

theorem init_counters (w : World) :
    (init w).hit_count = 0 ∧ (init w).miss_count = 0 ∧ (init w).ref_count = 0 ∧
    (init w).evict_clean_count = 0 ∧ (init w).evict_dirty_count = 0 := by
  unfold init
  cases w.policy <;> exact ⟨rfl, rfl, rfl, rfl, rfl⟩

theorem run_cons_ok {w : World} {s t : State} {a : Nat × Char} {tr : List (Nat × Char)}
    (h : run w s (a :: tr) = .ok t) :
    ∃ r s1, find_physpage w s a.1 a.2 = .ok (r, s1) ∧ run w s1 tr = .ok t := by
  simp only [run] at h
  obtain ⟨⟨r, s1⟩, h1, h2⟩ := bind_ok h
  exact ⟨r, s1, h1, h2⟩

theorem run_hit_miss_ref {w : World} (tr : List (Nat × Char)) : ∀ {s t : State},
    run w s tr = .ok t → s.hit_count + s.miss_count = s.ref_count →
    t.hit_count + t.miss_count = t.ref_count := by
  induction tr with
  | nil => intro s t h hs; simp only [run, Except.ok.injEq] at h; subst h; exact hs
  | cons a tr ih =>
    intro s t h hs
    obtain ⟨r, s1, h1, h2⟩ := run_cons_ok h
    apply ih h2
    have := find_physpage_counters h1
    omega

/-! ## C1: hits, misses and references -/

/-- C1: for a trace run from the initial state that completes, `hit_count + miss_count =
ref_count` in the state reached (so after every access, each prefix being a completed run),
and every call of `find_physpage` that returns, in any state, adds exactly 1 to `ref_count`
and exactly 1 to exactly one of `hit_count` and `miss_count`. -/
theorem hit_miss_ref_consistent (w : World) (tr : List (Nat × Char)) (s : State)
    (h : run w (init w) tr = .ok s) :
    s.hit_count + s.miss_count = s.ref_count ∧
    ∀ (u t : State) (va : Nat) (ty : Char) (r : Nat),
      find_physpage w u va ty = .ok (r, t) →
      t.ref_count = u.ref_count + 1 ∧
      ((t.hit_count = u.hit_count + 1 ∧ t.miss_count = u.miss_count) ∨
        (t.hit_count = u.hit_count ∧ t.miss_count = u.miss_count + 1)) := by
  refine ⟨run_hit_miss_ref tr h ?_, fun u t va ty r hf => find_physpage_counters hf⟩
  have := init_counters w
  omega

theorem hit_miss_ref_consistent_witness :
    ∃ s, run (demo_world 1 .lru 4) (init (demo_world 1 .lru 4))
        [(4096, 'L'), (8192, 'S'), (8192, 'L')] = .ok s ∧
      s.hit_count + s.miss_count = s.ref_count ∧ s.ref_count = 3 :=
  ⟨_, rfl, (hit_miss_ref_consistent (demo_world 1 .lru 4)
    [(4096, 'L'), (8192, 'S'), (8192, 'L')] _ rfl).1, rfl⟩

theorem first_free_none_iff (cm : Nat → frame) : ∀ (k i : Nat),
    first_free cm i k = none ↔ ∀ j, i ≤ j → j < i + k → (cm j).in_use = true := by
  intro k
  induction k with
  | zero => intro i; simp only [first_free, true_iff]; intro j h1 h2; omega
  | succ k ih =>
    intro i
    simp only [first_free]
    split
    · rename_i hi
      rw [ih (i + 1)]
      constructor
      · intro h j h1 h2
        by_cases hj : j = i
        · subst hj; exact hi
        · exact h j (by omega) (by omega)
      · intro h j h1 h2
        exact h j (by omega) (by omega)
    · rename_i hi
      simp only [false_iff, reduceCtorEq]
      intro h
      exact hi (h i (le_refl i) (by omega))

/-- The scan returns the least index at or after `i` whose frame is not in use. -/
theorem first_free_some (cm : Nat → frame) : ∀ (k i f : Nat),
    first_free cm i k = some f →
    i ≤ f ∧ f < i + k ∧ (cm f).in_use = false ∧ ∀ j, i ≤ j → j < f → (cm j).in_use = true := by
  intro k
  induction k with
  | zero => intro i f h; simp [first_free] at h
  | succ k ih =>
    intro i f h
    simp only [first_free] at h
    split at h
    · rename_i hi
      obtain ⟨h1, h2, h3, h4⟩ := ih (i + 1) f h
      refine ⟨by omega, by omega, h3, ?_⟩
      intro j hj1 hj2
      by_cases hj : j = i
      · subst hj; exact hi
      · exact h4 j (by omega) hj2
    · rename_i hi
      simp only [Option.some.injEq] at h
      subst h
      refine ⟨le_refl _, by omega, by simpa using hi, ?_⟩
      intro j hj1 hj2
      omega

theorem first_free_none_iff_all (w : World) (s : State) :
    first_free s.coremap 0 w.memsize = none ↔ all_in_use w s := by
  rw [first_free_none_iff]
  unfold all_in_use
  constructor
  · intro h i hi; exact h i (Nat.zero_le i) (by omega)
  · intro h j _ hj; exact h j (by omega)

/-- Per call of `allocate_frame`: with every frame in use exactly one eviction counter grows
by one; with a free frame no counter changes. -/
theorem allocate_frame_evictions {w : World} {s t : State} {p : PtePtr} {f : Nat}
    (h : allocate_frame w s p = .ok (f, t)) :
    (all_in_use w s → OneEviction s t) ∧ (¬ all_in_use w s → SameCounters s t) := by
  have := allocate_frame_counters h
  rw [← first_free_none_iff_all]
  exact ⟨this.2, this.1⟩

theorem find_physpage_evictions {w : World} {s t : State} {va : Nat} {ty : Char} {r : Nat}
    (h : find_physpage w s va ty = .ok (r, t)) :
    t.evict_clean_count + t.evict_dirty_count =
      s.evict_clean_count + s.evict_dirty_count +
        (match alloc_call w s va with
          | some s1 => if all_in_use w s1 then 1 else 0
          | none => 0) := by
  unfold find_physpage at h
  obtain ⟨s1, h1, h2⟩ := bind_ok h
  obtain ⟨s2, h3, h4⟩ := bind_ok h2
  obtain ⟨s3, h5, h6⟩ := bind_ok h4
  simp only [Except.ok.injEq, Prod.mk.injEq] at h6
  obtain ⟨-, rfl⟩ := h6
  have c1 := walk_pagetable_counters h1
  have c3 := ref_fcn_counters h5
  have c2 := mark_access_counters s2 (pte_ptr s1 va) ty
  have e1 : s3.evict_clean_count = s2.evict_clean_count := c3.2.2.2.1.trans c2.2.2.2.1
  have e2 : s3.evict_dirty_count = s2.evict_dirty_count := c3.2.2.2.2.trans c2.2.2.2.2
  show s3.evict_clean_count + s3.evict_dirty_count = _
  rw [e1, e2, ← c1.2.2.2.1, ← c1.2.2.2.2]
  unfold alloc_call
  rw [h1]
  unfold hit_or_fault at h3
  split at h3
  · rename_i hv
    simp only [hv, if_true]
    unfold handle_fault at h3
    obtain ⟨⟨f, sa⟩, h7, h8⟩ := bind_ok h3
    obtain ⟨sd, h9, h10⟩ := bind_ok h8
    simp only [Except.ok.injEq] at h10
    subst h10
    have c4 := fill_frame_counters h9
    show sd.evict_clean_count + sd.evict_dirty_count = _
    rw [c4.2.2.2.1, c4.2.2.2.2]
    have c5 := allocate_frame_evictions h7
    by_cases hall : all_in_use w s1
    · have := (c5.1 hall).2.2.2
      simp only [hall, if_true]
      omega
    · have := c5.2 hall
      simp only [hall, if_false]
      rw [this.2.2.2.1, this.2.2.2.2]
      rfl
  · rename_i hv
    simp only [Except.ok.injEq] at h3
    subst h3
    simp [hv]

theorem run_evictions {w : World} (tr : List (Nat × Char)) : ∀ {s t : State},
    run w s tr = .ok t →
    t.evict_clean_count + t.evict_dirty_count =
      s.evict_clean_count + s.evict_dirty_count + full_allocs w s tr := by
  induction tr with
  | nil => intro s t h; simp only [run, Except.ok.injEq] at h; subst h; simp [full_allocs]
  | cons a tr ih =>
    intro s t h
    obtain ⟨r, s1, h1, h2⟩ := run_cons_ok h
    have e1 := find_physpage_evictions h1
    have e2 := ih h2
    simp only [full_allocs, h1]
    omega

/-! ## C2: evictions and full allocations -/

/-- C2: for a trace run from the initial state that completes, `evict_clean_count +
evict_dirty_count` is the number of `allocate_frame` calls of the run made with every frame
in use; a call of `allocate_frame` made with every frame in use adds exactly 1 to exactly one
of the two counters, and a call that finds a free frame changes no counter. -/
theorem evictions_count_full_allocations (w : World) (tr : List (Nat × Char)) (s : State)
    (h : run w (init w) tr = .ok s) :
    s.evict_clean_count + s.evict_dirty_count = full_allocs w (init w) tr ∧
    ∀ (u t : State) (p : PtePtr) (f : Nat), allocate_frame w u p = .ok (f, t) →
      (all_in_use w u →
        (t.evict_clean_count = u.evict_clean_count + 1 ∧
            t.evict_dirty_count = u.evict_dirty_count) ∨
          (t.evict_clean_count = u.evict_clean_count ∧
            t.evict_dirty_count = u.evict_dirty_count + 1)) ∧
      (¬ all_in_use w u →
        t.evict_clean_count = u.evict_clean_count ∧
          t.evict_dirty_count = u.evict_dirty_count) := by
  refine ⟨?_, fun u t p f ha => ⟨fun hall => ?_, fun hall => ?_⟩⟩
  · have := run_evictions tr h
    have hi := init_counters w
    omega
  · exact ((allocate_frame_evictions ha).1 hall).2.2.2
  · have := (allocate_frame_evictions ha).2 hall
    exact ⟨this.2.2.2.1, this.2.2.2.2⟩

theorem evictions_count_full_allocations_witness :
    ∃ s, run (demo_world 1 .lru 4) (init (demo_world 1 .lru 4))
        [(4096, 'L'), (8192, 'S'), (8192, 'L'), (4096, 'L')] = .ok s ∧
      s.evict_clean_count + s.evict_dirty_count =
        full_allocs (demo_world 1 .lru 4) (init (demo_world 1 .lru 4))
          [(4096, 'L'), (8192, 'S'), (8192, 'L'), (4096, 'L')] ∧
      s.evict_clean_count + s.evict_dirty_count = 2 :=
  ⟨_, rfl, (evictions_count_full_allocations (demo_world 1 .lru 4)
    [(4096, 'L'), (8192, 'S'), (8192, 'L'), (4096, 'L')] _ rfl).1, rfl⟩

/-! ## Flag bits of the packed `frame` field -/

theorem and_two_pow_eq_zero_iff (x k : Nat) : x &&& 2 ^ k = 0 ↔ tbit x k = false := by
  unfold tbit
  constructor
  · intro h0
    have := congrArg (fun y => y.testBit k) h0
    simpa [Nat.testBit_and, Nat.testBit_two_pow] using this
  · intro hb
    apply Nat.eq_of_testBit_eq
    intro i
    simp only [Nat.testBit_and, Nat.testBit_two_pow, Nat.zero_testBit]
    by_cases hi : k = i
    · subst hi; simp [hb]
    · simp [hi]

theorem tbit_or_two_pow (x k j : Nat) :
    tbit (x ||| 2 ^ k) j = (tbit x j || decide (k = j)) := by
  simp [tbit, Nat.testBit_or, Nat.testBit_two_pow]

theorem tbit_and_bnot32 (x k j : Nat) (hk : k < 32) :
    tbit (x &&& bnot32 (2 ^ k)) j = (tbit x j && (decide (j < 32) && !decide (k = j))) := by
  unfold bnot32 tbit
  simp only [Nat.testBit_and, Nat.testBit_xor, Nat.testBit_two_pow_sub_one, Nat.testBit_two_pow]
  by_cases h1 : j < 32 <;> by_cases h2 : k = j <;> simp [h1, h2]
  omega

theorem tbit_pack (f j : Nat) :
    tbit ((f <<< PAGE_SHIFT) % 2 ^ 32) j =
      (decide (j < 32) && (decide (PAGE_SHIFT ≤ j) && f.testBit (j - PAGE_SHIFT))) := by
  unfold tbit
  rw [Nat.testBit_mod_two_pow, Nat.testBit_shiftLeft]

theorem tbit_shift (x j : Nat) : tbit (x >>> PAGE_SHIFT) j = tbit x (PAGE_SHIFT + j) := by
  simp [tbit, Nat.testBit_shiftRight]

theorem eq_of_tbit_eq {x y : Nat} (h : ∀ j, tbit x j = tbit y j) : x = y :=
  Nat.eq_of_testBit_eq h

theorem valid_eq_zero_iff (x : Nat) : x &&& PG_VALID = 0 ↔ tbit x 0 = false :=
  and_two_pow_eq_zero_iff x 0

theorem dirty_eq_zero_iff (x : Nat) : x &&& PG_DIRTY = 0 ↔ tbit x 1 = false :=
  and_two_pow_eq_zero_iff x 1

theorem ref_eq_zero_iff (x : Nat) : x &&& PG_REF = 0 ↔ tbit x 2 = false :=
  and_two_pow_eq_zero_iff x 2

theorem onswap_eq_zero_iff (x : Nat) : x &&& PG_ONSWAP = 0 ↔ tbit x 3 = false :=
  and_two_pow_eq_zero_iff x 3

theorem tbit_or_valid (x j : Nat) : tbit (x ||| PG_VALID) j = (tbit x j || decide (0 = j)) :=
  tbit_or_two_pow x 0 j

theorem tbit_or_dirty (x j : Nat) : tbit (x ||| PG_DIRTY) j = (tbit x j || decide (1 = j)) :=
  tbit_or_two_pow x 1 j

theorem tbit_or_ref (x j : Nat) : tbit (x ||| PG_REF) j = (tbit x j || decide (2 = j)) :=
  tbit_or_two_pow x 2 j

theorem tbit_or_onswap (x j : Nat) :
    tbit (x ||| PG_ONSWAP) j = (tbit x j || decide (3 = j)) :=
  tbit_or_two_pow x 3 j

theorem tbit_clear_valid (x j : Nat) :
    tbit (x &&& bnot32 PG_VALID) j = (tbit x j && (decide (j < 32) && !decide (0 = j))) :=
  tbit_and_bnot32 x 0 j (by decide)

theorem tbit_clear_dirty (x j : Nat) :
    tbit (x &&& bnot32 PG_DIRTY) j = (tbit x j && (decide (j < 32) && !decide (1 = j))) :=
  tbit_and_bnot32 x 1 j (by decide)

theorem tbit_clear_ref (x j : Nat) :
    tbit (x &&& bnot32 PG_REF) j = (tbit x j && (decide (j < 32) && !decide (2 = j))) :=
  tbit_and_bnot32 x 2 j (by decide)

theorem tbit_clear_onswap (x j : Nat) :
    tbit (x &&& bnot32 PG_ONSWAP) j = (tbit x j && (decide (j < 32) && !decide (3 = j))) :=
  tbit_and_bnot32 x 3 j (by decide)

/-! ## C5: the clock policy -/

theorem ref_bit_clock_clear_le (w : World) (s : State) (p : PtePtr) (i : Nat)
    (h : ref_bit (clock_clear w s p) i = true) : ref_bit s i = true := by
  unfold ref_bit clock_clear at h
  unfold ref_bit
  simp only [State.set_frame, State.set_pte, State.emit, State.pte] at h ⊢
  cases hq : (s.coremap i).pte with
  | none => simp [hq] at h
  | some q =>
    simp only [hq] at h ⊢
    by_cases hpq : q.tbl = p.tbl ∧ q.idx = p.idx
    · simp only [hpq, and_self, if_true] at h
      simp [ref_eq_zero_iff, tbit_clear_ref] at h
    · simpa only [hpq, if_false] using h

theorem ref_bit_clock_clear_self (w : World) (s : State) (p : PtePtr) (i : Nat)
    (h : (s.coremap i).pte = some p) : ref_bit (clock_clear w s p) i = false := by
  unfold ref_bit clock_clear
  simp [State.set_frame, State.set_pte, State.emit, State.pte, h, ref_eq_zero_iff,
    tbit_clear_ref]

theorem ref_frames_clock_clear_lt (w : World) (s : State) (p : PtePtr) (i : Nat)
    (hi : i < w.memsize) (h : (s.coremap i).pte = some p)
    (hr : (s.pte p).frame &&& PG_REF ≠ 0) :
    (ref_frames w (clock_clear w s p)).card < (ref_frames w s).card := by
  apply Finset.card_lt_card
  rw [Finset.ssubset_iff_of_subset]
  · refine ⟨i, ?_, ?_⟩
    · simp only [ref_frames, Finset.mem_filter, Finset.mem_range]
      refine ⟨hi, ?_⟩
      simp [ref_bit, h, hr]
    · simp only [ref_frames, Finset.mem_filter, Finset.mem_range, not_and]
      intro _
      simp [ref_bit_clock_clear_self w s p i h]
  · intro j hj
    simp only [ref_frames, Finset.mem_filter, Finset.mem_range] at hj ⊢
    exact ⟨hj.1, ref_bit_clock_clear_le w s p j hj.2⟩

theorem ref_frames_card_le (w : World) (s : State) : (ref_frames w s).card ≤ w.memsize := by
  unfold ref_frames
  calc _ ≤ (Finset.range w.memsize).card := Finset.card_filter_le _ _
    _ = w.memsize := Finset.card_range _

/-- One probe of the clock loop on a frame whose REFERENCED bit is set does not return: the
bit is cleared and the loop goes on. -/
theorem clock_loop_step_set (w : World) (n : Nat) (s : State) (p : PtePtr)
    (hm : w.memsize ≠ 0)
    (hp : (s.coremap (w.random s.log % w.memsize)).pte = some p)
    (hr : (s.pte p).frame &&& PG_REF ≠ 0) :
    clock_loop w (n + 1) s = clock_loop w n (clock_clear w s p) := by
  simp only [clock_loop, hm, if_false]
  have hp1 : ((s.emit (Event.random (w.random s.log))).coremap
      (w.random s.log % w.memsize)).pte = some p := hp
  have hr1 : ((s.emit (Event.random (w.random s.log))).pte p).frame &&& PG_REF ≠ 0 := hr
  simp only [hp1, hr1, if_true, ne_eq, not_false_eq_true]
  rfl

/-- One probe of the clock loop on a frame whose REFERENCED bit is clear returns it. -/
theorem clock_loop_step_clear (w : World) (n : Nat) (s : State) (p : PtePtr)
    (hm : w.memsize ≠ 0)
    (hp : (s.coremap (w.random s.log % w.memsize)).pte = some p)
    (hr : (s.pte p).frame &&& PG_REF = 0) :
    clock_loop w (n + 1) s =
      .ok (w.random s.log % w.memsize, s.emit (.random (w.random s.log))) := by
  simp only [clock_loop, hm, if_false]
  have hp1 : ((s.emit (Event.random (w.random s.log))).coremap
      (w.random s.log % w.memsize)).pte = some p := hp
  have hr1 : ((s.emit (Event.random (w.random s.log))).pte p).frame &&& PG_REF = 0 := hr
  simp only [hp1, hr1, ne_eq, not_true_eq_false, if_false]

/-- With every frame holding a page, the clock loop returns as soon as its fuel exceeds the
number of frames whose REFERENCED bit is set; the frame returned has the bit clear in the
state returned, which is the state at the moment of selection. -/
theorem clock_loop_returns (w : World) (hm : 0 < w.memsize) : ∀ (n : Nat) (s : State),
    (∀ i, i < w.memsize → ∃ p, (s.coremap i).pte = some p) →
    (ref_frames w s).card < n →
    ∃ f t p, clock_loop w n s = .ok (f, t) ∧ f < w.memsize ∧
      (t.coremap f).pte = some p ∧ (t.pte p).frame &&& PG_REF = 0 ∧
      t.coremap = s.coremap := by
  intro n
  induction n with
  | zero => intro s _ h; omega
  | succ n ih =>
    intro s hall hc
    have hlt : w.random s.log % w.memsize < w.memsize := Nat.mod_lt _ hm
    obtain ⟨p, hp⟩ := hall _ hlt
    by_cases hr : (s.pte p).frame &&& PG_REF = 0
    · refine ⟨_, _, p, clock_loop_step_clear w n s p (by omega) hp hr, hlt, hp, hr, rfl⟩
    · rw [clock_loop_step_set w n s p (by omega) hp hr]
      have hlt2 := ref_frames_clock_clear_lt w s p _ hlt hp hr
      obtain ⟨f, t, q, h1, h2, h3, h4, h5⟩ := ih (clock_clear w s p) hall (by omega)
      exact ⟨f, t, q, h1, h2, h3, h4, h5⟩

/-- C5: in a state where every frame holds a page (and `memsize` is positive), whatever
`random()` returns, `clock_evict` returns a frame below `memsize` whose PTE has the
REFERENCED bit clear in the state at the moment of selection; and a probe that samples a
frame whose REFERENCED bit is set does not return that frame: it clears the bit and the
loop goes on with the next sample. -/
theorem clock_victim_unreferenced (w : World) (s : State) (hm : 0 < w.memsize)
    (hall : ∀ i, i < w.memsize → ∃ p, (s.coremap i).pte = some p) :
    (∃ f t p, clock_evict w s = .ok (f, t) ∧ f < w.memsize ∧
      (t.coremap f).pte = some p ∧ (t.pte p).frame &&& PG_REF = 0) ∧
    (∀ (n : Nat) (u : State) (p : PtePtr),
      (u.coremap (w.random u.log % w.memsize)).pte = some p →
      (u.pte p).frame &&& PG_REF ≠ 0 →
      clock_loop w (n + 1) u = clock_loop w n (clock_clear w u p)) := by
  constructor
  · obtain ⟨f, t, p, h1, h2, h3, h4, -⟩ :=
      clock_loop_returns w hm (w.memsize + 1) s hall
        (Nat.lt_succ_of_le (ref_frames_card_le w s))
    exact ⟨f, t, p, h1, h2, h3, h4⟩
  · intro n u p hp hr
    exact clock_loop_step_set w n u p (by omega) hp hr



theorem clock_victim_unreferenced_witness :
    0 < (demo_world 2 .clock 4).memsize ∧
    (∀ i, i < (demo_world 2 .clock 4).memsize →
      ∃ p, ((state_after (demo_world 2 .clock 4) [(4096, 'L'), (8192, 'L')]).coremap i).pte
        = some p) ∧
    ∃ f t p, clock_evict (demo_world 2 .clock 4)
        (state_after (demo_world 2 .clock 4) [(4096, 'L'), (8192, 'L')]) = .ok (f, t) ∧
      f < (demo_world 2 .clock 4).memsize ∧
      (t.coremap f).pte = some p ∧ (t.pte p).frame &&& PG_REF = 0 :=
  have hall : ∀ i, i < (demo_world 2 .clock 4).memsize →
      ∃ p, ((state_after (demo_world 2 .clock 4) [(4096, 'L'), (8192, 'L')]).coremap i).pte
        = some p := by
    intro i hi
    have hi2 : i < 2 := hi
    interval_cases i <;> exact ⟨_, rfl⟩
  ⟨by decide, hall,
    (clock_victim_unreferenced (demo_world 2 .clock 4)
      (state_after (demo_world 2 .clock 4) [(4096, 'L'), (8192, 'L')]) (by decide) hall).1⟩

/-! ## State updates and well-formed entries -/

theorem ptr_eq_iff (q p : PtePtr) : q = p ↔ q.tbl = p.tbl ∧ q.idx = p.idx := by
  cases q; cases p; simp

theorem pte_set_pte (s : State) (p q : PtePtr) (e : pgtbl_entry_t) :
    (s.set_pte p e).pte q = if q = p then e else s.pte q := by
  simp only [State.set_pte, State.pte, ptr_eq_iff]

theorem pte_set_frame (s : State) (p q : PtePtr) (v : Nat) :
    (s.set_frame p v).pte q =
      if q = p then { frame := v, swap_off := (s.pte p).swap_off } else s.pte q := by
  simp only [State.set_frame, pte_set_pte]

theorem lru_evict_lru_only {w : World} {s t : State} {f : Nat}
    (h : lru_evict w s = .ok (f, t)) : LruOnly s t := by
  unfold lru_evict at h
  simp only [bind, Except.bind, pure, Except.pure] at h
  repeat' split at h
  all_goals first
    | (simp at h; done)
    | (simp only [Except.ok.injEq, Prod.mk.injEq] at h; obtain ⟨-, rfl⟩ := h
       exact ⟨rfl, rfl, rfl, rfl, rfl, ⟨rfl, rfl, rfl, rfl, rfl⟩, rfl⟩)

theorem lru_ref_lru_only {w : World} {s t : State} {p : PtePtr}
    (h : lru_ref w s p = .ok t) : LruOnly s t := by
  unfold lru_ref at h
  simp only [bind, Except.bind, pure, Except.pure] at h
  repeat' split at h
  all_goals first
    | (simp at h; done)
    | (simp only [Except.ok.injEq] at h; subst h
       exact ⟨rfl, rfl, rfl, rfl, rfl, ⟨rfl, rfl, rfl, rfl, rfl⟩, rfl⟩)

theorem lt_two_pow_of_tbit {x n : Nat} (h : ∀ j, n ≤ j → tbit x j = false) : x < 2 ^ n := by
  apply Nat.lt_pow_two_of_testBit
  intro i hi
  exact h i hi

theorem tbit_of_lt_two_pow {x n j : Nat} (h : x < 2 ^ n) (hj : n ≤ j) : tbit x j = false := by
  unfold tbit
  exact Nat.testBit_lt_two_pow (Nat.lt_of_lt_of_le h (Nat.pow_le_pow_right (by decide) hj))

/-- Reformulation of `PteOk` with bits. -/
theorem pteOk_iff (e : pgtbl_entry_t) : PteOk e ↔
    (∀ j, 32 ≤ j → tbit e.frame j = false) ∧
    ¬ (tbit e.frame 0 = true ∧ tbit e.frame 3 = true) ∧
    (tbit e.frame 1 = true → tbit e.frame 0 = true) := by
  unfold PteOk
  simp only [ne_eq, valid_eq_zero_iff, onswap_eq_zero_iff, dirty_eq_zero_iff,
    Bool.not_eq_false]
  constructor
  · rintro ⟨h1, h2, h3⟩
    exact ⟨fun j hj => tbit_of_lt_two_pow h1 hj, h2, h3⟩
  · rintro ⟨h1, h2, h3⟩
    exact ⟨lt_two_pow_of_tbit h1, h2, h3⟩

theorem pteOk_zero (o : Int) : PteOk { frame := 0, swap_off := o } := by
  unfold PteOk
  simp

theorem allPteOk_init (w : World) : AllPteOk (init w) := by
  intro q
  unfold init
  cases w.policy <;> exact pteOk_zero _

theorem walk_pagetable_allPteOk {w : World} {s t : State} {va : Nat}
    (h : walk_pagetable w s va = .ok t) (hs : AllPteOk s) : AllPteOk t := by
  unfold walk_pagetable at h
  split at h
  · split at h
    · obtain ⟨⟨e, s1⟩, h1, h2⟩ := bind_ok h
      simp only [Except.ok.injEq] at h2
      subst h2
      unfold init_second_level at h1
      split at h1
      · simp only [Except.ok.injEq, Prod.mk.injEq] at h1
        obtain ⟨-, rfl⟩ := h1
        intro q
        simp only [State.pte, State.emit]
        split
        · exact pteOk_zero _
        · exact hs q
      · simp at h1
    · simp only [Except.ok.injEq] at h
      subst h
      exact hs
  · simp at h

theorem pteOk_clear_ref {e : pgtbl_entry_t} (h : PteOk e) (o : Int) :
    PteOk { frame := e.frame &&& bnot32 PG_REF, swap_off := o } := by
  rw [pteOk_iff] at h ⊢
  obtain ⟨h1, h2, h3⟩ := h
  refine ⟨fun j hj => ?_, ?_, ?_⟩
  · simp [tbit_clear_ref, h1 j hj]
  · simpa [tbit_clear_ref] using h2
  · simpa [tbit_clear_ref] using h3

theorem pteOk_or_ref {e : pgtbl_entry_t} (h : PteOk e) (o : Int) :
    PteOk { frame := e.frame ||| PG_REF, swap_off := o } := by
  rw [pteOk_iff] at h ⊢
  obtain ⟨h1, h2, h3⟩ := h
  refine ⟨fun j hj => ?_, ?_, ?_⟩
  · have : ¬ 2 = j := by omega
    simp [tbit_or_ref, h1 j hj, this]
  · simpa [tbit_or_ref] using h2
  · simpa [tbit_or_ref] using h3

theorem clock_clear_allPteOk (w : World) (s : State) (p : PtePtr) (hs : AllPteOk s) :
    AllPteOk (clock_clear w s p) := by
  intro q
  unfold clock_clear
  rw [pte_set_frame]
  split
  · exact pteOk_clear_ref (hs p) _
  · exact hs q

theorem clock_loop_allPteOk {w : World} (n : Nat) : ∀ {s t : State} {f : Nat},
    clock_loop w n s = .ok (f, t) → AllPteOk s → AllPteOk t := by
  induction n with
  | zero => intro s t f h; simp [clock_loop] at h
  | succ n ih =>
    intro s t f h hs
    simp only [clock_loop] at h
    split at h
    · simp at h
    · split at h
      · simp at h
      · rename_i p hp
        split at h
        · exact ih h (clock_clear_allPteOk w s p hs)
        · simp only [Except.ok.injEq, Prod.mk.injEq] at h
          obtain ⟨-, rfl⟩ := h
          exact hs

theorem evict_fcn_allPteOk {w : World} {s t : State} {f : Nat}
    (h : evict_fcn w s = .ok (f, t)) (hs : AllPteOk s) : AllPteOk t := by
  unfold evict_fcn at h
  split at h
  · intro q
    have := (lru_evict_lru_only h).2.2.1
    unfold State.pte
    rw [this]
    exact hs q
  · exact clock_loop_allPteOk _ h hs

theorem pteOk_evicted (x : Nat) (o : Int) :
    PteOk { frame := (x &&& bnot32 PG_DIRTY) &&& bnot32 PG_VALID, swap_off := o } := by
  rw [pteOk_iff]
  refine ⟨fun j hj => ?_, ?_, ?_⟩
  · have : ¬ j < 32 := by omega
    simp [tbit_clear_valid, this]
  · simp [tbit_clear_valid]
  · simp [tbit_clear_valid, tbit_clear_dirty]

theorem pteOk_accessed (x : Nat) (o : Int) :
    PteOk { frame := ((x ||| PG_VALID) ||| PG_REF) &&& bnot32 PG_ONSWAP, swap_off := o } := by
  rw [pteOk_iff]
  refine ⟨fun j hj => ?_, ?_, ?_⟩
  · have : ¬ j < 32 := by omega
    simp [tbit_clear_onswap, this]
  · simp [tbit_clear_onswap]
  · simp [tbit_clear_onswap, tbit_or_ref, tbit_or_valid]

theorem write_back_pte_other {w : World} {s t : State} {f : Nat} {v q : PtePtr}
    (h : write_back w s f v = .ok t) (hq : q ≠ v) : t.pte q = s.pte q := by
  unfold write_back at h
  repeat' split at h
  all_goals first
    | (simp at h; done)
    | (simp only [Except.ok.injEq] at h; subst h
       simp [State.pte, State.set_frame, State.set_pte, State.emit, ← ptr_eq_iff, hq])

theorem evict_victim_allPteOk {w : World} {s t : State} {f : Nat}
    (h : evict_victim w s f = .ok t) (hs : AllPteOk s) : AllPteOk t := by
  unfold evict_victim at h
  split at h
  · split at h
    · simp at h
    · rename_i v hv
      obtain ⟨s1, h1, h2⟩ := bind_ok h
      simp only [Except.ok.injEq] at h2
      subst h2
      intro q
      unfold clear_victim
      simp only [pte_set_frame]
      by_cases hq : q = v
      · simp only [hq, if_true]
        exact pteOk_evicted _ _
      · simp only [hq, if_false]
        rw [write_back_pte_other h1 hq]
        exact hs q
  · simp at h

theorem allocate_frame_allPteOk {w : World} {s t : State} {p : PtePtr} {f : Nat}
    (h : allocate_frame w s p = .ok (f, t)) (hs : AllPteOk s) : AllPteOk t := by
  unfold allocate_frame at h
  split at h
  · simp only [Except.ok.injEq, Prod.mk.injEq] at h
    obtain ⟨-, rfl⟩ := h
    exact hs
  · obtain ⟨⟨fr, s1⟩, h1, h2⟩ := bind_ok h
    obtain ⟨s2, h3, h4⟩ := bind_ok h2
    simp only [Except.ok.injEq, Prod.mk.injEq] at h4
    obtain ⟨-, rfl⟩ := h4
    have := evict_victim_allPteOk h3 (evict_fcn_allPteOk h1 hs)
    exact this

theorem fill_frame_pte_other {w : World} {s t : State} {p q : PtePtr} {f va : Nat}
    (h : fill_frame w s p f va = .ok t) (hq : q ≠ p) : t.pte q = s.pte q := by
  unfold fill_frame at h
  repeat' split at h
  all_goals first
    | (simp at h; done)
    | (simp only [Except.ok.injEq] at h; subst h
       simp [State.pte, State.set_frame, State.set_pte, State.emit, init_frame,
         ← ptr_eq_iff, hq])

theorem handle_fault_pte_other_ok {w : World} {s t : State} {p : PtePtr} {va : Nat}
    (h : handle_fault w s p va = .ok t) (hs : AllPteOk s) :
    ∀ q, q ≠ p → PteOk (t.pte q) := by
  unfold handle_fault at h
  obtain ⟨⟨f, sa⟩, h1, h2⟩ := bind_ok h
  obtain ⟨sd, h3, h4⟩ := bind_ok h2
  simp only [Except.ok.injEq] at h4
  subst h4
  intro q hq
  have := allocate_frame_allPteOk h1 hs q
  rw [← fill_frame_pte_other h3 hq] at this
  exact this

theorem mark_access_pte (s : State) (p q : PtePtr) (ty : Char) :
    (mark_access s p ty).pte q =
      if q = p then
        { frame := ((((if ty = 'M' ∨ ty = 'S' then (s.pte p).frame ||| PG_DIRTY
            else (s.pte p).frame) ||| PG_VALID) ||| PG_REF) &&& bnot32 PG_ONSWAP),
          swap_off := (s.pte p).swap_off }
      else s.pte q := by
  unfold mark_access
  by_cases hq : q = p
  · subst hq
    by_cases hty : ty = 'M' ∨ ty = 'S' <;> simp [hty, pte_set_frame]
  · by_cases hty : ty = 'M' ∨ ty = 'S' <;> simp [hty, pte_set_frame, hq]

theorem mark_access_allPteOk (s : State) (p : PtePtr) (ty : Char)
    (hs : ∀ q, q ≠ p → PteOk (s.pte q)) : AllPteOk (mark_access s p ty) := by
  intro q
  rw [mark_access_pte]
  split
  · exact pteOk_accessed _ _
  · rename_i hq
    exact hs q hq

theorem ref_fcn_allPteOk {w : World} {s t : State} {p : PtePtr}
    (h : ref_fcn w s p = .ok t) (hs : AllPteOk s) : AllPteOk t := by
  unfold ref_fcn at h
  split at h
  · intro q
    have := (lru_ref_lru_only h).2.2.1
    unfold State.pte
    rw [this]
    exact hs q
  · simp only [Except.ok.injEq] at h
    subst h
    intro q
    unfold clock_ref
    rw [pte_set_frame]
    split
    · exact pteOk_or_ref (hs p) _
    · exact hs q

theorem find_physpage_allPteOk {w : World} {s t : State} {va : Nat} {ty : Char} {r : Nat}
    (h : find_physpage w s va ty = .ok (r, t)) (hs : AllPteOk s) : AllPteOk t := by
  unfold find_physpage at h
  obtain ⟨s1, h1, h2⟩ := bind_ok h
  obtain ⟨s2, h3, h4⟩ := bind_ok h2
  obtain ⟨s3, h5, h6⟩ := bind_ok h4
  simp only [Except.ok.injEq, Prod.mk.injEq] at h6
  obtain ⟨-, rfl⟩ := h6
  have a1 := walk_pagetable_allPteOk h1 hs
  have a2 : ∀ q, q ≠ pte_ptr s1 va → PteOk (s2.pte q) := by
    unfold hit_or_fault at h3
    split at h3
    · exact handle_fault_pte_other_ok h3 a1
    · simp only [Except.ok.injEq] at h3
      subst h3
      intro q _
      exact a1 q
  have a3 := ref_fcn_allPteOk h5 (mark_access_allPteOk s2 _ ty a2)
  exact a3

theorem run_allPteOk {w : World} (tr : List (Nat × Char)) : ∀ {s t : State},
    run w s tr = .ok t → AllPteOk s → AllPteOk t := by
  induction tr with
  | nil => intro s t h hs; simp only [run, Except.ok.injEq] at h; subst h; exact hs
  | cons a tr ih =>
    intro s t h hs
    obtain ⟨r, s1, h1, h2⟩ := run_cons_ok h
    exact ih h2 (find_physpage_allPteOk h1 hs)

theorem reachable_allPteOk {w : World} {tr : List (Nat × Char)} {s : State}
    (h : run w (init w) tr = .ok s) : AllPteOk s :=
  run_allPteOk tr h (allPteOk_init w)

/-! ## The directory walk and the reference hook -/

theorem PGTBL_INDEX_lt (va : Nat) : PGTBL_INDEX va < PTRS_PER_PGTBL := by
  unfold PGTBL_INDEX PTRS_PER_PGTBL
  exact Nat.lt_succ_of_le Nat.and_le_right

/-- The leaf-table pointer is recovered from the directory entry `pgtbl | PG_VALID`. -/
theorem tbl_addr_mask (k : Nat) (h : tbl_addr (k + 1) ≤ 2 ^ 64) :
    (tbl_addr k ||| PG_VALID) &&& PAGE_MASK = tbl_addr k := by
  have hk : (k + 1) * 16 < 2 ^ 52 := by
    unfold tbl_addr PTRS_PER_PGTBL at h
    omega
  have e1 : tbl_addr k = ((k + 1) * 16) <<< 12 := by
    unfold tbl_addr PTRS_PER_PGTBL
    rw [Nat.shiftLeft_eq]
    omega
  have e2 : PAGE_MASK = (2 ^ 52 - 1) <<< 12 := by decide
  have e3 : PG_VALID = 2 ^ 0 := rfl
  rw [e1, e2, e3]
  apply Nat.eq_of_testBit_eq
  intro j
  simp only [Nat.testBit_and, Nat.testBit_or, Nat.testBit_shiftLeft, Nat.testBit_two_pow,
    Nat.testBit_two_pow_sub_one]
  by_cases hj : 12 ≤ j
  · by_cases hj2 : j - 12 < 52
    · have : ¬ 0 = j := by omega
      simp [hj, hj2, this]
    · have : ((k + 1) * 16).testBit (j - 12) = false :=
        Nat.testBit_lt_two_pow (Nat.lt_of_lt_of_le hk
          (Nat.pow_le_pow_right (by decide) (by omega)))
      simp [hj, hj2, this]
  · simp [hj]

theorem tbl_addr_valid (k : Nat) : (tbl_addr k ||| PG_VALID) &&& PG_VALID ≠ 0 := by
  simp [valid_eq_zero_iff, tbit_or_valid]

/-- When the directory walk allocates a leaf table, the PTE it leads to is the fresh entry
`frame = 0`, `swap_off = INVALID_SWAP`. -/
theorem walk_pagetable_fresh {w : World} {s t : State} {va : Nat}
    (h : walk_pagetable w s va = .ok t)
    (hd : s.pgdir (PGDIR_INDEX va) &&& PG_VALID = 0) :
    t.pte (pte_ptr t va) = { frame := 0, swap_off := INVALID_SWAP } := by
  unfold walk_pagetable at h
  split at h
  · simp only [hd, if_true] at h
    obtain ⟨⟨e, s1⟩, h1, h2⟩ := bind_ok h
    simp only [Except.ok.injEq] at h2
    subst h2
    unfold init_second_level at h1
    split at h1
    · rename_i hok
      simp only [Except.ok.injEq, Prod.mk.injEq] at h1
      obtain ⟨rfl, rfl⟩ := h1
      simp only [State.pte, pte_ptr, State.emit, if_true, tbl_addr_mask _ hok.2,
        PGTBL_INDEX_lt, and_self]
    · simp at h1
  · simp at h

/-- When the directory entry is already valid the walk changes nothing. -/
theorem walk_pagetable_valid {w : World} {s t : State} {va : Nat}
    (h : walk_pagetable w s va = .ok t)
    (hd : s.pgdir (PGDIR_INDEX va) &&& PG_VALID ≠ 0) : t = s := by
  unfold walk_pagetable at h
  split at h
  · simp only [hd, if_false, Except.ok.injEq] at h
    exact h.symm
  · simp at h

/-- A PTE found VALID by the walk was reached through a valid directory entry. -/
theorem walk_pagetable_hit {w : World} {s t : State} {va : Nat}
    (h : walk_pagetable w s va = .ok t)
    (hv : (t.pte (pte_ptr t va)).frame &&& PG_VALID ≠ 0) : t = s := by
  by_cases hd : s.pgdir (PGDIR_INDEX va) &&& PG_VALID = 0
  · rw [walk_pagetable_fresh h hd] at hv
    simp at hv
  · exact walk_pagetable_valid h hd

theorem or_ref_eq_self {x : Nat} (h : x &&& PG_REF ≠ 0) : x ||| PG_REF = x := by
  apply eq_of_tbit_eq
  intro j
  rw [tbit_or_ref]
  by_cases hj : 2 = j
  · subst hj
    simp only [ne_eq, ref_eq_zero_iff, Bool.not_eq_false] at h
    simp [h]
  · simp [hj]

/-- The reference hook leaves everything outside the LRU structure alone when the
REFERENCED bit of the PTE is already set (as it is when `find_physpage` calls it). -/
theorem ref_fcn_lru_only {w : World} {s t : State} {p : PtePtr}
    (h : ref_fcn w s p = .ok t) (hr : (s.pte p).frame &&& PG_REF ≠ 0) : LruOnly s t := by
  unfold ref_fcn at h
  split at h
  · exact lru_ref_lru_only h
  · simp only [Except.ok.injEq] at h
    subst h
    refine ⟨rfl, rfl, ?_, rfl, rfl, ⟨rfl, rfl, rfl, rfl, rfl⟩, rfl⟩
    funext a i
    have := pte_set_frame s p ⟨a, i⟩ ((s.pte p).frame ||| PG_REF)
    unfold clock_ref
    show ((s.set_frame p ((s.pte p).frame ||| PG_REF)).pte ⟨a, i⟩) = s.pte ⟨a, i⟩
    rw [this, or_ref_eq_self hr]
    split
    · rename_i hq
      rw [hq]
    · rfl

theorem mark_access_ref (s : State) (p : PtePtr) (ty : Char) :
    ((mark_access s p ty).pte p).frame &&& PG_REF ≠ 0 := by
  rw [mark_access_pte]
  simp [ref_eq_zero_iff, tbit_clear_onswap, tbit_or_ref]

/-! ## C6: a hit changes only REFERENCED and DIRTY -/

theorem mark_access_pgtbls_congr {s u : State} (h : s.pgtbls = u.pgtbls) (p : PtePtr)
    (ty : Char) : (mark_access s p ty).pgtbls = (mark_access u p ty).pgtbls := by
  unfold mark_access
  split <;> simp [State.set_frame, State.set_pte, State.pte, h]

/-- State produced by `find_physpage` on a hit, up to the LRU structure: the status bits of
the accessed PTE are updated, one hit and one reference are counted. -/
theorem find_physpage_hit {w : World} {s t : State} {va : Nat} {ty : Char} {r : Nat}
    (hd : walk_pagetable w s va = .ok s)
    (hv : (s.pte (pte_ptr s va)).frame &&& PG_VALID ≠ 0)
    (h : find_physpage w s va ty = .ok (r, t)) :
    t.pgtbls = (mark_access s (pte_ptr s va) ty).pgtbls ∧ t.coremap = s.coremap ∧
    t.log = s.log ∧ t.pgdir = s.pgdir ∧ t.physmem = s.physmem ∧
    t.hit_count = s.hit_count + 1 ∧ t.miss_count = s.miss_count ∧
    t.ref_count = s.ref_count + 1 ∧ t.evict_clean_count = s.evict_clean_count ∧
    t.evict_dirty_count = s.evict_dirty_count := by
  unfold find_physpage at h
  rw [hd] at h
  simp only [Except.bind, hit_or_fault, hv, if_false] at h
  obtain ⟨s3, h5, h6⟩ := bind_ok h
  simp only [Except.ok.injEq, Prod.mk.injEq] at h6
  obtain ⟨-, rfl⟩ := h6
  obtain ⟨l1, l2, l3, l4, l5, ⟨c1, c2, c3, c4, c5⟩, l7⟩ :=
    ref_fcn_lru_only h5 (mark_access_ref _ _ _)
  have hm := mark_access_counters { s with hit_count := s.hit_count + 1 } (pte_ptr s va) ty
  obtain ⟨m1, m2, m3, m4, m5⟩ := hm
  have hp : (mark_access { s with hit_count := s.hit_count + 1 } (pte_ptr s va) ty).pgtbls =
      (mark_access s (pte_ptr s va) ty).pgtbls :=
    mark_access_pgtbls_congr (s := { s with hit_count := s.hit_count + 1 }) (u := s) rfl _ _
  refine ⟨l3.trans hp, ?_, ?_, ?_, ?_, c1.trans m1,
    c2.trans m2, ?_, c4.trans m4, c5.trans m5⟩
  · rw [l4]; unfold mark_access; split <;> rfl
  · rw [l7]; unfold mark_access; split <;> rfl
  · rw [l1]; unfold mark_access; split <;> rfl
  · rw [l5]; unfold mark_access; split <;> rfl
  · show s3.ref_count + 1 = _
    rw [c3, m3]


/-- C6: in a state reached from the initial state, an access whose PTE (found by the
directory walk) is already VALID is a hit: no leaf table is allocated, the PTE stays VALID
with ON_SWAP clear (as it was), its frame index and `swap_off` are unchanged, REFERENCED is
set, DIRTY is set for type 'S' or 'M' and keeps its value for the other types, no other bit
of the PTE and no other PTE changes, `allocate_frame` is not called, and the coremap, the
log of swap activity and the miss and eviction counters are unchanged. -/
theorem hit_changes_only_ref_dirty (w : World) (tr : List (Nat × Char)) (s s1 t : State)
    (va : Nat) (ty : Char) (r : Nat)
    (hreach : run w (init w) tr = .ok s)
    (hw : walk_pagetable w s va = .ok s1)
    (hv : (s1.pte (pte_ptr s1 va)).frame &&& PG_VALID ≠ 0)
    (hf : find_physpage w s va ty = .ok (r, t)) :
    s1 = s ∧
    (t.pte (pte_ptr s va)).frame &&& PG_VALID ≠ 0 ∧
    (s.pte (pte_ptr s va)).frame &&& PG_ONSWAP = 0 ∧
    (t.pte (pte_ptr s va)).frame &&& PG_ONSWAP = 0 ∧
    (t.pte (pte_ptr s va)).frame >>> PAGE_SHIFT =
      (s.pte (pte_ptr s va)).frame >>> PAGE_SHIFT ∧
    (t.pte (pte_ptr s va)).swap_off = (s.pte (pte_ptr s va)).swap_off ∧
    (t.pte (pte_ptr s va)).frame &&& PG_REF ≠ 0 ∧
    ((ty = 'S' ∨ ty = 'M') → (t.pte (pte_ptr s va)).frame &&& PG_DIRTY ≠ 0) ∧
    (¬ (ty = 'S' ∨ ty = 'M') →
      ((t.pte (pte_ptr s va)).frame &&& PG_DIRTY ≠ 0 ↔
        (s.pte (pte_ptr s va)).frame &&& PG_DIRTY ≠ 0)) ∧
    (∀ j, j ≠ 1 → j ≠ 2 →
      tbit (t.pte (pte_ptr s va)).frame j = tbit (s.pte (pte_ptr s va)).frame j) ∧
    (∀ q, q ≠ pte_ptr s va → t.pte q = s.pte q) ∧
    alloc_call w s va = none ∧
    t.coremap = s.coremap ∧ t.log = s.log ∧ t.miss_count = s.miss_count ∧
    t.evict_clean_count = s.evict_clean_count ∧
    t.evict_dirty_count = s.evict_dirty_count := by
  have e1 : s1 = s := walk_pagetable_hit hw hv
  subst e1
  obtain ⟨g1, g2, g3, -, -, -, g7, -, g9, g10⟩ := find_physpage_hit hw hv hf
  have hpte : ∀ q, t.pte q = (mark_access s1 (pte_ptr s1 va) ty).pte q := by
    intro q; unfold State.pte; rw [g1]
  have hok := (pteOk_iff _).1 (reachable_allPteOk hreach (pte_ptr s1 va))
  obtain ⟨k1, k2, k3⟩ := hok
  have hv0 : tbit (s1.pte (pte_ptr s1 va)).frame 0 = true := by
    simpa [valid_eq_zero_iff] using hv
  have hs3 : tbit (s1.pte (pte_ptr s1 va)).frame 3 = false := by
    simpa [hv0] using k2
  have hbits : ∀ j, tbit (t.pte (pte_ptr s1 va)).frame j =
      ((tbit (s1.pte (pte_ptr s1 va)).frame j ||
        (decide (ty = 'M' ∨ ty = 'S') && decide (1 = j)) || decide (2 = j))) := by
    intro j
    rw [hpte, mark_access_pte]
    simp only [if_true]
    by_cases hj : j < 32
    · by_cases h3 : 3 = j
      · subst h3
        by_cases hty : ty = 'M' ∨ ty = 'S' <;>
          simp [hty, tbit_clear_onswap, tbit_or_ref, tbit_or_valid, tbit_or_dirty, hs3]
      · by_cases h0 : 0 = j
        · subst h0
          by_cases hty : ty = 'M' ∨ ty = 'S' <;>
            simp [hty, tbit_clear_onswap, tbit_or_ref, tbit_or_valid, tbit_or_dirty, hv0]
        · by_cases hty : ty = 'M' ∨ ty = 'S' <;>
            simp [hty, tbit_clear_onswap, tbit_or_ref, tbit_or_valid, tbit_or_dirty, hj,
              h3, h0]
    · have h32 := k1 j (by omega)
      have a1 : ¬ 1 = j := by omega
      have a2 : ¬ 2 = j := by omega
      by_cases hty : ty = 'M' ∨ ty = 'S' <;>
        simp [hty, tbit_clear_onswap, tbit_or_ref, tbit_or_valid, tbit_or_dirty, hj, h32,
          a1, a2]
  refine ⟨rfl, ?_, ?_, ?_, ?_, ?_, ?_, ?_, ?_, ?_, ?_, ?_, g2, g3, g7, g9, g10⟩
  · simp [valid_eq_zero_iff, hbits, hv0]
  · simp [onswap_eq_zero_iff, hs3]
  · simp [onswap_eq_zero_iff, hbits, hs3]
  · apply eq_of_tbit_eq
    intro j
    have a1 : ¬ 1 = PAGE_SHIFT + j := by unfold PAGE_SHIFT; omega
    have a2 : ¬ 2 = PAGE_SHIFT + j := by unfold PAGE_SHIFT; omega
    simp [tbit_shift, hbits, a1, a2]
  · rw [hpte, mark_access_pte]
    simp
  · simp [ref_eq_zero_iff, hbits]
  · intro hty
    have : ty = 'M' ∨ ty = 'S' := hty.symm
    simp [dirty_eq_zero_iff, hbits, this]
  · intro hty
    have : ¬ (ty = 'M' ∨ ty = 'S') := fun h => hty h.symm
    simp [dirty_eq_zero_iff, hbits, this]
  · intro j j1 j2
    have a1 : ¬ 1 = j := fun h => j1 h.symm
    have a2 : ¬ 2 = j := fun h => j2 h.symm
    simp [hbits, a1, a2]
  · intro q hq
    rw [hpte, mark_access_pte]
    simp [hq]
  · unfold alloc_call
    rw [hw]
    simp [hv]

theorem hit_changes_only_ref_dirty_witness :
    run (demo_world 2 .lru 4) (init (demo_world 2 .lru 4)) [(4096, 'S')] =
      .ok (state_after (demo_world 2 .lru 4) [(4096, 'S')]) ∧
    ((state_after (demo_world 2 .lru 4) [(4096, 'S')]).pte
      (pte_ptr (state_after (demo_world 2 .lru 4) [(4096, 'S')]) 4100)).frame
        &&& PG_VALID ≠ 0 ∧
    find_physpage (demo_world 2 .lru 4) (state_after (demo_world 2 .lru 4) [(4096, 'S')])
        4100 'L' =
      .ok (result_of (find_physpage (demo_world 2 .lru 4)
        (state_after (demo_world 2 .lru 4) [(4096, 'S')]) 4100 'L') (init (demo_world 2 .lru 4))) ∧
    (result_of (find_physpage (demo_world 2 .lru 4)
        (state_after (demo_world 2 .lru 4) [(4096, 'S')]) 4100 'L')
        (init (demo_world 2 .lru 4))).2.coremap =
      (state_after (demo_world 2 .lru 4) [(4096, 'S')]).coremap :=
  ⟨rfl, by decide, rfl,
    (hit_changes_only_ref_dirty (demo_world 2 .lru 4) [(4096, 'S')]
      (state_after (demo_world 2 .lru 4) [(4096, 'S')])
      (state_after (demo_world 2 .lru 4) [(4096, 'S')])
      (result_of (find_physpage (demo_world 2 .lru 4)
        (state_after (demo_world 2 .lru 4) [(4096, 'S')]) 4100 'L')
        (init (demo_world 2 .lru 4))).2
      4100 'L'
      (result_of (find_physpage (demo_world 2 .lru 4)
        (state_after (demo_world 2 .lru 4) [(4096, 'S')]) 4100 'L')
        (init (demo_world 2 .lru 4))).1
      rfl rfl (by decide) rfl).2.2.2.2.2.2.2.2.2.2.2.2.1⟩

/-! ## Faults -/

/-- Decomposition of `find_physpage` on a fault: the frame comes from `allocate_frame`, is
filled by `fill_frame`, then the status bits are updated; up to the LRU structure the final
state is the one after these three steps with one miss and one reference counted. -/
theorem find_physpage_fault {w : World} {s s1 t : State} {va : Nat} {ty : Char} {r : Nat}
    (hw : walk_pagetable w s va = .ok s1)
    (hv : (s1.pte (pte_ptr s1 va)).frame &&& PG_VALID = 0)
    (h : find_physpage w s va ty = .ok (r, t)) :
    ∃ f sa sd, allocate_frame w s1 (pte_ptr s1 va) = .ok (f, sa) ∧
      fill_frame w sa (pte_ptr s1 va) f va = .ok sd ∧
      t.pgtbls = (mark_access sd (pte_ptr s1 va) ty).pgtbls ∧
      t.coremap = sd.coremap ∧ t.log = sd.log ∧ t.pgdir = sd.pgdir ∧
      t.physmem = sd.physmem ∧
      t.hit_count = sd.hit_count ∧ t.miss_count = sd.miss_count + 1 ∧
      t.ref_count = sd.ref_count + 1 ∧ t.evict_clean_count = sd.evict_clean_count ∧
      t.evict_dirty_count = sd.evict_dirty_count ∧
      r = ((t.pte (pte_ptr s1 va)).frame >>> PAGE_SHIFT) * w.SIMPAGESIZE := by
  unfold find_physpage at h
  rw [hw] at h
  simp only [Except.bind, hit_or_fault, hv, if_true] at h
  obtain ⟨s2, h3, h4⟩ := bind_ok h
  obtain ⟨s3, h5, h6⟩ := bind_ok h4
  simp only [Except.ok.injEq, Prod.mk.injEq] at h6
  obtain ⟨hr, rfl⟩ := h6
  unfold handle_fault at h3
  obtain ⟨⟨f, sa⟩, h7, h8⟩ := bind_ok h3
  obtain ⟨sd, h9, h10⟩ := bind_ok h8
  simp only [Except.ok.injEq] at h10
  subst h10
  obtain ⟨l1, l2, l3, l4, l5, ⟨c1, c2, c3, c4, c5⟩, l7⟩ :=
    ref_fcn_lru_only h5 (mark_access_ref _ _ _)
  obtain ⟨m1, m2, m3, m4, m5⟩ :=
    mark_access_counters { sd with miss_count := sd.miss_count + 1 } (pte_ptr s1 va) ty
  have hp : (mark_access { sd with miss_count := sd.miss_count + 1 } (pte_ptr s1 va) ty).pgtbls
      = (mark_access sd (pte_ptr s1 va) ty).pgtbls :=
    mark_access_pgtbls_congr (s := { sd with miss_count := sd.miss_count + 1 }) (u := sd)
      rfl _ _
  refine ⟨f, sa, sd, h7, h9, l3.trans hp, ?_, ?_, ?_, ?_, c1.trans m1, c2.trans m2, ?_,
    c4.trans m4, c5.trans m5, hr.symm⟩
  · rw [l4]; unfold mark_access; split <;> rfl
  · rw [l7]; unfold mark_access; split <;> rfl
  · rw [l1]; unfold mark_access; split <;> rfl
  · rw [l5]; unfold mark_access; split <;> rfl
  · show s3.ref_count + 1 = _
    rw [c3, m3]

/-- The clock loop changes no `swap_off` and, in every PTE, no bit below 32 other than
REFERENCED. -/
theorem clock_loop_pte {w : World} (n : Nat) : ∀ {s t : State} {f : Nat},
    clock_loop w n s = .ok (f, t) → ∀ q, (t.pte q).swap_off = (s.pte q).swap_off ∧
      ∀ j, j < 32 → j ≠ 2 → tbit (t.pte q).frame j = tbit (s.pte q).frame j := by
  induction n with
  | zero => intro s t f h; simp [clock_loop] at h
  | succ n ih =>
    intro s t f h q
    simp only [clock_loop] at h
    split at h
    · simp at h
    · split at h
      · simp at h
      · rename_i p hp
        split at h
        · obtain ⟨i1, i2⟩ := ih h q
          rw [pte_set_frame] at i1 i2
          by_cases hq : q = p
          · subst hq
            simp only [if_true] at i1 i2
            refine ⟨i1, fun j hj hj2 => ?_⟩
            rw [i2 j hj hj2, tbit_clear_ref]
            have : ¬ 2 = j := fun h => hj2 h.symm
            simp [hj, this]
            rfl
          · simp only [hq, if_false] at i1 i2
            exact ⟨i1, i2⟩
        · simp only [Except.ok.injEq, Prod.mk.injEq] at h
          obtain ⟨-, rfl⟩ := h
          exact ⟨rfl, fun _ _ _ => rfl⟩

theorem evict_fcn_pte {w : World} {s t : State} {f : Nat}
    (h : evict_fcn w s = .ok (f, t)) : ∀ q, (t.pte q).swap_off = (s.pte q).swap_off ∧
      ∀ j, j < 32 → j ≠ 2 → tbit (t.pte q).frame j = tbit (s.pte q).frame j := by
  unfold evict_fcn at h
  split at h
  · intro q
    have := (lru_evict_lru_only h).2.2.1
    unfold State.pte
    rw [this]
    exact ⟨rfl, fun _ _ _ => rfl⟩
  · exact clock_loop_pte _ h

theorem and_bnot32_eq_self {x k : Nat} (hx : x < 2 ^ 32) (hk : k < 32)
    (hb : tbit x k = false) : x &&& bnot32 (2 ^ k) = x := by
  apply eq_of_tbit_eq
  intro j
  rw [tbit_and_bnot32 x k j hk]
  by_cases hj : j < 32
  · by_cases hkj : k = j
    · subst hkj; simp [hb]
    · simp [hj, hkj]
  · simp [hj, tbit_of_lt_two_pow hx (by omega : 32 ≤ j)]

/-- Eviction does not touch a well-formed PTE that is not VALID. -/
theorem evict_victim_pte_invalid {w : World} {s t : State} {f : Nat} {p : PtePtr}
    (h : evict_victim w s f = .ok t) (hok : PteOk (s.pte p))
    (hv : (s.pte p).frame &&& PG_VALID = 0) : t.pte p = s.pte p := by
  have hd : (s.pte p).frame &&& PG_DIRTY = 0 := by
    by_contra hd
    exact hok.2.2 hd hv
  unfold evict_victim at h
  split at h
  · split at h
    · simp at h
    · rename_i v hvp
      obtain ⟨s1, h1, h2⟩ := bind_ok h
      simp only [Except.ok.injEq] at h2
      subst h2
      by_cases hpv : p = v
      · subst hpv
        unfold write_back at h1
        simp only [hd, ne_eq, not_true_eq_false, if_false, Except.ok.injEq] at h1
        subst h1
        unfold clear_victim
        simp only [pte_set_frame, if_true]
        have e0 : ({ s with evict_clean_count := s.evict_clean_count + 1 } : State).pte p
            = s.pte p := rfl
        rw [e0]
        have b1 : tbit (s.pte p).frame 1 = false := (dirty_eq_zero_iff _).1 hd
        have b0 : tbit (s.pte p).frame 0 = false := (valid_eq_zero_iff _).1 hv
        have r1 : (s.pte p).frame &&& bnot32 PG_DIRTY = (s.pte p).frame :=
          and_bnot32_eq_self (k := 1) hok.1 (by decide) b1
        have r0 : (s.pte p).frame &&& bnot32 PG_VALID = (s.pte p).frame :=
          and_bnot32_eq_self (k := 0) hok.1 (by decide) b0
        rw [r1, r0]
      · unfold clear_victim
        simp only [pte_set_frame, hpv, if_false]
        exact write_back_pte_other h1 hpv
  · simp at h

/-- `allocate_frame` leaves the `swap_off` of a PTE that is not VALID alone, and all its
bits except possibly REFERENCED (which the clock policy may clear). -/
theorem allocate_frame_pte_invalid {w : World} {s t : State} {p q : PtePtr} {f : Nat}
    (h : allocate_frame w s p = .ok (f, t)) (hs : AllPteOk s)
    (hv : (s.pte q).frame &&& PG_VALID = 0) :
    (t.pte q).swap_off = (s.pte q).swap_off ∧
    ∀ j, j < 32 → j ≠ 2 → tbit (t.pte q).frame j = tbit (s.pte q).frame j := by
  unfold allocate_frame at h
  split at h
  · simp only [Except.ok.injEq, Prod.mk.injEq] at h
    obtain ⟨-, rfl⟩ := h
    exact ⟨rfl, fun _ _ _ => rfl⟩
  · obtain ⟨⟨fr, s1⟩, h1, h2⟩ := bind_ok h
    obtain ⟨s2, h3, h4⟩ := bind_ok h2
    simp only [Except.ok.injEq, Prod.mk.injEq] at h4
    obtain ⟨-, rfl⟩ := h4
    obtain ⟨e1, e2⟩ := evict_fcn_pte h1 q
    have hv1 : (s1.pte q).frame &&& PG_VALID = 0 := by
      rw [valid_eq_zero_iff] at hv ⊢
      rw [e2 0 (by decide) (by decide)]
      exact hv
    have e3 := evict_victim_pte_invalid h3 (evict_fcn_allPteOk h1 hs q) hv1
    have e4 : (s2.set_coremap fr p).pte q = s2.pte q := rfl
    rw [e4, e3]
    exact ⟨e1, e2⟩

theorem tbit_shiftLeft (f j : Nat) :
    tbit (f <<< PAGE_SHIFT) j = (decide (PAGE_SHIFT ≤ j) && f.testBit (j - PAGE_SHIFT)) := by
  unfold tbit
  rw [Nat.testBit_shiftLeft]

/-- The packed value written by a swap-in followed by the status-bit updates of a Load. -/
theorem swapped_in_value (f : Nat) (hf : f < 2 ^ 19) :
    (((f <<< PAGE_SHIFT) ||| PG_VALID) ||| PG_REF) &&& bnot32 PG_ONSWAP =
      ((f <<< PAGE_SHIFT) ||| PG_VALID) ||| PG_REF := by
  apply and_bnot32_eq_self (k := 3) _ (by decide)
  · simp only [tbit_or_ref, tbit_or_valid, tbit_shiftLeft]
    simp [PAGE_SHIFT]
  · apply lt_two_pow_of_tbit
    intro j hj
    have a1 : ¬ 2 = j := by omega
    have a2 : ¬ 0 = j := by omega
    have a3 : f.testBit (j - 12) = false :=
      Nat.testBit_lt_two_pow (Nat.lt_of_lt_of_le hf
        (Nat.pow_le_pow_right (by decide) (by omega)))
    simp only [tbit_or_ref, tbit_or_valid, tbit_shiftLeft]
    simp [PAGE_SHIFT, a1, a2, a3]

theorem frame_of_packed (f x : Nat) (hx : x < 2 ^ PAGE_SHIFT) :
    ((f <<< PAGE_SHIFT) ||| x) >>> PAGE_SHIFT = f := by
  apply Nat.eq_of_testBit_eq
  intro j
  have : x.testBit (PAGE_SHIFT + j) = false :=
    Nat.testBit_lt_two_pow (Nat.lt_of_lt_of_le hx
      (Nat.pow_le_pow_right (by decide) (by omega)))
  simp [Nat.testBit_shiftRight, Nat.testBit_or, Nat.testBit_shiftLeft, this]

/-! ## C7: swap-in on a Load -/

/-- A PTE found ON_SWAP by the walk was reached through a valid directory entry. -/
theorem walk_pagetable_swapped {w : World} {s t : State} {va : Nat}
    (h : walk_pagetable w s va = .ok t)
    (hv : (t.pte (pte_ptr t va)).frame &&& PG_ONSWAP ≠ 0) : t = s := by
  by_cases hd : s.pgdir (PGDIR_INDEX va) &&& PG_VALID = 0
  · rw [walk_pagetable_fresh h hd] at hv
    simp at hv
  · exact walk_pagetable_valid h hd

/-- Effect of `fill_frame` on a PTE that is ON_SWAP: `swap_pagein` is called with the frame
and the stored `swap_off` and returns 0, the frame number fits, and the PTE gets the bare
frame number. -/
theorem fill_frame_swapped {w : World} {s t : State} {p : PtePtr} {f va : Nat}
    (h : fill_frame w s p f va = .ok t) (hsw : (s.pte p).frame &&& PG_ONSWAP ≠ 0) :
    (w.swap_pagein s.log f (s.pte p).swap_off).1 = 0 ∧ f < 2 ^ 19 ∧
    t.log = s.log ++ [Event.pagein f (s.pte p).swap_off 0] ∧
    t.pte p = { frame := f <<< PAGE_SHIFT, swap_off := (s.pte p).swap_off } ∧
    t.coremap = s.coremap := by
  unfold fill_frame at h
  simp only [hsw, if_false] at h
  split at h
  · simp at h
  · rename_i hret
    simp only [ne_eq, not_not] at hret
    split at h
    · rename_i hf
      simp only [Except.ok.injEq] at h
      subst h
      refine ⟨hret, hf, ?_, ?_, rfl⟩
      · simp [State.set_frame, State.set_pte, State.emit, hret]
      · rw [pte_set_frame]
        simp
        rfl
    · simp at h

/-- C7: in a state reached from the initial state, an access of a type other than 'S' and
'M' (a Load) to a page whose PTE is ON_SWAP and not VALID allocates a frame `f`, calls
`swap_pagein` with `f` and the PTE's stored `swap_off` (the call returns 0), and leaves the
PTE with frame index `f`, VALID and REFERENCED set, DIRTY and ON_SWAP clear and `swap_off`
unchanged, counting one miss and no hit.  The packed value is `f << 12 | VALID | REF`
whatever the history of the page. -/
theorem swap_in_on_load (w : World) (tr : List (Nat × Char)) (s s1 t : State)
    (va : Nat) (ty : Char) (r : Nat)
    (hreach : run w (init w) tr = .ok s)
    (hw : walk_pagetable w s va = .ok s1)
    (hsw : (s1.pte (pte_ptr s1 va)).frame &&& PG_ONSWAP ≠ 0)
    (hv : (s1.pte (pte_ptr s1 va)).frame &&& PG_VALID = 0)
    (hty : ¬ (ty = 'S' ∨ ty = 'M'))
    (hf : find_physpage w s va ty = .ok (r, t)) :
    s1 = s ∧
    ∃ f sa, allocate_frame w s (pte_ptr s va) = .ok (f, sa) ∧
      (w.swap_pagein sa.log f (s.pte (pte_ptr s va)).swap_off).1 = 0 ∧
      t.log = sa.log ++ [Event.pagein f (s.pte (pte_ptr s va)).swap_off 0] ∧
      (t.pte (pte_ptr s va)).frame = ((f <<< PAGE_SHIFT) ||| PG_VALID) ||| PG_REF ∧
      (t.pte (pte_ptr s va)).frame >>> PAGE_SHIFT = f ∧
      (t.pte (pte_ptr s va)).frame &&& PG_VALID ≠ 0 ∧
      (t.pte (pte_ptr s va)).frame &&& PG_REF ≠ 0 ∧
      (t.pte (pte_ptr s va)).frame &&& PG_DIRTY = 0 ∧
      (t.pte (pte_ptr s va)).frame &&& PG_ONSWAP = 0 ∧
      (t.pte (pte_ptr s va)).swap_off = (s.pte (pte_ptr s va)).swap_off ∧
      t.miss_count = s.miss_count + 1 ∧ t.hit_count = s.hit_count ∧
      r = f * w.SIMPAGESIZE := by
  have e1 : s1 = s := walk_pagetable_swapped hw hsw
  subst e1
  refine ⟨rfl, ?_⟩
  obtain ⟨f, sa, sd, ha, hfill, g1, -, g3, -, -, g6, g7, -, -, -, g11⟩ :=
    find_physpage_fault hw hv hf
  obtain ⟨a1, a2⟩ := allocate_frame_pte_invalid ha (reachable_allPteOk hreach) hv
  have hsw2 : (sa.pte (pte_ptr s1 va)).frame &&& PG_ONSWAP ≠ 0 := by
    rw [ne_eq, onswap_eq_zero_iff] at hsw ⊢
    rw [a2 3 (by decide) (by decide)]
    exact hsw
  obtain ⟨f1, f2, f3, f4, -⟩ := fill_frame_swapped hfill hsw2
  rw [a1] at f1 f3 f4
  have hty2 : ¬ (ty = 'M' ∨ ty = 'S') := fun h => hty h.symm
  have hpte : t.pte (pte_ptr s1 va) =
      { frame := ((f <<< PAGE_SHIFT) ||| PG_VALID) ||| PG_REF,
        swap_off := (s1.pte (pte_ptr s1 va)).swap_off } := by
    have : t.pte (pte_ptr s1 va) = (mark_access sd (pte_ptr s1 va) ty).pte (pte_ptr s1 va) := by
      unfold State.pte; rw [g1]
    rw [this, mark_access_pte, f4]
    simp only [if_true, hty2, if_false]
    rw [swapped_in_value f f2]
  have hidx : (t.pte (pte_ptr s1 va)).frame >>> PAGE_SHIFT = f := by
    rw [hpte]
    have : (f <<< PAGE_SHIFT ||| PG_VALID) ||| PG_REF = f <<< PAGE_SHIFT ||| 5 := by
      rw [Nat.lor_assoc]; rfl
    show ((f <<< PAGE_SHIFT ||| PG_VALID) ||| PG_REF) >>> PAGE_SHIFT = f
    rw [this]
    exact frame_of_packed f 5 (by decide)
  have hc := fill_frame_counters hfill
  have hac := allocate_frame_counters ha
  have hs : sa.hit_count = s1.hit_count ∧ sa.miss_count = s1.miss_count := by
    by_cases hfree : first_free s1.coremap 0 w.memsize = none
    · have := hac.2 hfree
      exact ⟨this.1, this.2.1⟩
    · have := hac.1 hfree
      exact ⟨this.1, this.2.1⟩
  refine ⟨f, sa, ha, f1, ?_, ?_, hidx, ?_, ?_, ?_, ?_, ?_, ?_, ?_, ?_⟩
  · rw [g3, f3]
  · rw [hpte]
  · rw [hpte]; simp [valid_eq_zero_iff, tbit_or_ref, tbit_or_valid]
  · rw [hpte]; simp [ref_eq_zero_iff, tbit_or_ref]
  · rw [hpte]
    simp only [dirty_eq_zero_iff, tbit_or_ref, tbit_or_valid, tbit_shiftLeft]
    simp [PAGE_SHIFT]
  · rw [hpte]
    simp only [onswap_eq_zero_iff, tbit_or_ref, tbit_or_valid, tbit_shiftLeft]
    simp [PAGE_SHIFT]
  · rw [hpte]
  · rw [g7, hc.2.1, hs.2]
  · rw [g6, hc.1, hs.1]
  · rw [g11, hidx]


theorem swap_in_on_load_witness :
    run (demo_world 1 .lru 4) (init (demo_world 1 .lru 4)) [(4096, 'L'), (8192, 'L')] =
      .ok (state_after (demo_world 1 .lru 4) [(4096, 'L'), (8192, 'L')]) ∧
    ((state_after (demo_world 1 .lru 4) [(4096, 'L'), (8192, 'L')]).pte
      (pte_ptr (state_after (demo_world 1 .lru 4) [(4096, 'L'), (8192, 'L')]) 4096)).frame
        &&& PG_ONSWAP ≠ 0 ∧
    ((state_after (demo_world 1 .lru 4) [(4096, 'L'), (8192, 'L')]).pte
      (pte_ptr (state_after (demo_world 1 .lru 4) [(4096, 'L'), (8192, 'L')]) 4096)).frame
        &&& PG_VALID = 0 ∧
    find_physpage (demo_world 1 .lru 4)
        (state_after (demo_world 1 .lru 4) [(4096, 'L'), (8192, 'L')]) 4096 'L' =
      .ok (result_of (find_physpage (demo_world 1 .lru 4)
        (state_after (demo_world 1 .lru 4) [(4096, 'L'), (8192, 'L')]) 4096 'L')
        (init (demo_world 1 .lru 4))) ∧
    (result_of (find_physpage (demo_world 1 .lru 4)
        (state_after (demo_world 1 .lru 4) [(4096, 'L'), (8192, 'L')]) 4096 'L')
        (init (demo_world 1 .lru 4))).2.miss_count = 3 :=
  ⟨rfl, by decide, by decide, rfl,
    ((swap_in_on_load (demo_world 1 .lru 4) [(4096, 'L'), (8192, 'L')]
      (state_after (demo_world 1 .lru 4) [(4096, 'L'), (8192, 'L')])
      (state_after (demo_world 1 .lru 4) [(4096, 'L'), (8192, 'L')])
      (result_of (find_physpage (demo_world 1 .lru 4)
        (state_after (demo_world 1 .lru 4) [(4096, 'L'), (8192, 'L')]) 4096 'L')
        (init (demo_world 1 .lru 4))).2
      4096 'L'
      (result_of (find_physpage (demo_world 1 .lru 4)
        (state_after (demo_world 1 .lru 4) [(4096, 'L'), (8192, 'L')]) 4096 'L')
        (init (demo_world 1 .lru 4))).1
      rfl rfl (by decide) (by decide) (by decide) rfl).2.elim
        fun _ h => h.elim fun _ h2 => h2.2.2.2.2.2.2.2.2.2.2.1)⟩

/-! ## C8 and C9: worked runs with one frame -/

/-- C8 (failing input): with one frame under LRU, the Loads P1, P2, P1, P2, P1 (P1 = 4096,
P2 = 8192) complete; before the fifth access the PTE of P1, referenced twice before and
written to swap once, is neither VALID nor ON_SWAP (its clean eviction did not set ON_SWAP),
and the fifth access zero-fills a frame for P1 a second time: the log holds two
`init_frame` events for address 4096 and the last one follows the page-in of P1. -/
theorem zero_fill_repeated_after_clean_eviction :
    run (demo_world 1 .lru 4) (init (demo_world 1 .lru 4))
        [(4096, 'L'), (8192, 'L'), (4096, 'L'), (8192, 'L'), (4096, 'L')] =
      .ok (state_after (demo_world 1 .lru 4)
        [(4096, 'L'), (8192, 'L'), (4096, 'L'), (8192, 'L'), (4096, 'L')]) ∧
    ((state_after (demo_world 1 .lru 4)
        [(4096, 'L'), (8192, 'L'), (4096, 'L'), (8192, 'L')]).pte
      (pte_ptr (state_after (demo_world 1 .lru 4)
        [(4096, 'L'), (8192, 'L'), (4096, 'L'), (8192, 'L')]) 4096)).frame
        &&& (PG_VALID ||| PG_ONSWAP) = 0 ∧
    (state_after (demo_world 1 .lru 4)
        [(4096, 'L'), (8192, 'L'), (4096, 'L'), (8192, 'L'), (4096, 'L')]).log =
      [.memalign true, .init_frame 0 4096, .pageout 0 (-1) 0, .init_frame 0 8192,
        .pageout 0 (-1) 16, .pagein 0 0 0, .pagein 0 16 0, .init_frame 0 4096] :=
  ⟨rfl, by decide, by decide⟩

/-- C9 (counterexample): with one frame under LRU the Loads P1, P2, P1 (P1 = 4096,
P2 = 8192) complete with `hit_count = 0` and `miss_count = 3`, but both evictions are counted
dirty: `evict_clean_count = 0` and `evict_dirty_count = 2`, not 2 and 0. -/
theorem scenario_one_frame_not_clean :
    run (demo_world 1 .lru 4) (init (demo_world 1 .lru 4))
        [(4096, 'L'), (8192, 'L'), (4096, 'L')] =
      .ok (state_after (demo_world 1 .lru 4) [(4096, 'L'), (8192, 'L'), (4096, 'L')]) ∧
    (state_after (demo_world 1 .lru 4)
        [(4096, 'L'), (8192, 'L'), (4096, 'L')]).hit_count = 0 ∧
    (state_after (demo_world 1 .lru 4)
        [(4096, 'L'), (8192, 'L'), (4096, 'L')]).miss_count = 3 ∧
    (state_after (demo_world 1 .lru 4)
        [(4096, 'L'), (8192, 'L'), (4096, 'L')]).evict_clean_count = 0 ∧
    (state_after (demo_world 1 .lru 4)
        [(4096, 'L'), (8192, 'L'), (4096, 'L')]).evict_dirty_count = 2 ∧
    ¬ ((state_after (demo_world 1 .lru 4)
          [(4096, 'L'), (8192, 'L'), (4096, 'L')]).evict_clean_count = 2 ∧
        (state_after (demo_world 1 .lru 4)
          [(4096, 'L'), (8192, 'L'), (4096, 'L')]).evict_dirty_count = 0) :=
  ⟨rfl, by decide, by decide, by decide, by decide, by decide⟩

/-! ## The LRU list: chains of nodes -/

theorem first_addr_append (xs ys : List (Nat × Nat)) (nx : Option Nat) :
    first_addr (xs ++ ys) nx = first_addr xs (first_addr ys nx) := by
  cases xs <;> rfl

theorem last_addr_append (xs ys : List (Nat × Nat)) : ∀ pv : Option Nat,
    last_addr pv (xs ++ ys) = last_addr (last_addr pv xs) ys := by
  induction xs with
  | nil => intro pv; rfl
  | cons c xs ih => intro pv; exact ih (some c.1)

theorem last_addr_mem (ys : List (Nat × Nat)) : ∀ (pv : Option Nat) (a : Nat),
    ys ≠ [] → last_addr pv ys = some a → a ∈ ys.map Prod.fst := by
  induction ys with
  | nil => intro pv a h; exact absurd rfl h
  | cons c ys ih =>
    intro pv a _ h
    cases ys with
    | nil =>
      simp only [last_addr, Option.some.injEq] at h
      simp [h]
    | cons d ys =>
      have := ih (some c.1) a (by simp) h
      exact List.mem_cons_of_mem _ this

theorem last_addr_cons_ne_nil (c : Nat × Nat) (ys : List (Nat × Nat)) (pv : Option Nat)
    (h : ys ≠ []) : last_addr pv (c :: ys) = last_addr none ys := by
  cases ys with
  | nil => exact absurd rfl h
  | cons d ys => rfl

theorem chain_append (nodes : Nat → Option node_t) (xs ys : List (Nat × Nat))
    (nx : Option Nat) : ∀ pv : Option Nat,
    Chain nodes pv (xs ++ ys) nx ↔
      Chain nodes pv xs (first_addr ys nx) ∧ Chain nodes (last_addr pv xs) ys nx := by
  induction xs with
  | nil => intro pv; simp [Chain, last_addr]
  | cons c xs ih =>
    intro pv
    show (nodes c.1 = some { frame := c.2, next := first_addr (xs ++ ys) nx, prev := pv } ∧
      Chain nodes (some c.1) (xs ++ ys) nx) ↔ _
    rw [ih (some c.1), first_addr_append]
    simp only [Chain, last_addr, and_assoc]

/-- A chain only depends on the nodes at its own addresses. -/
theorem chain_congr {nodes nodes2 : Nat → Option node_t} (cells : List (Nat × Nat))
    (nx : Option Nat) : ∀ pv : Option Nat,
    (∀ a, a ∈ cells.map Prod.fst → nodes2 a = nodes a) →
    Chain nodes pv cells nx → Chain nodes2 pv cells nx := by
  induction cells with
  | nil => intro pv _ _; trivial
  | cons c cells ih =>
    intro pv h hc
    obtain ⟨h1, h2⟩ := hc
    refine ⟨?_, ih (some c.1) (fun a ha => h a (List.mem_cons_of_mem _ ha)) h2⟩
    rw [h c.1 (by simp)]
    exact h1

theorem chain_store_other {nodes : Nat → Option node_t} {cells : List (Nat × Nat)}
    {pv nx : Option Nat} (a : Nat) (n : node_t) (ha : a ∉ cells.map Prod.fst)
    (h : Chain nodes pv cells nx) : Chain (store nodes a n) pv cells nx := by
  apply chain_congr cells nx pv _ h
  intro b hb
  unfold store
  have : b ≠ a := fun e => ha (e ▸ hb)
  simp [this]

theorem chain_free_other {nodes : Nat → Option node_t} {cells : List (Nat × Nat)}
    {pv nx : Option Nat} (a : Nat) (ha : a ∉ cells.map Prod.fst)
    (h : Chain nodes pv cells nx) : Chain (free nodes a) pv cells nx := by
  apply chain_congr cells nx pv _ h
  intro b hb
  unfold free
  have : b ≠ a := fun e => ha (e ▸ hb)
  simp [this]

/-- Overwriting the `prev` field of the first node of a chain. -/
theorem chain_set_prev {nodes : Nat → Option node_t} {c : Nat × Nat}
    {rest : List (Nat × Nat)} {pv nx : Option Nat} {n : node_t} (pv2 : Option Nat)
    (hnd : c.1 ∉ rest.map Prod.fst) (hn : nodes c.1 = some n)
    (h : Chain nodes pv (c :: rest) nx) :
    Chain (store nodes c.1 { n with prev := pv2 }) pv2 (c :: rest) nx := by
  obtain ⟨h1, h2⟩ := h
  rw [hn] at h1
  simp only [Option.some.injEq] at h1
  subst h1
  exact ⟨by simp [store], chain_store_other _ _ hnd h2⟩

/-- Overwriting the `next` field of the last node of a chain. -/
theorem chain_set_next {nodes : Nat → Option node_t} (nx2 : Option Nat) :
    ∀ (ys : List (Nat × Nat)) (pv nx : Option Nat) (ta : Nat) (t : node_t),
    ys ≠ [] → (ys.map Prod.fst).Nodup → last_addr pv ys = some ta → nodes ta = some t →
    Chain nodes pv ys nx → Chain (store nodes ta { t with next := nx2 }) pv ys nx2 := by
  intro ys
  induction ys with
  | nil => intro pv nx ta t h; exact absurd rfl h
  | cons c ys ih =>
    intro pv nx ta t _ hnd hl ht hc
    obtain ⟨h1, h2⟩ := hc
    cases ys with
    | nil =>
      simp only [last_addr, Option.some.injEq] at hl
      subst hl
      rw [ht] at h1
      simp only [Option.some.injEq] at h1
      subst h1
      exact ⟨by simp [store, first_addr], trivial⟩
    | cons d ys =>
      have hnd2 : ((d :: ys).map Prod.fst).Nodup := (List.nodup_cons.1 hnd).2
      have hmem : ta ∈ (d :: ys).map Prod.fst :=
        last_addr_mem (d :: ys) (some c.1) ta (by simp) hl
      have hne : c.1 ≠ ta := fun e => (List.nodup_cons.1 hnd).1 (e ▸ hmem)
      refine ⟨?_, ih (some c.1) nx ta t (by simp) hnd2 hl ht h2⟩
      simp only [store, hne, if_false]
      exact h1

/-! ## Specification of lru_evict -/

theorem nodup_lt_length_le {l : List Nat} {n : Nat} (hnd : l.Nodup) (hlt : ∀ x, x ∈ l → x < n) :
    l.length ≤ n := by
  have h1 : l.toFinset.card = l.length := List.toFinset_card_of_nodup hnd
  have h2 : l.toFinset ⊆ Finset.range n := by
    intro x hx
    rw [List.mem_toFinset] at hx
    exact Finset.mem_range.2 (hlt x hx)
  have h3 := Finset.card_le_card h2
  rw [Finset.card_range] at h3
  omega

theorem lruRep_length_le {w : World} {s : State} {cells : List (Nat × Nat)}
    (h : LruRep w s cells) : cells.length ≤ 2 ^ 20 ∧ cells.length ≤ w.memsize := by
  obtain ⟨-, -, -, -, -, hnd, hb, -, -⟩ := h
  have e : cells.length = (cells.map Prod.snd).length := by simp
  constructor
  · rw [e]
    apply nodup_lt_length_le hnd
    intro x hx
    obtain ⟨c, hc, rfl⟩ := List.mem_map.1 hx
    exact (hb c hc).2.1
  · rw [e]
    apply nodup_lt_length_le hnd
    intro x hx
    obtain ⟨c, hc, rfl⟩ := List.mem_map.1 hx
    exact (hb c hc).1

theorem deref_some {nodes : Nat → Option node_t} {a : Nat} {n : node_t}
    (h : nodes a = some n) : deref nodes (some a) = .ok (a, n) := by
  simp [deref, h]

theorem last_addr_cons_some (c : Nat × Nat) (rest : List (Nat × Nat)) (pv : Option Nat) :
    ∃ a, last_addr pv (c :: rest) = some a := by
  induction rest generalizing c pv with
  | nil => exact ⟨c.1, rfl⟩
  | cons e rest ih => exact ih e (some c.1)

/-- Specification of `lru_evict` on a well-formed non-empty list: it returns the frame of
the head cell and leaves the list of the other cells. -/
theorem lru_evict_spec {w : World} {s : State} {c : Nat × Nat} {rest : List (Nat × Nat)}
    (h : LruRep w s (c :: rest)) :
    ∃ t, lru_evict w s = .ok (c.2, t) ∧ LruRep w t rest ∧ LruOnly s t ∧
      t.next_node = s.next_node := by
  have hlen := (lruRep_length_le h).1
  obtain ⟨hch, hhd, htl, hsz, hna, hnf, hb, hm1, hm2⟩ := h
  obtain ⟨hc1, hc2⟩ := hch
  have hcm : c.2 < w.memsize := (hb c (by simp)).1
  simp only [first_addr] at hhd
  have hna' := List.nodup_cons.1 hna
  have hnf' := List.nodup_cons.1 hnf
  cases rest with
  | nil =>
    simp only [last_addr] at htl
    refine ⟨{ s with
      list := { size := (s.list.size + 2 ^ 32 - 1) % 2 ^ 32, head := none, tail := none },
      map := set_map s.map c.2 none,
      nodes := free s.nodes c.1 }, ?_, ?_, ?_, ?_⟩
    · simp only [lru_evict, hhd, htl, if_true, bind, Except.bind, pure, Except.pure,
        deref_some hc1, hcm]
    · refine ⟨trivial, rfl, rfl, ?_, List.nodup_nil, List.nodup_nil, ?_, ?_, ?_⟩
      · show (s.list.size + 2 ^ 32 - 1) % 2 ^ 32 = 0
        rw [hsz, List.length_singleton]
        omega
      · intro d hd; simp at hd
      · intro d hd; simp at hd
      · intro f a hfa
        simp only [set_map] at hfa
        split at hfa
        · simp at hfa
        · rename_i hne
          have := hm2 f a hfa
          simp only [List.mem_singleton] at this
          rw [← this] at hne
          exact absurd rfl hne
    · exact ⟨rfl, rfl, rfl, rfl, rfl, ⟨rfl, rfl, rfl, rfl, rfl⟩, rfl⟩
    · rfl
  | cons d rest =>
    obtain ⟨ta, hta⟩ := last_addr_cons_some d rest (some c.1)
    have hmem : ta ∈ (d :: rest).map Prod.fst :=
      last_addr_mem (d :: rest) (some c.1) ta (by simp) hta
    have hne : c.1 ≠ ta := fun e => hna'.1 (e ▸ hmem)
    have htl2 : s.list.tail = some ta := by rw [htl]; exact hta
    have hd1 : s.nodes d.1 =
        some { frame := d.2, next := first_addr rest none, prev := some c.1 } := hc2.1
    have hcd : c.1 ≠ d.1 := fun e => hna'.1 (by simp [e])
    have hhn : ¬ (some c.1 = some ta) := by simpa using hne
    refine ⟨{ s with
      list := { size := (s.list.size + 2 ^ 32 - 1) % 2 ^ 32, head := some d.1,
                tail := some ta },
      map := set_map s.map c.2 none,
      nodes := free (store s.nodes d.1
        { frame := d.2, next := first_addr rest none, prev := none }) c.1 }, ?_, ?_, ?_, ?_⟩
    · have hst : store s.nodes d.1 { frame := d.2, next := first_addr rest none, prev := none }
          c.1 = some { frame := c.2, next := some d.1, prev := none } := by
        simp only [store, hcd, if_false]
        exact hc1
      have hc1' : s.nodes c.1 = some { frame := c.2, next := some d.1, prev := none } := hc1
      simp only [lru_evict, hhd, htl2, hhn, if_false, bind, Except.bind, pure, Except.pure,
        deref_some hc1', deref_some hd1, deref_some hst, hcm, if_true]
    · refine ⟨?_, rfl, ?_, ?_, hna'.2, hnf'.2, ?_, ?_, ?_⟩
      · apply chain_free_other c.1 hna'.1
        exact chain_set_prev none (List.nodup_cons.1 hna'.2).1 hd1 hc2
      · exact hta.symm
      · simp only [List.length_cons] at hsz hlen ⊢
        show (s.list.size + 2 ^ 32 - 1) % 2 ^ 32 = rest.length + 1
        rw [hsz]
        omega
      · intro e he
        exact hb e (List.mem_cons_of_mem _ he)
      · intro e he
        show set_map s.map c.2 none e.2 = some e.1
        have : e.2 ≠ c.2 := by
          intro heq
          apply hnf'.1
          rw [← heq]
          exact List.mem_map_of_mem _ he
        simp only [set_map, this, if_false]
        exact hm1 e (List.mem_cons_of_mem _ he)
      · intro f a hfa
        change set_map s.map c.2 none f = some a at hfa
        simp only [set_map] at hfa
        split at hfa
        · simp at hfa
        · rename_i hfne
          have := hm2 f a hfa
          rcases List.mem_cons.1 this with e | e
          · rw [← e] at hfne
            exact absurd rfl hfne
          · exact e
    · exact ⟨rfl, rfl, rfl, rfl, rfl, ⟨rfl, rfl, rfl, rfl, rfl⟩, rfl⟩
    · rfl

/-- On an empty list `lru_evict` dereferences NULL. -/
theorem lru_evict_empty {w : World} {s : State} (h : LruRep w s []) :
    lru_evict w s = .error .undefined := by
  obtain ⟨-, hhd, htl, -⟩ := h
  simp only [first_addr] at hhd
  simp only [last_addr] at htl
  simp [lru_evict, hhd, htl, bind, Except.bind, pure, Except.pure, deref]

/-! ## Specification of lru_ref -/

theorem chain_node_at {nodes : Nat → Option node_t} {pre post : List (Nat × Nat)}
    {c : Nat × Nat} {pv nx : Option Nat} (h : Chain nodes pv (pre ++ c :: post) nx) :
    nodes c.1 = some { frame := c.2, next := first_addr post nx, prev := last_addr pv pre } :=
  ((chain_append nodes pre (c :: post) nx pv).1 h).2.1

theorem addr_unique {cells : List (Nat × Nat)} (hnd : (cells.map Prod.fst).Nodup)
    {c d : Nat × Nat} (hc : c ∈ cells) (hd : d ∈ cells) (h : c.1 = d.1) : c = d := by
  induction cells with
  | nil => simp at hc
  | cons x xs ih =>
    obtain ⟨h1, h2⟩ := List.nodup_cons.1 hnd
    rcases List.mem_cons.1 hc with e1 | e1 <;> rcases List.mem_cons.1 hd with e2 | e2
    · rw [e1, e2]
    · exfalso; apply h1; rw [← e1, h]; exact List.mem_map_of_mem _ e2
    · exfalso; apply h1; rw [← e2, ← h]; exact List.mem_map_of_mem _ e1
    · exact ih h2 e1 e2

theorem lruRep_untracked {w : World} {s : State} {cells : List (Nat × Nat)}
    (h : LruRep w s cells) {f : Nat} (hm : s.map f = none) : f ∉ cells.map Prod.snd := by
  intro hf
  obtain ⟨c, hc, rfl⟩ := List.mem_map.1 hf
  have := h.2.2.2.2.2.2.2.1 c hc
  rw [hm] at this
  simp at this

theorem lruRep_fresh {w : World} {s : State} {cells : List (Nat × Nat)}
    (h : LruRep w s cells) : s.next_node ∉ cells.map Prod.fst := by
  intro hf
  obtain ⟨c, hc, he⟩ := List.mem_map.1 hf
  have := (h.2.2.2.2.2.2.1 c hc).2.2
  omega

/-- `lru_ref` on an untracked frame and an empty list. -/
theorem lru_ref_untracked_empty {w : World} {s : State} {p : PtePtr}
    (h : LruRep w s []) (hf : (s.pte p).frame >>> PAGE_SHIFT < w.memsize)
    (hf2 : (s.pte p).frame >>> PAGE_SHIFT < 2 ^ 20)
    (hm : s.map ((s.pte p).frame >>> PAGE_SHIFT) = none)
    (hmal : w.malloc s.log s.next_node = true) :
    ∃ t, lru_ref w s p = .ok t ∧
      LruRep w t [(s.next_node, (s.pte p).frame >>> PAGE_SHIFT)] ∧ LruOnly s t := by
  obtain ⟨-, hhd, htl, hsz, -, -, -, -, hm2⟩ := h
  simp only [List.length_nil] at hsz
  refine ⟨{ s with
    nodes := store s.nodes s.next_node
      { frame := (s.pte p).frame >>> PAGE_SHIFT, next := none, prev := none },
    next_node := s.next_node + 1,
    list := { size := (s.list.size + 1) % 2 ^ 32, head := some s.next_node,
              tail := some s.next_node },
    map := set_map s.map ((s.pte p).frame >>> PAGE_SHIFT) (some s.next_node) }, ?_, ?_, ?_⟩
  · simp only [lru_ref, hf, if_true, hm, hmal, hsz, bind, Except.bind, pure, Except.pure]
  · refine ⟨⟨by simp [store, first_addr], trivial⟩, rfl, rfl, ?_, by simp, by simp, ?_, ?_, ?_⟩
    · show (s.list.size + 1) % 2 ^ 32 = 1
      rw [hsz]
      rfl
    · intro c hc
      simp only [List.mem_singleton] at hc
      subst hc
      exact ⟨hf, hf2, Nat.lt_succ_self _⟩
    · intro c hc
      simp only [List.mem_singleton] at hc
      subst hc
      simp [set_map]
    · intro g a hga
      change set_map s.map _ _ g = some a at hga
      simp only [set_map] at hga
      split at hga
      · rename_i hg
        simp only [Option.some.injEq] at hga
        simp [hg, hga]
      · have := hm2 g a hga
        simp at this
  · exact ⟨rfl, rfl, rfl, rfl, rfl, ⟨rfl, rfl, rfl, rfl, rfl⟩, rfl⟩

theorem chain_node_of_mem {nodes : Nat → Option node_t} (cells : List (Nat × Nat))
    (nx : Option Nat) : ∀ (pv : Option Nat) (a : Nat), Chain nodes pv cells nx →
    a ∈ cells.map Prod.fst → ∃ n, nodes a = some n := by
  induction cells with
  | nil => intro pv a _ ha; simp at ha
  | cons c cells ih =>
    intro pv a h ha
    simp only [List.map_cons, List.mem_cons] at ha
    rcases ha with e | e
    · exact ⟨_, e ▸ h.1⟩
    · exact ih (some c.1) a h.2 e

/-- `lru_ref` on an untracked frame and a non-empty list: a new node is linked after the
tail. -/
theorem lru_ref_untracked {w : World} {s : State} {p : PtePtr} {cells : List (Nat × Nat)}
    (h : LruRep w s cells) (hne : cells ≠ [])
    (hf : (s.pte p).frame >>> PAGE_SHIFT < w.memsize)
    (hf2 : (s.pte p).frame >>> PAGE_SHIFT < 2 ^ 20)
    (hm : s.map ((s.pte p).frame >>> PAGE_SHIFT) = none)
    (hmal : w.malloc s.log s.next_node = true) :
    ∃ t, lru_ref w s p = .ok t ∧
      LruRep w t (cells ++ [(s.next_node, (s.pte p).frame >>> PAGE_SHIFT)]) ∧
      LruOnly s t := by
  have hunt := lruRep_untracked h hm
  have hfresh := lruRep_fresh h
  have hlen := (lruRep_length_le h).1
  obtain ⟨hch, hhd, htl, hsz, hna, hnf, hb, hm1, hm2⟩ := h
  obtain ⟨c0, rest0, rfl⟩ := List.exists_cons_of_ne_nil hne
  obtain ⟨ta, hta⟩ := last_addr_cons_some c0 rest0 none
  have hmem : ta ∈ (c0 :: rest0).map Prod.fst := last_addr_mem _ none ta (by simp) hta
  obtain ⟨t0, ht0⟩ := chain_node_of_mem _ none none ta hch hmem
  have htl2 : s.list.tail = some ta := by rw [htl]; exact hta
  have hsz0 : ¬ s.list.size = 0 := by rw [hsz]; simp
  refine ⟨{ s with
    nodes := store (store s.nodes ta { t0 with next := some s.next_node }) s.next_node
      { frame := (s.pte p).frame >>> PAGE_SHIFT, next := none, prev := some ta },
    next_node := s.next_node + 1,
    list := { size := (s.list.size + 1) % 2 ^ 32, head := s.list.head,
              tail := some s.next_node },
    map := set_map s.map ((s.pte p).frame >>> PAGE_SHIFT) (some s.next_node) }, ?_, ?_, ?_⟩
  · simp only [lru_ref, hf, if_true, hm, hmal, hsz0, if_false, bind, Except.bind, pure,
      Except.pure, htl2, deref_some ht0]
  · refine ⟨?_, ?_, ?_, ?_, ?_, ?_, ?_, ?_, ?_⟩
    · rw [chain_append]
      refine ⟨?_, ?_, trivial⟩
      · apply chain_store_other _ _ hfresh
        exact chain_set_next (some s.next_node) _ none none ta t0 (by simp) hna hta ht0 hch
      · rw [hta]
        simp [store, first_addr]
    · show s.list.head = _
      rw [hhd]
      rfl
    · show some s.next_node = _
      rw [last_addr_append]
      rfl
    · show (s.list.size + 1) % 2 ^ 32 = _
      rw [hsz, List.length_append, List.length_singleton]
      omega
    · rw [List.map_append, List.nodup_append]
      refine ⟨hna, by simp, ?_⟩
      intro a ha hb2
      simp only [List.map_cons, List.map_nil, List.mem_singleton] at hb2
      exact hfresh (hb2 ▸ ha)
    · rw [List.map_append, List.nodup_append]
      refine ⟨hnf, by simp, ?_⟩
      intro a ha hb2
      simp only [List.map_cons, List.map_nil, List.mem_singleton] at hb2
      exact hunt (hb2 ▸ ha)
    · intro c hc
      rcases List.mem_append.1 hc with e | e
      · obtain ⟨b1, b2, b3⟩ := hb c e
        exact ⟨b1, b2, Nat.lt_succ_of_lt b3⟩
      · simp only [List.mem_singleton] at e
        subst e
        exact ⟨hf, hf2, Nat.lt_succ_self _⟩
    · intro c hc
      show set_map s.map _ _ c.2 = some c.1
      rcases List.mem_append.1 hc with e | e
      · have : c.2 ≠ (s.pte p).frame >>> PAGE_SHIFT := by
          intro heq
          apply hunt
          rw [← heq]
          exact List.mem_map_of_mem _ e
        simp only [set_map, this, if_false]
        exact hm1 c e
      · simp only [List.mem_singleton] at e
        subst e
        simp [set_map]
    · intro g a hga
      change set_map s.map _ _ g = some a at hga
      simp only [set_map] at hga
      split at hga
      · rename_i hg
        simp only [Option.some.injEq] at hga
        simp [hg, hga]
      · exact List.mem_append_left _ (hm2 g a hga)
  · exact ⟨rfl, rfl, rfl, rfl, rfl, ⟨rfl, rfl, rfl, rfl, rfl⟩, rfl⟩

theorem last_addr_snoc (pre : List (Nat × Nat)) (c : Nat × Nat) (pv : Option Nat) :
    last_addr pv (pre ++ [c]) = some c.1 := by
  rw [last_addr_append]
  rfl

/-- Head and tail of a well-formed list coincide only when it has at most one cell. -/
theorem lruRep_head_eq_tail {w : World} {s : State} {cells : List (Nat × Nat)}
    (h : LruRep w s cells) (he : s.list.head = s.list.tail) : cells.length ≤ 1 := by
  obtain ⟨-, hhd, htl, -, hna, -⟩ := h
  cases cells with
  | nil => simp
  | cons c rest =>
    cases rest with
    | nil => simp
    | cons d rest =>
      exfalso
      obtain ⟨ta, hta⟩ := last_addr_cons_some d rest (some c.1)
      have hmem : ta ∈ (d :: rest).map Prod.fst :=
        last_addr_mem (d :: rest) (some c.1) ta (by simp) hta
      rw [hhd, htl] at he
      have e : some c.1 = some ta := he.trans hta
      simp only [Option.some.injEq] at e
      exact (List.nodup_cons.1 hna).1 (e ▸ hmem)

theorem lruRep_head_ne_tail {w : World} {s : State} {c d : Nat × Nat}
    {rest : List (Nat × Nat)} (h : LruRep w s (c :: d :: rest)) :
    s.list.head ≠ s.list.tail := by
  intro he
  have := lruRep_head_eq_tail h he
  simp at this

/-- The shape of a well-formed list around a tracked frame. -/
theorem lruRep_tracked {w : World} {s : State} {cells : List (Nat × Nat)}
    (h : LruRep w s cells) {f targ : Nat} (hm : s.map f = some targ) :
    ∃ pre post, cells = pre ++ (targ, f) :: post ∧
      (pre = [] ↔ s.list.head = some targ) ∧ (post = [] ↔ s.list.tail = some targ) := by
  have hmem := h.2.2.2.2.2.2.2.2 f targ hm
  obtain ⟨pre, post, rfl⟩ := List.append_of_mem hmem
  obtain ⟨-, hhd, htl, -, hna, -⟩ := h
  refine ⟨pre, post, rfl, ?_, ?_⟩
  · constructor
    · intro e
      subst e
      exact hhd
    · intro e
      cases pre with
      | nil => rfl
      | cons x pre =>
        exfalso
        rw [hhd] at e
        simp only [List.cons_append, first_addr, Option.some.injEq] at e
        simp only [List.cons_append, List.map_cons, List.map_append] at hna
        apply (List.nodup_cons.1 hna).1
        rw [e]
        simp
  · constructor
    · intro e
      subst e
      rw [htl]
      exact last_addr_snoc pre (targ, f) none
    · intro e
      rcases List.eq_nil_or_concat post with e2 | ⟨post2, l, e2⟩
      · exact e2
      · exfalso
        subst e2
        rw [htl] at e
        simp only [List.concat_eq_append] at e hna
        have e3 : pre ++ (targ, f) :: (post2 ++ [l]) = (pre ++ (targ, f) :: post2) ++ [l] := by
          simp
        rw [e3, last_addr_snoc] at e
        simp only [Option.some.injEq] at e
        rw [e3, List.map_append] at hna
        have := (List.nodup_append.1 hna).2.2
        apply this (a := targ)
        · simp
        · simp [e]

/-- `lru_ref` on the only cell of the list, or on the tail cell: nothing changes. -/
theorem lru_ref_noop {w : World} {s : State} {p : PtePtr} {targ : Nat}
    (hf : (s.pte p).frame >>> PAGE_SHIFT < w.memsize)
    (hm : s.map ((s.pte p).frame >>> PAGE_SHIFT) = some targ)
    (h : s.list.head = s.list.tail ∨ (s.list.head ≠ some targ ∧ s.list.tail = some targ)) :
    lru_ref w s p = .ok s := by
  rcases h with h | ⟨h1, h2⟩
  · simp only [lru_ref, hf, if_true, hm, h, bind, Except.bind, pure, Except.pure]
  · by_cases he : s.list.head = s.list.tail
    · simp only [lru_ref, hf, if_true, hm, he, bind, Except.bind, pure, Except.pure]
    · have h3 : ¬ some targ = s.list.head := fun e => h1 e.symm
      simp only [lru_ref, hf, if_true, hm, he, h3, if_false, bind, Except.bind, pure,
        Except.pure, h2, ite_self]

/-- Transfer of the list-independent parts of `LruRep` to a rearrangement of the cells. -/
theorem lruRep_of_perm {w : World} {s t : State} {cells cells2 : List (Nat × Nat)}
    (h : LruRep w s cells) (hp : cells2.Perm cells)
    (hch : Chain t.nodes none cells2 none)
    (hhd : t.list.head = first_addr cells2 none) (htl : t.list.tail = last_addr none cells2)
    (hsz : t.list.size = s.list.size) (hmap : t.map = s.map)
    (hnn : t.next_node = s.next_node) : LruRep w t cells2 := by
  obtain ⟨-, -, -, gsz, gna, gnf, gb, gm1, gm2⟩ := h
  refine ⟨hch, hhd, htl, ?_, ?_, ?_, ?_, ?_, ?_⟩
  · rw [hsz, gsz, hp.length_eq]
  · exact ((hp.map Prod.fst).nodup_iff).2 gna
  · exact ((hp.map Prod.snd).nodup_iff).2 gnf
  · intro c hc
    rw [hnn]
    exact gb c (hp.mem_iff.1 hc)
  · intro c hc
    rw [hmap]
    exact gm1 c (hp.mem_iff.1 hc)
  · intro f a hfa
    rw [hmap] at hfa
    exact hp.mem_iff.2 (gm2 f a hfa)

/-- `lru_ref` on the head cell of a list with at least two cells: the head is unlinked and
linked again after the tail. -/
theorem lru_ref_head {w : World} {s : State} {p : PtePtr} {targ : Nat}
    {d : Nat × Nat} {rest : List (Nat × Nat)}
    (h : LruRep w s ((targ, (s.pte p).frame >>> PAGE_SHIFT) :: d :: rest))
    (hf : (s.pte p).frame >>> PAGE_SHIFT < w.memsize)
    (hm : s.map ((s.pte p).frame >>> PAGE_SHIFT) = some targ) :
    ∃ t, lru_ref w s p = .ok t ∧
      LruRep w t ((d :: rest) ++ [(targ, (s.pte p).frame >>> PAGE_SHIFT)]) ∧
      LruOnly s t := by
  have hht := lruRep_head_ne_tail h
  have h0 := h
  obtain ⟨hch, hhd, htl, hsz, hna, hnf, hb, hm1, hm2⟩ := h
  obtain ⟨hc1, hc2⟩ := hch
  have hna' := List.nodup_cons.1 hna
  obtain ⟨ta, hta⟩ := last_addr_cons_some d rest (some targ)
  have hmem : ta ∈ (d :: rest).map Prod.fst :=
    last_addr_mem (d :: rest) (some targ) ta (by simp) hta
  have htl2 : s.list.tail = some ta := by rw [htl]; exact hta
  have hhd2 : s.list.head = some targ := hhd
  have hne : targ ≠ ta := fun e => hna'.1 (e ▸ hmem)
  have hcd : targ ≠ d.1 := fun e => hna'.1 (by simp [e])
  have hd1 : s.nodes d.1 =
      some { frame := d.2, next := first_addr rest none, prev := some targ } := hc2.1
  have hch1 : Chain (store s.nodes d.1
      { frame := d.2, next := first_addr rest none, prev := none }) none (d :: rest) none :=
    chain_set_prev none (List.nodup_cons.1 hna'.2).1 hd1 hc2
  obtain ⟨t1, ht1⟩ := chain_node_of_mem _ none none ta hch1 hmem
  have hch2 := chain_set_next (some targ) (d :: rest) none none ta t1 (by simp) hna'.2 hta
    ht1 hch1
  have hg : store (store s.nodes d.1
      { frame := d.2, next := first_addr rest none, prev := none }) ta
      { t1 with next := some targ } targ =
      some { frame := (s.pte p).frame >>> PAGE_SHIFT, next := some d.1, prev := none } := by
    simp only [store, hne, hcd, if_false]
    exact hc1
  have hc1' : s.nodes targ =
      some { frame := (s.pte p).frame >>> PAGE_SHIFT, next := some d.1, prev := none } := hc1
  have hnt : ¬ (some targ = some ta) := by simpa using hne
  refine ⟨{ s with
    nodes := store (store (store s.nodes d.1
        { frame := d.2, next := first_addr rest none, prev := none }) ta
        { t1 with next := some targ }) targ
        { frame := (s.pte p).frame >>> PAGE_SHIFT, next := none, prev := some ta },
    list := { s.list with head := some d.1, tail := some targ } }, ?_, ?_, ?_⟩
  · simp only [lru_ref, hf, if_true, hm, hhd2, htl2, hnt, if_false, bind, Except.bind, pure,
      Except.pure, deref_some hc1', deref_some hd1, deref_some ht1, deref_some hg]
  · apply lruRep_of_perm h0 (List.perm_append_singleton _ _)
    · rw [chain_append]
      refine ⟨chain_store_other _ _ hna'.1 hch2, ?_, trivial⟩
      have : last_addr none (d :: rest) = some ta := hta
      rw [this]
      simp [store, first_addr]
    · rfl
    · show some targ = _
      rw [last_addr_snoc]
    · rfl
    · rfl
    · rfl
  · exact ⟨rfl, rfl, rfl, rfl, rfl, ⟨rfl, rfl, rfl, rfl, rfl⟩, rfl⟩

theorem last_addr_ne_nil_some (pre : List (Nat × Nat)) (pv : Option Nat) (h : pre ≠ []) :
    ∃ a, last_addr pv pre = some a ∧ a ∈ pre.map Prod.fst := by
  obtain ⟨c, rest, rfl⟩ := List.exists_cons_of_ne_nil h
  obtain ⟨a, ha⟩ := last_addr_cons_some c rest pv
  exact ⟨a, ha, last_addr_mem _ pv a (by simp) ha⟩

/-- `lru_ref` on an interior cell: the cell is unlinked from its neighbours and linked again
after the tail. -/
theorem lru_ref_interior {w : World} {s : State} {p : PtePtr} {targ f : Nat}
    {pre post : List (Nat × Nat)} (hfe : (s.pte p).frame >>> PAGE_SHIFT = f)
    (h : LruRep w s (pre ++ (targ, f) :: post))
    (hpre : pre ≠ []) (hpost : post ≠ [])
    (hf : f < w.memsize)
    (hm : s.map (f) = some targ) :
    ∃ t, lru_ref w s p = .ok t ∧
      LruRep w t ((pre ++ post) ++ [(targ, f)]) ∧
      LruOnly s t := by
  have h0 := h
  obtain ⟨hch, hhd, htl, hsz, hna, hnf, hb, hm1, hm2⟩ := h
  obtain ⟨b, post2, rfl⟩ := List.exists_cons_of_ne_nil hpost
  -- distinctness of the addresses
  rw [List.map_append, List.map_cons] at hna
  obtain ⟨na1, na2, na3⟩ := List.nodup_append.1 hna
  obtain ⟨na4, na5⟩ := List.nodup_cons.1 na2
  have ntp : targ ∉ pre.map Prod.fst := fun hx => na3 hx (by simp)
  -- the pieces of the chain
  obtain ⟨hA, hc, hB⟩ := (chain_append s.nodes pre _ none none).1 hch
  obtain ⟨pa, hpa, hpam⟩ := last_addr_ne_nil_some pre none hpre
  obtain ⟨ta, hta⟩ := last_addr_cons_some b post2 (some targ)
  have htam : ta ∈ (b :: post2).map Prod.fst :=
    last_addr_mem (b :: post2) (some targ) ta (by simp) hta
  have e_pa_t : pa ≠ targ := fun e => ntp (e ▸ hpam)
  have e_b_t : b.1 ≠ targ := fun e => na4 (by rw [← e]; simp)
  have e_ta_t : ta ≠ targ := fun e => na4 (e ▸ htam)
  have e_b_pa : b.1 ≠ pa := fun e => na3 hpam (by rw [← e]; simp)
  have n_pa_post : pa ∉ (b :: post2).map Prod.fst :=
    fun hx => na3 hpam (List.mem_cons_of_mem _ hx)
  rw [hpa] at hc
  have hc' : s.nodes targ = some { frame := f, next := some b.1, prev := some pa } := hc
  obtain ⟨pn, hpn⟩ := chain_node_of_mem _ _ _ pa hA hpam
  have hA1 := chain_set_next (some b.1) pre none _ pa pn hpre na1 hpa hpn hA
  have hnn : s.nodes b.1 =
      some { frame := b.2, next := first_addr post2 none, prev := some targ } := hB.1
  have hB1 : Chain (store s.nodes pa { pn with next := some b.1 }) (some targ) (b :: post2)
      none := chain_store_other pa _ n_pa_post hB
  have hnn1 : store s.nodes pa { pn with next := some b.1 } b.1 =
      some { frame := b.2, next := first_addr post2 none, prev := some targ } := by
    simp only [store, e_b_pa, if_false]; exact hnn
  have hB2 := chain_set_prev (some pa) (List.nodup_cons.1 na5).1 hnn1 hB1
  have hB3 := chain_store_other targ
    { frame := f, next := none, prev := some ta } na4 hB2
  obtain ⟨t3, ht3⟩ := chain_node_of_mem _ _ _ ta hB3 htam
  have hta2 : last_addr (some pa) (b :: post2) = some ta := hta
  have hB4 := chain_set_next (some targ) (b :: post2) (some pa) none ta t3 (by simp) na5
    hta2 ht3 hB3
  have hg1 : store s.nodes pa { pn with next := some b.1 } targ =
      some { frame := f, next := some b.1, prev := some pa } := by
    simp only [store, Ne.symm e_pa_t, if_false]; exact hc'
  have hg3 : store (store s.nodes pa { pn with next := some b.1 }) b.1
      { frame := b.2, next := first_addr post2 none, prev := some pa } targ =
      some { frame := f, next := some b.1, prev := some pa } := by
    simp only [store, Ne.symm e_b_t, Ne.symm e_pa_t, if_false]; exact hc'
  have htl2 : s.list.tail = some ta := by
    rw [htl, last_addr_append]; exact hta
  have hhd_ne : ¬ (some targ = s.list.head) := by
    obtain ⟨x, xs, hx⟩ := List.exists_cons_of_ne_nil hpre
    rw [hhd, hx]
    simp only [List.cons_append, first_addr, Option.some.injEq]
    intro e
    apply ntp
    rw [hx, e]
    simp
  have htl_ne : ¬ (some targ = s.list.tail) := by
    rw [htl2]; simpa using Ne.symm e_ta_t
  have hht : ¬ (s.list.head = s.list.tail) := by
    intro e
    have := lruRep_head_eq_tail h0 e
    obtain ⟨x, xs, rfl⟩ := List.exists_cons_of_ne_nil hpre
    simp at this
  have hht2 : ¬ (s.list.head = some ta) := by rw [← htl2]; exact hht
  have htl_ne2 : ¬ (some targ = some ta) := by rw [← htl2]; exact htl_ne
  refine ⟨{ s with
    nodes := store (store (store (store s.nodes pa { pn with next := some b.1 }) b.1
        { frame := b.2, next := first_addr post2 none, prev := some pa }) targ
        { frame := f, next := none, prev := some ta }) ta
        { t3 with next := some targ },
    list := { s.list with tail := some targ } }, ?_, ?_, ?_⟩
  · simp only [lru_ref, hfe, hf, if_true, hm, hht, hhd_ne, htl_ne, if_false, bind, Except.bind,
      pure, Except.pure, deref_some hc', deref_some hpn, deref_some hg1, deref_some hnn1,
      deref_some hg3, htl2, deref_some ht3, hht2, htl_ne2]
  · have hperm : ((pre ++ b :: post2) ++ [(targ, f)]).Perm
        (pre ++ (targ, f) :: b :: post2) :=
      (List.perm_append_singleton _ _).trans List.perm_middle.symm
    apply lruRep_of_perm h0 hperm
    · rw [chain_append, chain_append]
      refine ⟨⟨?_, ?_⟩, ?_, trivial⟩
      · apply chain_congr pre _ none _ hA1
        intro a ha
        have e1 : a ≠ ta := fun e => na3 ha (List.mem_cons_of_mem _ (e ▸ htam))
        have e2 : a ≠ targ := fun e => ntp (e ▸ ha)
        have e3 : a ≠ b.1 := fun e => na3 ha (by rw [e]; simp)
        simp only [store, e1, e2, e3, if_false]
      · rw [hpa]
        exact hB4
      · rw [last_addr_append, hpa, hta2]
        simp [store, e_ta_t, Ne.symm e_ta_t, first_addr]
    · show s.list.head = _
      rw [hhd]
      obtain ⟨x, xs, rfl⟩ := List.exists_cons_of_ne_nil hpre
      rfl
    · show some targ = _
      rw [last_addr_snoc]
    · rfl
    · rfl
    · rfl
  · exact ⟨rfl, rfl, rfl, rfl, rfl, ⟨rfl, rfl, rfl, rfl, rfl⟩, rfl⟩

theorem lru_touch_middle (l1 l2 : List Nat) (f : Nat) (h : f ∉ l1) :
    lru_touch (l1 ++ f :: l2) f = (l1 ++ l2) ++ [f] := by
  unfold lru_touch
  rw [List.erase_append_right _ h, List.erase_cons_head]

theorem lru_touch_new (l : List Nat) (f : Nat) (h : f ∉ l) : lru_touch l f = l ++ [f] := by
  unfold lru_touch
  rw [List.erase_of_not_mem h]

/-- Specification of `lru_ref` on a well-formed list: for a PTE whose frame index `f` is a
valid index of `map`, the call returns and the list becomes the old list with `f` removed,
followed by `f`; nothing outside the LRU structure changes. -/
theorem lru_ref_spec {w : World} {s : State} {p : PtePtr} {cells : List (Nat × Nat)}
    (h : LruRep w s cells) (hf : (s.pte p).frame >>> PAGE_SHIFT < w.memsize)
    (hf2 : (s.pte p).frame >>> PAGE_SHIFT < 2 ^ 20) (hmal : malloc_ok w s p) :
    ∃ t cells2, lru_ref w s p = .ok t ∧ LruRep w t cells2 ∧
      cells2.map Prod.snd = lru_touch (cells.map Prod.snd) ((s.pte p).frame >>> PAGE_SHIFT) ∧
      LruOnly s t := by
  cases hm : s.map ((s.pte p).frame >>> PAGE_SHIFT) with
  | none =>
    have hunt := lruRep_untracked h hm
    by_cases hne : cells = []
    · subst hne
      obtain ⟨t, h1, h2, h3⟩ := lru_ref_untracked_empty h hf hf2 hm (hmal hm)
      exact ⟨t, _, h1, h2, by simp [lru_touch], h3⟩
    · obtain ⟨t, h1, h2, h3⟩ := lru_ref_untracked h hne hf hf2 hm (hmal hm)
      refine ⟨t, _, h1, h2, ?_, h3⟩
      rw [lru_touch_new _ _ hunt]
      simp
  | some targ =>
    obtain ⟨pre, post, rfl, i1, i2⟩ := lruRep_tracked h hm
    have hnf := h.2.2.2.2.2.1
    rw [List.map_append, List.map_cons] at hnf
    have hfp : (s.pte p).frame >>> PAGE_SHIFT ∉ pre.map Prod.snd := by
      intro hx
      exact (List.nodup_append.1 hnf).2.2 hx (by simp)
    have hframes : (pre ++ (targ, (s.pte p).frame >>> PAGE_SHIFT) :: post).map Prod.snd =
        pre.map Prod.snd ++ ((s.pte p).frame >>> PAGE_SHIFT) :: post.map Prod.snd := by simp
    by_cases hpost : post = []
    · subst hpost
      have htl := i2.1 rfl
      have hno : lru_ref w s p = .ok s := by
        apply lru_ref_noop hf hm
        by_cases hpre : pre = []
        · left
          rw [i1.1 hpre, htl]
        · right
          exact ⟨fun e => hpre (i1.2 e), htl⟩
      refine ⟨s, _, hno, h, ?_, ⟨rfl, rfl, rfl, rfl, rfl, ⟨rfl, rfl, rfl, rfl, rfl⟩, rfl⟩⟩
      rw [hframes, lru_touch_middle _ _ _ hfp]
      simp
    · by_cases hpre : pre = []
      · subst hpre
        obtain ⟨d, rest, rfl⟩ := List.exists_cons_of_ne_nil hpost
        obtain ⟨t, h1, h2, h3⟩ := lru_ref_head h hf hm
        refine ⟨t, _, h1, h2, ?_, h3⟩
        rw [hframes, lru_touch_middle _ _ _ hfp]
        simp
      · obtain ⟨t, h1, h2, h3⟩ := lru_ref_interior rfl h hpre hpost hf hm
        refine ⟨t, _, h1, h2, ?_, h3⟩
        rw [hframes, lru_touch_middle _ _ _ hfp]
        simp

/-- The frames read off the nodes are the frames of the cells. -/
theorem walk_list_chain {nodes : Nat → Option node_t} (cells : List (Nat × Nat)) :
    ∀ pv : Option Nat, Chain nodes pv cells none →
      walk_list nodes cells.length (first_addr cells none) = cells.map Prod.snd := by
  induction cells with
  | nil => intro pv _; rfl
  | cons c cells ih =>
    intro pv h
    obtain ⟨h1, h2⟩ := h
    show walk_list nodes (cells.length + 1) (some c.1) = c.2 :: cells.map Prod.snd
    simp only [walk_list, h1]
    rw [ih (some c.1) h2]

theorem lru_frames_eq {w : World} {s : State} {cells : List (Nat × Nat)}
    (h : LruRep w s cells) : lru_frames s = cells.map Prod.snd := by
  unfold lru_frames
  rw [h.2.2.2.1, h.2.1]
  exact walk_list_chain cells none h.1

/-! ## C4: the list is ordered by last reference -/

theorem stampSorted_touch {st : Stamps} {l : List Nat} (h : StampSorted st l)
    (hnd : l.Nodup) (f : Nat) : StampSorted (st.ref f) (lru_touch l f) := by
  obtain ⟨h1, h2⟩ := h
  have hne : ∀ g, g ∈ l.erase f → g ≠ f ∧ g ∈ l := fun g hg => (hnd.mem_erase_iff).1 hg
  constructor
  · unfold lru_touch
    rw [List.pairwise_append]
    refine ⟨?_, List.pairwise_singleton _ _, ?_⟩
    · apply ((h1.sublist (List.erase_sublist f l))).imp_of_mem
      intro a b ha hb hab
      simp only [Stamps.ref, (hne a ha).1, (hne b hb).1, if_false]
      exact hab
    · intro a ha b hb
      simp only [List.mem_singleton] at hb
      subst hb
      simp only [Stamps.ref, (hne a ha).1, if_false, if_true]
      exact Nat.lt_succ_of_le (h2 a (hne a ha).2).2
  · intro g hg
    unfold lru_touch at hg
    rcases List.mem_append.1 hg with e | e
    · simp only [Stamps.ref, (hne g e).1, if_false]
      have := h2 g (hne g e).2
      exact ⟨this.1, Nat.le_succ_of_le this.2⟩
    · simp only [List.mem_singleton] at e
      subst e
      simp [Stamps.ref]

theorem stampSorted_tail {st : Stamps} {f : Nat} {l : List Nat}
    (h : StampSorted st (f :: l)) : StampSorted st l :=
  ⟨(List.pairwise_cons.1 h.1).2, fun g hg => h.2 g (List.mem_cons_of_mem _ hg)⟩

theorem lru_ref_ok_lt {w : World} {s t : State} {p : PtePtr} (h : lru_ref w s p = .ok t) :
    (s.pte p).frame >>> PAGE_SHIFT < w.memsize := by
  by_contra hlt
  simp [lru_ref, hlt] at h

/-- A call of `lru_ref` that returns did not fail to allocate. -/
theorem lru_ref_ok_malloc {w : World} {s t : State} {p : PtePtr} (h : lru_ref w s p = .ok t) :
    malloc_ok w s p := by
  intro hm
  by_contra hmal
  have hlt := lru_ref_ok_lt h
  simp [lru_ref, hlt, hm, hmal] at h

theorem pte_set_frame_self (s : State) (p : PtePtr) (v : Nat) :
    ((s.set_frame p v).pte p).frame = v := by
  rw [pte_set_frame]
  simp

theorem lruRep_set_frame {w : World} {s : State} {cells : List (Nat × Nat)}
    (h : LruRep w s cells) (p : PtePtr) (v : Nat) : LruRep w (s.set_frame p v) cells := h

/-- Invariant of a run of LRU calls: the structure stays a well-formed list and its frames
stay ordered by the time of their most recent reference. -/
theorem lru_run_sorted {w : World} (ops : List LruOp) : ∀ (s t : State) (st : Stamps)
    (cells : List (Nat × Nat)), LruRep w s cells → StampSorted st (cells.map Prod.snd) →
    lru_run w s ops = .ok t →
    ∃ cells2, LruRep w t cells2 ∧ StampSorted (ops.foldl stamp_op st) (cells2.map Prod.snd) := by
  induction ops with
  | nil =>
    intro s t st cells h hs hr
    simp only [lru_run, Except.ok.injEq] at hr
    subst hr
    exact ⟨cells, h, hs⟩
  | cons op ops ih =>
    intro s t st cells h hs hr
    cases op with
    | ref p v =>
      simp only [lru_run] at hr
      obtain ⟨u, h1, h2⟩ := bind_ok hr
      have hrep := lruRep_set_frame h p (v % 2 ^ 32)
      have hlt := lru_ref_ok_lt h1
      have hfr : ((s.set_frame p (v % 2 ^ 32)).pte p).frame >>> PAGE_SHIFT = ref_frame v := by
        rw [pte_set_frame_self]; rfl
      have hlt2 : ((s.set_frame p (v % 2 ^ 32)).pte p).frame >>> PAGE_SHIFT < 2 ^ 20 := by
        rw [pte_set_frame_self, Nat.shiftRight_eq_div_pow]
        have : v % 2 ^ 32 < 2 ^ 32 := Nat.mod_lt _ (by decide)
        unfold PAGE_SHIFT
        omega
      obtain ⟨u2, cells2, g1, g2, g3, -⟩ := lru_ref_spec hrep hlt hlt2 (lru_ref_ok_malloc h1)
      rw [g1] at h1
      simp only [Except.ok.injEq] at h1
      subst h1
      rw [hfr] at g3
      apply ih u2 t (st.ref (ref_frame v)) cells2 g2 _ h2
      rw [g3]
      exact stampSorted_touch hs h.2.2.2.2.2.1 _
    | evict =>
      simp only [lru_run] at hr
      obtain ⟨⟨f, u⟩, h1, h2⟩ := bind_ok hr
      cases cells with
      | nil =>
        rw [lru_evict_empty h] at h1
        simp at h1
      | cons c rest =>
        obtain ⟨u2, g1, g2, -, -⟩ := lru_evict_spec h
        rw [g1] at h1
        simp only [Except.ok.injEq, Prod.mk.injEq] at h1
        obtain ⟨-, rfl⟩ := h1
        exact ih u2 t st rest g2 (stampSorted_tail hs) h2

theorem lruRep_init {w : World} (s : State) : LruRep w (lru_init s) [] := by
  refine ⟨trivial, rfl, rfl, rfl, List.nodup_nil, List.nodup_nil, ?_, ?_, ?_⟩
  · intro c hc; simp at hc
  · intro c hc; simp at hc
  · intro f a h; simp [lru_init] at h

/-- C4: after any sequence of `lru_ref` and `lru_evict` calls that return, started from
`lru_init`, the frames of the list read from head to tail are in the order of their most
recent reference: for A nearer the head than B the most recent `lru_ref` of A happened
before the most recent `lru_ref` of B (in particular no later), and every frame in the list
has been referenced. -/
theorem lru_list_ordered_by_last_ref (w : World) (s0 t : State) (ops : List LruOp)
    (h : lru_run w (lru_init s0) ops = .ok t) :
    (lru_frames t).Pairwise (fun a b => last_ref ops a ≤ last_ref ops b) ∧
    (lru_frames t).Pairwise (fun a b => last_ref ops a < last_ref ops b) ∧
    ∀ f, f ∈ lru_frames t → 0 < last_ref ops f := by
  obtain ⟨cells, h1, h2, h3⟩ := lru_run_sorted ops (lru_init s0) t Stamps.init []
    (lruRep_init s0) ⟨List.Pairwise.nil, fun f hf => by simp at hf⟩ h
  rw [lru_frames_eq h1]
  exact ⟨h2.imp (fun hab => Nat.le_of_lt hab), h2, fun f hf => (h3 f hf).1⟩


theorem lru_list_ordered_by_last_ref_witness :
    lru_run (demo_world 2 .lru 4) (lru_init (init (demo_world 2 .lru 4)))
        [.ref ⟨65536, 1⟩ 0, .ref ⟨65536, 2⟩ 4096, .ref ⟨65536, 1⟩ 0] =
      .ok (lru_after (demo_world 2 .lru 4) (lru_init (init (demo_world 2 .lru 4)))
        [.ref ⟨65536, 1⟩ 0, .ref ⟨65536, 2⟩ 4096, .ref ⟨65536, 1⟩ 0]) ∧
    lru_frames (lru_after (demo_world 2 .lru 4) (lru_init (init (demo_world 2 .lru 4)))
        [.ref ⟨65536, 1⟩ 0, .ref ⟨65536, 2⟩ 4096, .ref ⟨65536, 1⟩ 0]) = [1, 0] ∧
    (lru_frames (lru_after (demo_world 2 .lru 4) (lru_init (init (demo_world 2 .lru 4)))
        [.ref ⟨65536, 1⟩ 0, .ref ⟨65536, 2⟩ 4096, .ref ⟨65536, 1⟩ 0])).Pairwise
      (fun a b =>
        last_ref [.ref ⟨65536, 1⟩ 0, .ref ⟨65536, 2⟩ 4096, .ref ⟨65536, 1⟩ 0] a ≤
        last_ref [.ref ⟨65536, 1⟩ 0, .ref ⟨65536, 2⟩ 4096, .ref ⟨65536, 1⟩ 0] b) :=
  ⟨rfl, by decide,
    (lru_list_ordered_by_last_ref (demo_world 2 .lru 4) (init (demo_world 2 .lru 4))
      (lru_after (demo_world 2 .lru 4) (lru_init (init (demo_world 2 .lru 4)))
        [.ref ⟨65536, 1⟩ 0, .ref ⟨65536, 2⟩ 4096, .ref ⟨65536, 1⟩ 0])
      [.ref ⟨65536, 1⟩ 0, .ref ⟨65536, 2⟩ 4096, .ref ⟨65536, 1⟩ 0] rfl).1⟩

/-! ## The page directory -/

theorem clock_loop_sameDir {w : World} (n : Nat) : ∀ {s t : State} {f : Nat},
    clock_loop w n s = .ok (f, t) → SameDir s t ∧ t.coremap = s.coremap := by
  induction n with
  | zero => intro s t f h; simp [clock_loop] at h
  | succ n ih =>
    intro s t f h
    simp only [clock_loop] at h
    repeat' split at h
    all_goals first
      | (simp at h; done)
      | (simp only [Except.ok.injEq, Prod.mk.injEq] at h; obtain ⟨-, rfl⟩ := h
         exact ⟨⟨rfl, rfl⟩, rfl⟩)
      | (have h2 := ih h; exact h2)

theorem evict_fcn_sameDir {w : World} {s t : State} {f : Nat}
    (h : evict_fcn w s = .ok (f, t)) : SameDir s t ∧ t.coremap = s.coremap := by
  unfold evict_fcn at h
  split at h
  · have := lru_evict_lru_only h
    exact ⟨⟨this.1, this.2.1⟩, this.2.2.2.1⟩
  · exact clock_loop_sameDir _ h

theorem write_back_sameDir {w : World} {s t : State} {f : Nat} {v : PtePtr}
    (h : write_back w s f v = .ok t) :
    SameDir s t ∧ t.coremap = s.coremap ∧ t.list = s.list ∧ t.map = s.map ∧
      t.nodes = s.nodes ∧ t.next_node = s.next_node := by
  unfold write_back at h
  repeat' split at h
  all_goals first
    | (simp at h; done)
    | (simp only [Except.ok.injEq] at h; subst h; exact ⟨⟨rfl, rfl⟩, rfl, rfl, rfl, rfl, rfl⟩)

theorem evict_victim_sameDir {w : World} {s t : State} {f : Nat}
    (h : evict_victim w s f = .ok t) :
    SameDir s t ∧ t.coremap = s.coremap ∧ t.list = s.list ∧ t.map = s.map ∧
      t.nodes = s.nodes ∧ t.next_node = s.next_node := by
  unfold evict_victim at h
  split at h
  · split at h
    · simp at h
    · obtain ⟨s1, h1, h2⟩ := bind_ok h
      simp only [Except.ok.injEq] at h2
      subst h2
      have h3 := write_back_sameDir h1
      exact h3
  · simp at h

theorem allocate_frame_sameDir {w : World} {s t : State} {p : PtePtr} {f : Nat}
    (h : allocate_frame w s p = .ok (f, t)) : SameDir s t := by
  unfold allocate_frame at h
  split at h
  · simp only [Except.ok.injEq, Prod.mk.injEq] at h
    obtain ⟨-, rfl⟩ := h
    exact ⟨rfl, rfl⟩
  · obtain ⟨⟨fr, s1⟩, h1, h2⟩ := bind_ok h
    obtain ⟨s2, h3, h4⟩ := bind_ok h2
    simp only [Except.ok.injEq, Prod.mk.injEq] at h4
    obtain ⟨-, rfl⟩ := h4
    have a := (evict_fcn_sameDir h1).1
    have b := (evict_victim_sameDir h3).1
    exact ⟨b.1.trans a.1, b.2.trans a.2⟩

theorem fill_frame_sameDir {w : World} {s t : State} {p : PtePtr} {f va : Nat}
    (h : fill_frame w s p f va = .ok t) :
    SameDir s t ∧ t.coremap = s.coremap ∧ t.list = s.list ∧ t.map = s.map ∧
      t.nodes = s.nodes ∧ t.next_node = s.next_node := by
  unfold fill_frame at h
  repeat' split at h
  all_goals first
    | (simp at h; done)
    | (simp only [Except.ok.injEq] at h; subst h; exact ⟨⟨rfl, rfl⟩, rfl, rfl, rfl, rfl, rfl⟩)

/-- After the directory walk, `find_physpage` does not touch the directory. -/
theorem find_physpage_sameDir {w : World} {s s1 t : State} {va : Nat} {ty : Char} {r : Nat}
    (hw : walk_pagetable w s va = .ok s1)
    (h : find_physpage w s va ty = .ok (r, t)) : SameDir s1 t := by
  by_cases hv : (s1.pte (pte_ptr s1 va)).frame &&& PG_VALID = 0
  · obtain ⟨f, sa, sd, ha, hfill, -, -, -, g4, -⟩ := find_physpage_fault hw hv h
    have a := allocate_frame_sameDir ha
    have b := (fill_frame_sameDir hfill).1
    unfold find_physpage at h
    rw [hw] at h
    simp only [Except.bind, hit_or_fault, hv, if_true] at h
    obtain ⟨s2, h3, h4⟩ := bind_ok h
    obtain ⟨s3, h5, h6⟩ := bind_ok h4
    simp only [Except.ok.injEq, Prod.mk.injEq] at h6
    obtain ⟨-, rfl⟩ := h6
    have l := ref_fcn_lru_only h5 (mark_access_ref _ _ _)
    refine ⟨g4.trans (b.1.trans a.1), ?_⟩
    show s3.ntables = _
    rw [l.2.1]
    unfold handle_fault at h3
    obtain ⟨⟨f2, sa2⟩, h7, h8⟩ := bind_ok h3
    obtain ⟨sd2, h9, h10⟩ := bind_ok h8
    simp only [Except.ok.injEq] at h10
    subst h10
    have a2 := allocate_frame_sameDir h7
    have b2 := (fill_frame_sameDir h9).1
    have : (mark_access { sd2 with miss_count := sd2.miss_count + 1 } (pte_ptr s1 va) ty).ntables
        = sd2.ntables := by
      unfold mark_access; split <;> rfl
    rw [this, b2.2, a2.2]
  · have e := walk_pagetable_hit hw hv
    subst e
    unfold find_physpage at h
    rw [hw] at h
    simp only [Except.bind, hit_or_fault, hv, if_false] at h
    obtain ⟨s3, h5, h6⟩ := bind_ok h
    simp only [Except.ok.injEq, Prod.mk.injEq] at h6
    obtain ⟨-, rfl⟩ := h6
    have l := ref_fcn_lru_only h5 (mark_access_ref _ _ _)
    constructor
    · show s3.pgdir = _
      rw [l.1]; unfold mark_access; split <;> rfl
    · show s3.ntables = _
      rw [l.2.1]; unfold mark_access; split <;> rfl

theorem tbl_addr_inj {k j : Nat} (h : tbl_addr k = tbl_addr j) : k = j := by
  unfold tbl_addr PTRS_PER_PGTBL at h
  omega

theorem tbl_addr_le {k n : Nat} (h : k < n) : tbl_addr (k + 1) ≤ tbl_addr n := by
  unfold tbl_addr PTRS_PER_PGTBL
  have : k + 1 + 1 ≤ n + 1 := by omega
  exact Nat.mul_le_mul_right _ this

/-- In a state with a well-formed directory, the PTE pointer of an access through a valid
directory entry is the entry `PGTBL_INDEX vaddr` of an allocated leaf table. -/
theorem dirOk_ptr {s : State} (h : DirOk s) {va : Nat} (hv : dir_valid s va) :
    ∃ k, k < s.ntables ∧ s.pgdir (PGDIR_INDEX va) = tbl_addr k ||| PG_VALID ∧
      pte_ptr s va = { tbl := tbl_addr k, idx := PGTBL_INDEX va } := by
  obtain ⟨k, hk, he⟩ := h.2.1 _ hv
  refine ⟨k, hk, he, ?_⟩
  unfold pte_ptr
  rw [he, tbl_addr_mask k (le_trans (tbl_addr_le hk) h.1)]

/-- Different pages have different PTEs. -/
theorem pte_ptr_inj {s : State} (h : DirOk s) {va vb : Nat} (ha : dir_valid s va)
    (hb : dir_valid s vb) (he : pte_ptr s va = pte_ptr s vb) : same_page va vb := by
  obtain ⟨k, hk, e1, e2⟩ := dirOk_ptr h ha
  obtain ⟨j, hj, e3, e4⟩ := dirOk_ptr h hb
  rw [e2, e4] at he
  simp only [PtePtr.mk.injEq] at he
  have hkj := tbl_addr_inj he.1
  subst hkj
  exact ⟨h.2.2 _ _ ha (e1.trans e3.symm), he.2⟩

theorem pte_ptr_same_page {s : State} {va vb : Nat} (h : same_page va vb) :
    pte_ptr s va = pte_ptr s vb := by
  unfold pte_ptr
  rw [h.1, h.2]

theorem dirOk_init (w : World) : DirOk (init w) := by
  have h0 : ∀ i, (init w).pgdir i = 0 := by
    intro i; unfold init; cases w.policy <;> rfl
  have hn : (init w).ntables = 0 := by
    unfold init; cases w.policy <;> rfl
  refine ⟨?_, ?_, ?_⟩
  · rw [hn]; decide
  · intro i hi; rw [h0] at hi; simp at hi
  · intro i j hi; rw [h0] at hi; simp at hi

/-- The directory walk keeps the directory well formed, makes the entry of the access
valid, and keeps the PTE pointer of every page whose entry was valid. -/
theorem walk_pagetable_dirOk {w : World} {s s1 : State} {va : Nat}
    (hw : walk_pagetable w s va = .ok s1) (h : DirOk s) :
    DirOk s1 ∧ dir_valid s1 va ∧ PGDIR_INDEX va < PTRS_PER_PGDIR ∧
    (∀ vb, dir_valid s vb → dir_valid s1 vb ∧ pte_ptr s1 vb = pte_ptr s vb) ∧
    (∀ q : PtePtr, q.tbl ≠ tbl_addr s.ntables → s1.pte q = s.pte q) ∧
    (∀ vb, dir_valid s1 vb → ¬ dir_valid s vb →
      s1.pte (pte_ptr s1 vb) = { frame := 0, swap_off := INVALID_SWAP }) := by
  by_cases hd : s.pgdir (PGDIR_INDEX va) &&& PG_VALID = 0
  · unfold walk_pagetable at hw
    split at hw
    · rename_i hidx
      simp only [hd, if_true] at hw
      obtain ⟨⟨e, s2⟩, h1, h2⟩ := bind_ok hw
      simp only [Except.ok.injEq] at h2
      subst h2
      unfold init_second_level at h1
      split at h1
      · rename_i hok
        simp only [Except.ok.injEq, Prod.mk.injEq] at h1
        obtain ⟨rfl, rfl⟩ := h1
        have hnew : ∀ i, i ≠ PGDIR_INDEX va → s.pgdir i ≠ tbl_addr s.ntables ||| PG_VALID := by
          intro i _ hi
          have hvi : s.pgdir i &&& PG_VALID ≠ 0 := by rw [hi]; exact tbl_addr_valid _
          obtain ⟨k, hk, he⟩ := h.2.1 i hvi
          rw [he] at hi
          have := congrArg (fun x => x &&& PAGE_MASK) hi
          simp only [tbl_addr_mask k (le_trans (tbl_addr_le hk) h.1),
            tbl_addr_mask s.ntables hok.2] at this
          have := tbl_addr_inj this
          omega
        refine ⟨⟨hok.2, ?_, ?_⟩, ?_, hidx, ?_, ?_, ?_⟩
        · intro i hi
          simp only [State.emit] at hi ⊢
          by_cases hi2 : i = PGDIR_INDEX va
          · simp only [hi2, if_true]
            exact ⟨s.ntables, Nat.lt_succ_self _, rfl⟩
          · simp only [hi2, if_false] at hi ⊢
            obtain ⟨k, hk, he⟩ := h.2.1 i hi
            exact ⟨k, Nat.lt_succ_of_lt hk, he⟩
        · intro i j hi hij
          simp only [State.emit] at hi hij
          by_cases hi2 : i = PGDIR_INDEX va <;> by_cases hj2 : j = PGDIR_INDEX va
          · rw [hi2, hj2]
          · simp only [hi2, hj2, if_true, if_false] at hij
            exact absurd hij.symm (hnew j hj2)
          · simp only [hi2, hj2, if_true, if_false] at hij
            exact absurd hij (hnew i hi2)
          · simp only [hi2, hj2, if_false] at hi hij
            exact h.2.2 i j hi hij
        · simp only [dir_valid, State.emit, if_true]
          exact tbl_addr_valid _
        · intro vb hvb
          have hne : PGDIR_INDEX vb ≠ PGDIR_INDEX va := by
            intro e
            unfold dir_valid at hvb
            rw [e] at hvb
            exact hvb hd
          constructor
          · simp only [dir_valid, State.emit, hne, if_false]
            exact hvb
          · simp only [pte_ptr, State.emit, hne, if_false]
        · intro q hq
          simp only [State.pte, State.emit, hq, false_and, if_false]
        · intro vb hvb1 hvb
          have hne : PGDIR_INDEX vb = PGDIR_INDEX va := by
            by_contra hne
            apply hvb
            simpa only [dir_valid, State.emit, hne, if_false] using hvb1
          simp only [State.pte, pte_ptr, State.emit, hne, if_true,
            tbl_addr_mask _ hok.2, PGTBL_INDEX_lt, and_self]
      · simp at h1
    · simp at hw
  · have e := walk_pagetable_valid hw hd
    subst e
    refine ⟨h, hd, ?_, fun vb hvb => ⟨hvb, rfl⟩, fun q _ => rfl, fun vb h1 h2 => absurd h1 h2⟩
    unfold walk_pagetable at hw
    split at hw
    · assumption
    · simp at hw

theorem find_physpage_dirOk {w : World} {s t : State} {va : Nat} {ty : Char} {r : Nat}
    (h : find_physpage w s va ty = .ok (r, t)) (hs : DirOk s) : DirOk t := by
  have h0 := h
  unfold find_physpage at h0
  obtain ⟨s1, h1, -⟩ := bind_ok h0
  obtain ⟨e1, e2⟩ := find_physpage_sameDir h1 h
  have := (walk_pagetable_dirOk h1 hs).1
  unfold DirOk at this ⊢
  rw [e1, e2]
  exact this

theorem run_dirOk {w : World} (tr : List (Nat × Char)) : ∀ {s t : State},
    run w s tr = .ok t → DirOk s → DirOk t := by
  induction tr with
  | nil => intro s t h hs; simp only [run, Except.ok.injEq] at h; subst h; exact hs
  | cons a tr ih =>
    intro s t h hs
    obtain ⟨r, s1, h1, h2⟩ := run_cons_ok h
    exact ih h2 (find_physpage_dirOk h1 hs)

theorem reachable_dirOk {w : World} {tr : List (Nat × Char)} {s : State}
    (h : run w (init w) tr = .ok s) : DirOk s :=
  run_dirOk tr h (dirOk_init w)

/-! ## Effect of allocate_frame -/

theorem sameButRef_refl (e : pgtbl_entry_t) : SameButRef e e := ⟨rfl, fun _ _ => rfl⟩

theorem sameButRef_trans {a b c : pgtbl_entry_t} (h1 : SameButRef a b) (h2 : SameButRef b c) :
    SameButRef a c :=
  ⟨h2.1.trans h1.1, fun j hj => (h2.2 j hj).trans (h1.2 j hj)⟩

theorem sameButRef_valid {a b : pgtbl_entry_t} (h : SameButRef a b) :
    (b.frame &&& PG_VALID = 0 ↔ a.frame &&& PG_VALID = 0) := by
  rw [valid_eq_zero_iff, valid_eq_zero_iff, h.2 0 (by decide)]

theorem sameButRef_dirty {a b : pgtbl_entry_t} (h : SameButRef a b) :
    (b.frame &&& PG_DIRTY = 0 ↔ a.frame &&& PG_DIRTY = 0) := by
  rw [dirty_eq_zero_iff, dirty_eq_zero_iff, h.2 1 (by decide)]

theorem sameButRef_onswap {a b : pgtbl_entry_t} (h : SameButRef a b) :
    (b.frame &&& PG_ONSWAP = 0 ↔ a.frame &&& PG_ONSWAP = 0) := by
  rw [onswap_eq_zero_iff, onswap_eq_zero_iff, h.2 3 (by decide)]

theorem sameButRef_index {a b : pgtbl_entry_t} (h : SameButRef a b) :
    b.frame >>> PAGE_SHIFT = a.frame >>> PAGE_SHIFT := by
  apply eq_of_tbit_eq
  intro j
  rw [tbit_shift, tbit_shift]
  exact h.2 _ (by unfold PAGE_SHIFT; omega)

/-- Strengthening of `evict_fcn_pte` for well-formed entries: victim selection changes no
entry except for REFERENCED bits. -/
theorem evict_fcn_sameButRef {w : World} {s t : State} {f : Nat}
    (h : evict_fcn w s = .ok (f, t)) (hs : AllPteOk s) (q : PtePtr) :
    SameButRef (s.pte q) (t.pte q) := by
  obtain ⟨h1, h2⟩ := evict_fcn_pte h q
  refine ⟨h1, fun j hj => ?_⟩
  by_cases hj2 : j < 32
  · exact h2 j hj2 hj
  · rw [tbit_of_lt_two_pow (hs q).1 (by omega),
      tbit_of_lt_two_pow (evict_fcn_allPteOk h hs q).1 (by omega)]

theorem evict_victim_pte_other {w : World} {s t : State} {f : Nat} {v q : PtePtr}
    (h : evict_victim w s f = .ok t) (hv : (s.coremap f).pte = some v) (hq : q ≠ v) :
    t.pte q = s.pte q := by
  unfold evict_victim at h
  split at h
  · rw [hv] at h
    simp only at h
    obtain ⟨s1, h1, h2⟩ := bind_ok h
    simp only [Except.ok.injEq] at h2
    subst h2
    unfold clear_victim
    simp only [pte_set_frame, hq, if_false]
    exact write_back_pte_other h1 hq
  · simp at h

theorem evict_victim_ok {w : World} {s t : State} {f : Nat}
    (h : evict_victim w s f = .ok t) :
    f < w.memsize ∧ ∃ v, (s.coremap f).pte = some v ∧
      (t.pte v).frame &&& PG_VALID = 0 ∧ (t.pte v).frame &&& PG_DIRTY = 0 := by
  unfold evict_victim at h
  split at h
  · rename_i hf
    split at h
    · simp at h
    · rename_i v hv
      obtain ⟨s1, h1, h2⟩ := bind_ok h
      simp only [Except.ok.injEq] at h2
      subst h2
      refine ⟨hf, v, hv, ?_, ?_⟩
      · unfold clear_victim
        simp [pte_set_frame, valid_eq_zero_iff, tbit_clear_valid]
      · unfold clear_victim
        simp [pte_set_frame, dirty_eq_zero_iff, tbit_clear_valid, tbit_clear_dirty]
  · simp at h

/-- Effect of `allocate_frame` on the coremap and the page-table entries. -/
theorem allocate_frame_effect {w : World} {s sa : State} {p : PtePtr} {f : Nat}
    (h : allocate_frame w s p = .ok (f, sa)) (hs : AllPteOk s) :
    f < w.memsize ∧ sa.coremap = (s.set_coremap f p).coremap ∧
    ((first_free s.coremap 0 w.memsize = some f ∧ sa.pgtbls = s.pgtbls ∧ SameLru s sa ∧
        sa.log = s.log) ∨
      (first_free s.coremap 0 w.memsize = none ∧ ∃ v, (s.coremap f).pte = some v ∧
        (sa.pte v).frame &&& PG_VALID = 0 ∧ (sa.pte v).frame &&& PG_DIRTY = 0 ∧
        ∀ q, q ≠ v → SameButRef (s.pte q) (sa.pte q))) := by
  unfold allocate_frame at h
  split at h
  · rename_i fr hfr
    simp only [Except.ok.injEq, Prod.mk.injEq] at h
    obtain ⟨rfl, rfl⟩ := h
    have := first_free_some _ _ _ _ hfr
    exact ⟨by omega, rfl, Or.inl ⟨hfr, rfl, ⟨rfl, rfl, rfl, rfl⟩, rfl⟩⟩
  · rename_i hfr
    obtain ⟨⟨fr, s1⟩, h1, h2⟩ := bind_ok h
    obtain ⟨s2, h3, h4⟩ := bind_ok h2
    simp only [Except.ok.injEq, Prod.mk.injEq] at h4
    obtain ⟨rfl, rfl⟩ := h4
    obtain ⟨hlt, v, hv, hv1, hv2⟩ := evict_victim_ok h3
    have hc1 := (evict_fcn_sameDir h1).2
    have hc2 := (evict_victim_sameDir h3).2.1
    refine ⟨hlt, ?_, Or.inr ⟨hfr, v, ?_, hv1, hv2, ?_⟩⟩
    · show (s2.set_coremap fr p).coremap = _
      simp only [State.set_coremap, hc2, hc1]
    · rw [← hc1]; exact hv
    · intro q hq
      have e1 := evict_fcn_sameButRef h1 hs q
      have e2 : s2.pte q = s1.pte q := evict_victim_pte_other h3 hv hq
      have e3 : (s2.set_coremap fr p).pte q = s2.pte q := rfl
      rw [e3, e2]
      exact e1

/-! ## The coremap invariant -/

theorem mapping_valid (e : pgtbl_entry_t) : e.frame &&& PG_VALID ≠ 0 ↔ (mapping e).1 = true := by
  unfold mapping
  simp [valid_eq_zero_iff]

theorem mapping_sameButRef {a b : pgtbl_entry_t} (h : SameButRef a b) :
    mapping b = mapping a := by
  unfold mapping
  rw [h.2 0 (by decide), sameButRef_index h]

/-- The coremap invariant only depends on the coremap, the number of leaf tables, and the
VALID bit and frame index of every entry. -/
theorem coreOk_congr {w : World} {s t : State} (hc : t.coremap = s.coremap)
    (hn : t.ntables = s.ntables) (hm : ∀ q, mapping (t.pte q) = mapping (s.pte q))
    (h : CoreOk w s) : CoreOk w t := by
  obtain ⟨k1, k2, k3, k4⟩ := h
  have hv : ∀ q, (t.pte q).frame &&& PG_VALID ≠ 0 ↔ (s.pte q).frame &&& PG_VALID ≠ 0 := by
    intro q; rw [mapping_valid, mapping_valid, hm]
  have hi : ∀ q, (t.pte q).frame >>> PAGE_SHIFT = (s.pte q).frame >>> PAGE_SHIFT := by
    intro q; exact congrArg Prod.snd (hm q)
  refine ⟨?_, ?_, ?_, ?_⟩
  · intro f hf hu
    rw [hc] at hu ⊢
    obtain ⟨q, h1, h2, h3⟩ := k1 f hf hu
    exact ⟨q, h1, (hv q).2 h2, (hi q).trans h3⟩
  · intro q hq
    rw [hc, hi]
    exact k2 q ((hv q).1 hq)
  · intro f q hq
    rw [hc] at hq
    rw [hn]
    exact k3 f q hq
  · intro f g hg hf hu
    rw [hc] at hu ⊢
    exact k4 f g hg hf hu

/-- The coremap invariant after a frame `f` has been given to the PTE `p`, either a free
frame (the least one) or the frame of an evicted PTE `v`. -/
theorem coreOk_install {w : World} {s t : State} {p : PtePtr} {f : Nat}
    (h : CoreOk w s) (hn : t.ntables = s.ntables)
    (hc : t.coremap = (s.set_coremap f p).coremap) (hf : f < w.memsize)
    (hp : mapping (t.pte p) = (true, f)) (hps : (s.pte p).frame &&& PG_VALID = 0)
    (hpt : ∃ k, k < s.ntables ∧ p.tbl = tbl_addr k)
    (hcase : ((s.coremap f).in_use = false ∧
          (∀ g, g < f → (s.coremap g).in_use = true) ∧
          ∀ q, q ≠ p → mapping (t.pte q) = mapping (s.pte q)) ∨
        ((s.coremap f).in_use = true ∧ ∃ v, (s.coremap f).pte = some v ∧
          (mapping (t.pte v)).1 = false ∧
          ∀ q, q ≠ p → q ≠ v → mapping (t.pte q) = mapping (s.pte q))) :
    CoreOk w t := by
  obtain ⟨k1, k2, k3, k4⟩ := h
  have hcm : ∀ g, t.coremap g = if g = f then { in_use := true, pte := some p }
      else s.coremap g := by
    intro g; rw [hc]; rfl
  have hpv : (t.pte p).frame &&& PG_VALID ≠ 0 := by rw [mapping_valid, hp]
  have hpi : (t.pte p).frame >>> PAGE_SHIFT = f := congrArg Prod.snd hp
  -- entries other than `p` that are VALID afterwards were VALID before, with the same
  -- frame index, which is not `f`
  have hother : ∀ q, q ≠ p → (t.pte q).frame &&& PG_VALID ≠ 0 →
      mapping (t.pte q) = mapping (s.pte q) ∧ (s.pte q).frame >>> PAGE_SHIFT ≠ f := by
    intro q hq hqv
    rcases hcase with ⟨c1, -, c3⟩ | ⟨c1, v, c2, c3, c4⟩
    · have hm := c3 q hq
      refine ⟨hm, ?_⟩
      intro hidx
      have hqs : (s.pte q).frame &&& PG_VALID ≠ 0 := by
        rw [mapping_valid, ← hm, ← mapping_valid]; exact hqv
      have := (k2 q hqs).2.1
      rw [hidx, c1] at this
      simp at this
    · have hqv2 : q ≠ v := by
        intro e
        rw [mapping_valid, e, c3] at hqv
        simp at hqv
      have hm := c4 q hq hqv2
      refine ⟨hm, ?_⟩
      intro hidx
      have hqs : (s.pte q).frame &&& PG_VALID ≠ 0 := by
        rw [mapping_valid, ← hm, ← mapping_valid]; exact hqv
      have := (k2 q hqs).2.2
      rw [hidx, c2] at this
      simp only [Option.some.injEq] at this
      exact hqv2 this.symm
  refine ⟨?_, ?_, ?_, ?_⟩
  · intro g hg hu
    rw [hcm] at hu ⊢
    by_cases hgf : g = f
    · subst hgf
      simp only [if_true]
      exact ⟨p, rfl, hpv, hpi⟩
    · simp only [hgf, if_false] at hu ⊢
      obtain ⟨q, h1, h2, h3⟩ := k1 g hg hu
      have hqp : q ≠ p := fun e => h2 (e ▸ hps)
      have hm : mapping (t.pte q) = mapping (s.pte q) := by
        rcases hcase with ⟨-, -, c3⟩ | ⟨c1, v, c2, c3, c4⟩
        · exact c3 q hqp
        · apply c4 q hqp
          intro e
          subst e
          obtain ⟨q2, j1, j2, j3⟩ := k1 f hf c1
          rw [c2] at j1
          simp only [Option.some.injEq] at j1
          subst j1
          exact hgf (h3.symm.trans j3)
      refine ⟨q, h1, ?_, ?_⟩
      · rw [mapping_valid, hm, ← mapping_valid]; exact h2
      · exact (congrArg Prod.snd hm).trans h3
  · intro q hq
    by_cases hqp : q = p
    · subst hqp
      rw [hpi, hcm]
      simp [hf]
    · obtain ⟨hm, hne⟩ := hother q hqp hq
      have hqs : (s.pte q).frame &&& PG_VALID ≠ 0 := by
        rw [mapping_valid, ← hm, ← mapping_valid]; exact hq
      have hi : (t.pte q).frame >>> PAGE_SHIFT = (s.pte q).frame >>> PAGE_SHIFT :=
        congrArg Prod.snd hm
      rw [hi, hcm]
      simp only [hne, if_false]
      exact k2 q hqs
  · intro g q hq
    rw [hcm] at hq
    rw [hn]
    by_cases hgf : g = f
    · simp only [hgf, if_true, Option.some.injEq] at hq
      subst hq
      exact hpt
    · simp only [hgf, if_false] at hq
      exact k3 g q hq
  · intro g g2 hlt hg hu
    rw [hcm] at hu ⊢
    by_cases hg2 : g2 = f
    · simp [hg2]
    · simp only [hg2, if_false]
      by_cases hgf : g = f
      · subst hgf
        rcases hcase with ⟨-, c2, -⟩ | ⟨c1, -⟩
        · exact c2 g2 hlt
        · exact k4 g g2 hlt hg c1
      · simp only [hgf, if_false] at hu
        exact k4 g g2 hlt hg hu

/-- What the directory walk leaves alone. -/
theorem walk_pagetable_frame {w : World} {s s1 : State} {va : Nat}
    (hw : walk_pagetable w s va = .ok s1) :
    s1.coremap = s.coremap ∧ SameLru s s1 ∧ s.ntables ≤ s1.ntables ∧
    s1.physmem = s.physmem ∧
    (∀ q, s1.pte q = s.pte q ∨ s1.pte q = { frame := 0, swap_off := INVALID_SWAP }) ∧
    (s1.log = s.log ∨ s1.log = s.log ++ [Event.memalign true]) := by
  unfold walk_pagetable at hw
  split at hw
  · split at hw
    · obtain ⟨⟨e, s2⟩, h1, h2⟩ := bind_ok hw
      simp only [Except.ok.injEq] at h2
      subst h2
      unfold init_second_level at h1
      split at h1
      · simp only [Except.ok.injEq, Prod.mk.injEq] at h1
        obtain ⟨rfl, rfl⟩ := h1
        refine ⟨rfl, ⟨rfl, rfl, rfl, rfl⟩, Nat.le_succ _, rfl, ?_, Or.inr rfl⟩
        intro q
        simp only [State.pte, State.emit]
        split
        · exact Or.inr rfl
        · exact Or.inl rfl
      · simp at h1
    · simp only [Except.ok.injEq] at hw
      subst hw
      exact ⟨rfl, ⟨rfl, rfl, rfl, rfl⟩, le_refl _, rfl, fun q => Or.inl rfl, Or.inl rfl⟩
  · simp at hw

theorem walk_pagetable_coreOk {w : World} {s s1 : State} {va : Nat}
    (hw : walk_pagetable w s va = .ok s1) (hd : DirOk s) (h : CoreOk w s) : CoreOk w s1 := by
  obtain ⟨c1, -, c3, -, c5, -⟩ := walk_pagetable_frame hw
  obtain ⟨-, -, -, -, d5, -⟩ := walk_pagetable_dirOk hw hd
  obtain ⟨k1, k2, k3, k4⟩ := h
  refine ⟨?_, ?_, ?_, ?_⟩
  · intro f hf hu
    rw [c1] at hu ⊢
    obtain ⟨q, h1, h2, h3⟩ := k1 f hf hu
    obtain ⟨k, hk, hq⟩ := k3 f q h1
    have hne : q.tbl ≠ tbl_addr s.ntables := by
      rw [hq]
      intro e
      have := tbl_addr_inj e
      omega
    rw [← d5 q hne] at h2 h3
    exact ⟨q, h1, h2, h3⟩
  · intro q hq
    rcases c5 q with e | e
    · rw [e] at hq ⊢
      rw [c1]
      exact k2 q hq
    · rw [e] at hq
      simp at hq
  · intro f q hq
    rw [c1] at hq
    obtain ⟨k, hk, e⟩ := k3 f q hq
    exact ⟨k, lt_of_lt_of_le hk c3, e⟩
  · intro f g hg hf hu
    rw [c1] at hu ⊢
    exact k4 f g hg hf hu

theorem mark_access_mapping_self (s : State) (p : PtePtr) (ty : Char)
    (hx : (s.pte p).frame < 2 ^ 32) :
    mapping ((mark_access s p ty).pte p) = (true, (s.pte p).frame >>> PAGE_SHIFT) := by
  rw [mark_access_pte]
  simp only [if_true, mapping]
  have hidx : ∀ x : Nat, x < 2 ^ 32 →
      (((x ||| PG_VALID) ||| PG_REF) &&& bnot32 PG_ONSWAP) >>> PAGE_SHIFT = x >>> PAGE_SHIFT := by
    intro x hx
    apply eq_of_tbit_eq
    intro j
    simp only [tbit_shift, tbit_clear_onswap, tbit_or_ref, tbit_or_valid]
    by_cases hj : PAGE_SHIFT + j < 32
    · have a1 : ¬ 3 = PAGE_SHIFT + j := by unfold PAGE_SHIFT; omega
      have a2 : ¬ 2 = PAGE_SHIFT + j := by unfold PAGE_SHIFT; omega
      have a3 : ¬ 0 = PAGE_SHIFT + j := by unfold PAGE_SHIFT; omega
      simp [hj, a1, a2, a3]
    · simp [hj, tbit_of_lt_two_pow hx (by omega : 32 ≤ PAGE_SHIFT + j)]
  have hdirty : ∀ x : Nat, x < 2 ^ 32 → (x ||| PG_DIRTY) < 2 ^ 32 ∧
      (x ||| PG_DIRTY) >>> PAGE_SHIFT = x >>> PAGE_SHIFT := by
    intro x hx
    constructor
    · apply lt_two_pow_of_tbit
      intro j hj
      have a1 : ¬ 1 = j := by omega
      simp [tbit_or_dirty, a1, tbit_of_lt_two_pow hx hj]
    · apply eq_of_tbit_eq
      intro j
      have a1 : ¬ 1 = PAGE_SHIFT + j := by unfold PAGE_SHIFT; omega
      simp [tbit_shift, tbit_or_dirty, a1]
  split
  · rw [hidx _ (hdirty _ hx).1, (hdirty _ hx).2]
    simp [tbit_clear_onswap, tbit_or_ref, tbit_or_valid]
  · rw [hidx _ hx]
    simp [tbit_clear_onswap, tbit_or_ref, tbit_or_valid]

theorem mark_access_pte_other (s : State) {p q : PtePtr} (ty : Char) (hq : q ≠ p) :
    (mark_access s p ty).pte q = s.pte q := by
  rw [mark_access_pte]
  simp [hq]

/-- Value installed in the PTE by `fill_frame`: the bare frame number, with DIRTY on a
first touch. -/
theorem fill_frame_value {w : World} {s t : State} {p : PtePtr} {f va : Nat}
    (h : fill_frame w s p f va = .ok t) :
    f < 2 ^ 19 ∧ (t.pte p).swap_off = (s.pte p).swap_off ∧
    ((s.pte p).frame &&& PG_ONSWAP = 0 →
      (t.pte p).frame = (f <<< PAGE_SHIFT) ||| PG_DIRTY ∧
      t.log = s.log ++ [Event.init_frame f va]) ∧
    ((s.pte p).frame &&& PG_ONSWAP ≠ 0 → (t.pte p).frame = f <<< PAGE_SHIFT) := by
  by_cases hsw : (s.pte p).frame &&& PG_ONSWAP = 0
  · unfold fill_frame at h
    simp only [hsw, if_true] at h
    split at h
    · rename_i hf
      simp only [Except.ok.injEq] at h
      subst h
      refine ⟨hf, ?_, fun _ => ⟨?_, ?_⟩, fun h2 => absurd hsw h2⟩
      · simp [pte_set_frame]; rfl
      · simp [pte_set_frame]
      · rfl
    · simp at h
  · obtain ⟨-, h2, -, h4, -⟩ := fill_frame_swapped h hsw
    refine ⟨h2, ?_, fun h3 => absurd h3 hsw, fun _ => ?_⟩
    · rw [h4]
    · rw [h4]

theorem shiftLeft_lt (f : Nat) (hf : f < 2 ^ 19) :
    f <<< PAGE_SHIFT < 2 ^ 32 ∧ (f <<< PAGE_SHIFT ||| PG_DIRTY) < 2 ^ 32 ∧
    (f <<< PAGE_SHIFT) >>> PAGE_SHIFT = f ∧
    (f <<< PAGE_SHIFT ||| PG_DIRTY) >>> PAGE_SHIFT = f := by
  have h1 : f <<< PAGE_SHIFT < 2 ^ 31 := by
    rw [Nat.shiftLeft_eq]
    unfold PAGE_SHIFT
    omega
  refine ⟨by omega, ?_, ?_, ?_⟩
  · apply lt_two_pow_of_tbit
    intro j hj
    have a1 : ¬ 1 = j := by omega
    simp [tbit_or_dirty, a1, tbit_of_lt_two_pow (by omega : f <<< PAGE_SHIFT < 2 ^ 32) hj]
  · simp
  · exact frame_of_packed f PG_DIRTY (by decide)

theorem pte_of_pgtbls {s t : State} (h : t.pgtbls = s.pgtbls) (q : PtePtr) :
    t.pte q = s.pte q := by
  unfold State.pte; rw [h]

/-- `find_physpage` preserves the coremap invariant. -/
theorem find_physpage_coreOk {w : World} {s t : State} {va : Nat} {ty : Char} {r : Nat}
    (h : find_physpage w s va ty = .ok (r, t)) (hp : AllPteOk s) (hd : DirOk s)
    (hc : CoreOk w s) : CoreOk w t := by
  have h0 := h
  unfold find_physpage at h0
  obtain ⟨s1, hw, -⟩ := bind_ok h0
  have hc1 := walk_pagetable_coreOk hw hd hc
  have hp1 := walk_pagetable_allPteOk hw hp
  obtain ⟨hd1, hdv, -⟩ := walk_pagetable_dirOk hw hd
  have hsd := find_physpage_sameDir hw h
  by_cases hv : (s1.pte (pte_ptr s1 va)).frame &&& PG_VALID = 0
  · obtain ⟨f, sa, sd, ha, hfill, g1, g2, -⟩ := find_physpage_fault hw hv h
    obtain ⟨hf, hcm, hcase⟩ := allocate_frame_effect ha hp1
    obtain ⟨hf19, -, fv1, fv2⟩ := fill_frame_value hfill
    have hsdp : (sd.pte (pte_ptr s1 va)).frame < 2 ^ 32 ∧
        (sd.pte (pte_ptr s1 va)).frame >>> PAGE_SHIFT = f := by
      by_cases hsw : (sa.pte (pte_ptr s1 va)).frame &&& PG_ONSWAP = 0
      · rw [(fv1 hsw).1]
        exact ⟨(shiftLeft_lt f hf19).2.1, (shiftLeft_lt f hf19).2.2.2⟩
      · rw [fv2 hsw]
        exact ⟨(shiftLeft_lt f hf19).1, (shiftLeft_lt f hf19).2.2.1⟩
    have htp : ∀ q, t.pte q = (mark_access sd (pte_ptr s1 va) ty).pte q :=
      fun q => pte_of_pgtbls g1 q
    have hto : ∀ q, q ≠ pte_ptr s1 va → t.pte q = sa.pte q := by
      intro q hq
      rw [htp, mark_access_pte_other _ _ hq, fill_frame_pte_other hfill hq]
    obtain ⟨k, hk, -, hptr⟩ := dirOk_ptr hd1 hdv
    apply coreOk_install hc1 hsd.2 _ hf _ hv ⟨k, hk, by rw [hptr]⟩
    · rcases hcase with ⟨c1, c2, -, -⟩ | ⟨c1, v, c2, c3, -, c5⟩
      · left
        obtain ⟨-, -, b3, b4⟩ := first_free_some _ _ _ _ c1
        refine ⟨b3, fun g hg => b4 g (Nat.zero_le _) hg, fun q hq => ?_⟩
        rw [hto q hq, pte_of_pgtbls c2]
      · right
        have hall := (first_free_none_iff_all w s1).1 c1
        have hu := hall f hf
        obtain ⟨v2, j1, j2, j3⟩ := hc1.1 f hf hu
        rw [c2] at j1
        simp only [Option.some.injEq] at j1
        subst j1
        have hvp : v ≠ pte_ptr s1 va := fun e => j2 (e ▸ hv)
        refine ⟨hu, v, c2, ?_, fun q hq hqv => ?_⟩
        · rw [hto v hvp]
          have := (valid_eq_zero_iff _).1 c3
          simpa [mapping] using this
        · rw [hto q hq]
          exact mapping_sameButRef (c5 q hqv)
    · rw [g2, (fill_frame_sameDir hfill).2.1, hcm]
    · rw [htp, mark_access_mapping_self _ _ _ hsdp.1, hsdp.2]
  · have e := walk_pagetable_hit hw hv
    subst e
    obtain ⟨g1, g2, -⟩ := find_physpage_hit hw hv h
    apply coreOk_congr g2 hsd.2 _ hc
    intro q
    rw [pte_of_pgtbls g1]
    by_cases hq : q = pte_ptr s1 va
    · subst hq
      rw [mark_access_mapping_self _ _ _ (hp _).1]
      unfold mapping
      have := (valid_eq_zero_iff _).not.1 hv
      simp only [Bool.not_eq_false] at this
      rw [this]
    · rw [mark_access_pte_other _ _ hq]

theorem coreOk_init (w : World) : CoreOk w (init w) := by
  have hcm : ∀ f, (init w).coremap f = { in_use := false, pte := none } := by
    intro f; unfold init; cases w.policy <;> rfl
  have hpte : ∀ q, (init w).pte q = { frame := 0, swap_off := INVALID_SWAP } := by
    intro q; unfold init; cases w.policy <;> rfl
  refine ⟨?_, ?_, ?_, ?_⟩
  · intro f _ hu; rw [hcm] at hu; simp at hu
  · intro q hq; rw [hpte] at hq; simp at hq
  · intro f q hq; rw [hcm] at hq; simp at hq
  · intro f g _ _ hu; rw [hcm] at hu; simp at hu

theorem run_coreOk {w : World} (tr : List (Nat × Char)) : ∀ {s t : State},
    run w s tr = .ok t → AllPteOk s → DirOk s → CoreOk w s → CoreOk w t := by
  induction tr with
  | nil => intro s t h _ _ hs; simp only [run, Except.ok.injEq] at h; subst h; exact hs
  | cons a tr ih =>
    intro s t h hp hd hc
    obtain ⟨r, s1, h1, h2⟩ := run_cons_ok h
    exact ih h2 (find_physpage_allPteOk h1 hp) (find_physpage_dirOk h1 hd)
      (find_physpage_coreOk h1 hp hd hc)

theorem reachable_coreOk {w : World} {tr : List (Nat × Char)} {s : State}
    (h : run w (init w) tr = .ok s) : CoreOk w s :=
  run_coreOk tr h (allPteOk_init w) (dirOk_init w) (coreOk_init w)

/-! ## The LRU invariant along a run -/

theorem sameLru_refl (s : State) : SameLru s s := ⟨rfl, rfl, rfl, rfl⟩

theorem sameLru_trans {s t u : State} (h1 : SameLru s t) (h2 : SameLru t u) : SameLru s u :=
  ⟨h2.1.trans h1.1, h2.2.1.trans h1.2.1, h2.2.2.1.trans h1.2.2.1, h2.2.2.2.trans h1.2.2.2⟩

theorem lruRep_sameLru {w : World} {s t : State} {cells : List (Nat × Nat)}
    (h : SameLru s t) (hr : LruRep w s cells) : LruRep w t cells := by
  obtain ⟨e1, e2, e3, e4⟩ := h
  unfold LruRep at hr ⊢
  rw [e1, e2, e3, e4]
  exact hr

theorem lru_frames_sameLru {s t : State} (h : SameLru s t) : lru_frames t = lru_frames s := by
  unfold lru_frames
  rw [h.1, h.2.2.1]

theorem mark_access_sameLru (s : State) (p : PtePtr) (ty : Char) :
    SameLru s (mark_access s p ty) ∧ (mark_access s p ty).coremap = s.coremap := by
  unfold mark_access
  split <;> exact ⟨⟨rfl, rfl, rfl, rfl⟩, rfl⟩

theorem mem_lru_touch (l : List Nat) (f x : Nat) : x ∈ lru_touch l f ↔ x ∈ l ∨ x = f := by
  unfold lru_touch
  rw [List.mem_append, List.mem_singleton]
  by_cases hx : x = f
  · simp [hx]
  · simp [hx, List.mem_erase_of_ne hx]

/-- Decomposition of `find_physpage` exposing the call of the reference hook. -/
theorem find_physpage_ref {w : World} {s s1 t : State} {va : Nat} {ty : Char} {r : Nat}
    (hw : walk_pagetable w s va = .ok s1)
    (h : find_physpage w s va ty = .ok (r, t)) :
    ∃ s2 s3, hit_or_fault w s1 (pte_ptr s1 va) va = .ok s2 ∧
      ref_fcn w (mark_access s2 (pte_ptr s1 va) ty) (pte_ptr s1 va) = .ok s3 ∧
      SameLru s3 t ∧ t.coremap = s3.coremap ∧ t.pgtbls = s3.pgtbls := by
  unfold find_physpage at h
  rw [hw] at h
  simp only [Except.bind] at h
  obtain ⟨s2, h3, h4⟩ := bind_ok h
  obtain ⟨s3, h5, h6⟩ := bind_ok h4
  simp only [Except.ok.injEq, Prod.mk.injEq] at h6
  obtain ⟨-, rfl⟩ := h6
  exact ⟨s2, s3, h3, h5, ⟨rfl, rfl, rfl, rfl⟩, rfl, rfl⟩

theorem index_lt_of_pteOk {e : pgtbl_entry_t} (h : PteOk e) : e.frame >>> PAGE_SHIFT < 2 ^ 20 := by
  rw [Nat.shiftRight_eq_div_pow]
  have := h.1
  unfold PAGE_SHIFT
  omega

/-- Under LRU, `allocate_frame` with no free frame evicts the head of the list. -/
theorem allocate_frame_lru_evict {w : World} {s sa : State} {p : PtePtr} {f : Nat}
    {cells : List (Nat × Nat)} (hpol : w.policy = .lru)
    (h : allocate_frame w s p = .ok (f, sa))
    (hfree : first_free s.coremap 0 w.memsize = none) (hr : LruRep w s cells) :
    ∃ c rest, cells = c :: rest ∧ f = c.2 ∧ LruRep w sa rest := by
  unfold allocate_frame at h
  rw [hfree] at h
  simp only at h
  obtain ⟨⟨fr, s1⟩, h1, h2⟩ := bind_ok h
  obtain ⟨s2, h3, h4⟩ := bind_ok h2
  simp only [Except.ok.injEq, Prod.mk.injEq] at h4
  obtain ⟨rfl, rfl⟩ := h4
  unfold evict_fcn at h1
  rw [hpol] at h1
  simp only at h1
  cases cells with
  | nil =>
    rw [lru_evict_empty hr] at h1
    simp at h1
  | cons c rest =>
    obtain ⟨u, g1, g2, -, -⟩ := lru_evict_spec hr
    rw [g1] at h1
    simp only [Except.ok.injEq, Prod.mk.injEq] at h1
    obtain ⟨rfl, rfl⟩ := h1
    refine ⟨c, rest, rfl, rfl, ?_⟩
    obtain ⟨-, -, e1, e2, e3, e4⟩ := evict_victim_sameDir h3
    exact lruRep_sameLru (s := u) ⟨e1, e2, e3, e4⟩ g2

/-- Under LRU, the reference hook called by `find_physpage` moves the frame of the accessed
PTE to the most-recently-used end of a well-formed list. -/
theorem ref_fcn_lru {w : World} {m s3 : State} {p : PtePtr} {cells : List (Nat × Nat)}
    (hpol : w.policy = .lru) (h : ref_fcn w m p = .ok s3) (hr : LruRep w m cells)
    (hx : (m.pte p).frame < 2 ^ 32) :
    (m.pte p).frame >>> PAGE_SHIFT < w.memsize ∧
    ∃ cells2, LruRep w s3 cells2 ∧
      cells2.map Prod.snd = lru_touch (cells.map Prod.snd) ((m.pte p).frame >>> PAGE_SHIFT) ∧
      LruOnly m s3 := by
  unfold ref_fcn at h
  rw [hpol] at h
  simp only at h
  have hlt := lru_ref_ok_lt h
  have hlt2 : (m.pte p).frame >>> PAGE_SHIFT < 2 ^ 20 := by
    rw [Nat.shiftRight_eq_div_pow]
    unfold PAGE_SHIFT
    omega
  obtain ⟨u, cells2, g1, g2, g3, g4⟩ := lru_ref_spec hr hlt hlt2 (lru_ref_ok_malloc h)
  rw [g1] at h
  simp only [Except.ok.injEq] at h
  subst h
  exact ⟨hlt, cells2, g2, g3, g4⟩

theorem fill_frame_index {w : World} {s t : State} {p : PtePtr} {f va : Nat}
    (h : fill_frame w s p f va = .ok t) :
    (t.pte p).frame < 2 ^ 32 ∧ (t.pte p).frame >>> PAGE_SHIFT = f := by
  obtain ⟨hf19, -, fv1, fv2⟩ := fill_frame_value h
  by_cases hsw : (s.pte p).frame &&& PG_ONSWAP = 0
  · rw [(fv1 hsw).1]
    exact ⟨(shiftLeft_lt f hf19).2.1, (shiftLeft_lt f hf19).2.2.2⟩
  · rw [fv2 hsw]
    exact ⟨(shiftLeft_lt f hf19).1, (shiftLeft_lt f hf19).2.2.1⟩

/-- One access under LRU: the LRU invariant is preserved, and the list of tracked frames
changes by the eviction of its head (when no frame is free) followed by a move of the
accessed page's frame to the most-recently-used end. -/
theorem find_physpage_lru_step {w : World} {s t : State} {va : Nat} {ty : Char} {r : Nat}
    (hpol : w.policy = .lru) (h : find_physpage w s va ty = .ok (r, t))
    (hp : AllPteOk s) (hc : CoreOk w s) (hl : LruOk w s) :
    LruOk w t ∧ ∃ s1, walk_pagetable w s va = .ok s1 ∧
      ((s1.pte (pte_ptr s1 va)).frame &&& PG_VALID ≠ 0 →
        lru_frames t =
          lru_touch (lru_frames s) ((s1.pte (pte_ptr s1 va)).frame >>> PAGE_SHIFT)) ∧
      ((s1.pte (pte_ptr s1 va)).frame &&& PG_VALID = 0 →
        ∃ f sa, allocate_frame w s1 (pte_ptr s1 va) = .ok (f, sa) ∧
          lru_frames t = lru_touch (lru_frames sa) f ∧
          (first_free s1.coremap 0 w.memsize = some f → lru_frames sa = lru_frames s) ∧
          (first_free s1.coremap 0 w.memsize = none → lru_frames s = f :: lru_frames sa)) := by
  have h0 := h
  unfold find_physpage at h0
  obtain ⟨s1, hw, -⟩ := bind_ok h0
  obtain ⟨c1, l1, -⟩ := walk_pagetable_frame hw
  have hp1 := walk_pagetable_allPteOk hw hp
  obtain ⟨cells, hrep, hset⟩ := hl
  have hrep1 : LruRep w s1 cells := lruRep_sameLru l1 hrep
  have hfr1 : lru_frames s1 = lru_frames s := lru_frames_sameLru l1
  obtain ⟨s2, s3, h2, h3, l3, c3, -⟩ := find_physpage_ref hw h
  by_cases hv : (s1.pte (pte_ptr s1 va)).frame &&& PG_VALID = 0
  · -- fault
    simp only [hit_or_fault, hv, if_true] at h2
    unfold handle_fault at h2
    obtain ⟨⟨f, sa⟩, ha, h4⟩ := bind_ok h2
    obtain ⟨sd, hfill, h5⟩ := bind_ok h4
    simp only [Except.ok.injEq] at h5
    subst h5
    obtain ⟨hf, hcm, hcase⟩ := allocate_frame_effect ha hp1
    obtain ⟨hx, hidx⟩ := fill_frame_index hfill
    obtain ⟨-, fc, fl1, fl2, fl3, fl4⟩ := fill_frame_sameDir hfill
    obtain ⟨ml, mc⟩ := mark_access_sameLru { sd with miss_count := sd.miss_count + 1 }
      (pte_ptr s1 va) ty
    have hmap := mark_access_mapping_self { sd with miss_count := sd.miss_count + 1 }
      (pte_ptr s1 va) ty hx
    have hm32 := (mark_access_allPteOk { sd with miss_count := sd.miss_count + 1 }
      (pte_ptr s1 va) ty (fun q hq => by
        have e1 : sd.pte q = sa.pte q := fill_frame_pte_other hfill hq
        have e2 : ({ sd with miss_count := sd.miss_count + 1 } : State).pte q = sd.pte q := rfl
        rw [e2, e1]
        exact allocate_frame_allPteOk ha hp1 q) (pte_ptr s1 va)).1
    have hmi : ((mark_access { sd with miss_count := sd.miss_count + 1 } (pte_ptr s1 va)
        ty).pte (pte_ptr s1 va)).frame >>> PAGE_SHIFT = f :=
      (congrArg Prod.snd hmap).trans hidx
    have hsam : SameLru sa (mark_access { sd with miss_count := sd.miss_count + 1 }
        (pte_ptr s1 va) ty) :=
      sameLru_trans (t := { sd with miss_count := sd.miss_count + 1 })
        ⟨fl1, fl2, fl3, fl4⟩ ml
    have hcore : ∀ x, t.coremap x = if x = f then { in_use := true, pte := some (pte_ptr s1 va) }
        else s.coremap x := by
      intro x
      have hlo := (ref_fcn_lru_only h3 (mark_access_ref _ _ _)).2.2.2.1
      rw [c3, hlo, mc]
      show sd.coremap x = _
      rw [fc, hcm, ← c1]
      rfl
    -- the list before the reference hook
    have key : ∀ cellsA : List (Nat × Nat), LruRep w sa cellsA →
        (∀ x, (x ∈ cellsA.map Prod.snd ∨ x = f) ↔
          (x < w.memsize ∧ ((if x = f then true else (s.coremap x).in_use) = true))) →
        LruOk w t ∧ lru_frames t = lru_touch (lru_frames sa) f := by
      intro cellsA hA hsetA
      obtain ⟨-, cells2, g2, g3, -⟩ := ref_fcn_lru hpol h3 (lruRep_sameLru hsam hA) hm32
      rw [hmi] at g3
      have hrt : LruRep w t cells2 := lruRep_sameLru l3 g2
      refine ⟨⟨cells2, hrt, fun x => ?_⟩, ?_⟩
      · rw [g3, mem_lru_touch, hsetA x, hcore x]
        by_cases hxf : x = f <;> simp [hxf]
      · rw [lru_frames_eq hrt, g3, lru_frames_eq hA]
    rcases hcase with ⟨e1, -, e3, -⟩ | ⟨e1, v, e2, -⟩
    · have hA : LruRep w sa cells := lruRep_sameLru e3 hrep1
      obtain ⟨-, -, b3, -⟩ := first_free_some _ _ _ _ e1
      have hk := key cells hA (fun x => by
        rw [hset x]
        by_cases hxf : x = f
        · subst hxf
          rw [c1] at b3
          simp [hf, b3]
        · simp [hxf])
      refine ⟨hk.1, s1, hw, fun hv2 => absurd hv hv2, fun _ => ⟨f, sa, ha, hk.2, fun _ => ?_,
        fun e => ?_⟩⟩
      · rw [lru_frames_eq hA, lru_frames_eq hrep]
      · rw [e1] at e; simp at e
    · obtain ⟨c, rest, hcells, hfc, hA⟩ := allocate_frame_lru_evict hpol ha e1 hrep1
      subst hcells
      have hall := (first_free_none_iff_all w s1).1 e1 f hf
      rw [c1] at hall
      have hk := key rest hA (fun x => by
        have := hset x
        simp only [List.map_cons, List.mem_cons] at this
        rw [← hfc] at this
        by_cases hxf : x = f
        · subst hxf
          simp [hf]
        · simp only [hxf, false_or, or_false, if_false] at this ⊢
          exact this)
      refine ⟨hk.1, s1, hw, fun hv2 => absurd hv hv2, fun _ => ⟨f, sa, ha, hk.2, fun e => ?_,
        fun _ => ?_⟩⟩
      · rw [e1] at e; simp at e
      · rw [lru_frames_eq hA, lru_frames_eq hrep, hfc]
        rfl
  · -- hit
    have es := walk_pagetable_hit hw hv
    subst es
    simp only [hit_or_fault, hv, if_false, Except.ok.injEq] at h2
    subst h2
    obtain ⟨ml, mc⟩ := mark_access_sameLru { s1 with hit_count := s1.hit_count + 1 }
      (pte_ptr s1 va) ty
    have hmap := mark_access_mapping_self { s1 with hit_count := s1.hit_count + 1 }
      (pte_ptr s1 va) ty (hp _).1
    have hm32 := (mark_access_allPteOk { s1 with hit_count := s1.hit_count + 1 }
      (pte_ptr s1 va) ty (fun q _ => hp q) (pte_ptr s1 va)).1
    have hmi : ((mark_access { s1 with hit_count := s1.hit_count + 1 } (pte_ptr s1 va)
        ty).pte (pte_ptr s1 va)).frame >>> PAGE_SHIFT =
        (s1.pte (pte_ptr s1 va)).frame >>> PAGE_SHIFT := congrArg Prod.snd hmap
    obtain ⟨-, cells2, g2, g3, g4⟩ := ref_fcn_lru hpol h3 (lruRep_sameLru ml hrep) hm32
    rw [hmi] at g3
    have hrt : LruRep w t cells2 := lruRep_sameLru l3 g2
    obtain ⟨k1, k2, -⟩ := hc.2.1 _ hv
    have hcore : t.coremap = s1.coremap := by
      rw [c3, g4.2.2.2.1, mc]
    refine ⟨⟨cells2, hrt, fun x => ?_⟩, s1, hw, fun _ => ?_, fun hv2 => absurd hv2 hv⟩
    · rw [g3, mem_lru_touch, hset x, hcore]
      constructor
      · rintro (e | e)
        · exact e
        · rw [e]; exact ⟨k1, k2⟩
      · intro e; exact Or.inl e
    · rw [lru_frames_eq hrt, g3, lru_frames_eq hrep]

/-! ## LRU invariant along runs -/

theorem lruOk_init (w : World) (hpol : w.policy = .lru) : LruOk w (init w) := by
  have e : init w = lru_init (init_pagetable (init { w with policy := .clock })) := by
    unfold init
    rw [hpol]
    rfl
  refine ⟨[], ?_, ?_⟩
  · rw [e]
    exact lruRep_init _
  · intro f
    have hcm : (init w).coremap f = { in_use := false, pte := none } := by
      unfold init; cases w.policy <;> rfl
    simp [hcm]

theorem run_lruOk {w : World} (hpol : w.policy = .lru) (tr : List (Nat × Char)) :
    ∀ {s t : State}, run w s tr = .ok t → AllPteOk s → DirOk s → CoreOk w s → LruOk w s →
      LruOk w t := by
  induction tr with
  | nil => intro s t h _ _ _ hs; simp only [run, Except.ok.injEq] at h; subst h; exact hs
  | cons a tr ih =>
    intro s t h hp hd hc hl
    obtain ⟨r, s1, h1, h2⟩ := run_cons_ok h
    exact ih h2 (find_physpage_allPteOk h1 hp) (find_physpage_dirOk h1 hd)
      (find_physpage_coreOk h1 hp hd hc) (find_physpage_lru_step hpol h1 hp hc hl).1

theorem reachable_lruOk {w : World} (hpol : w.policy = .lru) {tr : List (Nat × Char)}
    {s : State} (h : run w (init w) tr = .ok s) : LruOk w s :=
  run_lruOk hpol tr h (allPteOk_init w) (dirOk_init w) (coreOk_init w) (lruOk_init w hpol)

theorem tsSorted_touch {st : Stamps} {l : List Nat} (h : TsSorted st l)
    (hnd : l.Nodup) (f : Nat) : TsSorted (ts_lru_ref st f) (lru_touch l f) := by
  obtain ⟨h1, h2⟩ := h
  have hne : ∀ g, g ∈ l.erase f → g ≠ f ∧ g ∈ l := fun g hg => (hnd.mem_erase_iff).1 hg
  constructor
  · unfold lru_touch
    rw [List.pairwise_append]
    refine ⟨?_, List.pairwise_singleton _ _, ?_⟩
    · apply ((h1.sublist (List.erase_sublist f l))).imp_of_mem
      intro a b ha hb hab
      simp only [ts_lru_ref, (hne a ha).1, (hne b hb).1, if_false]
      exact hab
    · intro a ha b hb
      simp only [List.mem_singleton] at hb
      subst hb
      simp only [ts_lru_ref, (hne a ha).1, if_false, if_true]
      exact h2 a (hne a ha).2
  · intro g hg
    unfold lru_touch at hg
    rcases List.mem_append.1 hg with e | e
    · simp only [ts_lru_ref, (hne g e).1, if_false]
      exact Nat.lt_succ_of_lt (h2 g (hne g e).2)
    · simp only [List.mem_singleton] at e
      subst e
      simp [ts_lru_ref]

theorem tsSorted_tail {st : Stamps} {f : Nat} {l : List Nat}
    (h : TsSorted st (f :: l)) : TsSorted st l :=
  ⟨(List.pairwise_cons.1 h.1).2, fun g hg => h.2 g (List.mem_cons_of_mem _ hg)⟩

theorem lruOk_nodup {w : World} {s : State} (h : LruOk w s) : (lru_frames s).Nodup := by
  obtain ⟨cells, hr, -⟩ := h
  rw [lru_frames_eq hr]
  exact hr.2.2.2.2.2.1

theorem lruOk_mem {w : World} {s : State} (h : LruOk w s) (f : Nat) :
    f ∈ lru_frames s ↔ (f < w.memsize ∧ (s.coremap f).in_use = true) := by
  obtain ⟨cells, hr, hset⟩ := h
  rw [lru_frames_eq hr]
  exact hset f

/-! ## Pages across one access -/

/-- One access seen from the pages: the accessed page ends VALID in the frame found (hit) or
allocated (fault), and every other page that is VALID afterwards was VALID before, in the
same frame. -/
theorem find_physpage_pages {w : World} {s s1 t : State} {va : Nat} {ty : Char} {r : Nat}
    (hw : walk_pagetable w s va = .ok s1)
    (h : find_physpage w s va ty = .ok (r, t)) (hp : AllPteOk s) :
    pte_ptr t va = pte_ptr s1 va ∧
    (t.pte (pte_ptr s1 va)).frame &&& PG_VALID ≠ 0 ∧
    (∀ q, q ≠ pte_ptr s1 va → (t.pte q).frame &&& PG_VALID ≠ 0 →
      mapping (t.pte q) = mapping (s1.pte q)) ∧
    ((s1.pte (pte_ptr s1 va)).frame &&& PG_VALID ≠ 0 →
      accessed_frame t va = (s1.pte (pte_ptr s1 va)).frame >>> PAGE_SHIFT) ∧
    ((s1.pte (pte_ptr s1 va)).frame &&& PG_VALID = 0 →
      ∀ f sa, allocate_frame w s1 (pte_ptr s1 va) = .ok (f, sa) → accessed_frame t va = f) := by
  have hp1 := walk_pagetable_allPteOk hw hp
  have hsd := find_physpage_sameDir hw h
  have hptr : pte_ptr t va = pte_ptr s1 va := by
    unfold pte_ptr
    rw [hsd.1]
  have hacc : accessed_frame t va = (t.pte (pte_ptr s1 va)).frame >>> PAGE_SHIFT := by
    unfold accessed_frame
    rw [hptr]
  by_cases hv : (s1.pte (pte_ptr s1 va)).frame &&& PG_VALID = 0
  · obtain ⟨f, sa, sd, ha, hfill, g1, g2, -⟩ := find_physpage_fault hw hv h
    obtain ⟨hf, hcm, hcase⟩ := allocate_frame_effect ha hp1
    obtain ⟨hx, hidx⟩ := fill_frame_index hfill
    have htp : ∀ q, t.pte q = (mark_access sd (pte_ptr s1 va) ty).pte q :=
      fun q => pte_of_pgtbls g1 q
    have hto : ∀ q, q ≠ pte_ptr s1 va → t.pte q = sa.pte q := by
      intro q hq
      rw [htp, mark_access_pte_other _ _ hq, fill_frame_pte_other hfill hq]
    have hmap : mapping (t.pte (pte_ptr s1 va)) = (true, f) := by
      rw [htp, mark_access_mapping_self _ _ _ hx, hidx]
    refine ⟨hptr, ?_, ?_, fun hv2 => absurd hv hv2, fun _ f2 sa2 ha2 => ?_⟩
    · rw [mapping_valid, hmap]
    · intro q hq hqv
      rw [hto q hq] at hqv ⊢
      rcases hcase with ⟨-, c2, -, -⟩ | ⟨-, v, -, c3, -, c5⟩
      · rw [pte_of_pgtbls c2]
      · by_cases hqv2 : q = v
        · subst hqv2
          exact absurd c3 hqv
        · exact mapping_sameButRef (c5 q hqv2)
    · rw [ha] at ha2
      simp only [Except.ok.injEq, Prod.mk.injEq] at ha2
      rw [hacc, ← ha2.1]
      exact congrArg Prod.snd hmap
  · have e := walk_pagetable_hit hw hv
    subst e
    obtain ⟨g1, -⟩ := find_physpage_hit hw hv h
    have hmap : mapping (t.pte (pte_ptr s1 va)) =
        (true, (s1.pte (pte_ptr s1 va)).frame >>> PAGE_SHIFT) := by
      rw [pte_of_pgtbls g1, mark_access_mapping_self _ _ _ (hp _).1]
    refine ⟨hptr, ?_, ?_, fun _ => ?_, fun hv2 => absurd hv2 hv⟩
    · rw [mapping_valid, hmap]
    · intro q hq _
      rw [pte_of_pgtbls g1, mark_access_pte_other _ _ hq]
    · rw [hacc]
      exact congrArg Prod.snd hmap

/-! ## Timestamps: scan and bookkeeping -/

theorem last_access_aux (va : Nat) (tr : List (Nat × Char)) : ∀ (n : Nat) (o : Option Nat),
    (tr.foldl (fun acc a => (acc.1 + 1, if same_page a.1 va then some acc.1 else acc.2))
      ((n, o) : Nat × Option Nat)).1 = n + tr.length := by
  induction tr with
  | nil => intro n o; rfl
  | cons a tr ih =>
    intro n o
    simp only [List.foldl_cons, List.length_cons]
    rw [ih]
    omega

theorem last_access_snoc (hist : List (Nat × Char)) (a : Nat × Char) (va : Nat) :
    last_access (hist ++ [a]) va =
      if same_page a.1 va then some hist.length else last_access hist va := by
  unfold last_access
  rw [List.foldl_append]
  simp only [List.foldl_cons, List.foldl_nil]
  have := last_access_aux va hist 0 none
  rw [this]
  simp

theorem ts_scan_keep (ts : Nat → Nat) : ∀ (k i pfn least : Nat),
    (∀ j, i ≤ j → j < i + k → ¬ ts j < least) → ts_scan ts i k pfn least = pfn := by
  intro k
  induction k with
  | zero => intro i pfn least _; rfl
  | succ k ih =>
    intro i pfn least h
    have h0 := h i (Nat.le_refl _) (by omega)
    simp only [ts_scan, h0, if_false]
    exact ih _ _ _ (fun j hj1 hj2 => h j (by omega) (by omega))

theorem ts_scan_find (ts : Nat → Nat) (f : Nat) : ∀ (k i pfn least : Nat),
    i ≤ f → f < i + k → ts f < least →
    (∀ j, i ≤ j → j < i + k → j ≠ f → ts f < ts j) → ts_scan ts i k pfn least = f := by
  intro k
  induction k with
  | zero => intro i pfn least h1 h2; omega
  | succ k ih =>
    intro i pfn least h1 h2 h3 h4
    by_cases hif : i = f
    · subst hif
      simp only [ts_scan, h3, if_true]
      apply ts_scan_keep
      intro j hj1 hj2
      have := h4 j (by omega) (by omega) (by omega)
      omega
    · have hlt := h4 i (Nat.le_refl _) (by omega) hif
      by_cases hc : ts i < least
      · simp only [ts_scan, hc, if_true]
        exact ih _ _ _ (by omega) (by omega) hlt
          (fun j hj1 hj2 hj3 => h4 j (by omega) (by omega) hj3)
      · simp only [ts_scan, hc, if_false]
        exact ih _ _ _ (by omega) (by omega) h3
          (fun j hj1 hj2 hj3 => h4 j (by omega) (by omega) hj3)

theorem ts_lru_evict_eq {st : Stamps} {memsize f : Nat} (hf : f < memsize)
    (hlt : st.timestamp f < st.curr_time)
    (hmin : ∀ g, g < memsize → g ≠ f → st.timestamp f < st.timestamp g) :
    ts_lru_evict st memsize = f :=
  ts_scan_find st.timestamp f memsize 0 0 st.curr_time (Nat.zero_le _) (by omega) hlt
    (fun j _ hj hjf => hmin j (by omega) hjf)

theorem run_ts_cons_ok {w : World} {s t : State} {st st2 : Stamps} {a : Nat × Char}
    {tr : List (Nat × Char)} (h : run_ts w s st (a :: tr) = .ok (t, st2)) :
    ∃ r s1, find_physpage w s a.1 a.2 = .ok (r, s1) ∧
      run_ts w s1 (ts_lru_ref st (accessed_frame s1 a.1)) tr = .ok (t, st2) := by
  unfold run_ts at h
  obtain ⟨⟨r, s1⟩, h1, h2⟩ := bind_ok h
  exact ⟨r, s1, h1, h2⟩

theorem run_ts_run {w : World} (tr : List (Nat × Char)) : ∀ {s t : State} {st st2 : Stamps},
    run_ts w s st tr = .ok (t, st2) → run w s tr = .ok t := by
  induction tr with
  | nil =>
    intro s t st st2 h
    simp only [run_ts, Except.ok.injEq, Prod.mk.injEq] at h
    rw [run, h.1]
  | cons a tr ih =>
    intro s t st st2 h
    obtain ⟨r, s1, h1, h2⟩ := run_ts_cons_ok h
    unfold run
    rw [h1]
    exact ih h2

theorem find_physpage_coremap {w : World} {s s1 t : State} {va : Nat} {ty : Char} {r : Nat}
    (hw : walk_pagetable w s va = .ok s1)
    (h : find_physpage w s va ty = .ok (r, t)) (hp : AllPteOk s) :
    ((s1.pte (pte_ptr s1 va)).frame &&& PG_VALID ≠ 0 → t.coremap = s.coremap) ∧
    ((s1.pte (pte_ptr s1 va)).frame &&& PG_VALID = 0 →
      ∃ f sa, allocate_frame w s1 (pte_ptr s1 va) = .ok (f, sa) ∧
        t.coremap = (s.set_coremap f (pte_ptr s1 va)).coremap) := by
  have hp1 := walk_pagetable_allPteOk hw hp
  obtain ⟨c1, -⟩ := walk_pagetable_frame hw
  constructor
  · intro hv
    have e := walk_pagetable_hit hw hv
    subst e
    exact (find_physpage_hit hw hv h).2.1
  · intro hv
    obtain ⟨f, sa, sd, ha, hfill, -, g2, -⟩ := find_physpage_fault hw hv h
    obtain ⟨-, hcm, -⟩ := allocate_frame_effect ha hp1
    refine ⟨f, sa, ha, ?_⟩
    rw [g2, (fill_frame_sameDir hfill).2.1, hcm]
    show (fun i => if i = f then _ else s1.coremap i) = fun i => if i = f then _ else s.coremap i
    rw [c1]

theorem heldOk_init (w : World) : HeldOk (init w) := by
  intro f q hq
  have hcm : (init w).coremap f = { in_use := false, pte := none } := by
    unfold init; cases w.policy <;> rfl
  rw [hcm] at hq
  simp at hq

theorem find_physpage_heldOk {w : World} {s t : State} {va : Nat} {ty : Char} {r : Nat}
    (h : find_physpage w s va ty = .ok (r, t)) (hp : AllPteOk s) (hd : DirOk s)
    (hh : HeldOk s) : HeldOk t := by
  have h0 := h
  unfold find_physpage at h0
  obtain ⟨s1, hw, -⟩ := bind_ok h0
  obtain ⟨-, hdv, -, hstab, -⟩ := walk_pagetable_dirOk hw hd
  have hsd := find_physpage_sameDir hw h
  have hdt : ∀ vb, dir_valid t vb ↔ dir_valid s1 vb := by
    intro vb; unfold dir_valid; rw [hsd.1]
  have hpt : ∀ vb, pte_ptr t vb = pte_ptr s1 vb := by
    intro vb; unfold pte_ptr; rw [hsd.1]
  have hold : ∀ f q, (s.coremap f).pte = some q → ∃ vb, dir_valid t vb ∧ q = pte_ptr t vb := by
    intro f q hq
    obtain ⟨vb, b1, b2⟩ := hh f q hq
    obtain ⟨b3, b4⟩ := hstab vb b1
    exact ⟨vb, (hdt vb).2 b3, by rw [hpt, b4, b2]⟩
  obtain ⟨k1, k2⟩ := find_physpage_coremap hw h hp
  intro f q hq
  by_cases hv : (s1.pte (pte_ptr s1 va)).frame &&& PG_VALID = 0
  · obtain ⟨f2, sa, -, hcm⟩ := k2 hv
    rw [hcm] at hq
    by_cases hf : f = f2
    · simp only [State.set_coremap, hf, if_true, Option.some.injEq] at hq
      exact ⟨va, (hdt va).2 hdv, by rw [hpt, hq]⟩
    · simp only [State.set_coremap, hf, if_false] at hq
      exact hold f q hq
  · rw [k1 hv] at hq
    exact hold f q hq

/-! ## Timestamps along runs -/

theorem find_physpage_tsInv {w : World} {s t : State} {a : Nat × Char} {r : Nat}
    {st : Stamps} {hist : List (Nat × Char)}
    (hpol : w.policy = .lru) (h : find_physpage w s a.1 a.2 = .ok (r, t))
    (hp : AllPteOk s) (hd : DirOk s) (hc : CoreOk w s) (hl : LruOk w s)
    (hi : TsInv s st hist) :
    TsInv t (ts_lru_ref st (accessed_frame t a.1)) (hist ++ [a]) := by
  obtain ⟨i1, i2, i3⟩ := hi
  obtain ⟨hlt, s1, hw, lhit, lfault⟩ := find_physpage_lru_step hpol h hp hc hl
  obtain ⟨hptr, hval, hoth, ahit, afault⟩ := find_physpage_pages hw h hp
  obtain ⟨hd1, hdv, -, hstab, hsame, hfresh⟩ := walk_pagetable_dirOk hw hd
  have hsd := find_physpage_sameDir hw h
  have hdt := find_physpage_dirOk h hd
  have hct := find_physpage_coreOk h hp hd hc
  have hnd := lruOk_nodup hl
  refine ⟨?_, ?_, ?_⟩
  · simp [ts_lru_ref, i1]
  · by_cases hv : (s1.pte (pte_ptr s1 a.1)).frame &&& PG_VALID = 0
    · obtain ⟨f, sa, ha, e1, e2, e3⟩ := lfault hv
      rw [afault hv f sa ha, e1]
      cases hff : first_free s1.coremap 0 w.memsize with
      | none =>
        have e4 := e3 hff
        rw [e4] at i2 hnd
        exact tsSorted_touch (tsSorted_tail i2) (List.nodup_cons.1 hnd).2 f
      | some f2 =>
        obtain ⟨-, hcm, hcase⟩ := allocate_frame_effect ha (walk_pagetable_allPteOk hw hp)
        have hf2 : f2 = f := by
          rcases hcase with ⟨c1, -⟩ | ⟨c1, -⟩
          · rw [hff] at c1
            exact Option.some.inj c1
          · rw [hff] at c1
            simp at c1
        subst hf2
        rw [e2 hff]
        exact tsSorted_touch i2 hnd f2
    · rw [ahit hv, lhit hv]
      exact tsSorted_touch i2 hnd _
  · intro vb ⟨hvb1, hvb2⟩
    have hdv1 : dir_valid s1 vb := by unfold dir_valid at hvb1 ⊢; rw [← hsd.1]; exact hvb1
    have hpb : pte_ptr t vb = pte_ptr s1 vb := by unfold pte_ptr; rw [hsd.1]
    have hdvt : dir_valid t a.1 := by unfold dir_valid at hdv ⊢; rw [hsd.1]; exact hdv
    rw [last_access_snoc]
    by_cases hsp : same_page a.1 vb
    · rw [if_pos hsp]
      have e : accessed_frame t vb = accessed_frame t a.1 := by
        unfold accessed_frame
        rw [pte_ptr_same_page hsp]
      rw [e]
      simp [ts_lru_ref, i1]
    · rw [if_neg hsp]
      have hq : pte_ptr s1 vb ≠ pte_ptr s1 a.1 := fun e => hsp (pte_ptr_inj hd1 hdv hdv1 e.symm)
      rw [hpb] at hvb2
      have hmap := hoth _ hq hvb2
      have hv1 : (s1.pte (pte_ptr s1 vb)).frame &&& PG_VALID ≠ 0 := by
        rw [mapping_valid, ← hmap, ← mapping_valid]
        exact hvb2
      have hdvs : dir_valid s vb := by
        by_contra hn
        rw [hfresh vb hdv1 hn] at hv1
        exact hv1 (by decide)
      obtain ⟨-, hps⟩ := hstab vb hdvs
      obtain ⟨k, hk, -, hkp⟩ := dirOk_ptr hd hdvs
      have hpte : s1.pte (pte_ptr s1 vb) = s.pte (pte_ptr s vb) := by
        rw [hps]
        apply hsame
        rw [hkp]
        intro e
        have := tbl_addr_inj e
        omega
      have hfr : accessed_frame t vb = accessed_frame s vb := by
        unfold accessed_frame
        rw [hpb, ← hpte]
        exact congrArg Prod.snd hmap
      have hres : resident s vb := ⟨hdvs, by rw [← hpte]; exact hv1⟩
      rw [i3 vb hres, hfr]
      -- the frame of the other page is not the accessed frame
      have hne : accessed_frame s vb ≠ accessed_frame t a.1 := by
        intro e
        rw [← hfr] at e
        have k1 := (hct.2.1 (pte_ptr t vb) (by rw [hpb]; exact hvb2)).2.2
        have k2 := (hct.2.1 (pte_ptr t a.1) (by rw [hptr]; exact hval)).2.2
        unfold accessed_frame at e
        rw [e, k2] at k1
        simp only [Option.some.injEq] at k1
        rw [hpb, hptr] at k1
        exact hq k1.symm
      simp [ts_lru_ref, hne]

theorem tsInv_init (w : World) (hpol : w.policy = .lru) :
    TsInv (init w) ts_lru_init [] := by
  have hfr : lru_frames (init w) = [] := by
    unfold init
    rw [hpol]
    rfl
  have hpte : ∀ q, (init w).pte q = { frame := 0, swap_off := INVALID_SWAP } := by
    intro q; unfold init; cases w.policy <;> rfl
  refine ⟨rfl, ?_, ?_⟩
  · rw [hfr]
    exact ⟨List.Pairwise.nil, fun f hf => by simp at hf⟩
  · intro va ⟨_, hv⟩
    rw [hpte] at hv
    exact absurd (by decide) hv

theorem run_ts_inv {w : World} (hpol : w.policy = .lru) (tr : List (Nat × Char)) :
    ∀ {s t : State} {st st2 : Stamps} {hist : List (Nat × Char)},
      run_ts w s st tr = .ok (t, st2) → AllPteOk s → DirOk s → CoreOk w s → LruOk w s →
      HeldOk s → TsInv s st hist →
      AllPteOk t ∧ DirOk t ∧ CoreOk w t ∧ LruOk w t ∧ HeldOk t ∧ TsInv t st2 (hist ++ tr) := by
  induction tr with
  | nil =>
    intro s t st st2 hist h hp hd hc hl hh hi
    simp only [run_ts, Except.ok.injEq, Prod.mk.injEq] at h
    obtain ⟨rfl, rfl⟩ := h
    rw [List.append_nil]
    exact ⟨hp, hd, hc, hl, hh, hi⟩
  | cons a tr ih =>
    intro s t st st2 hist h hp hd hc hl hh hi
    obtain ⟨r, s1, h1, h2⟩ := run_ts_cons_ok h
    have := ih h2 (find_physpage_allPteOk h1 hp) (find_physpage_dirOk h1 hd)
      (find_physpage_coreOk h1 hp hd hc) (find_physpage_lru_step hpol h1 hp hc hl).1
      (find_physpage_heldOk h1 hp hd hh) (find_physpage_tsInv hpol h1 hp hd hc hl hi)
    rw [List.append_assoc] at this
    exact this

theorem reachable_ts_inv {w : World} (hpol : w.policy = .lru) {tr : List (Nat × Char)}
    {s : State} {st : Stamps} (h : run_ts w (init w) ts_lru_init tr = .ok (s, st)) :
    AllPteOk s ∧ DirOk s ∧ CoreOk w s ∧ LruOk w s ∧ HeldOk s ∧ TsInv s st tr := by
  have := run_ts_inv hpol tr h (allPteOk_init w) (dirOk_init w) (coreOk_init w)
    (lruOk_init w hpol) (heldOk_init w) (tsInv_init w hpol)
  rw [List.nil_append] at this
  exact this

/-! ## LRU picks the victim of the timestamp scan -/

theorem run_run_ts {w : World} (tr : List (Nat × Char)) : ∀ {s t : State} (st : Stamps),
    run w s tr = .ok t → ∃ st2, run_ts w s st tr = .ok (t, st2) := by
  induction tr with
  | nil =>
    intro s t st h
    simp only [run, Except.ok.injEq] at h
    subst h
    exact ⟨st, rfl⟩
  | cons a tr ih =>
    intro s t st h
    obtain ⟨r, s1, h1, h2⟩ := run_cons_ok h
    obtain ⟨st2, h3⟩ := ih (ts_lru_ref st (accessed_frame s1 a.1)) h2
    refine ⟨st2, ?_⟩
    unfold run_ts
    rw [h1]
    exact h3

/-- C3: under LRU with memsize >= 1, in every state reached from the initial state, when an
access misses with all frames in use, `lru_evict` returns; the frame it returns is the one
the timestamp scan of lru.c's doc comment picks on the timestamps kept along the same run
(the frame with the strictly oldest last-reference timestamp), and it holds the resident
page whose most recent access is strictly earlier than that of every other resident page. -/
theorem lru_evicts_least_recently_used (w : World) (hpol : w.policy = .lru)
    (hm : 1 ≤ w.memsize) (tr : List (Nat × Char)) (s : State)
    (hreach : run w (init w) tr = .ok s)
    (va : Nat) (s1 : State) (hw : walk_pagetable w s va = .ok s1)
    (hmiss : (s1.pte (pte_ptr s1 va)).frame &&& PG_VALID = 0)
    (hall : all_in_use w s1) :
    ∃ st, run_ts w (init w) ts_lru_init tr = .ok (s, st) ∧ alloc_call w s va = some s1 ∧
    first_free s1.coremap 0 w.memsize = none ∧
    ∃ f u, evict_fcn w s1 = .ok (f, u) ∧ lru_evict w s1 = .ok (f, u) ∧ f < w.memsize ∧
      f = ts_lru_evict st w.memsize ∧
      (∀ g, g < w.memsize → g ≠ f → st.timestamp f < st.timestamp g) ∧
      ∃ vb tb, resident s vb ∧ (s1.coremap f).pte = some (pte_ptr s1 vb) ∧
        accessed_frame s vb = f ∧ last_access tr vb = some tb ∧
        ∀ vc, resident s vc → ¬ same_page vb vc →
          ∃ tc, last_access tr vc = some tc ∧ tb < tc := by
  obtain ⟨st, hrun⟩ := run_run_ts tr ts_lru_init hreach
  refine ⟨st, ?_⟩
  obtain ⟨hp, hd, hc, hl, hh, -, i2, i3⟩ := reachable_ts_inv hpol hrun
  obtain ⟨c1, l1, -⟩ := walk_pagetable_frame hw
  obtain ⟨-, -, -, hstab, -⟩ := walk_pagetable_dirOk hw hd
  have hfr := lruOk_mem hl
  obtain ⟨cells, hrep, hset⟩ := hl
  have hfrs : lru_frames s = cells.map Prod.snd := lru_frames_eq hrep
  have hall1 := hall
  unfold all_in_use at hall
  rw [c1] at hall
  have h0 : 0 ∈ cells.map Prod.snd := (hset 0).2 ⟨by omega, hall 0 (by omega)⟩
  cases cells with
  | nil => simp at h0
  | cons c rest =>
    obtain ⟨u, hev, -⟩ := lru_evict_spec (lruRep_sameLru l1 hrep)
    have hcm : c.2 < w.memsize := (hrep.2.2.2.2.2.2.1 c (by simp)).1
    have hsrt : ∀ g, g < w.memsize → g ≠ c.2 → st.timestamp c.2 < st.timestamp g := by
      intro g hg hne
      have hmem : g ∈ (c :: rest).map Prod.snd := (hset g).2 ⟨hg, hall g hg⟩
      rw [hfrs] at i2
      simp only [List.map_cons, List.mem_cons] at hmem
      rcases hmem with e | e
      · exact absurd e hne
      · exact (List.pairwise_cons.1 i2.1).1 g e
    have hpast : st.timestamp c.2 < st.curr_time := i2.2 c.2 (by rw [hfrs]; simp)
    obtain ⟨q, q1, q2, q3⟩ := hc.1 c.2 hcm (hall c.2 hcm)
    obtain ⟨vb, b1, b2⟩ := hh c.2 q q1
    subst b2
    have hresb : resident s vb := ⟨b1, q2⟩
    refine ⟨hrun, ?_, (first_free_none_iff_all w s1).2 hall1, c.2, u, ?_, hev,
      hcm, (ts_lru_evict_eq hcm hpast hsrt).symm, hsrt,
      vb, st.timestamp c.2, hresb, ?_, q3, ?_, ?_⟩
    · simp only [alloc_call, hw, hmiss, if_true]
    · simp only [evict_fcn, hpol]
      exact hev
    · rw [c1, (hstab vb b1).2]
      exact q1
    · have := i3 vb hresb
      rw [this]
      exact congrArg (fun x => some (st.timestamp x)) q3
    · intro vc hresc hnsp
      obtain ⟨k1, k2, k3⟩ := hc.2.1 _ hresc.2
      have hne : accessed_frame s vc ≠ c.2 := by
        intro e
        unfold accessed_frame at e
        rw [e, q1] at k3
        simp only [Option.some.injEq] at k3
        exact hnsp (pte_ptr_inj hd b1 hresc.1 k3)
      exact ⟨_, i3 vc hresc, hsrt _ k1 hne⟩

theorem lru_evicts_least_recently_used_witness :
    run (demo_world 2 .lru 4) (init (demo_world 2 .lru 4))
        [(4096, 'L'), (8192, 'L'), (4096, 'L')] =
      .ok (state_after (demo_world 2 .lru 4) [(4096, 'L'), (8192, 'L'), (4096, 'L')]) ∧
    all_in_use (demo_world 2 .lru 4)
      (state_after (demo_world 2 .lru 4) [(4096, 'L'), (8192, 'L'), (4096, 'L')]) ∧
    ts_lru_evict (stamps_after (demo_world 2 .lru 4)
      [(4096, 'L'), (8192, 'L'), (4096, 'L')]) 2 = 1 ∧
    ∃ st f u, run_ts (demo_world 2 .lru 4) (init (demo_world 2 .lru 4)) ts_lru_init
        [(4096, 'L'), (8192, 'L'), (4096, 'L')] =
        .ok (state_after (demo_world 2 .lru 4) [(4096, 'L'), (8192, 'L'), (4096, 'L')], st) ∧
      lru_evict (demo_world 2 .lru 4)
        (state_after (demo_world 2 .lru 4) [(4096, 'L'), (8192, 'L'), (4096, 'L')]) =
          .ok (f, u) ∧
      f = ts_lru_evict st 2 :=
  ⟨rfl, by decide, by decide,
    match lru_evicts_least_recently_used (demo_world 2 .lru 4) rfl (by decide)
      [(4096, 'L'), (8192, 'L'), (4096, 'L')]
      (state_after (demo_world 2 .lru 4) [(4096, 'L'), (8192, 'L'), (4096, 'L')])
      rfl 12288
      (state_after (demo_world 2 .lru 4) [(4096, 'L'), (8192, 'L'), (4096, 'L')])
      rfl (by decide) (by decide) with
    | ⟨st, h0, _, _, f, u, _, h2, _, h4, _⟩ => ⟨st, f, u, h0, h2, h4⟩⟩

/-! ## Eviction in allocate_frame -/

/-- Decomposition of a call of `allocate_frame` that finds no free frame. -/
theorem allocate_frame_evict {w : World} {s sa : State} {p : PtePtr} {f : Nat}
    (h : allocate_frame w s p = .ok (f, sa))
    (hfree : first_free s.coremap 0 w.memsize = none) :
    ∃ u v s2, evict_fcn w s = .ok (f, u) ∧ f < w.memsize ∧ (u.coremap f).pte = some v ∧
      write_back w u f v = .ok s2 ∧ sa = (clear_victim s2 v).set_coremap f p := by
  unfold allocate_frame at h
  rw [hfree] at h
  simp only at h
  obtain ⟨⟨f1, u⟩, h1, h2⟩ := bind_ok h
  obtain ⟨s3, h3, h4⟩ := bind_ok h2
  simp only [Except.ok.injEq, Prod.mk.injEq] at h4
  obtain ⟨rfl, rfl⟩ := h4
  unfold evict_victim at h3
  by_cases hf : f1 < w.memsize
  · simp only [hf, if_true] at h3
    cases hv : (u.coremap f1).pte with
    | none => rw [hv] at h3; simp at h3
    | some v =>
      rw [hv] at h3
      simp only at h3
      obtain ⟨s2, h5, h6⟩ := bind_ok h3
      simp only [Except.ok.injEq] at h6
      subst h6
      exact ⟨u, v, s2, h1, hf, hv, h5, rfl⟩
  · simp [hf] at h3

/-- Write-back of a dirty victim: one page-out with the victim's frame and current
`swap_off`, which did not fail; the offset returned is stored, ON_SWAP is set and
`evict_dirty_count` grows by one. -/
theorem write_back_dirty {w : World} {u s2 : State} {f : Nat} {v : PtePtr}
    (h : write_back w u f v = .ok s2) (hd : (u.pte v).frame &&& PG_DIRTY ≠ 0) :
    w.swap_pageout u.log f (u.pte v).swap_off ≠ INVALID_SWAP ∧
    s2.log = u.log ++
      [Event.pageout f (u.pte v).swap_off (w.swap_pageout u.log f (u.pte v).swap_off)] ∧
    s2.pte v = { frame := (u.pte v).frame ||| PG_ONSWAP,
                 swap_off := w.swap_pageout u.log f (u.pte v).swap_off } ∧
    s2.evict_dirty_count = u.evict_dirty_count + 1 ∧
    s2.evict_clean_count = u.evict_clean_count := by
  unfold write_back at h
  simp only [hd, if_true, ne_eq, not_false_eq_true] at h
  by_cases hr : w.swap_pageout u.log f (u.pte v).swap_off = INVALID_SWAP
  · simp [hr] at h
  · simp only [hr, if_false, Except.ok.injEq] at h
    subst h
    refine ⟨hr, rfl, ?_, rfl, rfl⟩
    show (((u.emit _).set_pte v _).set_frame v _).pte v = _
    simp only [pte_set_frame, pte_set_pte, if_true]
    rfl

/-- A clean victim is not written back: no event, no PTE change, `evict_clean_count` grows
by one. -/
theorem write_back_clean {w : World} {u s2 : State} {f : Nat} {v : PtePtr}
    (h : write_back w u f v = .ok s2) (hd : (u.pte v).frame &&& PG_DIRTY = 0) :
    s2.log = u.log ∧ s2.pgtbls = u.pgtbls ∧
    s2.evict_dirty_count = u.evict_dirty_count ∧
    s2.evict_clean_count = u.evict_clean_count + 1 := by
  unfold write_back at h
  simp only [hd, ne_eq, not_true_eq_false, if_false, Except.ok.injEq] at h
  subst h
  exact ⟨rfl, rfl, rfl, rfl⟩

theorem clear_victim_pte (s : State) (v q : PtePtr) :
    (clear_victim s v).pte q =
      if q = v then { frame := ((s.pte v).frame &&& bnot32 PG_DIRTY) &&& bnot32 PG_VALID,
                      swap_off := (s.pte v).swap_off }
      else s.pte q := by
  unfold clear_victim
  simp only [pte_set_frame]
  by_cases hq : q = v
  · simp [hq]
  · simp [hq]

theorem clear_victim_frame (s : State) (v : PtePtr) :
    (clear_victim s v).log = s.log ∧ (clear_victim s v).coremap = s.coremap ∧
    SameCounters s (clear_victim s v) ∧ SameLru s (clear_victim s v) ∧
    SameDir s (clear_victim s v) ∧ (clear_victim s v).physmem = s.physmem :=
  ⟨rfl, rfl, ⟨rfl, rfl, rfl, rfl, rfl⟩, ⟨rfl, rfl, rfl, rfl⟩, ⟨rfl, rfl⟩, rfl⟩

/-- Eviction of a dirty victim by `allocate_frame`, relative to the state `u` in which the
eviction function returned. -/
theorem allocate_frame_dirty {w : World} {s sa : State} {p : PtePtr} {f : Nat}
    (h : allocate_frame w s p = .ok (f, sa))
    (hfree : first_free s.coremap 0 w.memsize = none) :
    ∃ u v, evict_fcn w s = .ok (f, u) ∧ f < w.memsize ∧ (u.coremap f).pte = some v ∧
      (∀ q, q ≠ v → sa.pte q = u.pte q) ∧
      ((u.pte v).frame &&& PG_DIRTY ≠ 0 →
        w.swap_pageout u.log f (u.pte v).swap_off ≠ INVALID_SWAP ∧
        sa.log = u.log ++
          [Event.pageout f (u.pte v).swap_off (w.swap_pageout u.log f (u.pte v).swap_off)] ∧
        sa.pte v =
          { frame := (((u.pte v).frame ||| PG_ONSWAP) &&& bnot32 PG_DIRTY) &&& bnot32 PG_VALID,
            swap_off := w.swap_pageout u.log f (u.pte v).swap_off } ∧
        sa.evict_dirty_count = u.evict_dirty_count + 1 ∧
        sa.evict_clean_count = u.evict_clean_count) ∧
      ((u.pte v).frame &&& PG_DIRTY = 0 →
        sa.log = u.log ∧
        sa.pte v =
          { frame := ((u.pte v).frame &&& bnot32 PG_DIRTY) &&& bnot32 PG_VALID,
            swap_off := (u.pte v).swap_off } ∧
        sa.evict_dirty_count = u.evict_dirty_count ∧
        sa.evict_clean_count = u.evict_clean_count + 1) := by
  obtain ⟨u, v, s2, h1, hf, hv, h2, rfl⟩ := allocate_frame_evict h hfree
  have hpte : ∀ q, ((clear_victim s2 v).set_coremap f p).pte q = (clear_victim s2 v).pte q :=
    fun _ => rfl
  refine ⟨u, v, h1, hf, hv, fun q hq => ?_, fun hd => ?_, fun hd => ?_⟩
  · rw [hpte, clear_victim_pte, if_neg hq, write_back_pte_other h2 hq]
  · obtain ⟨a1, a2, a3, a4, a5⟩ := write_back_dirty h2 hd
    refine ⟨a1, a2, ?_, a4, a5⟩
    rw [hpte, clear_victim_pte, if_pos rfl, a3]
  · obtain ⟨a1, a2, a3, a4⟩ := write_back_clean h2 hd
    refine ⟨a1, ?_, a3, a4⟩
    rw [hpte, clear_victim_pte, if_pos rfl, pte_of_pgtbls a2]

/-! ## Pages and the summary of a fault -/

theorem page_of_valid {s : State} {va : Nat} (h : dir_valid s va) :
    page s va = s.pte (pte_ptr s va) := by
  unfold page
  unfold dir_valid at h
  rw [if_pos h]

theorem page_of_invalid {s : State} {va : Nat} (h : ¬ dir_valid s va) :
    page s va = { frame := 0, swap_off := INVALID_SWAP } := by
  unfold page
  unfold dir_valid at h
  rw [if_neg h]

theorem page_same_page {s : State} {va vb : Nat} (h : same_page va vb) :
    page s va = page s vb := by
  unfold page
  rw [pte_ptr_same_page h, h.1]

theorem resident_iff (s : State) (va : Nat) :
    resident s va ↔ (page s va).frame &&& PG_VALID ≠ 0 := by
  by_cases h : dir_valid s va
  · rw [page_of_valid h]
    exact ⟨fun r => r.2, fun r => ⟨h, r⟩⟩
  · rw [page_of_invalid h]
    exact ⟨fun r => absurd r.1 h, fun r => absurd (by decide) r⟩

/-- The directory walk changes the PTE of no page. -/
theorem page_walk {w : World} {s s1 : State} {va : Nat}
    (hw : walk_pagetable w s va = .ok s1) (hd : DirOk s) (vb : Nat) :
    page s1 vb = page s vb := by
  obtain ⟨-, -, -, hstab, hsame, hfresh⟩ := walk_pagetable_dirOk hw hd
  by_cases h : dir_valid s vb
  · obtain ⟨h1, h2⟩ := hstab vb h
    rw [page_of_valid h, page_of_valid h1, h2]
    obtain ⟨k, hk, -, hkp⟩ := dirOk_ptr hd h
    apply hsame
    rw [hkp]
    intro e
    have := tbl_addr_inj e
    omega
  · rw [page_of_invalid h]
    by_cases h1 : dir_valid s1 vb
    · rw [page_of_valid h1]
      exact hfresh vb h1 h
    · exact page_of_invalid h1

/-- Summary of a fault: the state after the access relative to the state `sa` in which
`allocate_frame` returned frame `f`. -/
theorem find_physpage_fault_summary {w : World} {s s1 t : State} {va : Nat} {ty : Char}
    {r : Nat} (hw : walk_pagetable w s va = .ok s1)
    (hv : (s1.pte (pte_ptr s1 va)).frame &&& PG_VALID = 0)
    (h : find_physpage w s va ty = .ok (r, t)) (hp : AllPteOk s) :
    ∃ f sa, allocate_frame w s1 (pte_ptr s1 va) = .ok (f, sa) ∧
      (∀ q, q ≠ pte_ptr s1 va → t.pte q = sa.pte q) ∧
      t.coremap = sa.coremap ∧
      t.evict_clean_count = sa.evict_clean_count ∧
      t.evict_dirty_count = sa.evict_dirty_count ∧
      t.hit_count = sa.hit_count ∧ t.miss_count = sa.miss_count + 1 ∧
      r = f * w.SIMPAGESIZE ∧
      (t.pte (pte_ptr s1 va)).swap_off = (s1.pte (pte_ptr s1 va)).swap_off ∧
      (t.pte (pte_ptr s1 va)).frame &&& PG_VALID ≠ 0 ∧
      (t.pte (pte_ptr s1 va)).frame &&& PG_REF ≠ 0 ∧
      (t.pte (pte_ptr s1 va)).frame &&& PG_ONSWAP = 0 ∧
      (t.pte (pte_ptr s1 va)).frame >>> PAGE_SHIFT = f ∧
      ((s1.pte (pte_ptr s1 va)).frame &&& PG_ONSWAP = 0 →
        t.log = sa.log ++ [Event.init_frame f va] ∧
        (t.pte (pte_ptr s1 va)).frame &&& PG_DIRTY ≠ 0) ∧
      ((s1.pte (pte_ptr s1 va)).frame &&& PG_ONSWAP ≠ 0 →
        t.log = sa.log ++ [Event.pagein f (s1.pte (pte_ptr s1 va)).swap_off 0] ∧
        ((t.pte (pte_ptr s1 va)).frame &&& PG_DIRTY ≠ 0 ↔ (ty = 'M' ∨ ty = 'S'))) := by
  have hp1 := walk_pagetable_allPteOk hw hp
  obtain ⟨f, sa, sd, ha, hfill, g1, g2, g3, -, -, g6, g7, -, g9, g10, g11⟩ :=
    find_physpage_fault hw hv h
  obtain ⟨c1, c2, c3, c4, c5⟩ := fill_frame_counters hfill
  obtain ⟨a1, a2⟩ := allocate_frame_pte_invalid ha hp1 hv
  obtain ⟨hf19, v1, v2, v3⟩ := fill_frame_value hfill
  obtain ⟨hx, hidx⟩ := fill_frame_index hfill
  have htp : ∀ q, t.pte q = (mark_access sd (pte_ptr s1 va) ty).pte q :=
    fun q => pte_of_pgtbls g1 q
  have hmap : mapping (t.pte (pte_ptr s1 va)) = (true, f) := by
    rw [htp, mark_access_mapping_self _ _ _ hx, hidx]
  have hsw : (sa.pte (pte_ptr s1 va)).frame &&& PG_ONSWAP = 0 ↔
      (s1.pte (pte_ptr s1 va)).frame &&& PG_ONSWAP = 0 := by
    rw [onswap_eq_zero_iff, onswap_eq_zero_iff, a2 3 (by decide) (by decide)]
  have hidx2 : (t.pte (pte_ptr s1 va)).frame >>> PAGE_SHIFT = f := congrArg Prod.snd hmap
  have hpt := htp (pte_ptr s1 va)
  rw [mark_access_pte, if_pos rfl] at hpt
  refine ⟨f, sa, ha, fun q hq => ?_, ?_, ?_, ?_, ?_, ?_, ?_, ?_, ?_, ?_, ?_, hidx2, ?_, ?_⟩
  · rw [htp, mark_access_pte_other _ _ hq, fill_frame_pte_other hfill hq]
  · rw [g2, (fill_frame_sameDir hfill).2.1]
  · rw [g9, c4]
  · rw [g10, c5]
  · rw [g6, c1]
  · rw [g7, c2]
  · rw [g11, hidx2]
  · rw [hpt]
    show (sd.pte (pte_ptr s1 va)).swap_off = _
    rw [v1, a1]
  · rw [mapping_valid, hmap]
  · rw [htp]
    exact mark_access_ref _ _ _
  · rw [hpt, onswap_eq_zero_iff, tbit_clear_onswap]
    simp
  · intro hns
    have hns2 := hsw.2 hns
    refine ⟨by rw [g3, (v2 hns2).2], ?_⟩
    rw [hpt, (v2 hns2).1]
    rw [Ne, dirty_eq_zero_iff]
    split <;> simp [tbit_clear_onswap, tbit_or_ref, tbit_or_valid, tbit_or_dirty]
  · intro hs
    have hs2 : (sa.pte (pte_ptr s1 va)).frame &&& PG_ONSWAP ≠ 0 := fun e => hs (hsw.1 e)
    obtain ⟨-, -, w3, -⟩ := fill_frame_swapped hfill hs2
    refine ⟨by rw [g3, w3, a1], ?_⟩
    rw [hpt, v3 hs2, Ne, dirty_eq_zero_iff]
    by_cases hty : ty = 'M' ∨ ty = 'S'
    · simp [hty, tbit_clear_onswap, tbit_or_ref, tbit_or_valid, tbit_or_dirty]
    · simp only [hty, if_false, tbit_clear_onswap, tbit_or_ref, tbit_or_valid, tbit_shiftLeft]
      simp [PAGE_SHIFT]

/-! ## Faults seen from the pages -/

theorem lruInv_init (w : World) (hpol : w.policy = .lru) : LruInv w (init w) :=
  ⟨allPteOk_init w, dirOk_init w, coreOk_init w, lruOk_init w hpol, heldOk_init w⟩

theorem find_physpage_lruInv {w : World} {s t : State} {va : Nat} {ty : Char} {r : Nat}
    (hpol : w.policy = .lru) (h : find_physpage w s va ty = .ok (r, t)) (hi : LruInv w s) :
    LruInv w t := by
  obtain ⟨hp, hd, hc, hl, hh⟩ := hi
  exact ⟨find_physpage_allPteOk h hp, find_physpage_dirOk h hd, find_physpage_coreOk h hp hd hc,
    (find_physpage_lru_step hpol h hp hc hl).1, find_physpage_heldOk h hp hd hh⟩

theorem page_eq_of {s t : State} {vb : Nat} (hdir : t.pgdir = s.pgdir)
    (hpte : dir_valid s vb → t.pte (pte_ptr s vb) = s.pte (pte_ptr s vb)) :
    page t vb = page s vb := by
  have hptr : pte_ptr t vb = pte_ptr s vb := by unfold pte_ptr; rw [hdir]
  by_cases hv : dir_valid s vb
  · have hv2 : dir_valid t vb := by unfold dir_valid at hv ⊢; rw [hdir]; exact hv
    rw [page_of_valid hv, page_of_valid hv2, hptr, hpte hv]
  · have hv2 : ¬ dir_valid t vb := by unfold dir_valid at hv ⊢; rw [hdir]; exact hv
    rw [page_of_invalid hv, page_of_invalid hv2]

/-- A fault seen from the pages, relative to the state `sa` in which `allocate_frame`
returned frame `f`. -/
theorem find_physpage_fault_pages {w : World} {s t : State} {va : Nat} {ty : Char} {r : Nat}
    (h : find_physpage w s va ty = .ok (r, t)) (hp : AllPteOk s) (hd : DirOk s)
    (hnv : (page s va).frame &&& PG_VALID = 0) :
    ∃ s1 f sa, walk_pagetable w s va = .ok s1 ∧
      allocate_frame w s1 (pte_ptr s1 va) = .ok (f, sa) ∧
      (s1.pte (pte_ptr s1 va)).frame &&& PG_VALID = 0 ∧
      pte_ptr t va = pte_ptr s1 va ∧ dir_valid t va ∧
      (∀ vb, dir_valid s vb → dir_valid t vb ∧ pte_ptr t vb = pte_ptr s vb) ∧
      (∀ vb, ¬ same_page va vb → page t vb = page sa vb) ∧
      Installed (page s va) (page t va) f ty ∧
      t.log = sa.log ++ [fill_event (page s va) f va] ∧
      t.coremap = sa.coremap ∧ r = f * w.SIMPAGESIZE ∧
      t.evict_clean_count = sa.evict_clean_count ∧
      t.evict_dirty_count = sa.evict_dirty_count ∧
      t.hit_count = sa.hit_count ∧ t.miss_count = sa.miss_count + 1 := by
  have h0 := h
  unfold find_physpage at h0
  obtain ⟨s1, hw, -⟩ := bind_ok h0
  obtain ⟨hd1, hdv, -, hstab, -⟩ := walk_pagetable_dirOk hw hd
  have hpg := page_walk hw hd
  have hpv : page s va = s1.pte (pte_ptr s1 va) := by rw [← hpg va, page_of_valid hdv]
  rw [hpv] at hnv
  obtain ⟨f, sa, ha, b1, b2, b3, b4, b5, b6, b7, b8, b9, b10, b11, b12, b13, b14⟩ :=
    find_physpage_fault_summary hw hnv h hp
  have hsd := find_physpage_sameDir hw h
  have hsa := allocate_frame_sameDir ha
  have hptr : ∀ vb, pte_ptr t vb = pte_ptr s1 vb := by intro vb; unfold pte_ptr; rw [hsd.1]
  have hdvt : ∀ vb, dir_valid s1 vb → dir_valid t vb := by
    intro vb hv; unfold dir_valid at hv ⊢; rw [hsd.1]; exact hv
  have hpt : page t va = t.pte (pte_ptr s1 va) := by rw [page_of_valid (hdvt va hdv), hptr]
  refine ⟨s1, f, sa, hw, ha, hnv, hptr va, hdvt va hdv, fun vb hvb => ?_, fun vb hvb => ?_, ?_, ?_,
    b2, b7, b3, b4, b5, b6⟩
  · exact ⟨hdvt vb (hstab vb hvb).1, by rw [hptr, (hstab vb hvb).2]⟩
  · apply page_eq_of (hsd.1.trans hsa.1.symm)
    intro hv
    have hv1 : dir_valid s1 vb := by unfold dir_valid at hv ⊢; rw [← hsa.1]; exact hv
    have hq : pte_ptr sa vb = pte_ptr s1 vb := by unfold pte_ptr; rw [hsa.1]
    rw [hq]
    apply b1
    intro e
    exact hvb (pte_ptr_inj hd1 hdv hv1 e.symm)
  · rw [hpt, hpv]
    refine ⟨b9, b10, b11, b12, b8, ?_⟩
    by_cases hsw : (s1.pte (pte_ptr s1 va)).frame &&& PG_ONSWAP = 0
    · simp only [hsw, true_or, iff_true]
      exact (b13 hsw).2
    · simp only [hsw, false_or]
      exact (b14 hsw).2
  · rw [hpv]
    unfold fill_event
    by_cases hsw : (s1.pte (pte_ptr s1 va)).frame &&& PG_ONSWAP = 0
    · rw [if_pos hsw]
      exact (b13 hsw).1
    · rw [if_neg hsw]
      exact (b14 hsw).1

/-! ## allocate_frame seen from the pages -/

theorem first_free_eq_some (cm : Nat → frame) (n f : Nat) (hf : f < n)
    (hfree : (cm f).in_use = false) (hused : ∀ j, j < f → (cm j).in_use = true) :
    first_free cm 0 n = some f := by
  cases h : first_free cm 0 n with
  | none =>
    have := (first_free_none_iff cm n 0).1 h f (Nat.zero_le _) (by omega)
    rw [hfree] at this
    exact absurd this (by decide)
  | some g =>
    obtain ⟨-, b2, b3, b4⟩ := first_free_some cm n 0 g h
    rcases Nat.lt_trichotomy g f with e | e | e
    · have := hused g e
      rw [b3] at this
      exact absurd this (by decide)
    · rw [e]
    · have := b4 f (Nat.zero_le _) e
      rw [hfree] at this
      exact absurd this (by decide)

/-- With a free frame `allocate_frame` only records the new owner of the first free frame. -/
theorem allocate_frame_free {w : World} {s sa : State} {p : PtePtr} {f f0 : Nat}
    (h : allocate_frame w s p = .ok (f, sa))
    (hfree : first_free s.coremap 0 w.memsize = some f0) :
    f = f0 ∧ sa = s.set_coremap f0 p := by
  unfold allocate_frame at h
  rw [hfree] at h
  simp only [Except.ok.injEq, Prod.mk.injEq] at h
  exact ⟨h.1.symm, h.2.symm⟩

/-- Without a free frame, under LRU: the victim is the head `f0` of the LRU list, holding
the page of `vv`; no other page changes, and the victim's page is written back exactly
when it is DIRTY. -/
theorem allocate_frame_evict_pages {w : World} {s sa : State} {p : PtePtr} {f f0 vv : Nat}
    {rest : List Nat} (hpol : w.policy = .lru)
    (h : allocate_frame w s p = .ok (f, sa)) (hp : AllPteOk s) (hd : DirOk s)
    (hl : LruOk w s)
    (hfree : first_free s.coremap 0 w.memsize = none)
    (hfr : lru_frames s = f0 :: rest)
    (hvv : (s.coremap f0).pte = some (pte_ptr s vv)) (hdv : dir_valid s vv) :
    f = f0 ∧ lru_frames sa = rest ∧ sa.coremap = (s.set_coremap f0 p).coremap ∧
    sa.hit_count = s.hit_count ∧ sa.miss_count = s.miss_count ∧
    (∀ vb, ¬ same_page vv vb → page sa vb = page s vb) ∧
    ((page s vv).frame &&& PG_DIRTY ≠ 0 →
      w.swap_pageout s.log f0 (page s vv).swap_off ≠ INVALID_SWAP ∧
      sa.log = s.log ++ [Event.pageout f0 (page s vv).swap_off
        (w.swap_pageout s.log f0 (page s vv).swap_off)] ∧
      page sa vv =
        { frame := (((page s vv).frame ||| PG_ONSWAP) &&& bnot32 PG_DIRTY) &&& bnot32 PG_VALID,
          swap_off := w.swap_pageout s.log f0 (page s vv).swap_off } ∧
      sa.evict_dirty_count = s.evict_dirty_count + 1 ∧
      sa.evict_clean_count = s.evict_clean_count) ∧
    ((page s vv).frame &&& PG_DIRTY = 0 →
      sa.log = s.log ∧
      page sa vv =
        { frame := ((page s vv).frame &&& bnot32 PG_DIRTY) &&& bnot32 PG_VALID,
          swap_off := (page s vv).swap_off } ∧
      sa.evict_dirty_count = s.evict_dirty_count ∧
      sa.evict_clean_count = s.evict_clean_count + 1) := by
  obtain ⟨cells, hrep, -⟩ := hl
  obtain ⟨c, rest2, hcells, hfc, hA⟩ := allocate_frame_lru_evict hpol h hfree hrep
  subst hcells
  rw [lru_frames_eq hrep] at hfr
  simp only [List.map_cons, List.cons.injEq] at hfr
  obtain ⟨hf0, hrest⟩ := hfr
  have hff : f = f0 := hfc.trans hf0
  subst hff
  obtain ⟨u, v, h1, -, hv, a1, a2, a3⟩ := allocate_frame_dirty h hfree
  have hev : lru_evict w s = .ok (f, u) := by
    simp only [evict_fcn, hpol] at h1
    exact h1
  obtain ⟨-, -, o3, o4, -, o6, o7⟩ := lru_evict_lru_only hev
  have hpu : ∀ q, u.pte q = s.pte q := fun q => pte_of_pgtbls o3 q
  rw [o4, hvv] at hv
  simp only [Option.some.injEq] at hv
  subst hv
  have hsa := allocate_frame_sameDir h
  have hcm := (allocate_frame_effect h hp).2.1
  have hpvv : page s vv = s.pte (pte_ptr s vv) := page_of_valid hdv
  have hdva : dir_valid sa vv := by unfold dir_valid at hdv ⊢; rw [hsa.1]; exact hdv
  have hpa : pte_ptr sa vv = pte_ptr s vv := by unfold pte_ptr; rw [hsa.1]
  have hpsa : page sa vv = sa.pte (pte_ptr s vv) := by rw [page_of_valid hdva, hpa]
  obtain ⟨k1, k2, -⟩ := (allocate_frame_counters h).2 hfree
  refine ⟨rfl, ?_, hcm, k1, k2, fun vb hvb => ?_, fun hdirty => ?_, fun hclean => ?_⟩
  · rw [lru_frames_eq hA, hrest]
  · apply page_eq_of hsa.1
    intro hv
    rw [a1 _ (fun e => hvb (pte_ptr_inj hd hdv hv e.symm)), hpu]
  · rw [hpvv] at hdirty ⊢
    rw [← hpu] at hdirty
    obtain ⟨d1, d2, d3, d4, d5⟩ := a2 hdirty
    rw [hpu, o7] at d1 d2 d3
    exact ⟨d1, d2, by rw [hpsa, d3], by rw [d4, o6.2.2.2.2], by rw [d5, o6.2.2.2.1]⟩
  · rw [hpvv] at hclean ⊢
    rw [← hpu] at hclean
    obtain ⟨d1, d2, d3, d4⟩ := a3 hclean
    rw [hpu] at d2
    exact ⟨by rw [d1, o7], by rw [hpsa, d2], by rw [d3, o6.2.2.2.2], by rw [d4, o6.2.2.2.1]⟩

/-! ## Faults under LRU, free frame and eviction -/

theorem walk_pagetable_log {w : World} {s s1 : State} {va : Nat}
    (hw : walk_pagetable w s va = .ok s1) : s1.log = s.log ++ walk_events s va := by
  unfold walk_pagetable at hw
  unfold walk_events
  by_cases hi : PGDIR_INDEX va < PTRS_PER_PGDIR
  · simp only [hi, if_true] at hw
    by_cases hv : s.pgdir (PGDIR_INDEX va) &&& PG_VALID = 0
    · simp only [hv, if_true] at hw ⊢
      obtain ⟨⟨e, s2⟩, h1, h2⟩ := bind_ok hw
      simp only [Except.ok.injEq] at h2
      subst h2
      unfold init_second_level at h1
      split at h1
      · simp only [Except.ok.injEq, Prod.mk.injEq] at h1
        obtain ⟨-, rfl⟩ := h1
        rfl
      · simp at h1
    · simp only [hv, if_false, Except.ok.injEq] at hw ⊢
      subst hw
      rw [List.append_nil]
  · simp [hi] at hw

/-- A fault under LRU while a frame is free: the page is installed in the first free frame
`f0`, which becomes the most recently used; nothing else changes. -/
theorem lru_fault_free {w : World} {s t : State} {va : Nat} {ty : Char} {r f0 : Nat}
    (hpol : w.policy = .lru) (h : find_physpage w s va ty = .ok (r, t)) (hi : LruInv w s)
    (hnv : (page s va).frame &&& PG_VALID = 0)
    (hfree : first_free s.coremap 0 w.memsize = some f0) :
    t.log = s.log ++ walk_events s va ++ [fill_event (page s va) f0 va] ∧
      r = f0 * w.SIMPAGESIZE ∧
      t.coremap = (s.set_coremap f0 (pte_ptr t va)).coremap ∧
      dir_valid t va ∧ (∀ vb, dir_valid s vb → dir_valid t vb ∧ pte_ptr t vb = pte_ptr s vb) ∧
      lru_frames t = lru_touch (lru_frames s) f0 ∧
      (∀ vb, ¬ same_page va vb → page t vb = page s vb) ∧
      Installed (page s va) (page t va) f0 ty ∧
      t.hit_count = s.hit_count ∧ t.miss_count = s.miss_count + 1 ∧
      t.evict_clean_count = s.evict_clean_count ∧
      t.evict_dirty_count = s.evict_dirty_count := by
  obtain ⟨hp, hd, hc, hl, -⟩ := hi
  obtain ⟨s1, f, sa, hw, ha, hv, b1, b2, b3, b4, b5, b6, b7, b8, b9, b10, b11, b12⟩ :=
    find_physpage_fault_pages h hp hd hnv
  obtain ⟨c1, l1, -⟩ := walk_pagetable_frame hw
  have hlog := walk_pagetable_log hw
  obtain ⟨k1, k2, k3, k4, k5⟩ := walk_pagetable_counters hw
  have hpg := page_walk hw hd
  rw [← c1] at hfree
  obtain ⟨hf, hsa⟩ := allocate_frame_free ha hfree
  subst hf
  subst hsa
  obtain ⟨-, s1b, hwb, -, lfault⟩ := find_physpage_lru_step hpol h hp hc hl
  rw [hw] at hwb
  simp only [Except.ok.injEq] at hwb
  subst hwb
  obtain ⟨f2, sa2, ha2, e1, e2, -⟩ := lfault hv
  rw [ha] at ha2
  simp only [Except.ok.injEq, Prod.mk.injEq] at ha2
  obtain ⟨rfl, rfl⟩ := ha2
  refine ⟨?_, b8, ?_, b2, b3, ?_, fun vb hvb => ?_, b5, ?_, ?_, ?_, ?_⟩
  · rw [b6]
    show s1.log ++ _ = _
    rw [hlog]
  · rw [b7, b1]
    show (fun i => if i = f then _ else s1.coremap i) = fun i => if i = f then _ else s.coremap i
    rw [c1]
  · rw [e1, e2 hfree]
  · rw [b4 vb hvb, ← hpg vb]
    rfl
  · rw [b11]
    exact k1
  · rw [b12]
    show s1.miss_count + 1 = _
    rw [k2]
  · rw [b9]
    exact k4
  · rw [b10]
    exact k5

/-- A fault under LRU while no frame is free: the head `f0` of the LRU list, holding the
page of `vv`, is evicted (written back first when DIRTY) and the faulting page is installed
in it; no third page changes. -/
theorem lru_fault_evict {w : World} {s t : State} {va vv : Nat} {ty : Char} {r f0 : Nat}
    {rest : List Nat}
    (hpol : w.policy = .lru) (h : find_physpage w s va ty = .ok (r, t)) (hi : LruInv w s)
    (hnv : (page s va).frame &&& PG_VALID = 0)
    (hfree : first_free s.coremap 0 w.memsize = none)
    (hfr : lru_frames s = f0 :: rest)
    (hvv : (s.coremap f0).pte = some (pte_ptr s vv)) (hdv : dir_valid s vv) :
    r = f0 * w.SIMPAGESIZE ∧
      t.coremap = (s.set_coremap f0 (pte_ptr t va)).coremap ∧
      dir_valid t va ∧ (∀ vb, dir_valid s vb → dir_valid t vb ∧ pte_ptr t vb = pte_ptr s vb) ∧
      lru_frames t = lru_touch rest f0 ∧
      (∀ vb, ¬ same_page va vb → ¬ same_page vv vb → page t vb = page s vb) ∧
      Installed (page s va) (page t va) f0 ty ∧
      t.hit_count = s.hit_count ∧ t.miss_count = s.miss_count + 1 ∧
      ¬ same_page va vv ∧
      ((page s vv).frame &&& PG_DIRTY ≠ 0 →
        w.swap_pageout (s.log ++ walk_events s va) f0 (page s vv).swap_off ≠ INVALID_SWAP ∧
        t.log = s.log ++ walk_events s va ++ [Event.pageout f0 (page s vv).swap_off
          (w.swap_pageout (s.log ++ walk_events s va) f0 (page s vv).swap_off),
          fill_event (page s va) f0 va] ∧
        page t vv =
          { frame := (((page s vv).frame ||| PG_ONSWAP) &&& bnot32 PG_DIRTY)
              &&& bnot32 PG_VALID,
            swap_off := w.swap_pageout (s.log ++ walk_events s va) f0 (page s vv).swap_off } ∧
        t.evict_dirty_count = s.evict_dirty_count + 1 ∧
        t.evict_clean_count = s.evict_clean_count) ∧
      ((page s vv).frame &&& PG_DIRTY = 0 →
        t.log = s.log ++ walk_events s va ++ [fill_event (page s va) f0 va] ∧
        page t vv =
          { frame := ((page s vv).frame &&& bnot32 PG_DIRTY) &&& bnot32 PG_VALID,
            swap_off := (page s vv).swap_off } ∧
        t.evict_dirty_count = s.evict_dirty_count ∧
        t.evict_clean_count = s.evict_clean_count + 1) := by
  obtain ⟨hp, hd, hc, hl, -⟩ := hi
  obtain ⟨s1, f, sa, hw, ha, hv, b1, b2, b3, b4, b5, b6, b7, b8, b9, b10, b11, b12⟩ :=
    find_physpage_fault_pages h hp hd hnv
  obtain ⟨c1, l1, -⟩ := walk_pagetable_frame hw
  have hlog := walk_pagetable_log hw
  obtain ⟨k1, k2, k3, k4, k5⟩ := walk_pagetable_counters hw
  obtain ⟨hd1, -, -, hstab, -⟩ := walk_pagetable_dirOk hw hd
  have hp1 := walk_pagetable_allPteOk hw hp
  have hpg := page_walk hw hd
  have hl1 : LruOk w s1 := by
    obtain ⟨cells, hrep, hset⟩ := hl
    exact ⟨cells, lruRep_sameLru l1 hrep, by rw [c1]; exact hset⟩
  have hfr1 : lru_frames s1 = f0 :: rest := by rw [lru_frames_sameLru l1, hfr]
  have hvv1 : (s1.coremap f0).pte = some (pte_ptr s1 vv) := by
    rw [c1, (hstab vv hdv).2]
    exact hvv
  rw [← c1] at hfree
  obtain ⟨a1, a2, a3, a4, a5, a6, a7, a8⟩ :=
    allocate_frame_evict_pages hpol ha hp1 hd1 hl1 hfree hfr1 hvv1 (hstab vv hdv).1
  subst a1
  obtain ⟨-, s1b, hwb, -, lfault⟩ := find_physpage_lru_step hpol h hp hc hl
  rw [hw] at hwb
  simp only [Except.ok.injEq] at hwb
  subst hwb
  obtain ⟨f2, sa2, ha2, e1, -, -⟩ := lfault hv
  rw [ha] at ha2
  simp only [Except.ok.injEq, Prod.mk.injEq] at ha2
  obtain ⟨rfl, rfl⟩ := ha2
  -- the victim page is resident, the faulting page is not
  have hmem : f ∈ lru_frames s := by rw [hfr]; simp
  obtain ⟨hfm, hfu⟩ := (lruOk_mem hl f).1 hmem
  obtain ⟨q, q1, q2, -⟩ := hc.1 f hfm hfu
  rw [hvv] at q1
  simp only [Option.some.injEq] at q1
  subst q1
  have hne : ¬ same_page va vv := by
    intro e
    rw [page_same_page e, page_of_valid hdv] at hnv
    exact q2 hnv
  refine ⟨b8, ?_, b2, b3, ?_, fun vb h1 h2 => ?_, b5, ?_, ?_, hne, fun hdirty => ?_,
    fun hclean => ?_⟩
  · rw [b7, a3, b1]
    show (fun i => if i = f then _ else s1.coremap i) = fun i => if i = f then _ else s.coremap i
    rw [c1]
  · rw [e1, a2]
  · rw [b4 vb h1, a6 vb h2, hpg vb]
  · rw [b11, a4]
    exact k1
  · rw [b12, a5, k2]
  · rw [← hpg vv] at hdirty ⊢
    obtain ⟨d1, d2, d3, d4, d5⟩ := a7 hdirty
    rw [hlog] at d1 d2 d3
    refine ⟨d1, ?_, ?_, ?_, ?_⟩
    · rw [b6, d2]
      simp
    · rw [b4 vv hne, d3]
    · rw [b10, d4, k5]
    · rw [b9, d5, k4]
  · rw [← hpg vv] at hclean ⊢
    obtain ⟨d1, d2, d3, d4⟩ := a8 hclean
    refine ⟨?_, ?_, ?_, ?_⟩
    · rw [b6, d1, hlog]
    · rw [b4 vv hne, d2]
    · rw [b10, d3, k5]
    · rw [b9, d4, k4]

/-! ## Facts about the initial state -/

theorem init_coremap (w : World) (f : Nat) :
    (init w).coremap f = { in_use := false, pte := none } := by
  unfold init; cases w.policy <;> rfl

theorem init_log (w : World) : (init w).log = [] := by
  unfold init; cases w.policy <;> rfl

theorem init_pgdir (w : World) (i : Nat) : (init w).pgdir i = 0 := by
  unfold init; cases w.policy <;> rfl

theorem page_init (w : World) (va : Nat) :
    page (init w) va = { frame := 0, swap_off := INVALID_SWAP } := by
  apply page_of_invalid
  unfold dir_valid
  rw [init_pgdir]
  decide

theorem walk_events_init (w : World) (va : Nat) :
    walk_events (init w) va = [Event.memalign true] := by
  unfold walk_events
  rw [init_pgdir]
  rfl

theorem lru_frames_init (w : World) (hpol : w.policy = .lru) : lru_frames (init w) = [] := by
  unfold init
  rw [hpol]
  rfl

theorem same_page_symm {va vb : Nat} (h : same_page va vb) : same_page vb va :=
  ⟨h.1.symm, h.2.symm⟩

theorem accessed_frame_page {s : State} {va : Nat} (h : dir_valid s va) :
    accessed_frame s va = (page s va).frame >>> PAGE_SHIFT := by
  rw [page_of_valid h]
  rfl

theorem evicted_bits (x : Nat) :
    ((((x ||| PG_ONSWAP) &&& bnot32 PG_DIRTY) &&& bnot32 PG_VALID) &&& PG_ONSWAP ≠ 0) ∧
    ((((x ||| PG_ONSWAP) &&& bnot32 PG_DIRTY) &&& bnot32 PG_VALID) &&& PG_VALID = 0) ∧
    ((((x ||| PG_ONSWAP) &&& bnot32 PG_DIRTY) &&& bnot32 PG_VALID) &&& PG_DIRTY = 0) := by
  refine ⟨?_, ?_, ?_⟩
  · rw [Ne, onswap_eq_zero_iff, tbit_clear_valid, tbit_clear_dirty, tbit_or_onswap]
    simp
  · rw [valid_eq_zero_iff, tbit_clear_valid]
    simp
  · rw [dirty_eq_zero_iff, tbit_clear_valid, tbit_clear_dirty]
    simp

theorem fill_event_fresh (f va : Nat) :
    fill_event { frame := 0, swap_off := INVALID_SWAP } f va = Event.init_frame f va := rfl

theorem walk_events_cases (s : State) (va : Nat) :
    walk_events s va = [] ∨ walk_events s va = [Event.memalign true] := by
  unfold walk_events
  split
  · exact Or.inr rfl
  · exact Or.inl rfl

/-! ## The first access of a run under LRU -/

/-- The first access of a run under LRU: a fault served from frame 0 by `init_frame`. -/
theorem lru_first_access {w : World} {t : State} {va : Nat} {ty : Char} {r : Nat}
    (hpol : w.policy = .lru) (hm : 1 ≤ w.memsize)
    (h : find_physpage w (init w) va ty = .ok (r, t)) :
    LruInv w t ∧ t.log = [Event.memalign true, Event.init_frame 0 va] ∧
    t.coremap = ((init w).set_coremap 0 (pte_ptr t va)).coremap ∧
    dir_valid t va ∧ lru_frames t = [0] ∧
    (∀ vb, ¬ same_page va vb → page t vb = { frame := 0, swap_off := INVALID_SWAP }) ∧
    Installed { frame := 0, swap_off := INVALID_SWAP } (page t va) 0 ty ∧
    t.hit_count = 0 ∧ t.miss_count = 1 ∧ t.evict_clean_count = 0 ∧ t.evict_dirty_count = 0 := by
  have hi := lruInv_init w hpol
  have hnv : (page (init w) va).frame &&& PG_VALID = 0 := by rw [page_init]; rfl
  have hfree : first_free (init w).coremap 0 w.memsize = some 0 :=
    first_free_eq_some _ _ 0 (by omega) (by rw [init_coremap]) (fun j hj => absurd hj (by omega))
  obtain ⟨a1, -, a3, a4, -, a6, a7, a8, a9, a10, a11, a12⟩ := lru_fault_free hpol h hi hnv hfree
  obtain ⟨c1, c2, -, c4, c5⟩ := init_counters w
  rw [page_init] at a8
  refine ⟨find_physpage_lruInv hpol h hi, ?_, a3, a4, ?_, fun vb hvb => ?_, a8, ?_, ?_, ?_, ?_⟩
  · rw [a1, init_log, walk_events_init, page_init, fill_event_fresh]
    rfl
  · rw [a6, lru_frames_init w hpol]
    rfl
  · rw [a7 vb hvb, page_init]
  · rw [a9, c1]
  · rw [a10, c2]
  · rw [a11, c4]
  · rw [a12, c5]

/-! ## Calls that return -/

/-- With every frame in use the eviction function returns a frame below `memsize`. -/
theorem evict_fcn_returns {w : World} {s : State} (hm : 1 ≤ w.memsize) (hc : CoreOk w s)
    (hall : all_in_use w s) (hl : w.policy = .lru → LruOk w s) :
    ∃ f u, evict_fcn w s = .ok (f, u) ∧ f < w.memsize := by
  unfold evict_fcn
  cases hpol : w.policy with
  | lru =>
    obtain ⟨cells, hrep, hset⟩ := hl hpol
    have h0 : 0 ∈ cells.map Prod.snd := (hset 0).2 ⟨by omega, hall 0 (by omega)⟩
    cases cells with
    | nil => simp at h0
    | cons c rest =>
      obtain ⟨u, hev, -⟩ := lru_evict_spec hrep
      exact ⟨c.2, u, hev, (hrep.2.2.2.2.2.2.1 c (by simp)).1⟩
  | clock =>
    have hheld : ∀ i, i < w.memsize → ∃ p, (s.coremap i).pte = some p := by
      intro i hi
      obtain ⟨q, q1, -⟩ := hc.1 i hi (hall i hi)
      exact ⟨q, q1⟩
    obtain ⟨f, t, p, h1, h2, -⟩ := clock_loop_returns w (by omega) (w.memsize + 1) s hheld
      (Nat.lt_succ_of_le (ref_frames_card_le w s))
    exact ⟨f, t, h1, h2⟩

/-- The write-back returns unless a dirty victim meets a full swap file. -/
theorem write_back_returns {w : World} (s : State) (f : Nat) (v : PtePtr)
    (hout : (s.pte v).frame &&& PG_DIRTY ≠ 0 →
      w.swap_pageout s.log f (s.pte v).swap_off ≠ INVALID_SWAP) :
    ∃ t, write_back w s f v = .ok t := by
  unfold write_back
  by_cases hd : (s.pte v).frame &&& PG_DIRTY ≠ 0
  · rw [if_pos hd, if_neg (hout hd)]
    exact ⟨_, rfl⟩
  · rw [if_neg hd]
    exact ⟨_, rfl⟩

/-- The allocation returns when the swap file never refuses a page-out. -/
theorem allocate_frame_returns {w : World} {s : State} (p : PtePtr) (hm : 1 ≤ w.memsize)
    (hc : CoreOk w s) (hl : w.policy = .lru → LruOk w s)
    (hout : ∀ l f o, w.swap_pageout l f o ≠ INVALID_SWAP) :
    ∃ f sa, allocate_frame w s p = .ok (f, sa) := by
  unfold allocate_frame
  cases hff : first_free s.coremap 0 w.memsize with
  | some f => exact ⟨f, _, rfl⟩
  | none =>
    have hall := (first_free_none_iff_all w s).1 hff
    obtain ⟨f, u, hev, hf⟩ := evict_fcn_returns hm hc hall hl
    obtain ⟨-, hcm⟩ := evict_fcn_sameDir hev
    obtain ⟨v, hv, -⟩ := hc.1 f hf (hall f hf)
    obtain ⟨s2, hwb⟩ := write_back_returns (w := w) u f v (fun _ => hout _ _ _)
    refine ⟨f, (clear_victim s2 v).set_coremap f p, ?_⟩
    simp only [hev, Except.bind, evict_victim, hf, if_true, hcm, hv, hwb]

/-- Filling the frame returns when the frame number fits and `swap_pagein` succeeds. -/
theorem fill_frame_returns {w : World} (s : State) (p : PtePtr) (f va : Nat) (hf : f < 2 ^ 19)
    (hin : ∀ l g o, (w.swap_pagein l g o).1 = 0) :
    ∃ t, fill_frame w s p f va = .ok t := by
  unfold fill_frame
  by_cases hsw : (s.pte p).frame &&& PG_ONSWAP = 0
  · rw [if_pos hsw, if_pos hf]
    exact ⟨_, rfl⟩
  · rw [if_neg hsw, if_neg (not_not.2 (hin _ _ _)), if_pos hf]
    exact ⟨_, rfl⟩

theorem walk_pagetable_returns {w : World} (s : State) (va : Nat)
    (hidx : PGDIR_INDEX va < PTRS_PER_PGDIR) (hmem : ∀ l, w.posix_memalign l = true)
    (hnt : tbl_addr (s.ntables + 1) ≤ 2 ^ 64) :
    ∃ s1, walk_pagetable w s va = .ok s1 := by
  unfold walk_pagetable
  rw [if_pos hidx]
  by_cases hv : s.pgdir (PGDIR_INDEX va) &&& PG_VALID = 0
  · rw [if_pos hv]
    unfold init_second_level
    rw [if_pos ⟨hmem _, hnt⟩]
    exact ⟨_, rfl⟩
  · rw [if_neg hv]
    exact ⟨_, rfl⟩

theorem walk_pagetable_ntables {w : World} {s s1 : State} {va : Nat}
    (hw : walk_pagetable w s va = .ok s1) : s1.ntables ≤ s.ntables + 1 := by
  unfold walk_pagetable at hw
  by_cases hi : PGDIR_INDEX va < PTRS_PER_PGDIR
  · simp only [hi, if_true] at hw
    by_cases hv : s.pgdir (PGDIR_INDEX va) &&& PG_VALID = 0
    · simp only [hv, if_true] at hw
      obtain ⟨⟨e, s2⟩, h1, h2⟩ := bind_ok hw
      simp only [Except.ok.injEq] at h2
      subst h2
      unfold init_second_level at h1
      split at h1
      · simp only [Except.ok.injEq, Prod.mk.injEq] at h1
        obtain ⟨-, rfl⟩ := h1
        exact Nat.le_refl _
      · simp at h1
    · simp only [hv, if_false, Except.ok.injEq] at hw
      subst hw
      omega
  · simp [hi] at hw

theorem find_physpage_ntables {w : World} {s t : State} {va : Nat} {ty : Char} {r : Nat}
    (h : find_physpage w s va ty = .ok (r, t)) : t.ntables ≤ s.ntables + 1 := by
  have h0 := h
  unfold find_physpage at h0
  obtain ⟨s1, hw, -⟩ := bind_ok h0
  rw [(find_physpage_sameDir hw h).2]
  exact walk_pagetable_ntables hw

/-! ## Runs that return -/

theorem ref_fcn_returns {w : World} {m : State} {p : PtePtr}
    (hl : w.policy = .lru → ∃ cells, LruRep w m cells)
    (hf : (m.pte p).frame >>> PAGE_SHIFT < w.memsize)
    (hf2 : (m.pte p).frame >>> PAGE_SHIFT < 2 ^ 20)
    (hmal : w.policy = .lru → malloc_ok w m p) :
    ∃ s3, ref_fcn w m p = .ok s3 := by
  unfold ref_fcn
  cases hpol : w.policy with
  | lru =>
    obtain ⟨cells, hrep⟩ := hl hpol
    obtain ⟨t, -, h1, -⟩ := lru_ref_spec hrep hf hf2 (hmal hpol)
    exact ⟨t, h1⟩
  | clock => exact ⟨_, rfl⟩

/-- In a state satisfying the invariants `find_physpage` returns whenever the address has
a directory index, the frame numbers fit `frame << PAGE_SHIFT`, and the collaborators
(leaf-table allocation, page-out, page-in and, under LRU, the `malloc` of `lru_ref`)
succeed. -/
theorem find_physpage_returns {w : World} {s : State} (va : Nat) (ty : Char)
    (hp : AllPteOk s) (hd : DirOk s) (hc : CoreOk w s) (hl : w.policy = .lru → LruOk w s)
    (hm : 1 ≤ w.memsize) (hm2 : w.memsize ≤ 2 ^ 19)
    (hidx : PGDIR_INDEX va < PTRS_PER_PGDIR) (hnt : tbl_addr (s.ntables + 1) ≤ 2 ^ 64)
    (hmem : ∀ l, w.posix_memalign l = true)
    (hout : ∀ l f o, w.swap_pageout l f o ≠ INVALID_SWAP)
    (hin : ∀ l f o, (w.swap_pagein l f o).1 = 0)
    (hmal : w.policy = .lru → ∀ l n, w.malloc l n = true) :
    ∃ r t, find_physpage w s va ty = .ok (r, t) := by
  obtain ⟨s1, hw⟩ := walk_pagetable_returns (w := w) s va hidx hmem hnt
  obtain ⟨c1, l1, -⟩ := walk_pagetable_frame hw
  have hp1 := walk_pagetable_allPteOk hw hp
  have hc1 := walk_pagetable_coreOk hw hd hc
  have hl1 : w.policy = .lru → LruOk w s1 := by
    intro hpol
    obtain ⟨cells, hrep, hset⟩ := hl hpol
    exact ⟨cells, lruRep_sameLru l1 hrep, by rw [c1]; exact hset⟩
  by_cases hv : (s1.pte (pte_ptr s1 va)).frame &&& PG_VALID = 0
  · obtain ⟨f, sa, ha⟩ := allocate_frame_returns (pte_ptr s1 va) hm hc1 hl1 hout
    obtain ⟨hf, -, hcase⟩ := allocate_frame_effect ha hp1
    obtain ⟨sd, hfill⟩ := fill_frame_returns (w := w) sa (pte_ptr s1 va) f va (by omega) hin
    obtain ⟨hx, hidx2⟩ := fill_frame_index hfill
    obtain ⟨-, -, fl1, fl2, fl3, fl4⟩ := fill_frame_sameDir hfill
    obtain ⟨ml, -⟩ := mark_access_sameLru { sd with miss_count := sd.miss_count + 1 }
      (pte_ptr s1 va) ty
    have hmap := mark_access_mapping_self { sd with miss_count := sd.miss_count + 1 }
      (pte_ptr s1 va) ty hx
    have hmi : ((mark_access { sd with miss_count := sd.miss_count + 1 } (pte_ptr s1 va)
        ty).pte (pte_ptr s1 va)).frame >>> PAGE_SHIFT = f :=
      (congrArg Prod.snd hmap).trans hidx2
    have hsam : SameLru sa (mark_access { sd with miss_count := sd.miss_count + 1 }
        (pte_ptr s1 va) ty) :=
      sameLru_trans (t := { sd with miss_count := sd.miss_count + 1 })
        ⟨fl1, fl2, fl3, fl4⟩ ml
    have hrepm : w.policy = .lru → ∃ cells, LruRep w
        (mark_access { sd with miss_count := sd.miss_count + 1 } (pte_ptr s1 va) ty) cells := by
      intro hpol
      obtain ⟨cells, hrep, -⟩ := hl1 hpol
      rcases hcase with ⟨-, -, e3, -⟩ | ⟨e1, -⟩
      · exact ⟨cells, lruRep_sameLru hsam (lruRep_sameLru e3 hrep)⟩
      · obtain ⟨c, rest, -, -, hA⟩ := allocate_frame_lru_evict hpol ha e1 hrep
        exact ⟨rest, lruRep_sameLru hsam hA⟩
    obtain ⟨s3, href⟩ := ref_fcn_returns hrepm (by rw [hmi]; exact hf) (by rw [hmi]; omega)
      (fun hpol _ => hmal hpol _ _)
    refine ⟨((s3.pte (pte_ptr s1 va)).frame >>> PAGE_SHIFT) * w.SIMPAGESIZE,
      { s3 with ref_count := s3.ref_count + 1 }, ?_⟩
    unfold find_physpage
    simp only [hw, Except.bind, hit_or_fault, hv, if_true, handle_fault, ha, hfill, href]
  · obtain ⟨k1, -, -⟩ := hc1.2.1 _ hv
    have hmap := mark_access_mapping_self { s1 with hit_count := s1.hit_count + 1 }
      (pte_ptr s1 va) ty (hp1 _).1
    have hmi : ((mark_access { s1 with hit_count := s1.hit_count + 1 } (pte_ptr s1 va)
        ty).pte (pte_ptr s1 va)).frame >>> PAGE_SHIFT =
        (s1.pte (pte_ptr s1 va)).frame >>> PAGE_SHIFT := congrArg Prod.snd hmap
    obtain ⟨ml, -⟩ := mark_access_sameLru { s1 with hit_count := s1.hit_count + 1 }
      (pte_ptr s1 va) ty
    have hrepm : w.policy = .lru → ∃ cells, LruRep w
        (mark_access { s1 with hit_count := s1.hit_count + 1 } (pte_ptr s1 va) ty) cells := by
      intro hpol
      obtain ⟨cells, hrep, -⟩ := hl1 hpol
      exact ⟨cells, lruRep_sameLru ml hrep⟩
    obtain ⟨s3, href⟩ := ref_fcn_returns hrepm (by rw [hmi]; exact k1) (by rw [hmi]; omega)
      (fun hpol _ => hmal hpol _ _)
    refine ⟨((s3.pte (pte_ptr s1 va)).frame >>> PAGE_SHIFT) * w.SIMPAGESIZE,
      { s3 with ref_count := s3.ref_count + 1 }, ?_⟩
    unfold find_physpage
    simp only [hw, Except.bind, hit_or_fault, hv, if_false, href]

/-- Under LRU a run returns when every address has a directory index and the collaborators
(leaf-table allocation, the `malloc` of `lru_ref`, page-out, page-in) succeed. -/
theorem lru_run_returns {w : World} (hpol : w.policy = .lru) (hm : 1 ≤ w.memsize)
    (hm2 : w.memsize ≤ 2 ^ 19) (hmem : ∀ l, w.posix_memalign l = true)
    (hmal : ∀ l n, w.malloc l n = true)
    (hout : ∀ l f o, w.swap_pageout l f o ≠ INVALID_SWAP)
    (hin : ∀ l f o, (w.swap_pagein l f o).1 = 0) (tr : List (Nat × Char)) :
    ∀ (s : State), LruInv w s → (∀ a, a ∈ tr → PGDIR_INDEX a.1 < PTRS_PER_PGDIR) →
      tbl_addr (s.ntables + tr.length) ≤ 2 ^ 64 → ∃ t, run w s tr = .ok t := by
  induction tr with
  | nil => intro s _ _ _; exact ⟨s, rfl⟩
  | cons a tr ih =>
    intro s hi hidx hnt
    obtain ⟨hp, hd, hc, hl, hh⟩ := hi
    have hnt1 : tbl_addr (s.ntables + 1) ≤ 2 ^ 64 := by
      refine Nat.le_trans ?_ hnt
      unfold tbl_addr
      simp only [List.length_cons]
      apply Nat.mul_le_mul_right
      omega
    obtain ⟨r, t, h⟩ := find_physpage_returns a.1 a.2 hp hd hc (fun _ => hl) hm hm2
      (hidx a (by simp)) hnt1 hmem hout hin (fun _ => hmal)
    have hnt2 := find_physpage_ntables h
    obtain ⟨u, hu⟩ := ih t (find_physpage_lruInv hpol h ⟨hp, hd, hc, hl, hh⟩)
      (fun b hb => hidx b (List.mem_cons_of_mem _ hb))
      (by
        refine Nat.le_trans ?_ hnt
        unfold tbl_addr
        simp only [List.length_cons]
        apply Nat.mul_le_mul_right
        omega)
    refine ⟨u, ?_⟩
    unfold run
    rw [h]
    exact hu

/-! ## A world with unbounded swap -/

theorem ample_world_pageout (memsize : Nat) (policy : Policy) (l : List Event) (f : Nat)
    (o : Int) : (ample_world memsize policy).swap_pageout l f o ≠ INVALID_SWAP := by
  show (if o = INVALID_SWAP then ((16 * slots_used l : Nat) : Int) else o) ≠ INVALID_SWAP
  split
  · unfold INVALID_SWAP
    omega
  · assumption

/-! ## Scenario: two frames, dirty eviction -/

theorem init_ntables (w : World) : (init w).ntables = 0 := by
  unfold init; cases w.policy <;> rfl

/-- C10: with memsize = 2 under LRU, the run of Store P1, Load P2, Load P3 (three distinct
pages) from the initial state completes whenever the collaborators (leaf-table allocation,
the `malloc` of `lru_ref`, page-out, page-in) succeed and the addresses have a directory
index; and every completed run puts P1 in frame 0 (dirty) and P2
in frame 1 without eviction; the third access evicts frame 0, logs the page-out of frame 0
before the `init_frame` that installs P3 in it, counts one dirty and no clean eviction, and
leaves P1 ON_SWAP and not VALID with the offset returned by `swap_pageout`. -/
theorem scenario_two_frames_dirty_eviction (w : World) (hm : w.memsize = 2)
    (hpol : w.policy = .lru) (P1 P2 P3 : Nat)
    (h12 : ¬ same_page P1 P2) (h13 : ¬ same_page P1 P3) (h23 : ¬ same_page P2 P3) :
    ((∀ l, w.posix_memalign l = true) → (∀ l n, w.malloc l n = true) →
      (∀ l f o, w.swap_pageout l f o ≠ INVALID_SWAP) →
      (∀ l f o, (w.swap_pagein l f o).1 = 0) →
      PGDIR_INDEX P1 < PTRS_PER_PGDIR → PGDIR_INDEX P2 < PTRS_PER_PGDIR →
      PGDIR_INDEX P3 < PTRS_PER_PGDIR →
      ∃ s, run w (init w) [(P1, 'S'), (P2, 'L'), (P3, 'L')] = .ok s) ∧
    ∀ s, run w (init w) [(P1, 'S'), (P2, 'L'), (P3, 'L')] = .ok s →
    ∃ s2 r, run w (init w) [(P1, 'S'), (P2, 'L')] = .ok s2 ∧
      find_physpage w s2 P3 'L' = .ok (r, s) ∧
      (∃ m, (m = [] ∨ m = [Event.memalign true]) ∧
        s2.log = [Event.memalign true, Event.init_frame 0 P1] ++ m ++
          [Event.init_frame 1 P2]) ∧
      dir_valid s2 P1 ∧ (s2.coremap 0).pte = some (pte_ptr s2 P1) ∧
      accessed_frame s2 P1 = 0 ∧
      (s2.pte (pte_ptr s2 P1)).frame &&& PG_VALID ≠ 0 ∧
      (s2.pte (pte_ptr s2 P1)).frame &&& PG_DIRTY ≠ 0 ∧
      lru_frames s2 = [0, 1] ∧
      s2.evict_clean_count = 0 ∧ s2.evict_dirty_count = 0 ∧
      w.swap_pageout (s2.log ++ walk_events s2 P3) 0 INVALID_SWAP ≠ INVALID_SWAP ∧
      s.log = s2.log ++ walk_events s2 P3 ++
        [Event.pageout 0 INVALID_SWAP
            (w.swap_pageout (s2.log ++ walk_events s2 P3) 0 INVALID_SWAP),
          Event.init_frame 0 P3] ∧
      r = 0 ∧ (s.coremap 0).pte = some (pte_ptr s P3) ∧ dir_valid s P3 ∧
      (s.pte (pte_ptr s P3)).frame &&& PG_VALID ≠ 0 ∧ accessed_frame s P3 = 0 ∧
      s.evict_dirty_count = 1 ∧ s.evict_clean_count = 0 ∧
      s.hit_count = 0 ∧ s.miss_count = 3 ∧
      dir_valid s P1 ∧
      (s.pte (pte_ptr s P1)).frame &&& PG_ONSWAP ≠ 0 ∧
      (s.pte (pte_ptr s P1)).frame &&& PG_VALID = 0 ∧
      (s.pte (pte_ptr s P1)).swap_off =
        w.swap_pageout (s2.log ++ walk_events s2 P3) 0 INVALID_SWAP := by
  refine ⟨fun hmem hmal hout hin hi1 hi2 hi3 => ?_, fun s h => ?_⟩
  · apply lru_run_returns hpol (by omega) (by omega) hmem hmal hout hin _ _ (lruInv_init w hpol)
    · intro a ha
      simp only [List.mem_cons, List.mem_singleton, List.not_mem_nil, or_false] at ha
      rcases ha with e | e | e <;> rw [e] <;> assumption
    · rw [init_ntables]
      show tbl_addr 3 ≤ 2 ^ 64
      decide
  · -- the completed run, access by access
    obtain ⟨r1, t1, f1, g1⟩ := run_cons_ok h
    obtain ⟨r2, t2, f2, g2⟩ := run_cons_ok g1
    obtain ⟨r3, t3, f3, g3⟩ := run_cons_ok g2
    simp only [run, Except.ok.injEq] at g3
    subst g3
    simp only at f1 f2 f3
    -- first access
    obtain ⟨i1, a1, a2, a3, a4, a5, a6, a7, a8, a9, a10⟩ :=
      lru_first_access hpol (by omega) f1
    -- second access
    have hnv2 : (page t1 P2).frame &&& PG_VALID = 0 := by rw [a5 P2 h12]; rfl
    have hcm1 : ∀ x, t1.coremap x =
        if x = 0 then { in_use := true, pte := some (pte_ptr t1 P1) }
        else { in_use := false, pte := none } := by
      intro x
      rw [a2]
      show (if x = 0 then _ else (init w).coremap x) = _
      rw [init_coremap]
    have hfree2 : first_free t1.coremap 0 w.memsize = some 1 :=
      first_free_eq_some _ _ 1 (by omega) (by rw [hcm1]; rfl)
        (fun j hj => by
          have : j = 0 := by omega
          rw [this, hcm1]
          rfl)
    obtain ⟨b1, -, b3, b4, b5, b6, b7, b8, b9, b10, b11, b12⟩ :=
      lru_fault_free hpol f2 i1 hnv2 hfree2
    have i2 := find_physpage_lruInv hpol f2 i1
    have hcm2 : ∀ x, t2.coremap x =
        if x = 1 then { in_use := true, pte := some (pte_ptr t2 P2) }
        else if x = 0 then { in_use := true, pte := some (pte_ptr t2 P1) }
        else { in_use := false, pte := none } := by
      intro x
      rw [b3]
      show (if x = 1 then _ else t1.coremap x) = _
      rw [hcm1, (b5 P1 a3).2]
    have hp21 : ¬ same_page P2 P1 := fun e => h12 (same_page_symm e)
    have hpage1 : page t2 P1 = page t1 P1 := b7 P1 hp21
    have hdv1 : dir_valid t2 P1 := (b5 P1 a3).1
    obtain ⟨v1, v2, v3, v4, v5, v6⟩ := a6
    have hfr2 : lru_frames t2 = [0, 1] := by
      rw [b6, a4]
      rfl
    -- third access
    have hnv3 : (page t2 P3).frame &&& PG_VALID = 0 := by
      rw [b7 P3 h23, a5 P3 h13]
      rfl
    have hfree3 : first_free t2.coremap 0 w.memsize = none := by
      rw [first_free_none_iff]
      intro j _ hj
      have : j = 0 ∨ j = 1 := by omega
      rcases this with e | e <;> rw [e, hcm2] <;> rfl
    have hvv : (t2.coremap 0).pte = some (pte_ptr t2 P1) := by rw [hcm2]; rfl
    obtain ⟨c1, c2, c3, c4, c5, c6, c7, c8, c9, -, c11, -⟩ :=
      lru_fault_evict hpol f3 i2 hnv3 hfree3 hfr2 hvv hdv1
    have hdirty : (page t2 P1).frame &&& PG_DIRTY ≠ 0 := by
      rw [hpage1]
      exact v6.2 (Or.inl rfl)
    have hoff : (page t2 P1).swap_off = INVALID_SWAP := by
      rw [hpage1, v5]
    obtain ⟨d1, d2, d3, d4, d5⟩ := c11 hdirty
    rw [hoff] at d1 d2 d3
    have hp3 : page t2 P3 = { frame := 0, swap_off := INVALID_SWAP } := by
      rw [b7 P3 h23, a5 P3 h13]
    rw [hp3, fill_event_fresh] at d2
    rw [hp3] at c7
    obtain ⟨u1, u2, u3, u4, u5, u6⟩ := c7
    have hdv3 : dir_valid t3 P1 := (c4 P1 hdv1).1
    have hpg3 : page t3 P1 = t3.pte (pte_ptr t3 P1) := page_of_valid hdv3
    have hpg33 : page t3 P3 = t3.pte (pte_ptr t3 P3) := page_of_valid c3
    have hpg21 : page t2 P1 = t2.pte (pte_ptr t2 P1) := page_of_valid hdv1
    have hrun2 : run w (init w) [(P1, 'S'), (P2, 'L')] = .ok t2 := by
      simp only [run, f1, f2, Except.bind]
    refine ⟨t2, r3, hrun2, f3, ⟨walk_events t1 P2, walk_events_cases t1 P2, ?_⟩, hdv1, hvv, ?_, ?_,
      ?_, hfr2, ?_, ?_, d1, d2, ?_, ?_, c3, ?_, ?_, ?_, ?_, ?_, ?_, hdv3, ?_, ?_, ?_⟩
    · rw [b1, a1, a5 P2 h12, fill_event_fresh]
    · rw [accessed_frame_page hdv1, hpage1]
      exact v4
    · rw [← hpg21, hpage1]
      exact v1
    · rw [← hpg21]
      exact hdirty
    · rw [b11, a9]
    · rw [b12, a10]
    · rw [c1]
      omega
    · rw [c2]
      rfl
    · rw [← hpg33]
      exact u1
    · rw [accessed_frame_page c3]
      exact u4
    · rw [d4, b12, a10]
    · rw [d5, b11, a9]
    · rw [c8, b9, a7]
    · rw [c9, b10, a8]
    · rw [← hpg3, d3]
      exact (evicted_bits _).1
    · rw [← hpg3, d3]
      exact (evicted_bits _).2.1
    · rw [← hpg3, d3]

theorem scenario_two_frames_dirty_eviction_witness :
    (demo_world 2 .lru 4).memsize = 2 ∧
    ¬ same_page 4096 8192 ∧ ¬ same_page 4096 12288 ∧ ¬ same_page 8192 12288 ∧
    run (demo_world 2 .lru 4) (init (demo_world 2 .lru 4))
        [(4096, 'S'), (8192, 'L'), (12288, 'L')] =
      .ok (state_after (demo_world 2 .lru 4) [(4096, 'S'), (8192, 'L'), (12288, 'L')]) ∧
    (state_after (demo_world 2 .lru 4)
      [(4096, 'S'), (8192, 'L'), (12288, 'L')]).evict_dirty_count = 1 ∧
    (state_after (demo_world 2 .lru 4)
      [(4096, 'S'), (8192, 'L'), (12288, 'L')]).evict_clean_count = 0 ∧
    (state_after (demo_world 2 .lru 4) [(4096, 'S'), (8192, 'L'), (12288, 'L')]).log =
      [.memalign true, .init_frame 0 4096, .init_frame 1 8192, .pageout 0 (-1) 0,
        .init_frame 0 12288] ∧
    ∃ s, run (ample_world 2 .lru) (init (ample_world 2 .lru))
      [(4096, 'S'), (8192, 'L'), (12288, 'L')] = .ok s :=
  ⟨rfl, by decide, by decide, by decide, rfl,
    match (scenario_two_frames_dirty_eviction (demo_world 2 .lru 4) rfl rfl 4096 8192 12288
      (by decide) (by decide) (by decide)).2
      (state_after (demo_world 2 .lru 4) [(4096, 'S'), (8192, 'L'), (12288, 'L')]) rfl with
    | ⟨_, _, _, _, _, _, _, _, _, _, _, _, _, _, _, _, _, _, _, _, hdirty, _⟩ => hdirty,
    by decide, by decide,
    (scenario_two_frames_dirty_eviction (ample_world 2 .lru) rfl rfl 4096 8192 12288
      (by decide) (by decide) (by decide)).1 (fun _ => rfl) (fun _ _ => rfl)
      (ample_world_pageout 2 .lru) (fun _ _ _ => rfl) (by decide) (by decide) (by decide)⟩

/-! ## Scenario: one frame, both evictions dirty -/

theorem walk_events_valid {s : State} {va : Nat} (h : dir_valid s va) :
    walk_events s va = [] := by
  unfold walk_events
  unfold dir_valid at h
  rw [if_neg h]

/-- C9 (amended): with memsize = 1 under LRU, the run of accesses of any type to pages P1,
P2, P1 (P1 and P2 distinct) from the initial state completes whenever the collaborators
(leaf-table allocation, the `malloc` of `lru_ref`, page-out, page-in) succeed and the
addresses have a directory index; and every completed run is three misses:
the second access evicts P1 from frame 0 and the third evicts P2 from frame 0, and both
evictions are counted dirty, because a first touch always sets DIRTY: both victims are
written out, and the final counters are hit_count = 0, miss_count = 3,
evict_clean_count = 0, evict_dirty_count = 2. -/
theorem scenario_one_frame_dirty_evictions (w : World) (hm : w.memsize = 1)
    (hpol : w.policy = .lru) (P1 P2 : Nat) (ty1 ty2 ty3 : Char) (h12 : ¬ same_page P1 P2) :
    ((∀ l, w.posix_memalign l = true) → (∀ l n, w.malloc l n = true) →
      (∀ l f o, w.swap_pageout l f o ≠ INVALID_SWAP) →
      (∀ l f o, (w.swap_pagein l f o).1 = 0) →
      PGDIR_INDEX P1 < PTRS_PER_PGDIR → PGDIR_INDEX P2 < PTRS_PER_PGDIR →
      ∃ s, run w (init w) [(P1, ty1), (P2, ty2), (P1, ty3)] = .ok s) ∧
    ∀ s, run w (init w) [(P1, ty1), (P2, ty2), (P1, ty3)] = .ok s →
    s.hit_count = 0 ∧ s.miss_count = 3 ∧ s.evict_clean_count = 0 ∧ s.evict_dirty_count = 2 ∧
    ∃ s2 m off1 off2, run w (init w) [(P1, ty1), (P2, ty2)] = .ok s2 ∧
      (m = [] ∨ m = [Event.memalign true]) ∧
      off1 ≠ INVALID_SWAP ∧ off2 ≠ INVALID_SWAP ∧
      s2.log = [Event.memalign true, Event.init_frame 0 P1] ++ m ++
        [Event.pageout 0 INVALID_SWAP off1, Event.init_frame 0 P2] ∧
      s2.miss_count = 2 ∧ s2.evict_dirty_count = 1 ∧ s2.evict_clean_count = 0 ∧
      dir_valid s2 P1 ∧ (s2.pte (pte_ptr s2 P1)).frame &&& PG_VALID = 0 ∧
      (s2.pte (pte_ptr s2 P1)).frame &&& PG_ONSWAP ≠ 0 ∧
      (s2.pte (pte_ptr s2 P1)).swap_off = off1 ∧
      (s2.coremap 0).pte = some (pte_ptr s2 P2) ∧
      s.log = s2.log ++ [Event.pageout 0 INVALID_SWAP off2, Event.pagein 0 off1 0] ∧
      (s.coremap 0).pte = some (pte_ptr s P1) ∧
      (s.pte (pte_ptr s P1)).frame &&& PG_VALID ≠ 0 ∧
      ((s.pte (pte_ptr s P1)).frame &&& PG_DIRTY ≠ 0 ↔ (ty3 = 'M' ∨ ty3 = 'S')) ∧
      dir_valid s P2 ∧ (s.pte (pte_ptr s P2)).frame &&& PG_VALID = 0 ∧
      (s.pte (pte_ptr s P2)).frame &&& PG_ONSWAP ≠ 0 ∧
      (s.pte (pte_ptr s P2)).swap_off = off2 := by
  refine ⟨fun hmem hmal hout hin hi1 hi2 => ?_, fun s h => ?_⟩
  · apply lru_run_returns hpol (by omega) (by omega) hmem hmal hout hin _ _ (lruInv_init w hpol)
    · intro a ha
      simp only [List.mem_cons, List.mem_singleton, List.not_mem_nil, or_false] at ha
      rcases ha with e | e | e <;> rw [e] <;> assumption
    · rw [init_ntables]
      show tbl_addr 3 ≤ 2 ^ 64
      decide
  · -- the completed run, access by access
    obtain ⟨r1, t1, f1, g1⟩ := run_cons_ok h
    obtain ⟨r2, t2, f2, g2⟩ := run_cons_ok g1
    obtain ⟨r3, t3, f3, g3⟩ := run_cons_ok g2
    simp only [run, Except.ok.injEq] at g3
    subst g3
    simp only at f1 f2 f3
    have hp21 : ¬ same_page P2 P1 := fun e => h12 (same_page_symm e)
    -- first access
    obtain ⟨i1, a1, a2, a3, a4, a5, a6, a7, a8, a9, a10⟩ :=
      lru_first_access hpol (by omega) f1
    obtain ⟨v1, v2, v3, v4, v5, v6⟩ := a6
    have hcm1 : t1.coremap 0 = { in_use := true, pte := some (pte_ptr t1 P1) } := by
      rw [a2]
      rfl
    -- second access
    have hp2 : page t1 P2 = { frame := 0, swap_off := INVALID_SWAP } := a5 P2 h12
    have hnv2 : (page t1 P2).frame &&& PG_VALID = 0 := by rw [hp2]; rfl
    have hfree2 : first_free t1.coremap 0 w.memsize = none := by
      rw [first_free_none_iff]
      intro j _ hj
      have : j = 0 := by omega
      rw [this, hcm1]
    have hvv2 : (t1.coremap 0).pte = some (pte_ptr t1 P1) := by rw [hcm1]
    obtain ⟨b1, b2, b3, b4, b5, b6, b7, b8, b9, -, b11, -⟩ :=
      lru_fault_evict hpol f2 i1 hnv2 hfree2 a4 hvv2 a3
    have i2 := find_physpage_lruInv hpol f2 i1
    have hdirty1 : (page t1 P1).frame &&& PG_DIRTY ≠ 0 := v6.2 (Or.inl rfl)
    obtain ⟨d1, d2, d3, d4, d5⟩ := b11 hdirty1
    rw [v5] at d1 d2 d3
    rw [hp2, fill_event_fresh] at d2
    rw [hp2] at b7
    obtain ⟨u1, u2, u3, u4, u5, u6⟩ := b7
    have hdv21 : dir_valid t2 P1 := (b4 P1 a3).1
    have hcm2 : t2.coremap 0 = { in_use := true, pte := some (pte_ptr t2 P2) } := by
      rw [b2]
      rfl
    have hfr2 : lru_frames t2 = [0] := by rw [b5]; rfl
    -- third access
    have hnv3 : (page t2 P1).frame &&& PG_VALID = 0 := by
      rw [d3]
      exact (evicted_bits _).2.1
    have hsw3 : (page t2 P1).frame &&& PG_ONSWAP ≠ 0 := by
      rw [d3]
      exact (evicted_bits _).1
    have hfree3 : first_free t2.coremap 0 w.memsize = none := by
      rw [first_free_none_iff]
      intro j _ hj
      have : j = 0 := by omega
      rw [this, hcm2]
    have hvv3 : (t2.coremap 0).pte = some (pte_ptr t2 P2) := by rw [hcm2]
    obtain ⟨c1, c2, c3, c4, c5, c6, c7, c8, c9, -, c11, -⟩ :=
      lru_fault_evict hpol f3 i2 hnv3 hfree3 hfr2 hvv3 b3
    have hdirty2 : (page t2 P2).frame &&& PG_DIRTY ≠ 0 := u6.2 (Or.inl rfl)
    obtain ⟨e1, e2, e3, e4, e5⟩ := c11 hdirty2
    rw [u5, walk_events_valid hdv21, List.append_nil] at e1 e2 e3
    have hfill : fill_event (page t2 P1) 0 P1 =
        Event.pagein 0 (w.swap_pageout (t1.log ++ walk_events t1 P2) 0 INVALID_SWAP) 0 := by
      unfold fill_event
      rw [if_neg hsw3, d3]
    rw [hfill] at e2
    obtain ⟨x1, x2, x3, x4, x5, x6⟩ := c7
    have hdv32 : dir_valid t3 P2 := (c4 P2 b3).1
    have hrun2 : run w (init w) [(P1, ty1), (P2, ty2)] = .ok t2 := by
      simp only [run, f1, f2, Except.bind]
    refine ⟨?_, ?_, ?_, ?_, t2, walk_events t1 P2, _, _, hrun2, walk_events_cases t1 P2, d1, e1,
      ?_, ?_, ?_, ?_, hdv21, ?_, ?_, ?_, hvv3, e2, ?_, ?_, ?_, hdv32, ?_, ?_, ?_⟩
    · rw [c8, b8, a7]
    · rw [c9, b9, a8]
    · rw [e5, d5, a9]
    · rw [e4, d4, a10]
    · rw [d2, a1]
    · rw [b9, a8]
    · rw [d4, a10]
    · rw [d5, a9]
    · rw [← page_of_valid hdv21]
      exact hnv3
    · rw [← page_of_valid hdv21]
      exact hsw3
    · rw [← page_of_valid hdv21, d3]
    · rw [c2]
      rfl
    · rw [← page_of_valid c3]
      exact x1
    · rw [← page_of_valid c3, x6]
      simp only [hsw3, false_or]
    · rw [← page_of_valid hdv32, e3]
      exact (evicted_bits _).2.1
    · rw [← page_of_valid hdv32, e3]
      exact (evicted_bits _).1
    · rw [← page_of_valid hdv32, e3]

theorem scenario_one_frame_dirty_evictions_witness :
    (demo_world 1 .lru 4).memsize = 1 ∧ ¬ same_page 4096 8192 ∧
    run (demo_world 1 .lru 4) (init (demo_world 1 .lru 4))
        [(4096, 'L'), (8192, 'L'), (4096, 'L')] =
      .ok (state_after (demo_world 1 .lru 4) [(4096, 'L'), (8192, 'L'), (4096, 'L')]) ∧
    (state_after (demo_world 1 .lru 4)
      [(4096, 'L'), (8192, 'L'), (4096, 'L')]).evict_clean_count = 0 ∧
    (state_after (demo_world 1 .lru 4)
      [(4096, 'L'), (8192, 'L'), (4096, 'L')]).evict_dirty_count = 2 ∧
    ∃ s, run (ample_world 1 .lru) (init (ample_world 1 .lru))
      [(4096, 'L'), (8192, 'L'), (4096, 'L')] = .ok s :=
  ⟨rfl, by decide, rfl,
    ((scenario_one_frame_dirty_evictions (demo_world 1 .lru 4) rfl rfl 4096 8192 'L' 'L' 'L'
      (by decide)).2
      (state_after (demo_world 1 .lru 4) [(4096, 'L'), (8192, 'L'), (4096, 'L')])
      rfl).2.2.1,
    ((scenario_one_frame_dirty_evictions (demo_world 1 .lru 4) rfl rfl 4096 8192 'L' 'L' 'L'
      (by decide)).2
      (state_after (demo_world 1 .lru 4) [(4096, 'L'), (8192, 'L'), (4096, 'L')])
      rfl).2.2.2.1,
    (scenario_one_frame_dirty_evictions (ample_world 1 .lru) rfl rfl 4096 8192 'L' 'L' 'L'
      (by decide)).1 (fun _ => rfl) (fun _ _ => rfl) (ample_world_pageout 1 .lru)
      (fun _ _ _ => rfl) (by decide) (by decide)⟩

/-! ## VALID and ON_SWAP are mutually exclusive -/

/-- C11: in every state reached from the initial state by completed `find_physpage` calls,
under either policy, no PTE has both VALID and ON_SWAP set. -/
theorem valid_onswap_exclusive (w : World) (tr : List (Nat × Char)) (s : State)
    (h : run w (init w) tr = .ok s) (q : PtePtr) :
    ¬ ((s.pte q).frame &&& PG_VALID ≠ 0 ∧ (s.pte q).frame &&& PG_ONSWAP ≠ 0) :=
  (reachable_allPteOk h q).2.1

theorem valid_onswap_exclusive_witness :
    run (demo_world 1 .clock 4) (init (demo_world 1 .clock 4)) [(4096, 'L'), (8192, 'S')] =
      .ok (state_after (demo_world 1 .clock 4) [(4096, 'L'), (8192, 'S')]) ∧
    ((state_after (demo_world 1 .clock 4) [(4096, 'L'), (8192, 'S')]).pte
      (pte_ptr (state_after (demo_world 1 .clock 4) [(4096, 'L'), (8192, 'S')]) 4096)).frame
        &&& PG_ONSWAP ≠ 0 ∧
    ¬ (((state_after (demo_world 1 .clock 4) [(4096, 'L'), (8192, 'S')]).pte
        (pte_ptr (state_after (demo_world 1 .clock 4) [(4096, 'L'), (8192, 'S')]) 4096)).frame
          &&& PG_VALID ≠ 0 ∧
      ((state_after (demo_world 1 .clock 4) [(4096, 'L'), (8192, 'S')]).pte
        (pte_ptr (state_after (demo_world 1 .clock 4) [(4096, 'L'), (8192, 'S')]) 4096)).frame
          &&& PG_ONSWAP ≠ 0) :=
  ⟨rfl, by decide,
    valid_onswap_exclusive (demo_world 1 .clock 4) [(4096, 'L'), (8192, 'S')]
      (state_after (demo_world 1 .clock 4) [(4096, 'L'), (8192, 'S')]) rfl _⟩

/-! ## allocate_frame with a free frame -/

/-- C12: in every state in which some frame below `memsize` has `in_use = 0`,
`allocate_frame(p)` returns the least index with `in_use = 0`; the eviction function is not
called (the state returned is the old one with only `coremap[f]` rewritten, whatever the
policy and the collaborators are), so no PTE, no counter, no LRU structure and no event log
entry changes. -/
theorem allocate_frame_first_free (w : World) (s : State) (p : PtePtr)
    (hfree : ∃ i, i < w.memsize ∧ (s.coremap i).in_use = false) :
    ∃ f, allocate_frame w s p = .ok (f, s.set_coremap f p) ∧
      f < w.memsize ∧ (s.coremap f).in_use = false ∧
      (∀ j, j < f → (s.coremap j).in_use = true) ∧
      (∀ q, (s.set_coremap f p).pte q = s.pte q) ∧
      SameCounters s (s.set_coremap f p) ∧ SameLru s (s.set_coremap f p) ∧
      (s.set_coremap f p).log = s.log ∧
      ∀ w2 : World, w2.memsize = w.memsize →
        allocate_frame w2 s p = .ok (f, s.set_coremap f p) := by
  obtain ⟨i, hi, hu⟩ := hfree
  cases hff : first_free s.coremap 0 w.memsize with
  | none =>
    have := (first_free_none_iff s.coremap w.memsize 0).1 hff i (Nat.zero_le _) (by omega)
    rw [hu] at this
    exact absurd this (by decide)
  | some f =>
    obtain ⟨-, b2, b3, b4⟩ := first_free_some s.coremap w.memsize 0 f hff
    refine ⟨f, ?_, by omega, b3, fun j hj => b4 j (Nat.zero_le _) hj, fun _ => rfl,
      ⟨rfl, rfl, rfl, rfl, rfl⟩, ⟨rfl, rfl, rfl, rfl⟩, rfl, fun w2 hw2 => ?_⟩
    · unfold allocate_frame
      rw [hff]
    · unfold allocate_frame
      rw [hw2, hff]

theorem allocate_frame_first_free_witness :
    (∃ i, i < (demo_world 3 .lru 4).memsize ∧
      ((state_after (demo_world 3 .lru 4) [(4096, 'L')]).coremap i).in_use = false) ∧
    allocate_frame (demo_world 3 .lru 4) (state_after (demo_world 3 .lru 4) [(4096, 'L')])
        ⟨65536, 2⟩ =
      .ok (1, (state_after (demo_world 3 .lru 4) [(4096, 'L')]).set_coremap 1 ⟨65536, 2⟩) ∧
    ∃ f, allocate_frame (demo_world 3 .lru 4)
        (state_after (demo_world 3 .lru 4) [(4096, 'L')]) ⟨65536, 2⟩ =
      .ok (f, (state_after (demo_world 3 .lru 4) [(4096, 'L')]).set_coremap f ⟨65536, 2⟩) :=
  ⟨⟨1, by decide, by decide⟩, rfl,
    match allocate_frame_first_free (demo_world 3 .lru 4)
      (state_after (demo_world 3 .lru 4) [(4096, 'L')]) ⟨65536, 2⟩
      ⟨1, by decide, by decide⟩ with
    | ⟨f, h1, _⟩ => ⟨f, h1⟩⟩

/-! ## allocate_frame with a dirty or a clean victim -/

theorem allocate_frame_evict_eq {w : World} {s u s2 : State} {p v : PtePtr} {f : Nat}
    (hfree : first_free s.coremap 0 w.memsize = none)
    (hev : evict_fcn w s = .ok (f, u)) (hf : f < w.memsize)
    (hv : (u.coremap f).pte = some v) (hwb : write_back w u f v = .ok s2) :
    allocate_frame w s p = .ok (f, (clear_victim s2 v).set_coremap f p) := by
  unfold allocate_frame
  rw [hfree]
  simp only [hev, Except.bind, evict_victim, hf, if_true, hv, hwb]

theorem allocate_frame_evict_err {w : World} {s u : State} {p v : PtePtr} {f : Nat} {e : Err}
    (hfree : first_free s.coremap 0 w.memsize = none)
    (hev : evict_fcn w s = .ok (f, u)) (hf : f < w.memsize)
    (hv : (u.coremap f).pte = some v) (hwb : write_back w u f v = .error e) :
    allocate_frame w s p = .error e := by
  unfold allocate_frame
  rw [hfree]
  simp only [hev, Except.bind, evict_victim, hf, if_true, hv, hwb]

theorem write_back_full {w : World} {u : State} {f : Nat} {v : PtePtr}
    (hd : (u.pte v).frame &&& PG_DIRTY ≠ 0)
    (hr : w.swap_pageout u.log f (u.pte v).swap_off = INVALID_SWAP) :
    write_back w u f v = .error .exit_swap := by
  unfold write_back
  rw [if_pos hd, if_pos hr]

/-- C13: when `allocate_frame` finds no free frame and the victim PTE (the PTE of the frame
the eviction function returned) is DIRTY, `swap_pageout` is called once, with the victim
frame and the victim's current `swap_off`; when it returns INVALID_SWAP the process exits,
and otherwise the victim's `swap_off` becomes the returned offset, ON_SWAP is set, DIRTY
and VALID are cleared, no other bit of the victim and no other PTE changes,
`evict_dirty_count` grows by exactly 1 and the other counters are unchanged. -/
theorem allocate_frame_dirty_victim (w : World) (s u : State) (p v : PtePtr) (f : Nat)
    (hfree : first_free s.coremap 0 w.memsize = none)
    (hev : evict_fcn w s = .ok (f, u)) (hf : f < w.memsize)
    (hv : (u.coremap f).pte = some v) (hd : (u.pte v).frame &&& PG_DIRTY ≠ 0) :
    (u.pte v).swap_off = (s.pte v).swap_off ∧
    (w.swap_pageout u.log f (u.pte v).swap_off = INVALID_SWAP →
      allocate_frame w s p = .error .exit_swap) ∧
    (w.swap_pageout u.log f (u.pte v).swap_off ≠ INVALID_SWAP →
      ∃ sa, allocate_frame w s p = .ok (f, sa) ∧
        sa.log = u.log ++ [Event.pageout f (u.pte v).swap_off
          (w.swap_pageout u.log f (u.pte v).swap_off)] ∧
        (sa.pte v).swap_off = w.swap_pageout u.log f (u.pte v).swap_off ∧
        (sa.pte v).frame &&& PG_ONSWAP ≠ 0 ∧
        (sa.pte v).frame &&& PG_DIRTY = 0 ∧
        (sa.pte v).frame &&& PG_VALID = 0 ∧
        (∀ j, j < 32 → j ≠ 0 → j ≠ 1 → j ≠ 3 →
          tbit (sa.pte v).frame j = tbit (u.pte v).frame j) ∧
        (∀ q, q ≠ v → sa.pte q = u.pte q) ∧
        sa.evict_dirty_count = s.evict_dirty_count + 1 ∧
        sa.evict_clean_count = s.evict_clean_count ∧
        sa.hit_count = s.hit_count ∧ sa.miss_count = s.miss_count ∧
        sa.ref_count = s.ref_count) := by
  obtain ⟨c1, c2, c3, c4, c5⟩ := evict_fcn_counters hev
  refine ⟨((evict_fcn_pte hev) v).1, fun hr => ?_, fun hr => ?_⟩
  · exact allocate_frame_evict_err hfree hev hf hv (write_back_full hd hr)
  · obtain ⟨s2, hwb⟩ := write_back_returns (w := w) u f v (fun _ => hr)
    have ha := allocate_frame_evict_eq (p := p) hfree hev hf hv hwb
    obtain ⟨a1, a2, a3, a4, a5⟩ := write_back_dirty hwb hd
    have hpte : ∀ q, ((clear_victim s2 v).set_coremap f p).pte q = (clear_victim s2 v).pte q :=
      fun _ => rfl
    have hval : ((clear_victim s2 v).set_coremap f p).pte v =
        { frame := (((u.pte v).frame ||| PG_ONSWAP) &&& bnot32 PG_DIRTY) &&& bnot32 PG_VALID,
          swap_off := w.swap_pageout u.log f (u.pte v).swap_off } := by
      rw [hpte, clear_victim_pte, if_pos rfl, a3]
    obtain ⟨w1, w2, w3, -⟩ := write_back_counters hwb
    refine ⟨_, ha, a2, ?_, ?_, ?_, ?_, ?_, fun q hq => ?_, ?_, ?_, w1.trans c1, w2.trans c2,
      w3.trans c3⟩
    · rw [hval]
    · rw [hval]
      exact (evicted_bits _).1
    · rw [hval]
      exact (evicted_bits _).2.2
    · rw [hval]
      exact (evicted_bits _).2.1
    · intro j hj h0 h1 h3
      rw [hval]
      simp only [tbit_clear_valid, tbit_clear_dirty, tbit_or_onswap]
      have e0 : (0 = j) = False := by simp; omega
      have e1 : (1 = j) = False := by simp; omega
      have e3 : (3 = j) = False := by simp; omega
      simp [hj, e0, e1, e3]
    · rw [hpte, clear_victim_pte, if_neg hq, write_back_pte_other hwb hq]
    · show s2.evict_dirty_count = _
      rw [a4, c5]
    · show s2.evict_clean_count = _
      rw [a5, c4]

theorem allocate_frame_dirty_victim_witness :
    first_free (state_after (demo_world 1 .lru 4) [(4096, 'S')]).coremap 0
      (demo_world 1 .lru 4).memsize = none ∧
    evict_fcn (demo_world 1 .lru 4) (state_after (demo_world 1 .lru 4) [(4096, 'S')]) =
      .ok (0, (result_of (evict_fcn (demo_world 1 .lru 4)
        (state_after (demo_world 1 .lru 4) [(4096, 'S')]))
        (init (demo_world 1 .lru 4))).2) ∧
    ∃ sa, allocate_frame (demo_world 1 .lru 4)
        (state_after (demo_world 1 .lru 4) [(4096, 'S')]) ⟨65536, 2⟩ = .ok (0, sa) ∧
      sa.log = [.memalign true, .init_frame 0 4096, .pageout 0 (-1) 0] ∧
      (sa.pte ⟨65536, 1⟩).swap_off = 0 ∧
      (sa.pte ⟨65536, 1⟩).frame &&& PG_ONSWAP ≠ 0 ∧
      sa.evict_dirty_count = 1 :=
  ⟨rfl, rfl,
    match (allocate_frame_dirty_victim (demo_world 1 .lru 4)
      (state_after (demo_world 1 .lru 4) [(4096, 'S')])
      (result_of (evict_fcn (demo_world 1 .lru 4)
        (state_after (demo_world 1 .lru 4) [(4096, 'S')])) (init (demo_world 1 .lru 4))).2
      ⟨65536, 2⟩ ⟨65536, 1⟩ 0 rfl rfl (by decide) rfl (by decide)).2.2 (by decide) with
    | ⟨sa, h1, h2, h3, h4, _, _, _, _, h9, _⟩ => ⟨sa, h1, h2, h3, h4, h9⟩⟩

/-- C14: when `allocate_frame` finds no free frame and the victim PTE (the PTE of the frame
the eviction function returned) has DIRTY clear, it returns without calling `swap_pageout`
(no event is logged), the victim's `swap_off` is unchanged, its VALID bit is cleared and no
other bit of it (ON_SWAP included) and no other PTE changes, `evict_clean_count` grows by
exactly 1 and the other counters are unchanged. -/
theorem allocate_frame_clean_victim (w : World) (s u : State) (p v : PtePtr) (f : Nat)
    (hfree : first_free s.coremap 0 w.memsize = none)
    (hev : evict_fcn w s = .ok (f, u)) (hf : f < w.memsize)
    (hv : (u.coremap f).pte = some v) (hd : (u.pte v).frame &&& PG_DIRTY = 0) :
    ∃ sa, allocate_frame w s p = .ok (f, sa) ∧
      sa.log = u.log ∧
      (sa.pte v).swap_off = (u.pte v).swap_off ∧
      (u.pte v).swap_off = (s.pte v).swap_off ∧
      (sa.pte v).frame &&& PG_VALID = 0 ∧
      (sa.pte v).frame &&& PG_DIRTY = 0 ∧
      (∀ j, j < 32 → j ≠ 0 → tbit (sa.pte v).frame j = tbit (u.pte v).frame j) ∧
      (∀ q, q ≠ v → sa.pte q = u.pte q) ∧
      sa.evict_clean_count = s.evict_clean_count + 1 ∧
      sa.evict_dirty_count = s.evict_dirty_count ∧
      sa.hit_count = s.hit_count ∧ sa.miss_count = s.miss_count ∧
      sa.ref_count = s.ref_count := by
  obtain ⟨c1, c2, c3, c4, c5⟩ := evict_fcn_counters hev
  obtain ⟨s2, hwb⟩ := write_back_returns (w := w) u f v (fun h => absurd hd h)
  have ha := allocate_frame_evict_eq (p := p) hfree hev hf hv hwb
  obtain ⟨a1, a2, a3, a4⟩ := write_back_clean hwb hd
  obtain ⟨w1, w2, w3, -⟩ := write_back_counters hwb
  have hpte : ∀ q, ((clear_victim s2 v).set_coremap f p).pte q = (clear_victim s2 v).pte q :=
    fun _ => rfl
  have hval : ((clear_victim s2 v).set_coremap f p).pte v =
      { frame := ((u.pte v).frame &&& bnot32 PG_DIRTY) &&& bnot32 PG_VALID,
        swap_off := (u.pte v).swap_off } := by
    rw [hpte, clear_victim_pte, if_pos rfl, pte_of_pgtbls a2]
  have hdb : tbit (u.pte v).frame 1 = false := (dirty_eq_zero_iff _).1 hd
  refine ⟨_, ha, a1, ?_, ((evict_fcn_pte hev) v).1, ?_, ?_, ?_, fun q hq => ?_, ?_, ?_,
    w1.trans c1, w2.trans c2, w3.trans c3⟩
  · rw [hval]
  · rw [hval, valid_eq_zero_iff, tbit_clear_valid]
    simp
  · rw [hval, dirty_eq_zero_iff, tbit_clear_valid, tbit_clear_dirty]
    simp
  · intro j hj h0
    rw [hval]
    simp only [tbit_clear_valid, tbit_clear_dirty]
    have e0 : (0 = j) = False := by simp; omega
    by_cases h1 : 1 = j
    · subst h1
      simp [hdb]
    · simp [hj, e0, h1]
  · rw [hpte, clear_victim_pte, if_neg hq, write_back_pte_other hwb hq]
  · show s2.evict_clean_count = _
    rw [a4, c4]
  · show s2.evict_dirty_count = _
    rw [a3, c5]

theorem allocate_frame_clean_victim_witness :
    first_free (state_after (demo_world 1 .lru 4)
      [(4096, 'L'), (8192, 'L'), (4096, 'L')]).coremap 0 (demo_world 1 .lru 4).memsize = none ∧
    (((result_of (evict_fcn (demo_world 1 .lru 4)
        (state_after (demo_world 1 .lru 4) [(4096, 'L'), (8192, 'L'), (4096, 'L')]))
        (init (demo_world 1 .lru 4))).2).pte ⟨65536, 1⟩).frame &&& PG_DIRTY = 0 ∧
    ∃ sa, allocate_frame (demo_world 1 .lru 4)
        (state_after (demo_world 1 .lru 4) [(4096, 'L'), (8192, 'L'), (4096, 'L')])
        ⟨65536, 2⟩ = .ok (0, sa) ∧
      sa.log = (state_after (demo_world 1 .lru 4)
        [(4096, 'L'), (8192, 'L'), (4096, 'L')]).log ∧
      sa.evict_clean_count = 1 ∧ sa.evict_dirty_count = 2 :=
  ⟨rfl, by decide,
    match allocate_frame_clean_victim (demo_world 1 .lru 4)
      (state_after (demo_world 1 .lru 4) [(4096, 'L'), (8192, 'L'), (4096, 'L')])
      (result_of (evict_fcn (demo_world 1 .lru 4)
        (state_after (demo_world 1 .lru 4) [(4096, 'L'), (8192, 'L'), (4096, 'L')]))
        (init (demo_world 1 .lru 4))).2
      ⟨65536, 2⟩ ⟨65536, 1⟩ 0 rfl rfl (by decide) rfl (by decide) with
    | ⟨sa, h1, h2, _, _, _, _, _, _, h9, h10, _⟩ => ⟨sa, h1, h2, h9, h10⟩⟩

/-! ## The coremap after allocate_frame -/

/-- C15: every call `allocate_frame(p)` that returns `f`, with or without eviction, has
`f < memsize`, leaves `coremap[f].in_use = 1` and `coremap[f].pte = p`, and leaves every
other coremap entry unchanged. -/
theorem allocate_frame_coremap (w : World) (s sa : State) (p : PtePtr) (f : Nat)
    (h : allocate_frame w s p = .ok (f, sa)) :
    f < w.memsize ∧ sa.coremap f = { in_use := true, pte := some p } ∧
    ∀ g, g ≠ f → sa.coremap g = s.coremap g := by
  cases hff : first_free s.coremap 0 w.memsize with
  | some f0 =>
    obtain ⟨rfl, rfl⟩ := allocate_frame_free h hff
    obtain ⟨-, b2, -⟩ := first_free_some s.coremap w.memsize 0 f hff
    refine ⟨by omega, ?_, fun g hg => ?_⟩
    · simp [State.set_coremap]
    · simp [State.set_coremap, hg]
  | none =>
    obtain ⟨u, v, s2, h1, hf, -, h2, rfl⟩ := allocate_frame_evict h hff
    have e1 : u.coremap = s.coremap := (evict_fcn_sameDir h1).2
    have e2 : s2.coremap = u.coremap := (write_back_sameDir h2).2.1
    have e3 : (clear_victim s2 v).coremap = s.coremap := by
      rw [(clear_victim_frame s2 v).2.1, e2, e1]
    refine ⟨hf, ?_, fun g hg => ?_⟩
    · simp [State.set_coremap]
    · simp only [State.set_coremap, hg, if_false]
      rw [e3]

theorem allocate_frame_coremap_witness :
    allocate_frame (demo_world 2 .clock 4)
        (state_after (demo_world 2 .clock 4) [(4096, 'S'), (8192, 'L')]) ⟨65536, 3⟩ =
      .ok (result_of (allocate_frame (demo_world 2 .clock 4)
        (state_after (demo_world 2 .clock 4) [(4096, 'S'), (8192, 'L')]) ⟨65536, 3⟩)
        (init (demo_world 2 .clock 4))) ∧
    (result_of (allocate_frame (demo_world 2 .clock 4)
        (state_after (demo_world 2 .clock 4) [(4096, 'S'), (8192, 'L')]) ⟨65536, 3⟩)
        (init (demo_world 2 .clock 4))).1 < 2 ∧
    ((result_of (allocate_frame (demo_world 2 .clock 4)
        (state_after (demo_world 2 .clock 4) [(4096, 'S'), (8192, 'L')]) ⟨65536, 3⟩)
        (init (demo_world 2 .clock 4))).2.coremap
      (result_of (allocate_frame (demo_world 2 .clock 4)
        (state_after (demo_world 2 .clock 4) [(4096, 'S'), (8192, 'L')]) ⟨65536, 3⟩)
        (init (demo_world 2 .clock 4))).1).pte = some ⟨65536, 3⟩ :=
  ⟨rfl,
    (allocate_frame_coremap (demo_world 2 .clock 4)
      (state_after (demo_world 2 .clock 4) [(4096, 'S'), (8192, 'L')]) _ ⟨65536, 3⟩ _ rfl).1,
    congrArg frame.pte (allocate_frame_coremap (demo_world 2 .clock 4)
      (state_after (demo_world 2 .clock 4) [(4096, 'S'), (8192, 'L')]) _ ⟨65536, 3⟩ _
      rfl).2.1⟩

/-! ## The ways allocate_frame can fail -/

theorem bind_err {α β : Type} {x : Except Err α} {f : α → Except Err β} {e : Err}
    (h : x.bind f = .error e) : x = .error e ∨ ∃ a, x = .ok a ∧ f a = .error e := by
  cases x with
  | error e2 =>
    simp only [Except.bind, Except.error.injEq] at h
    exact Or.inl (by rw [h])
  | ok a => exact Or.inr ⟨a, rfl, h⟩

theorem deref_err {nodes : Nat → Option node_t} {p : Option Nat} {e : Err}
    (h : deref nodes p = .error e) : e = .undefined := by
  unfold deref at h
  split at h
  · simp only [Except.error.injEq] at h
    exact h.symm
  · split at h
    · simp only [Except.error.injEq] at h
      exact h.symm
    · simp at h

theorem lru_evict_err {w : World} {s : State} {e : Err}
    (h : lru_evict w s = .error e) : e = .undefined := by
  unfold lru_evict at h
  simp only [bind, Except.bind, pure, Except.pure] at h
  repeat' split at h
  all_goals first
    | (simp at h; done)
    | (simp only [Except.error.injEq] at h; subst h
       first
         | rfl
         | (rename_i hq; exact deref_err hq))

theorem clock_loop_err {w : World} : ∀ (n : Nat) (s : State) (e : Err),
    clock_loop w n s = .error e → (ref_frames w s).card < n → e = .undefined := by
  intro n
  induction n with
  | zero => intro s e _ hc; omega
  | succ n ih =>
    intro s e h hc
    unfold clock_loop at h
    by_cases hm : w.memsize = 0
    · simp only [hm, if_true, Except.error.injEq] at h
      exact h.symm
    · simp only [hm, if_false] at h
      cases hp : ((s.emit (.random (w.random s.log))).coremap
          (w.random s.log % w.memsize)).pte with
      | none =>
        rw [hp] at h
        simp only [Except.error.injEq] at h
        exact h.symm
      | some p =>
        rw [hp] at h
        simp only at h
        by_cases hr : ((s.emit (.random (w.random s.log))).pte p).frame &&& PG_REF ≠ 0
        · rw [if_pos hr] at h
          have hlt := ref_frames_clock_clear_lt w s p (w.random s.log % w.memsize)
            (Nat.mod_lt _ (Nat.pos_of_ne_zero hm)) hp hr
          exact ih (clock_clear w s p) e h (by omega)
        · rw [if_neg hr] at h
          simp at h

theorem evict_fcn_err {w : World} {s : State} {e : Err}
    (h : evict_fcn w s = .error e) : e = .undefined := by
  unfold evict_fcn at h
  split at h
  · exact lru_evict_err h
  · exact clock_loop_err _ s e h (Nat.lt_succ_of_le (ref_frames_card_le w s))

theorem write_back_err {w : World} {u : State} {f : Nat} {v : PtePtr} {e : Err}
    (h : write_back w u f v = .error e) :
    e = .exit_swap ∧ (u.pte v).frame &&& PG_DIRTY ≠ 0 ∧
    w.swap_pageout u.log f (u.pte v).swap_off = INVALID_SWAP := by
  unfold write_back at h
  by_cases hd : (u.pte v).frame &&& PG_DIRTY ≠ 0
  · rw [if_pos hd] at h
    by_cases hr : w.swap_pageout u.log f (u.pte v).swap_off = INVALID_SWAP
    · rw [if_pos hr] at h
      simp only [Except.error.injEq] at h
      exact ⟨h.symm, hd, hr⟩
    · rw [if_neg hr] at h
      simp at h
  · rw [if_neg hd] at h
    simp at h

/-- The ways `allocate_frame` can fail: undefined behaviour in the eviction function or at
`coremap[frame].pte`, or the exit after a failed page-out of a dirty victim. -/
theorem allocate_frame_err {w : World} {s : State} {p : PtePtr} {e : Err}
    (h : allocate_frame w s p = .error e) :
    first_free s.coremap 0 w.memsize = none ∧
    (e = .undefined ∨
      (e = .exit_swap ∧ ∃ f u v, evict_fcn w s = .ok (f, u) ∧ f < w.memsize ∧
        (u.coremap f).pte = some v ∧ (u.pte v).frame &&& PG_DIRTY ≠ 0 ∧
        w.swap_pageout u.log f (u.pte v).swap_off = INVALID_SWAP)) := by
  unfold allocate_frame at h
  cases hff : first_free s.coremap 0 w.memsize with
  | some f0 => rw [hff] at h; simp at h
  | none =>
    rw [hff] at h
    simp only at h
    refine ⟨rfl, ?_⟩
    rcases bind_err h with h1 | ⟨⟨f, u⟩, h1, h2⟩
    · exact Or.inl (evict_fcn_err h1)
    · simp only at h2
      rcases bind_err h2 with h3 | ⟨s2, -, h4⟩
      · unfold evict_victim at h3
        by_cases hf : f < w.memsize
        · rw [if_pos hf] at h3
          cases hv : (u.coremap f).pte with
          | none =>
            rw [hv] at h3
            simp only [Except.error.injEq] at h3
            exact Or.inl h3.symm
          | some v =>
            rw [hv] at h3
            simp only at h3
            rcases bind_err h3 with h5 | ⟨s3, -, h6⟩
            · obtain ⟨a1, a2, a3⟩ := write_back_err h5
              exact Or.inr ⟨a1, f, u, v, h1, hf, hv, a2, a3⟩
            · simp at h6
        · rw [if_neg hf] at h3
          simp only [Except.error.injEq] at h3
          exact Or.inl h3.symm
      · simp at h4

/-! ## When allocate_frame exits -/

theorem allocate_frame_ok_or_exit {w : World} {s : State} (p : PtePtr) (hm : 1 ≤ w.memsize)
    (hc : CoreOk w s) (hl : w.policy = .lru → LruOk w s) :
    allocate_frame w s p = .error .exit_swap ∨
      ∃ f sa, allocate_frame w s p = .ok (f, sa) ∧ f < w.memsize := by
  cases hff : first_free s.coremap 0 w.memsize with
  | some f =>
    obtain ⟨-, b2, -⟩ := first_free_some s.coremap w.memsize 0 f hff
    refine Or.inr ⟨f, s.set_coremap f p, ?_, by omega⟩
    unfold allocate_frame
    rw [hff]
  | none =>
    have hall := (first_free_none_iff_all w s).1 hff
    obtain ⟨f, u, hev, hf⟩ := evict_fcn_returns hm hc hall hl
    obtain ⟨-, hcm⟩ := evict_fcn_sameDir hev
    obtain ⟨v, hv, -⟩ := hc.1 f hf (hall f hf)
    rw [← hcm] at hv
    cases hwb : write_back w u f v with
    | ok s2 => exact Or.inr ⟨f, _, allocate_frame_evict_eq hff hev hf hv hwb, hf⟩
    | error e =>
      obtain ⟨rfl, -, -⟩ := write_back_err hwb
      exact Or.inl (allocate_frame_evict_err hff hev hf hv hwb)

theorem allocate_frame_exit_swap_iff (w : World) (s : State) (p : PtePtr) :
    allocate_frame w s p = .error .exit_swap ↔ dirty_victim_swap_full w s := by
  constructor
  · intro h
    obtain ⟨h1, h2 | ⟨-, h3⟩⟩ := allocate_frame_err h
    · exact absurd h2 (by decide)
    · exact ⟨h1, h3⟩
  · rintro ⟨h1, f, u, v, hev, hf, hv, hd, hr⟩
    exact allocate_frame_evict_err h1 hev hf hv (write_back_full hd hr)

/-- C16: `allocate_frame` exits (terminates the process) if and only if no frame is free,
the victim PTE is DIRTY and `swap_pageout` returns INVALID_SWAP; it has no other exit and
always terminates; and in the states in which `find_physpage` calls it (a state reached
from the initial state, after the directory walk, with memsize >= 1) every other case
returns a frame index below `memsize`. -/
theorem allocate_frame_exit_iff (w : World) (tr : List (Nat × Char)) (s0 : State)
    (hreach : run w (init w) tr = .ok s0) (va : Nat) (s : State)
    (hw : walk_pagetable w s0 va = .ok s) (hm : 1 ≤ w.memsize) (p : PtePtr) :
    (∀ (x : State) (q : PtePtr),
      (allocate_frame w x q = .error .exit_swap ↔ dirty_victim_swap_full w x) ∧
      ∀ e, allocate_frame w x q = .error e → e = .exit_swap ∨ e = .undefined) ∧
    (dirty_victim_swap_full w s ∨ ∃ f sa, allocate_frame w s p = .ok (f, sa) ∧ f < w.memsize) ∧
    (dirty_victim_swap_full w s0 ∨
      ∃ f sa, allocate_frame w s0 p = .ok (f, sa) ∧ f < w.memsize) := by
  have hd := reachable_dirOk hreach
  have hc := reachable_coreOk hreach
  have hl : w.policy = .lru → LruOk w s0 := fun hpol => reachable_lruOk hpol hreach
  obtain ⟨c1, l1, -⟩ := walk_pagetable_frame hw
  have hc1 := walk_pagetable_coreOk hw hd hc
  have hl1 : w.policy = .lru → LruOk w s := by
    intro hpol
    obtain ⟨cells, hrep, hset⟩ := hl hpol
    exact ⟨cells, lruRep_sameLru l1 hrep, by rw [c1]; exact hset⟩
  refine ⟨fun x q => ⟨allocate_frame_exit_swap_iff w x q, fun e he => ?_⟩, ?_, ?_⟩
  · obtain ⟨-, h2 | ⟨h3, -⟩⟩ := allocate_frame_err he
    · exact Or.inr h2
    · exact Or.inl h3
  · rcases allocate_frame_ok_or_exit p hm hc1 hl1 with h | h
    · exact Or.inl ((allocate_frame_exit_swap_iff w s p).1 h)
    · exact Or.inr h
  · rcases allocate_frame_ok_or_exit p hm hc hl with h | h
    · exact Or.inl ((allocate_frame_exit_swap_iff w s0 p).1 h)
    · exact Or.inr h

theorem allocate_frame_exit_iff_witness :
    run (demo_world 1 .lru 0) (init (demo_world 1 .lru 0)) [(4096, 'S')] =
      .ok (state_after (demo_world 1 .lru 0) [(4096, 'S')]) ∧
    allocate_frame (demo_world 1 .lru 0) (state_after (demo_world 1 .lru 0) [(4096, 'S')])
      ⟨65536, 2⟩ = .error .exit_swap ∧
    dirty_victim_swap_full (demo_world 1 .lru 0)
      (state_after (demo_world 1 .lru 0) [(4096, 'S')]) :=
  ⟨rfl, rfl,
    ((allocate_frame_exit_iff (demo_world 1 .lru 0) [(4096, 'S')]
      (state_after (demo_world 1 .lru 0) [(4096, 'S')]) rfl 8192
      (state_after (demo_world 1 .lru 0) [(4096, 'S')]) rfl (by decide) ⟨65536, 2⟩).1
      (state_after (demo_world 1 .lru 0) [(4096, 'S')]) ⟨65536, 2⟩).1.1 rfl⟩

/-! ## Leaf tables never outnumber directory entries -/

theorem tbit_tbl_addr_zero (k : Nat) : tbit (tbl_addr k) 0 = false := by
  unfold tbit
  rw [Nat.testBit_zero]
  unfold tbl_addr PTRS_PER_PGTBL
  simp only [decide_eq_false_iff_not]
  omega

theorem tbl_or_inj {k j : Nat} (h : tbl_addr k ||| PG_VALID = tbl_addr j ||| PG_VALID) :
    k = j := by
  apply tbl_addr_inj
  apply eq_of_tbit_eq
  intro i
  have h2 := congrArg (fun x => tbit x i) h
  simp only [tbit_or_valid] at h2
  by_cases hi : 0 = i
  · subst hi
    rw [tbit_tbl_addr_zero, tbit_tbl_addr_zero]
  · simpa [hi] using h2

theorem walk_pagetable_new {w : World} {s s1 : State} {va : Nat}
    (hw : walk_pagetable w s va = .ok s1)
    (hinv : s.pgdir (PGDIR_INDEX va) &&& PG_VALID = 0) :
    PGDIR_INDEX va < PTRS_PER_PGDIR ∧ s1.ntables = s.ntables + 1 ∧
    s1.pgdir = fun i => if i = PGDIR_INDEX va then tbl_addr s.ntables ||| PG_VALID
      else s.pgdir i := by
  unfold walk_pagetable at hw
  by_cases hi : PGDIR_INDEX va < PTRS_PER_PGDIR
  · simp only [hi, if_true, hinv] at hw
    obtain ⟨⟨e, s2⟩, h1, h2⟩ := bind_ok hw
    simp only [Except.ok.injEq] at h2
    subst h2
    unfold init_second_level at h1
    split at h1
    · simp only [Except.ok.injEq, Prod.mk.injEq] at h1
      obtain ⟨rfl, rfl⟩ := h1
      exact ⟨hi, rfl, rfl⟩
    · simp at h1
  · simp [hi] at hw

theorem tblOk_init (w : World) : TblOk (init w) := by
  intro k hk
  rw [init_ntables] at hk
  omega

theorem walk_pagetable_tblOk {w : World} {s s1 : State} {va : Nat}
    (hw : walk_pagetable w s va = .ok s1) (h : TblOk s) : TblOk s1 := by
  by_cases hinv : s.pgdir (PGDIR_INDEX va) &&& PG_VALID = 0
  · obtain ⟨hi, hn, hp⟩ := walk_pagetable_new hw hinv
    intro k hk
    rw [hn] at hk
    by_cases hk2 : k = s.ntables
    · refine ⟨PGDIR_INDEX va, hi, ?_⟩
      rw [hp, hk2]
      simp
    · obtain ⟨i, h1, h2⟩ := h k (by omega)
      refine ⟨i, h1, ?_⟩
      have hne : i ≠ PGDIR_INDEX va := by
        intro e
        rw [← e, h2] at hinv
        exact tbl_addr_valid k hinv
      rw [hp]
      simp only [hne, if_false]
      exact h2
  · have := walk_pagetable_valid hw hinv
    rw [this]
    exact h

theorem find_physpage_tblOk {w : World} {s t : State} {va : Nat} {ty : Char} {r : Nat}
    (h : find_physpage w s va ty = .ok (r, t)) (hs : TblOk s) : TblOk t := by
  have h0 := h
  unfold find_physpage at h0
  obtain ⟨s1, hw, -⟩ := bind_ok h0
  obtain ⟨e1, e2⟩ := find_physpage_sameDir hw h
  have h1 := walk_pagetable_tblOk hw hs
  intro k hk
  rw [e2] at hk
  obtain ⟨i, a1, a2⟩ := h1 k hk
  exact ⟨i, a1, by rw [e1]; exact a2⟩

theorem run_tblOk {w : World} (tr : List (Nat × Char)) : ∀ {s t : State},
    run w s tr = .ok t → TblOk s → TblOk t := by
  induction tr with
  | nil => intro s t h hs; simp only [run, Except.ok.injEq] at h; subst h; exact hs
  | cons a tr ih =>
    intro s t h hs
    obtain ⟨r, s1, h1, h2⟩ := run_cons_ok h
    exact ih h2 (find_physpage_tblOk h1 hs)

/-- There are never more leaf tables than directory entries. -/
theorem tblOk_ntables {s : State} (h : TblOk s) : s.ntables ≤ PTRS_PER_PGDIR := by
  classical
  let g : Fin s.ntables → Fin PTRS_PER_PGDIR := fun k =>
    ⟨Classical.choose (h k.1 k.2), (Classical.choose_spec (h k.1 k.2)).1⟩
  have hg : Function.Injective g := by
    intro a b hab
    have ha := (Classical.choose_spec (h a.1 a.2)).2
    have hb := (Classical.choose_spec (h b.1 b.2)).2
    have e : Classical.choose (h a.1 a.2) = Classical.choose (h b.1 b.2) :=
      congrArg Fin.val hab
    rw [e, hb] at ha
    exact Fin.ext (tbl_or_inj ha).symm
  have := Fintype.card_le_of_injective g hg
  rw [Fintype.card_fin, Fintype.card_fin] at this
  exact this

theorem reachable_ntables {w : World} {tr : List (Nat × Char)} {s : State}
    (h : run w (init w) tr = .ok s) : tbl_addr (s.ntables + 1) ≤ 2 ^ 64 := by
  have := tblOk_ntables (run_tblOk tr h (tblOk_init w))
  unfold tbl_addr PTRS_PER_PGTBL
  unfold PTRS_PER_PGDIR at this
  have h2 : (s.ntables + 1 + 1) * (4096 * 16) ≤ (4096 + 1 + 1) * (4096 * 16) :=
    Nat.mul_le_mul_right _ (by omega)
  exact Nat.le_trans h2 (by norm_num)

/-! ## The fatal paths of find_physpage -/

theorem walk_pagetable_err {w : World} {s : State} {va : Nat} {e : Err}
    (hidx : PGDIR_INDEX va < PTRS_PER_PGDIR) (h : walk_pagetable w s va = .error e) :
    e = .exit_memalign := by
  unfold walk_pagetable at h
  rw [if_pos hidx] at h
  split at h
  · rcases bind_err h with h1 | ⟨a, -, h2⟩
    · unfold init_second_level at h1
      split at h1
      · simp at h1
      · simp only [Except.error.injEq] at h1
        exact h1.symm
    · simp at h2
  · simp at h

theorem fill_frame_err {w : World} {s : State} {p : PtePtr} {f va : Nat} {e : Err}
    (hf : f < 2 ^ 19) (h : fill_frame w s p f va = .error e) : e = .exit_pagein := by
  unfold fill_frame at h
  by_cases hsw : (s.pte p).frame &&& PG_ONSWAP = 0
  · rw [if_pos hsw, if_pos hf] at h
    simp at h
  · rw [if_neg hsw] at h
    by_cases hr : (w.swap_pagein s.log f (s.pte p).swap_off).1 ≠ 0
    · rw [if_pos hr] at h
      simp only [Except.error.injEq] at h
      exact h.symm
    · rw [if_neg hr, if_pos hf] at h
      simp at h

/-- A call of `lru_ref` whose `malloc` returns NULL dereferences it. -/
theorem lru_ref_malloc_fails {w : World} {s : State} {p : PtePtr} (h : ¬ malloc_ok w s p) :
    lru_ref w s p = .error .undefined := by
  unfold malloc_ok at h
  obtain ⟨hm, hmal⟩ := Classical.not_imp.1 h
  by_cases hf : (s.pte p).frame >>> PAGE_SHIFT < w.memsize
  · simp [lru_ref, hf, hm, hmal]
  · simp [lru_ref, hf]

/-- Under LRU the frame of a VALID PTE is tracked, so a hit allocates no node. -/
theorem malloc_ok_of_valid {w : World} {s m : State} {p : PtePtr} (hc : CoreOk w s)
    (hl : LruOk w s) (hv : (s.pte p).frame &&& PG_VALID ≠ 0) (hmap : m.map = s.map)
    (hfr : (m.pte p).frame >>> PAGE_SHIFT = (s.pte p).frame >>> PAGE_SHIFT) :
    malloc_ok w m p := by
  intro hm
  obtain ⟨k1, k2, -⟩ := hc.2.1 _ hv
  obtain ⟨cells, hrep, hset⟩ := hl
  have hmem := (hset _).2 ⟨k1, k2⟩
  obtain ⟨c, hc1, hc2⟩ := List.mem_map.1 hmem
  have := hrep.2.2.2.2.2.2.2.1 c hc1
  rw [hfr, hmap, ← hc2, this] at hm
  exact absurd hm (by simp)

/-- In a state satisfying the invariants `find_physpage` either returns, or takes one of its
three exits, or (under LRU, on a fault) crashes in `lru_ref` because `malloc` returned
NULL. -/
theorem find_physpage_ok_or_exit {w : World} {s : State} (va : Nat) (ty : Char)
    (hp : AllPteOk s) (hd : DirOk s) (hc : CoreOk w s) (hl : w.policy = .lru → LruOk w s)
    (hm : 1 ≤ w.memsize) (hm2 : w.memsize ≤ 2 ^ 19)
    (hidx : PGDIR_INDEX va < PTRS_PER_PGDIR) :
    (∃ r t, find_physpage w s va ty = .ok (r, t)) ∨
    find_physpage w s va ty = .error .exit_memalign ∨
    find_physpage w s va ty = .error .exit_swap ∨
    find_physpage w s va ty = .error .exit_pagein ∨
    (w.policy = .lru ∧ find_physpage w s va ty = .error .undefined ∧
      ∃ s1 s2, walk_pagetable w s va = .ok s1 ∧
        (s1.pte (pte_ptr s1 va)).frame &&& PG_VALID = 0 ∧
        hit_or_fault w s1 (pte_ptr s1 va) va = .ok s2 ∧
        ¬ malloc_ok w (mark_access s2 (pte_ptr s1 va) ty) (pte_ptr s1 va)) := by
  cases hw : walk_pagetable w s va with
  | error e =>
    have := walk_pagetable_err hidx hw
    subst this
    refine Or.inr (Or.inl ?_)
    unfold find_physpage
    rw [hw]
    rfl
  | ok s1 =>
    obtain ⟨c1, l1, -⟩ := walk_pagetable_frame hw
    have hp1 := walk_pagetable_allPteOk hw hp
    have hc1 := walk_pagetable_coreOk hw hd hc
    have hl1 : w.policy = .lru → LruOk w s1 := by
      intro hpol
      obtain ⟨cells, hrep, hset⟩ := hl hpol
      exact ⟨cells, lruRep_sameLru l1 hrep, by rw [c1]; exact hset⟩
    by_cases hv : (s1.pte (pte_ptr s1 va)).frame &&& PG_VALID = 0
    · rcases allocate_frame_ok_or_exit (pte_ptr s1 va) hm hc1 hl1 with ha | ⟨f, sa, ha, hf⟩
      · refine Or.inr (Or.inr (Or.inl ?_))
        unfold find_physpage
        simp only [hw, Except.bind, hit_or_fault, hv, if_true, handle_fault, ha]
      · obtain ⟨-, -, hcase⟩ := allocate_frame_effect ha hp1
        cases hfill : fill_frame w sa (pte_ptr s1 va) f va with
        | error e =>
          have := fill_frame_err (by omega) hfill
          subst this
          refine Or.inr (Or.inr (Or.inr (Or.inl ?_)))
          unfold find_physpage
          simp only [hw, Except.bind, hit_or_fault, hv, if_true, handle_fault, ha, hfill]
        | ok sd =>
          obtain ⟨hx, hidx2⟩ := fill_frame_index hfill
          obtain ⟨-, -, fl1, fl2, fl3, fl4⟩ := fill_frame_sameDir hfill
          obtain ⟨ml, -⟩ := mark_access_sameLru { sd with miss_count := sd.miss_count + 1 }
            (pte_ptr s1 va) ty
          have hmap := mark_access_mapping_self { sd with miss_count := sd.miss_count + 1 }
            (pte_ptr s1 va) ty hx
          have hmi : ((mark_access { sd with miss_count := sd.miss_count + 1 } (pte_ptr s1 va)
              ty).pte (pte_ptr s1 va)).frame >>> PAGE_SHIFT = f :=
            (congrArg Prod.snd hmap).trans hidx2
          have hsam : SameLru sa (mark_access { sd with miss_count := sd.miss_count + 1 }
              (pte_ptr s1 va) ty) :=
            sameLru_trans (t := { sd with miss_count := sd.miss_count + 1 })
              ⟨fl1, fl2, fl3, fl4⟩ ml
          have hrepm : w.policy = .lru → ∃ cells, LruRep w
              (mark_access { sd with miss_count := sd.miss_count + 1 } (pte_ptr s1 va) ty)
              cells := by
            intro hpol
            obtain ⟨cells, hrep, -⟩ := hl1 hpol
            rcases hcase with ⟨-, -, e3, -⟩ | ⟨e1, -⟩
            · exact ⟨cells, lruRep_sameLru hsam (lruRep_sameLru e3 hrep)⟩
            · obtain ⟨c, rest, -, -, hA⟩ := allocate_frame_lru_evict hpol ha e1 hrep
              exact ⟨rest, lruRep_sameLru hsam hA⟩
          by_cases hmal : w.policy = .lru → malloc_ok w
              (mark_access { sd with miss_count := sd.miss_count + 1 } (pte_ptr s1 va) ty)
              (pte_ptr s1 va)
          · obtain ⟨s3, href⟩ := ref_fcn_returns hrepm (by rw [hmi]; exact hf)
              (by rw [hmi]; omega) hmal
            refine Or.inl ⟨((s3.pte (pte_ptr s1 va)).frame >>> PAGE_SHIFT) * w.SIMPAGESIZE,
              { s3 with ref_count := s3.ref_count + 1 }, ?_⟩
            unfold find_physpage
            simp only [hw, Except.bind, hit_or_fault, hv, if_true, handle_fault, ha, hfill,
              href]
          · obtain ⟨hpol, hnm⟩ := Classical.not_imp.1 hmal
            have href : ref_fcn w (mark_access { sd with miss_count := sd.miss_count + 1 }
                (pte_ptr s1 va) ty) (pte_ptr s1 va) = .error .undefined := by
              unfold ref_fcn
              rw [hpol]
              exact lru_ref_malloc_fails hnm
            refine Or.inr (Or.inr (Or.inr (Or.inr ⟨hpol, ?_,
              s1, { sd with miss_count := sd.miss_count + 1 }, rfl, hv, ?_, hnm⟩)))
            · unfold find_physpage
              simp only [hw, Except.bind, hit_or_fault, hv, if_true, handle_fault, ha, hfill,
                href]
            · simp only [Except.bind, hit_or_fault, hv, if_true, handle_fault, ha, hfill]
    · obtain ⟨k1, -, -⟩ := hc1.2.1 _ hv
      have hmap := mark_access_mapping_self { s1 with hit_count := s1.hit_count + 1 }
        (pte_ptr s1 va) ty (hp1 _).1
      have hmi : ((mark_access { s1 with hit_count := s1.hit_count + 1 } (pte_ptr s1 va)
          ty).pte (pte_ptr s1 va)).frame >>> PAGE_SHIFT =
          (s1.pte (pte_ptr s1 va)).frame >>> PAGE_SHIFT := congrArg Prod.snd hmap
      obtain ⟨ml, -⟩ := mark_access_sameLru { s1 with hit_count := s1.hit_count + 1 }
        (pte_ptr s1 va) ty
      have hrepm : w.policy = .lru → ∃ cells, LruRep w
          (mark_access { s1 with hit_count := s1.hit_count + 1 } (pte_ptr s1 va) ty) cells := by
        intro hpol
        obtain ⟨cells, hrep, -⟩ := hl1 hpol
        exact ⟨cells, lruRep_sameLru ml hrep⟩
      obtain ⟨s3, href⟩ := ref_fcn_returns hrepm (by rw [hmi]; exact k1) (by rw [hmi]; omega)
        (fun hpol => malloc_ok_of_valid hc1 (hl1 hpol) hv ml.2.1 hmi)
      refine Or.inl ⟨((s3.pte (pte_ptr s1 va)).frame >>> PAGE_SHIFT) * w.SIMPAGESIZE,
        { s3 with ref_count := s3.ref_count + 1 }, ?_⟩
      unfold find_physpage
      simp only [hw, Except.bind, hit_or_fault, hv, if_false, href]

theorem find_physpage_pagein_exit {w : World} {s s1 sa : State} {va : Nat} {ty : Char}
    {f : Nat} (hw : walk_pagetable w s va = .ok s1)
    (hv : (s1.pte (pte_ptr s1 va)).frame &&& PG_VALID = 0)
    (ha : allocate_frame w s1 (pte_ptr s1 va) = .ok (f, sa))
    (hsw : (sa.pte (pte_ptr s1 va)).frame &&& PG_ONSWAP ≠ 0)
    (hfail : (w.swap_pagein sa.log f (sa.pte (pte_ptr s1 va)).swap_off).1 ≠ 0) :
    find_physpage w s va ty = .error .exit_pagein := by
  have hfill : fill_frame w sa (pte_ptr s1 va) f va = .error .exit_pagein := by
    unfold fill_frame
    rw [if_neg hsw, if_pos hfail]
  unfold find_physpage
  simp only [hw, Except.bind, hit_or_fault, hv, if_true, handle_fault, ha, hfill]

/-- C17 (counterexample): in a world where leaf-table allocation succeeds and `swap_pageout`
never returns INVALID_SWAP but `swap_pagein` reports failure, the Load of P1 = 4096 after
the Loads P1, P2 = 8192 with one frame does not return: `find_physpage` exits at the failed
`swap_pagein`. -/
theorem pagein_failure_exits :
    (∀ l, (unreadable_world 1 .lru).posix_memalign l = true) ∧
    (∀ l f o, (unreadable_world 1 .lru).swap_pageout l f o ≠ INVALID_SWAP) ∧
    run (unreadable_world 1 .lru) (init (unreadable_world 1 .lru))
        [(4096, 'L'), (8192, 'L')] =
      .ok (state_after (unreadable_world 1 .lru) [(4096, 'L'), (8192, 'L')]) ∧
    find_physpage (unreadable_world 1 .lru)
        (state_after (unreadable_world 1 .lru) [(4096, 'L'), (8192, 'L')]) 4096 'L' =
      .error .exit_pagein ∧
    ¬ ∃ r t, find_physpage (unreadable_world 1 .lru)
        (state_after (unreadable_world 1 .lru) [(4096, 'L'), (8192, 'L')]) 4096 'L' =
      .ok (r, t) :=
  ⟨fun _ => rfl, fun l f o => ample_world_pageout 1 .lru l f o, rfl, rfl,
    fun ⟨_, _, h⟩ => Except.noConfusion
      ((rfl : find_physpage (unreadable_world 1 .lru)
        (state_after (unreadable_world 1 .lru) [(4096, 'L'), (8192, 'L')]) 4096 'L' =
        .error .exit_pagein).symm.trans h)⟩

/-- C17 (amended): backing-store exhaustion is not the only fatal path of `find_physpage`.
In every state reached from the initial state, with `memsize` between 1 and 2^19 (so that
`frame << PAGE_SHIFT` fits an `int`) and an address whose directory index is below
PTRS_PER_PGDIR, a call either returns, or exits at the leaf-table allocation, at the
page-out of a dirty victim or at the page-in, or, under LRU on a fault, crashes in
`lru_ref`, which dereferences the NULL of a failed `malloc`.  It returns normally whenever
leaf-table allocation succeeds, `swap_pageout` does not return INVALID_SWAP, `swap_pagein`
returns 0 and, under LRU, `malloc` succeeds.  A fault on a page that is on swap exits when
`swap_pagein` returns a non-zero result; under LRU a call whose `lru_ref` gets NULL from
`malloc` does not return; and for an address whose directory index is not below
PTRS_PER_PGDIR the call indexes `pgdir` out of bounds. -/
theorem find_physpage_fatal_paths (w : World) (tr : List (Nat × Char)) (s : State)
    (hreach : run w (init w) tr = .ok s) (hm : 1 ≤ w.memsize) (hm2 : w.memsize ≤ 2 ^ 19)
    (va : Nat) (ty : Char) (hidx : PGDIR_INDEX va < PTRS_PER_PGDIR) :
    ((∃ r t, find_physpage w s va ty = .ok (r, t)) ∨
      find_physpage w s va ty = .error .exit_memalign ∨
      find_physpage w s va ty = .error .exit_swap ∨
      find_physpage w s va ty = .error .exit_pagein ∨
      (w.policy = .lru ∧ find_physpage w s va ty = .error .undefined ∧
        ∃ s1 s2, walk_pagetable w s va = .ok s1 ∧
          (s1.pte (pte_ptr s1 va)).frame &&& PG_VALID = 0 ∧
          hit_or_fault w s1 (pte_ptr s1 va) va = .ok s2 ∧
          ¬ malloc_ok w (mark_access s2 (pte_ptr s1 va) ty) (pte_ptr s1 va))) ∧
    ((∀ l, w.posix_memalign l = true) → (∀ l f o, w.swap_pageout l f o ≠ INVALID_SWAP) →
      (∀ l f o, (w.swap_pagein l f o).1 = 0) →
      (w.policy = .lru → ∀ l n, w.malloc l n = true) →
      ∃ r t, find_physpage w s va ty = .ok (r, t)) ∧
    (∀ s1 f sa, walk_pagetable w s va = .ok s1 →
      (s1.pte (pte_ptr s1 va)).frame &&& PG_VALID = 0 →
      allocate_frame w s1 (pte_ptr s1 va) = .ok (f, sa) →
      (sa.pte (pte_ptr s1 va)).frame &&& PG_ONSWAP ≠ 0 →
      (w.swap_pagein sa.log f (sa.pte (pte_ptr s1 va)).swap_off).1 ≠ 0 →
      find_physpage w s va ty = .error .exit_pagein) ∧
    (∀ s1 s2, walk_pagetable w s va = .ok s1 →
      hit_or_fault w s1 (pte_ptr s1 va) va = .ok s2 → w.policy = .lru →
      ¬ malloc_ok w (mark_access s2 (pte_ptr s1 va) ty) (pte_ptr s1 va) →
      find_physpage w s va ty = .error .undefined) ∧
    (∀ vb, ¬ PGDIR_INDEX vb < PTRS_PER_PGDIR →
      find_physpage w s vb ty = .error .undefined) := by
  refine ⟨?_, fun hmem hout hin hmal => ?_, fun s1 f sa hw hv ha hsw hfail =>
    find_physpage_pagein_exit hw hv ha hsw hfail, fun s1 s2 hw h2 hpol hnm => ?_,
    fun vb hvb => ?_⟩
  · exact find_physpage_ok_or_exit va ty (reachable_allPteOk hreach) (reachable_dirOk hreach)
      (reachable_coreOk hreach) (fun hpol => reachable_lruOk hpol hreach) hm hm2 hidx
  · exact find_physpage_returns va ty (reachable_allPteOk hreach) (reachable_dirOk hreach)
      (reachable_coreOk hreach) (fun hpol => reachable_lruOk hpol hreach) hm hm2 hidx
      (reachable_ntables hreach) hmem hout hin hmal
  · have href : ref_fcn w (mark_access s2 (pte_ptr s1 va) ty) (pte_ptr s1 va) =
        .error .undefined := by
      unfold ref_fcn
      rw [hpol]
      exact lru_ref_malloc_fails hnm
    unfold find_physpage
    simp only [hw, Except.bind, h2, href]
  · unfold find_physpage walk_pagetable
    rw [if_neg hvb]
    rfl

theorem find_physpage_fatal_paths_witness :
    (run (ample_world 1 .clock) (init (ample_world 1 .clock)) [(4096, 'L'), (8192, 'L')] =
      .ok (state_after (ample_world 1 .clock) [(4096, 'L'), (8192, 'L')]) ∧
    PGDIR_INDEX 4096 < PTRS_PER_PGDIR ∧
    ∃ r t, find_physpage (ample_world 1 .clock)
      (state_after (ample_world 1 .clock) [(4096, 'L'), (8192, 'L')]) 4096 'L' = .ok (r, t)) ∧
    (run (no_heap_world 1 .lru) (init (no_heap_world 1 .lru)) [] =
      .ok (init (no_heap_world 1 .lru)) ∧
    find_physpage (no_heap_world 1 .lru) (init (no_heap_world 1 .lru)) 4096 'L' =
      .error .undefined) :=
  ⟨⟨rfl, by decide,
    (find_physpage_fatal_paths (ample_world 1 .clock) [(4096, 'L'), (8192, 'L')]
      (state_after (ample_world 1 .clock) [(4096, 'L'), (8192, 'L')]) rfl (by decide)
      (by decide) 4096 'L' (by decide)).2.1 (fun _ => rfl) (ample_world_pageout 1 .clock)
      (fun _ _ _ => rfl) (fun _ _ _ => rfl)⟩,
   ⟨rfl,
    (find_physpage_fatal_paths (no_heap_world 1 .lru) [] (init (no_heap_world 1 .lru)) rfl
      (by decide) (by decide) 4096 'L' (by decide)).2.2.2.1
      (state_of (walk_pagetable (no_heap_world 1 .lru) (init (no_heap_world 1 .lru)) 4096)
        (init (no_heap_world 1 .lru)))
      (state_of (hit_or_fault (no_heap_world 1 .lru)
          (state_of (walk_pagetable (no_heap_world 1 .lru) (init (no_heap_world 1 .lru)) 4096)
            (init (no_heap_world 1 .lru)))
          (pte_ptr (state_of
            (walk_pagetable (no_heap_world 1 .lru) (init (no_heap_world 1 .lru)) 4096)
            (init (no_heap_world 1 .lru))) 4096) 4096)
        (init (no_heap_world 1 .lru)))
      rfl rfl rfl (by decide)⟩⟩

/-! ## Pages never accessed -/

/-- An access leaves the VALID, DIRTY and ON_SWAP bits and the `swap_off` of every other
page that is not resident as they were. -/
theorem find_physpage_other_page {w : World} {s t : State} {va vb : Nat} {ty : Char}
    {r : Nat} (h : find_physpage w s va ty = .ok (r, t)) (hp : AllPteOk s) (hd : DirOk s)
    (hne : ¬ same_page va vb) (hnv : (page s vb).frame &&& PG_VALID = 0) :
    (page t vb).swap_off = (page s vb).swap_off ∧
    ∀ j, j < 32 → j ≠ 2 → tbit (page t vb).frame j = tbit (page s vb).frame j := by
  by_cases hva : (page s va).frame &&& PG_VALID = 0
  · obtain ⟨s1, f, sa, hw, ha, -, -, -, -, b4, -⟩ := find_physpage_fault_pages h hp hd hva
    have hp1 := walk_pagetable_allPteOk hw hp
    have hsa := allocate_frame_sameDir ha
    rw [b4 vb hne, ← page_walk hw hd vb]
    rw [← page_walk hw hd vb] at hnv
    by_cases hv : dir_valid s1 vb
    · have hv2 : dir_valid sa vb := by unfold dir_valid at hv ⊢; rw [hsa.1]; exact hv
      have hq : pte_ptr sa vb = pte_ptr s1 vb := by unfold pte_ptr; rw [hsa.1]
      rw [page_of_valid hv] at hnv ⊢
      rw [page_of_valid hv2, hq]
      exact allocate_frame_pte_invalid ha hp1 hnv
    · have hv2 : ¬ dir_valid sa vb := by unfold dir_valid at hv ⊢; rw [hsa.1]; exact hv
      rw [page_of_invalid hv, page_of_invalid hv2]
      exact ⟨rfl, fun _ _ _ => rfl⟩
  · have hres := (resident_iff s va).2 hva
    have h0 := h
    unfold find_physpage at h0
    obtain ⟨s1, hw, -⟩ := bind_ok h0
    have e := walk_pagetable_valid hw hres.1
    subst e
    obtain ⟨g1, -, -, g4, -⟩ := find_physpage_hit hw hres.2 h
    have : page t vb = page s1 vb := by
      apply page_eq_of g4
      intro hv
      rw [pte_of_pgtbls g1]
      apply mark_access_pte_other
      intro e
      exact hne (pte_ptr_inj hd hres.1 hv e.symm)
    rw [this]
    exact ⟨rfl, fun _ _ _ => rfl⟩

theorem freshOk_init (w : World) : FreshOk (init w) [] := by
  intro va _
  rw [page_init]
  exact ⟨rfl, rfl⟩

theorem find_physpage_freshOk {w : World} {s t : State} {a : Nat × Char} {r : Nat}
    {hist : List (Nat × Char)} (h : find_physpage w s a.1 a.2 = .ok (r, t))
    (hp : AllPteOk s) (hd : DirOk s) (hf : FreshOk s hist) : FreshOk t (hist ++ [a]) := by
  intro va hva
  rw [last_access_snoc] at hva
  by_cases hsp : same_page a.1 va
  · rw [if_pos hsp] at hva
    simp at hva
  · rw [if_neg hsp] at hva
    obtain ⟨k1, k2⟩ := hf va hva
    obtain ⟨-, hb⟩ := find_physpage_other_page h hp hd hsp k1
    constructor
    · rw [valid_eq_zero_iff, hb 0 (by decide) (by decide), ← valid_eq_zero_iff]
      exact k1
    · rw [onswap_eq_zero_iff, hb 3 (by decide) (by decide), ← onswap_eq_zero_iff]
      exact k2

theorem run_freshOk {w : World} (tr : List (Nat × Char)) :
    ∀ {s t : State} {hist : List (Nat × Char)}, run w s tr = .ok t → AllPteOk s → DirOk s →
      FreshOk s hist → FreshOk t (hist ++ tr) := by
  induction tr with
  | nil =>
    intro s t hist h _ _ hf
    simp only [run, Except.ok.injEq] at h
    subst h
    rw [List.append_nil]
    exact hf
  | cons a tr ih =>
    intro s t hist h hp hd hf
    obtain ⟨r, s1, h1, h2⟩ := run_cons_ok h
    have := ih h2 (find_physpage_allPteOk h1 hp) (find_physpage_dirOk h1 hd)
      (find_physpage_freshOk h1 hp hd hf)
    rw [List.append_assoc] at this
    exact this

theorem reachable_freshOk {w : World} {tr : List (Nat × Char)} {s : State}
    (h : run w (init w) tr = .ok s) : FreshOk s tr := by
  have := run_freshOk tr h (allPteOk_init w) (dirOk_init w) (freshOk_init w)
  rw [List.nil_append] at this
  exact this

theorem fill_frame_fresh_physmem {w : World} {s t : State} {p : PtePtr} {f va : Nat}
    (h : fill_frame w s p f va = .ok t) (hsw : (s.pte p).frame &&& PG_ONSWAP = 0) :
    t.physmem = (init_frame w s f va).physmem := by
  unfold fill_frame at h
  rw [if_pos hsw] at h
  split at h
  · simp only [Except.ok.injEq] at h
    subst h
    rfl
  · simp at h

/-! ## The first touch of a page -/

/-- C18: in a state reached from the initial state by a run that never accessed the page of
`va`, a completed access of any type (a Load included) finds the PTE neither VALID nor
ON_SWAP, allocates a frame `f`, zero-fills that frame with `init_frame` and records `va` in
it (8 bytes, little endian, at offset 4), installs `f` in the PTE and leaves the PTE VALID,
DIRTY and REFERENCED with ON_SWAP clear; one miss and no hit is counted. -/
theorem first_touch_zero_fills (w : World) (tr : List (Nat × Char)) (s : State)
    (hreach : run w (init w) tr = .ok s) (va : Nat) (ty : Char) (r : Nat) (t : State)
    (hnew : last_access tr va = none)
    (h : find_physpage w s va ty = .ok (r, t)) :
    ∃ s1 f sa, walk_pagetable w s va = .ok s1 ∧
      (s1.pte (pte_ptr s1 va)).frame &&& PG_VALID = 0 ∧
      (s1.pte (pte_ptr s1 va)).frame &&& PG_ONSWAP = 0 ∧
      allocate_frame w s1 (pte_ptr s1 va) = .ok (f, sa) ∧ f < w.memsize ∧
      t.log = sa.log ++ [Event.init_frame f va] ∧
      t.physmem = (init_frame w sa f va).physmem ∧
      (∀ a, f * w.SIMPAGESIZE ≤ a → a < f * w.SIMPAGESIZE + w.SIMPAGESIZE →
        ¬ (f * w.SIMPAGESIZE + 4 ≤ a ∧ a < f * w.SIMPAGESIZE + 12) → t.physmem a = 0) ∧
      (∀ k, k < 8 → t.physmem (f * w.SIMPAGESIZE + 4 + k) = (va >>> (8 * k)) % 256) ∧
      pte_ptr t va = pte_ptr s1 va ∧
      (t.pte (pte_ptr t va)).frame >>> PAGE_SHIFT = f ∧
      (t.coremap f).pte = some (pte_ptr t va) ∧
      (t.pte (pte_ptr t va)).frame &&& PG_VALID ≠ 0 ∧
      (t.pte (pte_ptr t va)).frame &&& PG_DIRTY ≠ 0 ∧
      (t.pte (pte_ptr t va)).frame &&& PG_REF ≠ 0 ∧
      (t.pte (pte_ptr t va)).frame &&& PG_ONSWAP = 0 ∧
      t.miss_count = s.miss_count + 1 ∧ t.hit_count = s.hit_count ∧
      r = f * w.SIMPAGESIZE := by
  have hp := reachable_allPteOk hreach
  have hd := reachable_dirOk hreach
  obtain ⟨u1, u2⟩ := reachable_freshOk hreach va hnew
  have h0 := h
  unfold find_physpage at h0
  obtain ⟨s1, hw, -⟩ := bind_ok h0
  obtain ⟨-, hdv, -⟩ := walk_pagetable_dirOk hw hd
  have hp1 := walk_pagetable_allPteOk hw hp
  have hpv : page s va = s1.pte (pte_ptr s1 va) := by
    rw [← page_walk hw hd va, page_of_valid hdv]
  rw [hpv] at u1 u2
  obtain ⟨f, sa, sd, ha, hfill, -, -, -, -, g5, -⟩ := find_physpage_fault hw u1 h
  obtain ⟨f2, sa2, ha2, b1, b2, b3, b4, b5, b6, b7, b8, b9, b10, b11, b12, b13, -⟩ :=
    find_physpage_fault_summary hw u1 h hp
  rw [ha] at ha2
  simp only [Except.ok.injEq, Prod.mk.injEq] at ha2
  obtain ⟨rfl, rfl⟩ := ha2
  obtain ⟨hf, hcm, -⟩ := allocate_frame_effect ha hp1
  obtain ⟨a1, a2⟩ := allocate_frame_pte_invalid ha hp1 u1
  have hsw : (sa.pte (pte_ptr s1 va)).frame &&& PG_ONSWAP = 0 := by
    rw [onswap_eq_zero_iff, a2 3 (by decide) (by decide), ← onswap_eq_zero_iff]
    exact u2
  have hphys : t.physmem = (init_frame w sa f va).physmem := by
    rw [g5, fill_frame_fresh_physmem hfill hsw]
  have hptr : pte_ptr t va = pte_ptr s1 va := by
    unfold pte_ptr
    rw [(find_physpage_sameDir hw h).1]
  obtain ⟨k1, k2, k3, k4, k5⟩ := walk_pagetable_counters hw
  obtain ⟨c1, c2⟩ := allocate_frame_counters ha
  have hhm : sa.hit_count = s1.hit_count ∧ sa.miss_count = s1.miss_count := by
    by_cases hff : first_free s1.coremap 0 w.memsize = none
    · exact ⟨(c2 hff).1, (c2 hff).2.1⟩
    · exact ⟨(c1 hff).1, (c1 hff).2.1⟩
  refine ⟨s1, f, sa, hw, u1, u2, ha, hf, (b13 u2).1, hphys, fun a h1 h2 h3 => ?_,
    fun k hk => ?_, hptr, ?_, ?_, ?_, ?_, ?_, ?_, ?_, ?_, b7⟩
  · rw [hphys]
    show (if f * w.SIMPAGESIZE + 4 ≤ a ∧ a < f * w.SIMPAGESIZE + 12 then _
      else if f * w.SIMPAGESIZE ≤ a ∧ a < f * w.SIMPAGESIZE + w.SIMPAGESIZE then 0
      else sa.physmem a) = 0
    rw [if_neg h3, if_pos ⟨h1, h2⟩]
  · rw [hphys]
    show (if f * w.SIMPAGESIZE + 4 ≤ f * w.SIMPAGESIZE + 4 + k ∧
        f * w.SIMPAGESIZE + 4 + k < f * w.SIMPAGESIZE + 12
      then (va >>> (8 * (f * w.SIMPAGESIZE + 4 + k - (f * w.SIMPAGESIZE + 4)))) % 256
      else _) = _
    rw [if_pos ⟨by omega, by omega⟩, Nat.add_sub_cancel_left]
  · rw [hptr]
    exact b12
  · rw [hptr, b2, hcm]
    simp [State.set_coremap]
  · rw [hptr]
    exact b9
  · rw [hptr]
    exact (b13 u2).2
  · rw [hptr]
    exact b10
  · rw [hptr]
    exact b11
  · rw [b6, hhm.2, k2]
  · rw [b5, hhm.1, k1]

theorem first_touch_zero_fills_witness :
    run (demo_world 2 .lru 4) (init (demo_world 2 .lru 4)) [(4096, 'L')] =
      .ok (state_after (demo_world 2 .lru 4) [(4096, 'L')]) ∧
    last_access [(4096, 'L')] 8192 = none ∧
    find_physpage (demo_world 2 .lru 4) (state_after (demo_world 2 .lru 4) [(4096, 'L')])
        8192 'L' =
      .ok (result_of (find_physpage (demo_world 2 .lru 4)
        (state_after (demo_world 2 .lru 4) [(4096, 'L')]) 8192 'L')
        (init (demo_world 2 .lru 4))) ∧
    ∃ s1 f sa, allocate_frame (demo_world 2 .lru 4) s1 (pte_ptr s1 8192) = .ok (f, sa) ∧
      (result_of (find_physpage (demo_world 2 .lru 4)
        (state_after (demo_world 2 .lru 4) [(4096, 'L')]) 8192 'L')
        (init (demo_world 2 .lru 4))).2.log = sa.log ++ [Event.init_frame f 8192] ∧
      (result_of (find_physpage (demo_world 2 .lru 4)
        (state_after (demo_world 2 .lru 4) [(4096, 'L')]) 8192 'L')
        (init (demo_world 2 .lru 4))).2.miss_count =
        (state_after (demo_world 2 .lru 4) [(4096, 'L')]).miss_count + 1 :=
  ⟨rfl, by decide, rfl,
    match first_touch_zero_fills (demo_world 2 .lru 4) [(4096, 'L')]
      (state_after (demo_world 2 .lru 4) [(4096, 'L')]) rfl 8192 'L'
      (result_of (find_physpage (demo_world 2 .lru 4)
        (state_after (demo_world 2 .lru 4) [(4096, 'L')]) 8192 'L')
        (init (demo_world 2 .lru 4))).1
      (result_of (find_physpage (demo_world 2 .lru 4)
        (state_after (demo_world 2 .lru 4) [(4096, 'L')]) 8192 'L')
        (init (demo_world 2 .lru 4))).2 (by decide) rfl with
    | ⟨s1, f, sa, _, _, _, ha, _, hlog, _, _, _, _, _, _, _, _, _, _, hmiss, _⟩ =>
      ⟨s1, f, sa, ha, hlog, hmiss⟩⟩

/-! ## The flags of the accessed PTE -/

/-- C19: after every completed `find_physpage` call, from any state, under either policy
and whether it was a hit or a miss, the accessed PTE is VALID and REFERENCED and not
ON_SWAP, and it is DIRTY whenever the access type is 'S' or 'M'. -/
theorem accessed_pte_flags (w : World) (s t : State) (va : Nat) (ty : Char) (r : Nat)
    (h : find_physpage w s va ty = .ok (r, t)) :
    (t.pte (pte_ptr t va)).frame &&& PG_VALID ≠ 0 ∧
    (t.pte (pte_ptr t va)).frame &&& PG_REF ≠ 0 ∧
    (t.pte (pte_ptr t va)).frame &&& PG_ONSWAP = 0 ∧
    ((ty = 'S' ∨ ty = 'M') → (t.pte (pte_ptr t va)).frame &&& PG_DIRTY ≠ 0) := by
  have h0 := h
  unfold find_physpage at h0
  obtain ⟨s1, hw, -⟩ := bind_ok h0
  obtain ⟨s2, s3, -, h3, -, -, hpg⟩ := find_physpage_ref hw h
  have hlo := ref_fcn_lru_only h3 (mark_access_ref _ _ _)
  have hptr : pte_ptr t va = pte_ptr s1 va := by
    unfold pte_ptr
    rw [(find_physpage_sameDir hw h).1]
  have hpte : t.pte (pte_ptr s1 va) = (mark_access s2 (pte_ptr s1 va) ty).pte (pte_ptr s1 va) := by
    rw [pte_of_pgtbls hpg, pte_of_pgtbls hlo.2.2.1]
  rw [hptr, hpte, mark_access_pte, if_pos rfl]
  refine ⟨?_, ?_, ?_, fun hty => ?_⟩
  · rw [Ne, valid_eq_zero_iff, tbit_clear_onswap, tbit_or_ref, tbit_or_valid]
    simp
  · rw [Ne, ref_eq_zero_iff, tbit_clear_onswap, tbit_or_ref]
    simp
  · rw [onswap_eq_zero_iff, tbit_clear_onswap]
    simp
  · have hty2 : ty = 'M' ∨ ty = 'S' := hty.symm
    rw [if_pos hty2, Ne, dirty_eq_zero_iff, tbit_clear_onswap, tbit_or_ref, tbit_or_valid,
      tbit_or_dirty]
    simp

theorem accessed_pte_flags_witness :
    find_physpage (demo_world 1 .clock 4)
        (state_after (demo_world 1 .clock 4) [(4096, 'L')]) 8192 'S' =
      .ok (result_of (find_physpage (demo_world 1 .clock 4)
        (state_after (demo_world 1 .clock 4) [(4096, 'L')]) 8192 'S')
        (init (demo_world 1 .clock 4))) ∧
    ((result_of (find_physpage (demo_world 1 .clock 4)
        (state_after (demo_world 1 .clock 4) [(4096, 'L')]) 8192 'S')
        (init (demo_world 1 .clock 4))).2.pte
      (pte_ptr (result_of (find_physpage (demo_world 1 .clock 4)
        (state_after (demo_world 1 .clock 4) [(4096, 'L')]) 8192 'S')
        (init (demo_world 1 .clock 4))).2 8192)).frame &&& PG_VALID ≠ 0 :=
  ⟨rfl,
    (accessed_pte_flags (demo_world 1 .clock 4)
      (state_after (demo_world 1 .clock 4) [(4096, 'L')])
      (result_of (find_physpage (demo_world 1 .clock 4)
        (state_after (demo_world 1 .clock 4) [(4096, 'L')]) 8192 'S')
        (init (demo_world 1 .clock 4))).2 8192 'S'
      (result_of (find_physpage (demo_world 1 .clock 4)
        (state_after (demo_world 1 .clock 4) [(4096, 'L')]) 8192 'S')
        (init (demo_world 1 .clock 4))).1 rfl).1⟩

/-! ## The pointer returned by find_physpage -/

theorem find_physpage_result {w : World} {s s1 t : State} {va : Nat} {ty : Char} {r : Nat}
    (hw : walk_pagetable w s va = .ok s1) (h : find_physpage w s va ty = .ok (r, t)) :
    r = ((t.pte (pte_ptr s1 va)).frame >>> PAGE_SHIFT) * w.SIMPAGESIZE := by
  unfold find_physpage at h
  rw [hw] at h
  simp only [Except.bind] at h
  obtain ⟨s2, -, h4⟩ := bind_ok h
  obtain ⟨s3, -, h6⟩ := bind_ok h4
  simp only [Except.ok.injEq, Prod.mk.injEq] at h6
  obtain ⟨rfl, rfl⟩ := h6
  rfl

/-- C20: a completed `find_physpage` call made in a state reached from the initial state
returns the byte offset `f * SIMPAGESIZE` into `physmem`, where `f` is the frame index
stored in the accessed PTE after the call; `f < memsize`, `coremap[f]` is in use and points
at that PTE, no other frame in use does, and the frame `[f * SIMPAGESIZE, (f + 1) *
SIMPAGESIZE)` lies inside the buffer of `memsize * SIMPAGESIZE` bytes. -/
theorem returned_pointer_in_physmem (w : World) (tr : List (Nat × Char)) (s : State)
    (hreach : run w (init w) tr = .ok s) (va : Nat) (ty : Char) (r : Nat) (t : State)
    (h : find_physpage w s va ty = .ok (r, t)) :
    r = accessed_frame t va * w.SIMPAGESIZE ∧
    accessed_frame t va < w.memsize ∧
    (t.coremap (accessed_frame t va)).in_use = true ∧
    (t.coremap (accessed_frame t va)).pte = some (pte_ptr t va) ∧
    (∀ g, g < w.memsize → (t.coremap g).in_use = true →
      (t.coremap g).pte = some (pte_ptr t va) → g = accessed_frame t va) ∧
    r + w.SIMPAGESIZE ≤ w.memsize * w.SIMPAGESIZE := by
  have hp := reachable_allPteOk hreach
  have hd := reachable_dirOk hreach
  have hc := reachable_coreOk hreach
  have hct := find_physpage_coreOk h hp hd hc
  have h0 := h
  unfold find_physpage at h0
  obtain ⟨s1, hw, -⟩ := bind_ok h0
  obtain ⟨hptr, hval, -⟩ := find_physpage_pages hw h hp
  have hr := find_physpage_result hw h
  rw [← hptr] at hr hval
  obtain ⟨k1, k2, k3⟩ := hct.2.1 _ hval
  refine ⟨hr, k1, k2, k3, fun g hg hu hgp => ?_, ?_⟩
  · obtain ⟨q, q1, -, q3⟩ := hct.1 g hg hu
    rw [hgp] at q1
    simp only [Option.some.injEq] at q1
    rw [← q1] at q3
    exact q3.symm
  · rw [hr]
    have : (accessed_frame t va + 1) * w.SIMPAGESIZE ≤ w.memsize * w.SIMPAGESIZE :=
      Nat.mul_le_mul_right _ k1
    rw [Nat.succ_mul] at this
    exact this

theorem returned_pointer_in_physmem_witness :
    run (demo_world 2 .lru 4) (init (demo_world 2 .lru 4)) [(4096, 'L'), (8192, 'S')] =
      .ok (state_after (demo_world 2 .lru 4) [(4096, 'L'), (8192, 'S')]) ∧
    find_physpage (demo_world 2 .lru 4)
        (state_after (demo_world 2 .lru 4) [(4096, 'L'), (8192, 'S')]) 8200 'L' =
      .ok (result_of (find_physpage (demo_world 2 .lru 4)
        (state_after (demo_world 2 .lru 4) [(4096, 'L'), (8192, 'S')]) 8200 'L')
        (init (demo_world 2 .lru 4))) ∧
    (result_of (find_physpage (demo_world 2 .lru 4)
        (state_after (demo_world 2 .lru 4) [(4096, 'L'), (8192, 'S')]) 8200 'L')
        (init (demo_world 2 .lru 4))).1 = 16 ∧
    (result_of (find_physpage (demo_world 2 .lru 4)
        (state_after (demo_world 2 .lru 4) [(4096, 'L'), (8192, 'S')]) 8200 'L')
        (init (demo_world 2 .lru 4))).1 + (demo_world 2 .lru 4).SIMPAGESIZE ≤
      (demo_world 2 .lru 4).memsize * (demo_world 2 .lru 4).SIMPAGESIZE :=
  ⟨rfl, rfl, by decide,
    (returned_pointer_in_physmem (demo_world 2 .lru 4) [(4096, 'L'), (8192, 'S')]
      (state_after (demo_world 2 .lru 4) [(4096, 'L'), (8192, 'S')]) rfl 8200 'L'
      (result_of (find_physpage (demo_world 2 .lru 4)
        (state_after (demo_world 2 .lru 4) [(4096, 'L'), (8192, 'S')]) 8200 'L')
        (init (demo_world 2 .lru 4))).1
      (result_of (find_physpage (demo_world 2 .lru 4)
        (state_after (demo_world 2 .lru 4) [(4096, 'L'), (8192, 'S')]) 8200 'L')
        (init (demo_world 2 .lru 4))).2 rfl).2.2.2.2.2⟩

/-! ## C21: the leaf table made by init_second_level -/

/-- C21: `init_second_level` returns whenever `posix_memalign` succeeds and the address
space is not used up, and returns only then; the directory entry it returns has VALID set
and points at the newly allocated leaf table, and each of the `PTRS_PER_PGTBL` entries of
that table has `frame = 0` (so VALID, DIRTY, REFERENCED and ON_SWAP are all clear) and
`swap_off = INVALID_SWAP`; the entries of every other table are untouched. -/
theorem init_second_level_fresh_table (w : World) (s : State) :
    (w.posix_memalign s.log = true → tbl_addr (s.ntables + 1) ≤ 2 ^ 64 →
      ∃ e t, init_second_level w s = .ok (e, t)) ∧
    ∀ e t, init_second_level w s = .ok (e, t) →
      e &&& PG_VALID ≠ 0 ∧ e &&& PAGE_MASK = tbl_addr s.ntables ∧
      t.ntables = s.ntables + 1 ∧
      (∀ i, i < PTRS_PER_PGTBL →
        t.pte ⟨e &&& PAGE_MASK, i⟩ = { frame := 0, swap_off := INVALID_SWAP } ∧
        (t.pte ⟨e &&& PAGE_MASK, i⟩).frame &&& PG_VALID = 0 ∧
        (t.pte ⟨e &&& PAGE_MASK, i⟩).frame &&& PG_DIRTY = 0 ∧
        (t.pte ⟨e &&& PAGE_MASK, i⟩).frame &&& PG_REF = 0 ∧
        (t.pte ⟨e &&& PAGE_MASK, i⟩).frame &&& PG_ONSWAP = 0 ∧
        (t.pte ⟨e &&& PAGE_MASK, i⟩).swap_off = INVALID_SWAP) ∧
      ∀ q : PtePtr, q.tbl ≠ e &&& PAGE_MASK → t.pte q = s.pte q := by
  refine ⟨fun hmem hsp => ?_, fun e t h => ?_⟩
  · unfold init_second_level
    rw [if_pos ⟨hmem, hsp⟩]
    exact ⟨_, _, rfl⟩
  · unfold init_second_level at h
    split at h
    · rename_i hok
      simp only [Except.ok.injEq, Prod.mk.injEq] at h
      obtain ⟨rfl, rfl⟩ := h
      have hm := tbl_addr_mask _ hok.2
      refine ⟨tbl_addr_valid _, hm, rfl, fun i hi => ?_, fun q hq => ?_⟩
      · have e1 : ({ s.emit (.memalign true) with
            ntables := s.ntables + 1,
            pgtbls := fun t i =>
              if t = tbl_addr s.ntables ∧ i < PTRS_PER_PGTBL then
                { frame := 0, swap_off := INVALID_SWAP }
              else s.pgtbls t i } : State).pte
              ⟨(tbl_addr s.ntables ||| PG_VALID) &&& PAGE_MASK, i⟩ =
            { frame := 0, swap_off := INVALID_SWAP } := by
          simp only [State.pte, hm, hi, and_self, if_true]
        rw [e1]
        exact ⟨rfl, rfl, rfl, rfl, rfl, rfl⟩
      · rw [hm] at hq
        simp only [State.pte, State.emit, hq, false_and, if_false]
    · simp at h

theorem init_second_level_fresh_table_witness :
    (∃ e t, init_second_level (demo_world 1 .lru 1) (init (demo_world 1 .lru 1)) =
      .ok (e, t)) ∧
    ∀ i, i < PTRS_PER_PGTBL →
      ((result_of (init_second_level (demo_world 1 .lru 1) (init (demo_world 1 .lru 1)))
          (init (demo_world 1 .lru 1))).2.pte ⟨65536, i⟩).swap_off = INVALID_SWAP :=
  ⟨(init_second_level_fresh_table (demo_world 1 .lru 1) (init (demo_world 1 .lru 1))).1
      rfl (by decide),
    fun i hi =>
      (((init_second_level_fresh_table (demo_world 1 .lru 1)
        (init (demo_world 1 .lru 1))).2 65537 _ rfl).2.2.2.1 i hi).2.2.2.2.2⟩

/-! ## C22: leaf tables are allocated once and stay -/

/-- Effect of one call of `find_physpage` on the directory and on the number of leaf
tables. -/
theorem find_physpage_pgdir {w : World} {s t : State} {va : Nat} {ty : Char} {r : Nat}
    (h : find_physpage w s va ty = .ok (r, t)) :
    (dir_valid s va → t.pgdir = s.pgdir ∧ t.ntables = s.ntables) ∧
    (¬ dir_valid s va → t.ntables = s.ntables + 1 ∧
      t.pgdir = fun i => if i = PGDIR_INDEX va then tbl_addr s.ntables ||| PG_VALID
        else s.pgdir i) := by
  have h0 := h
  unfold find_physpage at h0
  obtain ⟨s1, hw, -⟩ := bind_ok h0
  obtain ⟨e1, e2⟩ := find_physpage_sameDir hw h
  refine ⟨fun hv => ?_, fun hv => ?_⟩
  · have := walk_pagetable_valid hw hv
    subst this
    exact ⟨e1, e2⟩
  · have hv2 : s.pgdir (PGDIR_INDEX va) &&& PG_VALID = 0 := by
      unfold dir_valid at hv
      exact not_not.1 hv
    obtain ⟨-, a2, a3⟩ := walk_pagetable_new hw hv2
    exact ⟨by rw [e2, a2], by rw [e1, a3]⟩

theorem find_physpage_pgdir_valid {w : World} {s t : State} {va : Nat} {ty : Char} {r : Nat}
    (h : find_physpage w s va ty = .ok (r, t)) (i : Nat) (hi : s.pgdir i &&& PG_VALID ≠ 0) :
    t.pgdir i = s.pgdir i := by
  by_cases hv : dir_valid s va
  · rw [((find_physpage_pgdir h).1 hv).1]
  · rw [((find_physpage_pgdir h).2 hv).2]
    have : i ≠ PGDIR_INDEX va := by
      rintro rfl
      exact hv hi
    simp only [this, if_false]

theorem run_pgdir_stable {w : World} (tr : List (Nat × Char)) : ∀ {s t : State},
    run w s tr = .ok t →
    (∀ i, s.pgdir i &&& PG_VALID ≠ 0 → t.pgdir i = s.pgdir i) ∧
    s.ntables ≤ t.ntables ∧ t.ntables ≤ s.ntables + tr.length := by
  induction tr with
  | nil =>
    intro s t h
    simp only [run, Except.ok.injEq] at h
    subst h
    exact ⟨fun _ _ => rfl, le_refl _, le_refl _⟩
  | cons a tr ih =>
    intro s t h
    obtain ⟨r, u, h1, h2⟩ := run_cons_ok h
    obtain ⟨b1, b2, b3⟩ := ih h2
    have c := find_physpage_pgdir h1
    have hn : s.ntables ≤ u.ntables ∧ u.ntables ≤ s.ntables + 1 := by
      by_cases hv : dir_valid s a.1
      · rw [(c.1 hv).2]; omega
      · rw [(c.2 hv).1]; omega
    refine ⟨fun i hi => ?_, by omega, ?_⟩
    · have e := find_physpage_pgdir_valid h1 i hi
      rw [b1 i (by rw [e]; exact hi), e]
    · simp only [List.length_cons]
      omega

/-- C22: in a run of `find_physpage` calls from the initial state, continued by any further
calls, a valid directory entry stays as it is (valid, pointing at the same leaf table), so
the PTE pointer of a page never changes; the number of leaf tables grows by at most one per
call.  A call allocates a leaf table exactly when the directory entry indexed by the
accessed address is not valid, it then stores the new table in that entry only, and the
allocation (made by the directory walk) leaves the entries of the leaf tables of all valid
directory entries as they are. -/
theorem leaf_tables_stable (w : World) (tr0 tr : List (Nat × Char)) (s t : State)
    (h0 : run w (init w) tr0 = .ok s) (h : run w s tr = .ok t) :
    (∀ i, s.pgdir i &&& PG_VALID ≠ 0 → t.pgdir i = s.pgdir i) ∧
    (∀ vb, dir_valid s vb → dir_valid t vb ∧ pte_ptr t vb = pte_ptr s vb) ∧
    s.ntables ≤ t.ntables ∧ t.ntables ≤ s.ntables + tr.length ∧
    ∀ va ty r u, find_physpage w t va ty = .ok (r, u) →
      (dir_valid t va → u.pgdir = t.pgdir ∧ u.ntables = t.ntables) ∧
      (¬ dir_valid t va → u.ntables = t.ntables + 1 ∧
        u.pgdir (PGDIR_INDEX va) = tbl_addr t.ntables ||| PG_VALID ∧
        ∀ j, t.pgdir j &&& PG_VALID ≠ 0 → t.pgdir j &&& PAGE_MASK ≠ tbl_addr t.ntables) ∧
      (∀ i, i ≠ PGDIR_INDEX va → u.pgdir i = t.pgdir i) ∧
      ∃ s1, walk_pagetable w t va = .ok s1 ∧ u.pgdir = s1.pgdir ∧ u.ntables = s1.ntables ∧
        ∀ vb, dir_valid t vb → s1.pte (pte_ptr s1 vb) = t.pte (pte_ptr t vb) := by
  obtain ⟨b1, b2, b3⟩ := run_pgdir_stable tr h
  have hds : DirOk s := reachable_dirOk h0
  have hdt : DirOk t := run_dirOk tr h hds
  refine ⟨b1, fun vb hv => ?_, b2, b3, fun va ty r u hf => ?_⟩
  · have e := b1 _ hv
    refine ⟨by unfold dir_valid; rw [e]; exact hv, ?_⟩
    unfold pte_ptr
    rw [e]
  · have c := find_physpage_pgdir hf
    have hf0 := hf
    unfold find_physpage at hf0
    obtain ⟨s1, hw, -⟩ := bind_ok hf0
    obtain ⟨e1, e2⟩ := find_physpage_sameDir hw hf
    obtain ⟨-, -, -, d4, d5, -⟩ := walk_pagetable_dirOk hw hdt
    refine ⟨c.1, fun hv => ⟨(c.2 hv).1, ?_, fun j hj he => ?_⟩, fun i hi => ?_,
      s1, hw, e1, e2, fun vb hv => ?_⟩
    · rw [(c.2 hv).2]
      simp only [if_true]
    · obtain ⟨k, hk, hp⟩ := hdt.2.1 j hj
      rw [hp, tbl_addr_mask k (le_trans (tbl_addr_le hk) hdt.1)] at he
      have := tbl_addr_inj he
      omega
    · by_cases hv : dir_valid t va
      · rw [(c.1 hv).1]
      · rw [(c.2 hv).2]
        simp only [hi, if_false]
    · rw [(d4 vb hv).2]
      apply d5
      obtain ⟨k, hk, -, hp⟩ := dirOk_ptr hdt hv
      rw [hp]
      intro he
      have := tbl_addr_inj he
      omega

theorem leaf_tables_stable_witness :
    (state_after (demo_world 1 .lru 4) [(4096, 'L'), (16781312, 'S')]).pgdir 0 = 65537 ∧
    (state_after (demo_world 1 .lru 4) [(4096, 'L'), (16781312, 'S')]).pgdir 1 = 131073 ∧
    (state_after (demo_world 1 .lru 4) [(4096, 'L'), (16781312, 'S')]).ntables = 2 ∧
    ∀ i, (state_after (demo_world 1 .lru 4) [(4096, 'L')]).pgdir i &&& PG_VALID ≠ 0 →
      (state_after (demo_world 1 .lru 4) [(4096, 'L'), (16781312, 'S')]).pgdir i =
        (state_after (demo_world 1 .lru 4) [(4096, 'L')]).pgdir i :=
  ⟨rfl, rfl, rfl,
    (leaf_tables_stable (demo_world 1 .lru 4) [(4096, 'L')] [(16781312, 'S')]
      (state_after (demo_world 1 .lru 4) [(4096, 'L')])
      (state_after (demo_world 1 .lru 4) [(4096, 'L'), (16781312, 'S')]) rfl rfl).1⟩

/-! ## C23, C24: lru_evict and lru_ref on a well-formed list -/

/-- C23: on a well-formed non-empty LRU list `[f0, f1, ..., fk]` (head first), `lru_evict`
returns `f0`, leaves the well-formed list `[f1, ..., fk]` with `size` one less, and sets
`map[f0]` to NULL; every other `map` entry and everything outside the LRU structure is
unchanged. -/
theorem lru_evict_removes_head (w : World) (s : State) (c : Nat × Nat)
    (rest : List (Nat × Nat)) (h : LruRep w s (c :: rest)) :
    ∃ t, lru_evict w s = .ok (c.2, t) ∧
      lru_frames s = c.2 :: rest.map Prod.snd ∧ lru_frames t = rest.map Prod.snd ∧
      LruRep w t rest ∧ t.list.size + 1 = s.list.size ∧
      t.map c.2 = none ∧ (∀ g, g ≠ c.2 → t.map g = s.map g) ∧ LruOnly s t := by
  obtain ⟨t, h1, h2, h3, -⟩ := lru_evict_spec h
  have hnd : c.2 ∉ rest.map Prod.snd := by
    have := h.2.2.2.2.2.1
    simp only [List.map_cons, List.nodup_cons] at this
    exact this.1
  refine ⟨t, h1, lru_frames_eq h, lru_frames_eq h2, h2, ?_, ?_, fun g hg => ?_, h3⟩
  · rw [h2.2.2.2.1, h.2.2.2.1]
    rfl
  · cases hm : t.map c.2 with
    | none => rfl
    | some a =>
      have := h2.2.2.2.2.2.2.2.2 _ _ hm
      exact absurd (List.mem_map.2 ⟨_, this, rfl⟩) hnd
  · cases hm : s.map g with
    | some a =>
      have hmem := h.2.2.2.2.2.2.2.2 _ _ hm
      rcases List.mem_cons.1 hmem with e | e
      · exact absurd (congrArg Prod.snd e) hg
      · exact h2.2.2.2.2.2.2.2.1 _ e
    | none =>
      cases hm2 : t.map g with
      | none => rfl
      | some a =>
        have hmem := h2.2.2.2.2.2.2.2.2 _ _ hm2
        have := h.2.2.2.2.2.2.2.1 _ (List.mem_cons_of_mem c hmem)
        rw [hm] at this
        exact absurd this (by simp)

theorem lru_evict_removes_head_witness :
    ∃ t, lru_evict (demo_world 2 .lru 4)
        (lru_after (demo_world 2 .lru 4) (lru_init (init (demo_world 2 .lru 4)))
          [.ref ⟨65536, 1⟩ 0, .ref ⟨65536, 2⟩ 4096]) = .ok (0, t) ∧
      lru_frames t = [1] ∧ t.map 0 = none := by
  obtain ⟨cells, h1, -⟩ := lru_run_sorted (w := demo_world 2 .lru 4)
    [.ref ⟨65536, 1⟩ 0, .ref ⟨65536, 2⟩ 4096] (lru_init (init (demo_world 2 .lru 4)))
    (lru_after (demo_world 2 .lru 4) (lru_init (init (demo_world 2 .lru 4)))
      [.ref ⟨65536, 1⟩ 0, .ref ⟨65536, 2⟩ 4096]) Stamps.init []
    (lruRep_init _) ⟨List.Pairwise.nil, fun f hf => by simp at hf⟩ rfl
  have e : cells.map Prod.snd = [0, 1] := (lru_frames_eq h1).symm.trans (by decide)
  match cells, e, h1 with
  | c :: rest, e, h1 =>
    obtain ⟨t, a1, -, a3, -, -, a6, -⟩ :=
      lru_evict_removes_head (demo_world 2 .lru 4) _ c rest h1
    simp only [List.map_cons, List.cons.injEq] at e
    rw [e.1] at a1 a6
    exact ⟨t, a1, by rw [a3, e.2], a6⟩

/-- C24: on a well-formed LRU list `L`, for a PTE whose (32-bit) `frame` field holds a frame
index `f < memsize`, `lru_ref` (whose `malloc` of a new node, made when `f` is not tracked,
does not return NULL) returns and leaves the well-formed list `L` with `f` removed,
followed by `f`.  A frame that is not tracked (`map[f]` is NULL) is appended at the tail and
`size` grows by one; a tracked frame, wherever it is in the list (head, interior or tail),
is moved to the tail, the other frames keep their order and `size` is unchanged.  Nothing
outside the LRU structure changes. -/
theorem lru_ref_moves_to_tail (w : World) (s : State) (p : PtePtr)
    (cells : List (Nat × Nat)) (h : LruRep w s cells)
    (hf : (s.pte p).frame >>> PAGE_SHIFT < w.memsize) (h32 : (s.pte p).frame < 2 ^ 32)
    (hmal : malloc_ok w s p) :
    ∃ t cells2, lru_ref w s p = .ok t ∧ LruRep w t cells2 ∧
      lru_frames t = (lru_frames s).erase ((s.pte p).frame >>> PAGE_SHIFT) ++
        [(s.pte p).frame >>> PAGE_SHIFT] ∧
      (s.map ((s.pte p).frame >>> PAGE_SHIFT) = none →
        (s.pte p).frame >>> PAGE_SHIFT ∉ lru_frames s ∧
        lru_frames t = lru_frames s ++ [(s.pte p).frame >>> PAGE_SHIFT] ∧
        t.list.size = s.list.size + 1) ∧
      (s.map ((s.pte p).frame >>> PAGE_SHIFT) ≠ none →
        (s.pte p).frame >>> PAGE_SHIFT ∈ lru_frames s ∧ t.list.size = s.list.size) ∧
      (∀ pre post, lru_frames s = pre ++ (s.pte p).frame >>> PAGE_SHIFT :: post →
        lru_frames t = pre ++ post ++ [(s.pte p).frame >>> PAGE_SHIFT]) ∧
      LruOnly s t := by
  have hf2 : (s.pte p).frame >>> PAGE_SHIFT < 2 ^ 20 := by
    rw [Nat.shiftRight_eq_div_pow]
    apply Nat.div_lt_of_lt_mul
    unfold PAGE_SHIFT
    omega
  obtain ⟨t, cells2, h1, h2, h3, h4⟩ := lru_ref_spec h hf hf2 hmal
  have es := lru_frames_eq h
  have et := lru_frames_eq h2
  have hsz : s.list.size = (lru_frames s).length := by
    rw [es, h.2.2.2.1, List.length_map]
  have htz : t.list.size = (lru_frames t).length := by
    rw [et, h2.2.2.2.1, List.length_map]
  have hnd : (lru_frames s).Nodup := by rw [es]; exact h.2.2.2.2.2.1
  have hl : lru_frames t = (lru_frames s).erase ((s.pte p).frame >>> PAGE_SHIFT) ++
      [(s.pte p).frame >>> PAGE_SHIFT] := by
    rw [et, h3, es]
    rfl
  refine ⟨t, cells2, h1, h2, hl, fun hm => ?_, fun hm => ?_, fun pre post hpp => ?_, h4⟩
  · have hnot : (s.pte p).frame >>> PAGE_SHIFT ∉ lru_frames s := by
      rw [es]; exact lruRep_untracked h hm
    have hl2 : lru_frames t = lru_frames s ++ [(s.pte p).frame >>> PAGE_SHIFT] := by
      rw [hl, List.erase_of_not_mem hnot]
    refine ⟨hnot, hl2, ?_⟩
    rw [htz, hl2, hsz]
    simp
  · cases hm2 : s.map ((s.pte p).frame >>> PAGE_SHIFT) with
    | none => exact absurd hm2 hm
    | some a =>
      have hmem : (s.pte p).frame >>> PAGE_SHIFT ∈ lru_frames s := by
        rw [es]
        exact List.mem_map.2 ⟨_, h.2.2.2.2.2.2.2.2 _ _ hm2, rfl⟩
      refine ⟨hmem, ?_⟩
      rw [htz, hl, hsz, List.length_append, List.length_erase_of_mem hmem]
      have : 0 < (lru_frames s).length := List.length_pos_of_mem hmem
      simp only [List.length_singleton]
      omega
  · rw [hl, hpp]
    rw [hpp] at hnd
    have hnp : (s.pte p).frame >>> PAGE_SHIFT ∉ pre := by
      intro hx
      have := (List.nodup_append.1 hnd).2.2
      exact this hx (List.mem_cons_self _ _)
    rw [List.erase_append_right _ hnp, List.erase_cons_head]

theorem lru_ref_moves_to_tail_witness :
    ∃ t, lru_ref (demo_world 2 .lru 4)
        (lru_after (demo_world 2 .lru 4) (lru_init (init (demo_world 2 .lru 4)))
          [.ref ⟨65536, 1⟩ 0, .ref ⟨65536, 2⟩ 4096]) ⟨65536, 1⟩ = .ok t ∧
      lru_frames t = [1, 0] := by
  obtain ⟨cells, h1, -⟩ := lru_run_sorted (w := demo_world 2 .lru 4)
    [.ref ⟨65536, 1⟩ 0, .ref ⟨65536, 2⟩ 4096] (lru_init (init (demo_world 2 .lru 4)))
    (lru_after (demo_world 2 .lru 4) (lru_init (init (demo_world 2 .lru 4)))
      [.ref ⟨65536, 1⟩ 0, .ref ⟨65536, 2⟩ 4096]) Stamps.init []
    (lruRep_init _) ⟨List.Pairwise.nil, fun f hf => by simp at hf⟩ rfl
  obtain ⟨t, -, a1, -, a3, -⟩ :=
    lru_ref_moves_to_tail (demo_world 2 .lru 4) _ ⟨65536, 1⟩ cells h1 (by decide) (by decide)
      (by decide)
  exact ⟨t, a1, a3.trans (by decide)⟩

/-! ## Probes of the clock loop -/

theorem clear_ref_idem (e : pgtbl_entry_t) : clear_ref (clear_ref e) = clear_ref e := by
  unfold clear_ref
  simp only [Nat.and_assoc, Nat.and_self]

theorem clock_clear_pte (w : World) (s : State) (p q : PtePtr) :
    (clock_clear w s p).pte q = if q = p then clear_ref (s.pte q) else s.pte q := by
  unfold clock_clear
  rw [pte_set_frame]
  by_cases h : q = p
  · subst h
    simp only [if_true]
    rfl
  · simp only [h, if_false]
    rfl

theorem after_probes_succ (w : World) (s : State) (k : Nat) {p : PtePtr}
    (hp : (s.coremap (w.random s.log % w.memsize)).pte = some p) :
    after_probes w s (k + 1) = after_probes w (clock_clear w s p) k := by
  simp only [after_probes, hp]

theorem sample_zero (w : World) (s : State) : sample w s 0 = w.random s.log % w.memsize := rfl

theorem sample_succ (w : World) (s : State) (j : Nat) {p : PtePtr}
    (hp : (s.coremap (w.random s.log % w.memsize)).pte = some p) :
    sample w s (j + 1) = sample w (clock_clear w s p) j := by
  unfold sample
  rw [after_probes_succ w s j hp]

/-- The clock loop, given enough fuel, returns at the first probe that finds the REFERENCED
bit clear, the bits of the frames sampled before having been cleared. -/
theorem clock_loop_char (w : World) (hm : 0 < w.memsize) : ∀ (n : Nat) (s : State),
    (∀ i, i < w.memsize → ∃ p, (s.coremap i).pte = some p) →
    (ref_frames w s).card < n →
    ∃ k, k ≤ (ref_frames w s).card ∧
      (∀ j, j < k → ref_bit (after_probes w s j) (sample w s j) = true) ∧
      ref_bit (after_probes w s k) (sample w s k) = false ∧
      clock_loop w n s = .ok (sample w s k,
        (after_probes w s k).emit (.random (w.random (after_probes w s k).log))) := by
  intro n
  induction n with
  | zero => intro s _ h; omega
  | succ n ih =>
    intro s hall hc
    have hlt : w.random s.log % w.memsize < w.memsize := Nat.mod_lt _ hm
    obtain ⟨p, hp⟩ := hall _ hlt
    by_cases hr : (s.pte p).frame &&& PG_REF = 0
    · refine ⟨0, Nat.zero_le _, fun j hj => absurd hj (Nat.not_lt_zero _), ?_, ?_⟩
      · show ref_bit s (w.random s.log % w.memsize) = false
        simp [ref_bit, hp, hr]
      · exact clock_loop_step_clear w n s p (by omega) hp hr
    · rw [clock_loop_step_set w n s p (by omega) hp hr]
      have hlt2 := ref_frames_clock_clear_lt w s p _ hlt hp hr
      obtain ⟨k, h1, h2, h3, h4⟩ := ih (clock_clear w s p) hall (by omega)
      refine ⟨k + 1, by omega, fun j hj => ?_, ?_, ?_⟩
      · cases j with
        | zero =>
          show ref_bit s (w.random s.log % w.memsize) = true
          simp [ref_bit, hp, hr]
        | succ j =>
          rw [after_probes_succ w s j hp, sample_succ w s j hp]
          exact h2 j (by omega)
      · rw [after_probes_succ w s k hp, sample_succ w s k hp]
        exact h3
      · rw [after_probes_succ w s k hp, sample_succ w s k hp]
        exact h4

/-- What `k` probes that do not return change: the log grows by `k` entries, the REFERENCED
bit is cleared in the PTEs of the frames sampled, and nothing else changes. -/
theorem after_probes_effect (w : World) (hm : 0 < w.memsize) : ∀ (k : Nat) (s : State),
    (∀ i, i < w.memsize → ∃ p, (s.coremap i).pte = some p) →
    (after_probes w s k).coremap = s.coremap ∧ SameCounters s (after_probes w s k) ∧
    SameDir s (after_probes w s k) ∧ SameLru s (after_probes w s k) ∧
    (after_probes w s k).physmem = s.physmem ∧
    (after_probes w s k).log.length = s.log.length + k ∧
    (∀ q, (∃ j, j < k ∧ (s.coremap (sample w s j)).pte = some q) →
      (after_probes w s k).pte q = clear_ref (s.pte q)) ∧
    (∀ q, (¬ ∃ j, j < k ∧ (s.coremap (sample w s j)).pte = some q) →
      (after_probes w s k).pte q = s.pte q) := by
  intro k
  induction k with
  | zero =>
    intro s _
    refine ⟨rfl, ⟨rfl, rfl, rfl, rfl, rfl⟩, ⟨rfl, rfl⟩, ⟨rfl, rfl, rfl, rfl⟩, rfl, rfl,
      fun q hq => ?_, fun _ _ => rfl⟩
    obtain ⟨j, hj, -⟩ := hq
    omega
  | succ k ih =>
    intro s hall
    have hlt : w.random s.log % w.memsize < w.memsize := Nat.mod_lt _ hm
    obtain ⟨p, hp⟩ := hall _ hlt
    rw [after_probes_succ w s k hp]
    obtain ⟨a1, a2, a3, a4, a5, a6, a7, a8⟩ := ih (clock_clear w s p) hall
    have hsame : ∀ j, (s.coremap (sample w s (j + 1))).pte =
        ((clock_clear w s p).coremap (sample w (clock_clear w s p) j)).pte := by
      intro j
      rw [sample_succ w s j hp]
      rfl
    refine ⟨a1, a2, a3, a4, a5, ?_, fun q hq => ?_, fun q hq => ?_⟩
    · rw [a6]
      show (s.log ++ [_]).length + k = _
      simp only [List.length_append, List.length_singleton]
      omega
    · by_cases hex : ∃ j, j < k ∧
          ((clock_clear w s p).coremap (sample w (clock_clear w s p) j)).pte = some q
      · rw [a7 q hex, clock_clear_pte]
        by_cases hqp : q = p
        · simp only [hqp, if_true, clear_ref_idem]
        · simp only [hqp, if_false]
      · rw [a8 q hex, clock_clear_pte]
        obtain ⟨j, hj, hq2⟩ := hq
        cases j with
        | zero =>
          rw [sample_zero, hp] at hq2
          simp only [Option.some.injEq] at hq2
          simp only [hq2, if_true]
        | succ j =>
          rw [hsame j] at hq2
          exact absurd ⟨j, by omega, hq2⟩ hex
    · have hex : ¬ ∃ j, j < k ∧
          ((clock_clear w s p).coremap (sample w (clock_clear w s p) j)).pte = some q := by
        rintro ⟨j, hj, hq2⟩
        exact hq ⟨j + 1, by omega, by rw [hsame j]; exact hq2⟩
      have hqp : q ≠ p := by
        rintro rfl
        exact hq ⟨0, by omega, by rw [sample_zero]; exact hp⟩
      rw [a8 q hex, clock_clear_pte]
      simp only [hqp, if_false]

theorem ref_bit_after_probes_le (w : World) (hm : 0 < w.memsize) (s : State)
    (hall : ∀ i, i < w.memsize → ∃ p, (s.coremap i).pte = some p) (k i : Nat)
    (h : ref_bit (after_probes w s k) i = true) : ref_bit s i = true := by
  obtain ⟨a1, -, -, -, -, -, a7, a8⟩ := after_probes_effect w hm k s hall
  unfold ref_bit at h ⊢
  rw [a1] at h
  cases hq : (s.coremap i).pte with
  | none => simp [hq] at h
  | some q =>
    simp only [hq] at h ⊢
    by_cases hex : ∃ j, j < k ∧ (s.coremap (sample w s j)).pte = some q
    · rw [a7 q hex] at h
      simp [clear_ref, ref_eq_zero_iff, tbit_clear_ref] at h
    · rw [a8 q hex] at h
      exact h

/-- Characterisation of `clock_evict` in a state where every frame holds a page. -/
theorem clock_evict_char (w : World) (s : State) (hm : 0 < w.memsize)
    (hall : ∀ i, i < w.memsize → ∃ p, (s.coremap i).pte = some p) :
    ∃ k t, clock_evict w s = .ok (sample w s k, t) ∧
      k ≤ (ref_frames w s).card ∧ k ≤ w.memsize ∧ probes s t = k + 1 ∧
      (∀ j, j < k → ref_bit (after_probes w s j) (sample w s j) = true) ∧
      ref_bit (after_probes w s k) (sample w s k) = false ∧
      t = (after_probes w s k).emit (.random (w.random (after_probes w s k).log)) := by
  obtain ⟨k, h1, h2, h3, h4⟩ := clock_loop_char w hm (w.memsize + 1) s hall
    (Nat.lt_succ_of_le (ref_frames_card_le w s))
  refine ⟨k, _, h4, h1, le_trans h1 (ref_frames_card_le w s), ?_, h2, h3, rfl⟩
  obtain ⟨-, -, -, -, -, a6, -⟩ := after_probes_effect w hm k s hall
  unfold probes
  show ((after_probes w s k).log ++ [_]).length - _ = _
  rw [List.length_append, a6, List.length_singleton]
  omega

/-! ## C25: the frame clock_evict returns -/

/-- C25: in a state where every frame holds a page (and `memsize` is positive), whatever
sequence `sample 0, sample 1, ...` of frame indices `random() % memsize` delivers,
`clock_evict` returns `sample k` for the least `k` such that the REFERENCED bit of frame
`sample k` is clear after the bits of `sample 0 .. sample (k-1)` have been cleared
(`after_probes w s j` is the state `s` with exactly these bits cleared, as the last two
items say).  On return the REFERENCED bit has been cleared in exactly the PTEs of the frames
`sample 0 .. sample (k-1)`, all of which had it set; no other bit below 32 and no `swap_off`
of any PTE, no coremap entry, no counter, nothing of the directory, of the LRU structure or
of the physical memory has changed. -/
theorem clock_evict_first_unreferenced (w : World) (s : State) (hm : 0 < w.memsize)
    (hall : ∀ i, i < w.memsize → ∃ p, (s.coremap i).pte = some p) :
    ∃ k t, clock_evict w s = .ok (sample w s k, t) ∧ sample w s k < w.memsize ∧
      (∀ j, j < k → ref_bit (after_probes w s j) (sample w s j) = true) ∧
      ref_bit (after_probes w s k) (sample w s k) = false ∧
      (∀ j, j < k → ref_bit s (sample w s j) = true) ∧
      (∀ q, (∃ j, j < k ∧ (s.coremap (sample w s j)).pte = some q) →
        t.pte q = clear_ref (s.pte q) ∧ (s.pte q).frame &&& PG_REF ≠ 0 ∧
        (t.pte q).frame &&& PG_REF = 0) ∧
      (∀ q, (¬ ∃ j, j < k ∧ (s.coremap (sample w s j)).pte = some q) → t.pte q = s.pte q) ∧
      (∀ q, (t.pte q).swap_off = (s.pte q).swap_off ∧
        ∀ b, b < 32 → b ≠ 2 → tbit (t.pte q).frame b = tbit (s.pte q).frame b) ∧
      t.coremap = s.coremap ∧ SameCounters s t ∧ SameDir s t ∧ SameLru s t ∧
      t.physmem = s.physmem ∧
      (∀ j, (after_probes w s j).coremap = s.coremap) ∧
      (∀ j q, (∃ i, i < j ∧ (s.coremap (sample w s i)).pte = some q) →
        (after_probes w s j).pte q = clear_ref (s.pte q)) ∧
      (∀ j q, (¬ ∃ i, i < j ∧ (s.coremap (sample w s i)).pte = some q) →
        (after_probes w s j).pte q = s.pte q) := by
  obtain ⟨k, t, h1, -, -, -, h5, h6, h7⟩ := clock_evict_char w s hm hall
  obtain ⟨a1, a2, a3, a4, a5, -, a7, a8⟩ := after_probes_effect w hm k s hall
  have hpte : ∀ q, t.pte q = (after_probes w s k).pte q := by
    intro q; rw [h7]; rfl
  have hs : ∀ j, j < k → ref_bit s (sample w s j) = true :=
    fun j hj => ref_bit_after_probes_le w hm s hall j _ (h5 j hj)
  have hcl : ∀ q, (∃ j, j < k ∧ (s.coremap (sample w s j)).pte = some q) →
      t.pte q = clear_ref (s.pte q) ∧ (s.pte q).frame &&& PG_REF ≠ 0 ∧
      (t.pte q).frame &&& PG_REF = 0 := by
    intro q hq
    have e := (hpte q).trans (a7 q hq)
    refine ⟨e, ?_, ?_⟩
    · obtain ⟨j, hj, hq2⟩ := hq
      have := hs j hj
      unfold ref_bit at this
      rw [hq2] at this
      simpa using this
    · rw [e]
      simp [clear_ref, ref_eq_zero_iff, tbit_clear_ref]
  refine ⟨k, t, h1, Nat.mod_lt _ hm, h5, h6, hs, hcl,
    fun q hq => (hpte q).trans (a8 q hq), fun q => ?_, ?_, ?_, ?_, ?_, ?_,
    fun j => (after_probes_effect w hm j s hall).1,
    fun j => (after_probes_effect w hm j s hall).2.2.2.2.2.2.1,
    fun j => (after_probes_effect w hm j s hall).2.2.2.2.2.2.2⟩
  · by_cases hq : ∃ j, j < k ∧ (s.coremap (sample w s j)).pte = some q
    · rw [(hcl q hq).1]
      refine ⟨rfl, fun b hb hb2 => ?_⟩
      have : ¬ 2 = b := fun h => hb2 h.symm
      simp [clear_ref, tbit_clear_ref, hb, this]
    · rw [(hpte q).trans (a8 q hq)]
      exact ⟨rfl, fun _ _ _ => rfl⟩
  · rw [h7]; exact a1
  · rw [h7]; exact a2
  · rw [h7]; exact a3
  · rw [h7]; exact a4
  · rw [h7]; exact a5

theorem clock_evict_first_unreferenced_witness :
    (result_of (clock_evict (demo_world 2 .clock 4)
      (state_after (demo_world 2 .clock 4) [(0, 'L'), (4096, 'L')]))
      (init (demo_world 2 .clock 4))).1 = 1 ∧
    sample (demo_world 2 .clock 4)
      (state_after (demo_world 2 .clock 4) [(0, 'L'), (4096, 'L')]) 0 = 1 ∧
    sample (demo_world 2 .clock 4)
      (state_after (demo_world 2 .clock 4) [(0, 'L'), (4096, 'L')]) 1 = 0 ∧
    sample (demo_world 2 .clock 4)
      (state_after (demo_world 2 .clock 4) [(0, 'L'), (4096, 'L')]) 2 = 1 ∧
    ∃ k t, clock_evict (demo_world 2 .clock 4)
        (state_after (demo_world 2 .clock 4) [(0, 'L'), (4096, 'L')]) =
        .ok (sample (demo_world 2 .clock 4)
          (state_after (demo_world 2 .clock 4) [(0, 'L'), (4096, 'L')]) k, t) ∧
      ref_bit (after_probes (demo_world 2 .clock 4)
        (state_after (demo_world 2 .clock 4) [(0, 'L'), (4096, 'L')]) k)
        (sample (demo_world 2 .clock 4)
          (state_after (demo_world 2 .clock 4) [(0, 'L'), (4096, 'L')]) k) = false :=
  have hall : ∀ i, i < (demo_world 2 .clock 4).memsize →
      ∃ p, ((state_after (demo_world 2 .clock 4) [(0, 'L'), (4096, 'L')]).coremap i).pte
        = some p := by
    intro i hi
    have hi2 : i < 2 := hi
    interval_cases i <;> exact ⟨_, rfl⟩
  ⟨by decide, by decide, by decide, by decide,
    match clock_evict_first_unreferenced (demo_world 2 .clock 4)
      (state_after (demo_world 2 .clock 4) [(0, 'L'), (4096, 'L')]) (by decide) hall with
    | ⟨k, t, h1, _, _, h4, _⟩ => ⟨k, t, h1, h4⟩⟩

/-! ## C26: the number of probes of clock_evict -/

theorem all_referenced_sample (m : Nat) (hm : 0 < m) (j : Nat) (hj : j < m) :
    sample (demo_world m .clock 0) (all_referenced m) j = j := by
  have hall : ∀ i, i < (demo_world m .clock 0).memsize →
      ∃ p, ((all_referenced m).coremap i).pte = some p := fun i _ => ⟨_, rfl⟩
  obtain ⟨-, -, -, -, -, a6, -⟩ :=
    after_probes_effect (demo_world m .clock 0) hm j (all_referenced m) hall
  show (after_probes (demo_world m .clock 0) (all_referenced m) j).log.length % m = j
  rw [a6]
  show (([] : List Event).length + j) % m = j
  simp [Nat.mod_eq_of_lt hj]

/-- In the state `all_referenced m` with samples `0, 1, 2, ...`, every one of the first `m`
probes finds the REFERENCED bit set. -/
theorem all_referenced_ref_bit (m : Nat) (hm : 0 < m) (j : Nat) (hj : j < m) :
    ref_bit (after_probes (demo_world m .clock 0) (all_referenced m) j)
      (sample (demo_world m .clock 0) (all_referenced m) j) = true := by
  have hall : ∀ i, i < (demo_world m .clock 0).memsize →
      ∃ p, ((all_referenced m).coremap i).pte = some p := fun i _ => ⟨_, rfl⟩
  obtain ⟨a1, -, -, -, -, -, -, a8⟩ :=
    after_probes_effect (demo_world m .clock 0) hm j (all_referenced m) hall
  rw [all_referenced_sample m hm j hj]
  unfold ref_bit
  rw [a1]
  have hc : ((all_referenced m).coremap j).pte = some { tbl := tbl_addr 0, idx := j } := rfl
  rw [hc]
  have hno : ¬ ∃ i, i < j ∧ ((all_referenced m).coremap
      (sample (demo_world m .clock 0) (all_referenced m) i)).pte =
        some { tbl := tbl_addr 0, idx := j } := by
    rintro ⟨i, hi, he⟩
    rw [all_referenced_sample m hm i (by omega)] at he
    have hc2 : ((all_referenced m).coremap i).pte = some { tbl := tbl_addr 0, idx := i } := rfl
    rw [hc2] at he
    simp only [Option.some.injEq, PtePtr.mk.injEq, true_and] at he
    omega
  simp only [a8 _ hno]
  have hv : ((all_referenced m).pte { tbl := tbl_addr 0, idx := j }).frame =
      ((j <<< PAGE_SHIFT) ||| PG_VALID) ||| PG_REF := rfl
  rw [hv]
  simp [ref_eq_zero_iff, tbit_or_ref]

theorem all_referenced_probes (m : Nat) (hm : 0 < m) :
    ∃ f t, clock_evict (demo_world m .clock 0) (all_referenced m) = .ok (f, t) ∧
      probes (all_referenced m) t = m + 1 := by
  have hall : ∀ i, i < (demo_world m .clock 0).memsize →
      ∃ p, ((all_referenced m).coremap i).pte = some p := fun i _ => ⟨_, rfl⟩
  obtain ⟨k, t, h1, -, h3, h4, -, h6, -⟩ :=
    clock_evict_char (demo_world m .clock 0) (all_referenced m) hm hall
  have h3b : k ≤ m := h3
  have hk : ¬ k < m := by
    intro hlt
    have := all_referenced_ref_bit m hm k hlt
    rw [h6] at this
    exact absurd this (by decide)
  refine ⟨_, t, h1, ?_⟩
  rw [h4]
  omega

/-- C26 (amended): in a state where every frame holds a page, `clock_evict` returns after at
most `memsize + 1` probes, more precisely after at most one probe more than there are frames
with the REFERENCED bit set, because every probe that does not return clears such a bit and
none is set during the call; this is within the sweeping clock's `2 * frame_count`.  The
bound is attained for every `memsize` (all bits set, samples `0, 1, ..., memsize - 1, 0`), so
a call can make more than `N` probes, but only with more than `N - 1` frames. -/
theorem clock_probes_at_most_memsize_plus_one (w : World) (s : State) (hm : 0 < w.memsize)
    (hall : ∀ i, i < w.memsize → ∃ p, (s.coremap i).pte = some p) :
    (∃ f t, clock_evict w s = .ok (f, t) ∧ probes s t ≤ (ref_frames w s).card + 1 ∧
      probes s t ≤ w.memsize + 1 ∧ probes s t ≤ 2 * w.memsize) ∧
    (∀ m, 0 < m → ∃ f t,
      clock_evict (demo_world m .clock 0) (all_referenced m) = .ok (f, t) ∧
      probes (all_referenced m) t = m + 1) ∧
    (∀ N : Nat, ∃ (w2 : World) (s2 : State) (f : Nat) (t : State),
      (∀ i, i < w2.memsize → ∃ p, (s2.coremap i).pte = some p) ∧
      clock_evict w2 s2 = .ok (f, t) ∧ N < probes s2 t) ∧
    (∀ (N : Nat) (w2 : World) (s2 : State) (f : Nat) (t : State), 0 < w2.memsize →
      (∀ i, i < w2.memsize → ∃ p, (s2.coremap i).pte = some p) →
      clock_evict w2 s2 = .ok (f, t) → N < probes s2 t → N ≤ w2.memsize) := by
  refine ⟨?_, all_referenced_probes, fun N => ?_, fun N w2 s2 f t hm2 hall2 h hN => ?_⟩
  · obtain ⟨k, t, h1, h2, h3, h4, -⟩ := clock_evict_char w s hm hall
    exact ⟨_, t, h1, by omega, by omega, by omega⟩
  · obtain ⟨f, t, h1, h2⟩ := all_referenced_probes (N + 1) (by omega)
    exact ⟨demo_world (N + 1) .clock 0, all_referenced (N + 1), f, t,
      fun i _ => ⟨_, rfl⟩, h1, by omega⟩
  · obtain ⟨k, t2, h1, -, h3, h4, -⟩ := clock_evict_char w2 s2 hm2 hall2
    rw [h1] at h
    simp only [Except.ok.injEq, Prod.mk.injEq] at h
    rw [← h.2, h4] at hN
    omega

theorem clock_probes_at_most_memsize_plus_one_witness :
    probes (state_after (demo_world 3 .clock 0) [(0, 'L'), (4096, 'L'), (8192, 'L')])
      (result_of (clock_evict (demo_world 3 .clock 0)
        (state_after (demo_world 3 .clock 0) [(0, 'L'), (4096, 'L'), (8192, 'L')]))
        (init (demo_world 3 .clock 0))).2 = 4 ∧
    ∃ f t, clock_evict (demo_world 3 .clock 0)
        (state_after (demo_world 3 .clock 0) [(0, 'L'), (4096, 'L'), (8192, 'L')]) =
        .ok (f, t) ∧
      probes (state_after (demo_world 3 .clock 0) [(0, 'L'), (4096, 'L'), (8192, 'L')]) t ≤
        (demo_world 3 .clock 0).memsize + 1 :=
  have hall : ∀ i, i < (demo_world 3 .clock 0).memsize →
      ∃ p, ((state_after (demo_world 3 .clock 0)
        [(0, 'L'), (4096, 'L'), (8192, 'L')]).coremap i).pte = some p := by
    intro i hi
    have hi2 : i < 3 := hi
    interval_cases i <;> exact ⟨_, rfl⟩
  ⟨by decide,
    match (clock_probes_at_most_memsize_plus_one (demo_world 3 .clock 0)
      (state_after (demo_world 3 .clock 0) [(0, 'L'), (4096, 'L'), (8192, 'L')])
      (by decide) hall).1 with
    | ⟨f, t, h1, _, h3, _⟩ => ⟨f, t, h1, h3⟩⟩

/-- C26 (counterexample): with a single frame no call of `clock_evict` makes more than two
probes, whatever the state and whatever `random()` returns: the claim fails for
`memsize = 1` and `N = 2`. -/
theorem clock_one_frame_two_probes :
    ¬ ∃ (w : World) (s : State) (f : Nat) (t : State), w.memsize = 1 ∧
      (∀ i, i < w.memsize → ∃ p, (s.coremap i).pte = some p) ∧
      clock_evict w s = .ok (f, t) ∧ 2 < probes s t := by
  rintro ⟨w, s, f, t, hm, hall, h, hN⟩
  obtain ⟨k, t2, h1, -, h3, h4, -⟩ := clock_evict_char w s (by omega) hall
  rw [h1] at h
  simp only [Except.ok.injEq, Prod.mk.injEq] at h
  rw [← h.2, h4] at hN
  omega

/-! ## The swap offsets along a run -/

/-- Effect of one access on the `swap_off` fields, relative to the state after the directory
walk: only the PTE of a dirty victim changes, to the offset returned by `swap_pageout`. -/
theorem find_physpage_swap_off {w : World} {s t : State} {va : Nat} {ty : Char} {r : Nat}
    (h : find_physpage w s va ty = .ok (r, t)) (hp : AllPteOk s) :
    ∃ s1, walk_pagetable w s va = .ok s1 ∧
      (∀ q, written_out w s va ≠ some q → (t.pte q).swap_off = (s1.pte q).swap_off) ∧
      (∀ q, written_out w s va = some q →
        q ≠ pte_ptr s1 va ∧ (t.pte q).swap_off ≠ INVALID_SWAP ∧
        ∃ f u, evict_fcn w s1 = .ok (f, u) ∧ (u.coremap f).pte = some q ∧
          (s1.pte q).frame &&& PG_DIRTY ≠ 0 ∧
          (t.pte q).swap_off = w.swap_pageout u.log f (s1.pte q).swap_off ∧
          Event.pageout f (s1.pte q).swap_off (t.pte q).swap_off ∈ t.log) := by
  have h0 := h
  unfold find_physpage at h0
  obtain ⟨s1, hw, -⟩ := bind_ok h0
  refine ⟨s1, hw, ?_⟩
  have hp1 := walk_pagetable_allPteOk hw hp
  by_cases hv : (s1.pte (pte_ptr s1 va)).frame &&& PG_VALID = 0
  · have hac : alloc_call w s va = some s1 := by
      unfold alloc_call
      rw [hw]
      simp only [hv, if_true]
    obtain ⟨f, sa, ha, b1, -, -, -, -, -, -, b8, -, -, -, -, b13, b14⟩ :=
      find_physpage_fault_summary hw hv h hp
    have hlog : ∃ e, t.log = sa.log ++ [e] := by
      by_cases hsw : (s1.pte (pte_ptr s1 va)).frame &&& PG_ONSWAP = 0
      · exact ⟨_, (b13 hsw).1⟩
      · exact ⟨_, (b14 hsw).1⟩
    cases hff : first_free s1.coremap 0 w.memsize with
    | some f0 =>
      have hwo : written_out w s va = none := by
        unfold written_out
        rw [hac]
        simp only [hff]
      obtain ⟨-, rfl⟩ := allocate_frame_free ha hff
      refine ⟨fun q _ => ?_, fun q hq => ?_⟩
      · by_cases hqp : q = pte_ptr s1 va
        · rw [hqp]; exact b8
        · rw [b1 q hqp]; rfl
      · rw [hwo] at hq
        exact absurd hq (by simp)
    | none =>
      obtain ⟨u, v, hev, hf, hv2, c1, c2, c3⟩ := allocate_frame_dirty ha hff
      have hwo : written_out w s va =
          if (u.pte v).frame &&& PG_DIRTY ≠ 0 then some v else none := by
        unfold written_out
        rw [hac]
        simp only [hff, hev, hv2]
      have e1 := evict_fcn_pte hev
      by_cases hd : (u.pte v).frame &&& PG_DIRTY ≠ 0
      · rw [if_pos hd] at hwo
        obtain ⟨d1, d2, d3, -, -⟩ := c2 hd
        have hd1 : (s1.pte v).frame &&& PG_DIRTY ≠ 0 := by
          rw [ne_eq, dirty_eq_zero_iff] at hd ⊢
          rw [← (e1 v).2 1 (by decide) (by decide)]
          exact hd
        have hvp : v ≠ pte_ptr s1 va := by
          intro e
          have := (hp1 v).2.2 hd1
          rw [e] at this
          exact this hv
        have htv : t.pte v = sa.pte v := b1 v hvp
        refine ⟨fun q hq => ?_, fun q hq => ?_⟩
        · rw [hwo] at hq
          have hqv : q ≠ v := fun e => hq (by rw [e])
          by_cases hqp : q = pte_ptr s1 va
          · rw [hqp]; exact b8
          · rw [b1 q hqp, c1 q hqv]
            exact (e1 q).1
        · rw [hwo] at hq
          simp only [Option.some.injEq] at hq
          subst hq
          have hso : (t.pte v).swap_off = w.swap_pageout u.log f (s1.pte v).swap_off := by
            rw [htv, d3, ← (e1 v).1]
          refine ⟨hvp, ?_, f, u, hev, hv2, hd1, hso, ?_⟩
          · rw [hso, ← (e1 v).1]
            exact d1
          · obtain ⟨e, he⟩ := hlog
            rw [he, d2, hso, ← (e1 v).1]
            simp
      · rw [if_neg hd] at hwo
        obtain ⟨-, d3, -, -⟩ := c3 (not_not.1 hd)
        refine ⟨fun q _ => ?_, fun q hq => ?_⟩
        · by_cases hqp : q = pte_ptr s1 va
          · rw [hqp]; exact b8
          · rw [b1 q hqp]
            by_cases hqv : q = v
            · rw [hqv, d3]
              exact (e1 v).1
            · rw [c1 q hqv]
              exact (e1 q).1
        · rw [hwo] at hq
          exact absurd hq (by simp)
  · have hs1 := walk_pagetable_hit hw hv
    subst hs1
    have hwo : written_out w s1 va = none := by
      unfold written_out alloc_call
      rw [hw]
      simp only [hv, if_false]
    obtain ⟨g1, -⟩ := find_physpage_hit hw hv h
    refine ⟨fun q _ => ?_, fun q hq => ?_⟩
    · have : t.pte q = (mark_access s1 (pte_ptr s1 va) ty).pte q := by
        unfold State.pte
        rw [g1]
      rw [this, mark_access_pte]
      by_cases hqp : q = pte_ptr s1 va
      · simp only [hqp, if_true]
      · simp only [hqp, if_false]
    · rw [hwo] at hq
      exact absurd hq (by simp)

theorem walk_pagetable_swap_off {w : World} {s s1 : State} {va : Nat}
    (hw : walk_pagetable w s va = .ok s1) (hd : DirOk s) (hs : SwapOk s) (q : PtePtr) :
    (s1.pte q).swap_off = (s.pte q).swap_off := by
  by_cases hq : (s.pte q).swap_off = INVALID_SWAP
  · obtain ⟨-, -, -, -, c5, -⟩ := walk_pagetable_frame hw
    rcases c5 q with e | e
    · rw [e]
    · rw [e, hq]
  · obtain ⟨k, hk, hkq⟩ := hs q hq
    obtain ⟨-, -, -, -, d5, -⟩ := walk_pagetable_dirOk hw hd
    rw [d5 q]
    rw [hkq]
    intro e
    have := tbl_addr_inj e
    omega

theorem swapOk_init (w : World) : SwapOk (init w) := by
  intro q hq
  have : (init w).pte q = { frame := 0, swap_off := INVALID_SWAP } := by
    unfold init
    cases w.policy <;> rfl
  rw [this] at hq
  exact absurd rfl hq

theorem find_physpage_swapOk {w : World} {s t : State} {va : Nat} {ty : Char} {r : Nat}
    (h : find_physpage w s va ty = .ok (r, t)) (hp : AllPteOk s) (hd : DirOk s)
    (hc : CoreOk w s) (hs : SwapOk s) : SwapOk t := by
  obtain ⟨s1, hw, a1, a2⟩ := find_physpage_swap_off h hp
  have hnt := (find_physpage_sameDir hw h).2
  obtain ⟨-, -, c3, -⟩ := walk_pagetable_frame hw
  intro q hq
  by_cases hwo : written_out w s va = some q
  · obtain ⟨-, -, f, u, hev, hv, -⟩ := a2 q hwo
    have hc1 := walk_pagetable_coreOk hw hd hc
    rw [(evict_fcn_sameDir hev).2] at hv
    obtain ⟨k, hk, hkq⟩ := hc1.2.2.1 f q hv
    exact ⟨k, by omega, hkq⟩
  · rw [a1 q hwo, walk_pagetable_swap_off hw hd hs q] at hq
    obtain ⟨k, hk, hkq⟩ := hs q hq
    exact ⟨k, by omega, hkq⟩

theorem run_swapOk {w : World} (tr : List (Nat × Char)) : ∀ {s t : State},
    run w s tr = .ok t → AllPteOk s → DirOk s → CoreOk w s → SwapOk s → SwapOk t := by
  induction tr with
  | nil => intro s t h _ _ _ hs; simp only [run, Except.ok.injEq] at h; subst h; exact hs
  | cons a tr ih =>
    intro s t h hp hd hc hs
    obtain ⟨r, u, h1, h2⟩ := run_cons_ok h
    exact ih h2 (find_physpage_allPteOk h1 hp) (find_physpage_dirOk h1 hd)
      (find_physpage_coreOk h1 hp hd hc) (find_physpage_swapOk h1 hp hd hc hs)

/-- Along a run the PTEs with a swap offset are those that had one at the start and those
written out by an access of the run. -/
theorem run_swap_off {w : World} (tr : List (Nat × Char)) : ∀ {s t : State},
    run w s tr = .ok t → AllPteOk s → DirOk s → CoreOk w s → SwapOk s →
    ∀ q, (t.pte q).swap_off ≠ INVALID_SWAP ↔
      ((s.pte q).swap_off ≠ INVALID_SWAP ∨ ever_written w s tr q = true) := by
  induction tr with
  | nil =>
    intro s t h _ _ _ _ q
    simp only [run, Except.ok.injEq] at h
    subst h
    simp [ever_written]
  | cons a tr ih =>
    intro s t h hp hd hc hs q
    obtain ⟨r, u, h1, h2⟩ := run_cons_ok h
    have i := ih h2 (find_physpage_allPteOk h1 hp) (find_physpage_dirOk h1 hd)
      (find_physpage_coreOk h1 hp hd hc) (find_physpage_swapOk h1 hp hd hc hs) q
    obtain ⟨s1, hw, a1, a2⟩ := find_physpage_swap_off h1 hp
    have hstep : (u.pte q).swap_off ≠ INVALID_SWAP ↔
        ((s.pte q).swap_off ≠ INVALID_SWAP ∨ written_out w s a.1 = some q) := by
      by_cases hwo : written_out w s a.1 = some q
      · exact ⟨fun _ => Or.inr hwo, fun _ => (a2 q hwo).2.1⟩
      · rw [a1 q hwo, walk_pagetable_swap_off hw hd hs q]
        exact ⟨fun x => Or.inl x, fun x => x.resolve_right hwo⟩
    rw [i, hstep]
    simp only [ever_written, h1, Bool.or_eq_true, decide_eq_true_eq]
    tauto

/-! ## C27: swap_off is set only by a dirty eviction -/

/-- C27: in every state reached by a run from the initial state, a PTE has
`swap_off ≠ INVALID_SWAP` exactly when its page was written to swap (evicted DIRTY) by some
access of the run.  A further access changes the `swap_off` of no PTE other than the PTE of
a dirty victim of `allocate_frame`; for that PTE `swap_pageout` is called with the `swap_off`
the PTE had before the access (the retained offset, INVALID_SWAP the first time) and its
result, which is not INVALID_SWAP, is stored.  In particular the `swap_off` of the accessed
PTE is unchanged, whether its frame is filled by `swap_pagein` or by `init_frame`. -/
theorem swap_off_set_only_by_dirty_eviction (w : World) (tr : List (Nat × Char)) (s : State)
    (h : run w (init w) tr = .ok s) :
    (∀ q, (s.pte q).swap_off ≠ INVALID_SWAP ↔ ever_written w (init w) tr q = true) ∧
    ∀ va ty r t, find_physpage w s va ty = .ok (r, t) →
      (∀ q, written_out w s va ≠ some q → (t.pte q).swap_off = (s.pte q).swap_off) ∧
      (∀ q, written_out w s va = some q →
        (s.pte q).frame &&& PG_DIRTY ≠ 0 ∧ (t.pte q).swap_off ≠ INVALID_SWAP ∧
        ∃ f l, (t.pte q).swap_off = w.swap_pageout l f (s.pte q).swap_off ∧
          Event.pageout f (s.pte q).swap_off (t.pte q).swap_off ∈ t.log) ∧
      written_out w s va ≠ some (pte_ptr t va) ∧
      (t.pte (pte_ptr t va)).swap_off = (page s va).swap_off := by
  have hp := reachable_allPteOk h
  have hd := reachable_dirOk h
  have hc := reachable_coreOk h
  have hs : SwapOk s :=
    run_swapOk tr h (allPteOk_init w) (dirOk_init w) (coreOk_init w) (swapOk_init w)
  constructor
  · intro q
    rw [run_swap_off tr h (allPteOk_init w) (dirOk_init w) (coreOk_init w) (swapOk_init w) q]
    constructor
    · rintro (h1 | h1)
      · exact absurd (by unfold init; cases w.policy <;> rfl) h1
      · exact h1
    · exact fun h1 => Or.inr h1
  · intro va ty r t hf
    obtain ⟨s1, hw, a1, a2⟩ := find_physpage_swap_off hf hp
    obtain ⟨c1, -⟩ := walk_pagetable_frame hw
    obtain ⟨-, dv, -, -, d5, -⟩ := walk_pagetable_dirOk hw hd
    have hpt : pte_ptr t va = pte_ptr s1 va := by
      unfold pte_ptr
      rw [(find_physpage_sameDir hw hf).1]
    have hne : written_out w s va ≠ some (pte_ptr t va) := by
      intro e
      rw [hpt] at e
      exact (a2 _ e).1 rfl
    refine ⟨fun q hq => ?_, fun q hq => ?_, hne, ?_⟩
    · rw [a1 q hq, walk_pagetable_swap_off hw hd hs q]
    · obtain ⟨-, b2, f, u, hev, hv, b3, b4, b5⟩ := a2 q hq
      have hq1 : s1.pte q = s.pte q := by
        apply d5
        rw [(evict_fcn_sameDir hev).2, c1] at hv
        obtain ⟨k, hk, hkq⟩ := hc.2.2.1 f q hv
        rw [hkq]
        intro e
        have := tbl_addr_inj e
        omega
      rw [hq1] at b3 b4 b5
      exact ⟨b3, b2, f, u.log, b4, b5⟩
    · rw [a1 _ hne, hpt, ← page_walk hw hd va, page_of_valid dv]

theorem swap_off_set_only_by_dirty_eviction_witness :
    ((state_after (ample_world 1 .lru) [(4096, 'L'), (8192, 'L')]).pte ⟨65536, 1⟩).swap_off
      = 0 ∧
    ((state_after (ample_world 1 .lru) [(4096, 'L'), (8192, 'L')]).pte ⟨65536, 2⟩).swap_off
      = INVALID_SWAP ∧
    ever_written (ample_world 1 .lru) (init (ample_world 1 .lru))
      [(4096, 'L'), (8192, 'L')] ⟨65536, 1⟩ = true ∧
    ever_written (ample_world 1 .lru) (init (ample_world 1 .lru))
      [(4096, 'L'), (8192, 'L')] ⟨65536, 2⟩ = false ∧
    ∀ q, ((state_after (ample_world 1 .lru) [(4096, 'L'), (8192, 'L')]).pte q).swap_off ≠
        INVALID_SWAP ↔
      ever_written (ample_world 1 .lru) (init (ample_world 1 .lru))
        [(4096, 'L'), (8192, 'L')] q = true :=
  ⟨by decide, by decide, by decide, by decide,
    (swap_off_set_only_by_dirty_eviction (ample_world 1 .lru) [(4096, 'L'), (8192, 'L')]
      (state_after (ample_world 1 .lru) [(4096, 'L'), (8192, 'L')]) rfl).1⟩

/-! ## C28: the packed frame field -/

theorem shr_or_low (x m : Nat) (hm : m < 2 ^ 12) :
    (x ||| m) >>> PAGE_SHIFT = x >>> PAGE_SHIFT := by
  apply eq_of_tbit_eq
  intro j
  rw [tbit_shift, tbit_shift]
  unfold tbit
  rw [Nat.testBit_or]
  have : m.testBit (PAGE_SHIFT + j) = false :=
    Nat.testBit_lt_two_pow (Nat.lt_of_lt_of_le hm
      (Nat.pow_le_pow_right (by decide) (by unfold PAGE_SHIFT; omega)))
  rw [this, Bool.or_false]

theorem shr_clear_low (x k : Nat) (hx : x < 2 ^ 32) (hk : k < 12) :
    (x &&& bnot32 (2 ^ k)) >>> PAGE_SHIFT = x >>> PAGE_SHIFT := by
  apply eq_of_tbit_eq
  intro j
  rw [tbit_shift, tbit_shift, tbit_and_bnot32 x k _ (by omega)]
  by_cases hj : PAGE_SHIFT + j < 32
  · have : ¬ k = PAGE_SHIFT + j := by unfold PAGE_SHIFT; omega
    simp [hj, this]
  · rw [tbit_of_lt_two_pow hx (by omega)]
    simp

theorem pack_lt (f flags : Nat) (hf : f < 2 ^ 20) (hfl : flags < 16) :
    (f <<< PAGE_SHIFT) ||| flags < 2 ^ 32 := by
  apply Nat.or_lt_two_pow
  · rw [Nat.shiftLeft_eq]
    unfold PAGE_SHIFT
    omega
  · omega

theorem pack_index (f flags : Nat) (hfl : flags < 16) :
    ((f <<< PAGE_SHIFT) ||| flags) >>> PAGE_SHIFT = f := by
  rw [shr_or_low _ _ (by omega)]
  exact Nat.shiftLeft_shiftRight f PAGE_SHIFT

theorem pack_flags (f flags : Nat) (hfl : flags < 16) :
    ((f <<< PAGE_SHIFT) ||| flags) &&& (PG_VALID ||| PG_DIRTY ||| PG_REF ||| PG_ONSWAP) =
      flags := by
  have e : PG_VALID ||| PG_DIRTY ||| PG_REF ||| PG_ONSWAP = 2 ^ 4 - 1 := by decide
  rw [e]
  apply Nat.eq_of_testBit_eq
  intro j
  rw [Nat.testBit_and, Nat.testBit_or, Nat.testBit_two_pow_sub_one, Nat.testBit_shiftLeft]
  by_cases hj : j < 4
  · have : ¬ PAGE_SHIFT ≤ j := by unfold PAGE_SHIFT; omega
    simp [hj, this]
  · have : flags.testBit j = false :=
      Nat.testBit_lt_two_pow (Nat.lt_of_lt_of_le hfl
        (Nat.pow_le_pow_right (by decide) (by omega) : 2 ^ 4 ≤ 2 ^ j))
    simp [hj, this]

/-- C28: for a frame index `f < 2^20` and any combination `flags` of the four flag bits (a
value below 16), the packed value `(f << PAGE_SHIFT) | flags` fits 32 bits, its frame index
`value >> PAGE_SHIFT` is `f` and its flag bits `value & (VALID|DIRTY|REFERENCED|ON_SWAP)`
are `flags`; setting (`|= PG_x`) or clearing (`&= ~PG_x`) any of the four flag bits leaves
`value >> PAGE_SHIFT` equal to `f`.  Hence the status-bit updates of `find_physpage`
(`mark_access`), of `allocate_frame` (`clear_victim`) and of the clock policy (`clock_ref`,
`clear_ref`) keep the frame index of a PTE holding such a value. -/
theorem packed_frame_index_and_flags (f flags : Nat) (hf : f < 2 ^ 20) (hfl : flags < 16) :
    (f <<< PAGE_SHIFT) ||| flags < 2 ^ 32 ∧
    ((f <<< PAGE_SHIFT) ||| flags) >>> PAGE_SHIFT = f ∧
    ((f <<< PAGE_SHIFT) ||| flags) &&& (PG_VALID ||| PG_DIRTY ||| PG_REF ||| PG_ONSWAP) =
      flags ∧
    (∀ b, b ∈ [PG_VALID, PG_DIRTY, PG_REF, PG_ONSWAP] →
      (((f <<< PAGE_SHIFT) ||| flags) ||| b) >>> PAGE_SHIFT = f ∧
      (((f <<< PAGE_SHIFT) ||| flags) &&& bnot32 b) >>> PAGE_SHIFT = f) ∧
    ∀ (s : State) (p : PtePtr) (ty : Char), (s.pte p).frame = (f <<< PAGE_SHIFT) ||| flags →
      ((mark_access s p ty).pte p).frame >>> PAGE_SHIFT = f ∧
      ((clear_victim s p).pte p).frame >>> PAGE_SHIFT = f ∧
      ((clock_ref s p).pte p).frame >>> PAGE_SHIFT = f ∧
      (clear_ref (s.pte p)).frame >>> PAGE_SHIFT = f := by
  have hlt := pack_lt f flags hf hfl
  have hidx := pack_index f flags hfl
  have sV : ∀ x, (x ||| PG_VALID) >>> PAGE_SHIFT = x >>> PAGE_SHIFT :=
    fun x => shr_or_low x PG_VALID (by decide)
  have sD : ∀ x, (x ||| PG_DIRTY) >>> PAGE_SHIFT = x >>> PAGE_SHIFT :=
    fun x => shr_or_low x PG_DIRTY (by decide)
  have sR : ∀ x, (x ||| PG_REF) >>> PAGE_SHIFT = x >>> PAGE_SHIFT :=
    fun x => shr_or_low x PG_REF (by decide)
  have sO : ∀ x, (x ||| PG_ONSWAP) >>> PAGE_SHIFT = x >>> PAGE_SHIFT :=
    fun x => shr_or_low x PG_ONSWAP (by decide)
  have cV : ∀ x, x < 2 ^ 32 → (x &&& bnot32 PG_VALID) >>> PAGE_SHIFT = x >>> PAGE_SHIFT :=
    fun x hx => shr_clear_low x 0 hx (by decide)
  have cD : ∀ x, x < 2 ^ 32 → (x &&& bnot32 PG_DIRTY) >>> PAGE_SHIFT = x >>> PAGE_SHIFT :=
    fun x hx => shr_clear_low x 1 hx (by decide)
  have cR : ∀ x, x < 2 ^ 32 → (x &&& bnot32 PG_REF) >>> PAGE_SHIFT = x >>> PAGE_SHIFT :=
    fun x hx => shr_clear_low x 2 hx (by decide)
  have cO : ∀ x, x < 2 ^ 32 → (x &&& bnot32 PG_ONSWAP) >>> PAGE_SHIFT = x >>> PAGE_SHIFT :=
    fun x hx => shr_clear_low x 3 hx (by decide)
  have hand : ∀ x m : Nat, x < 2 ^ 32 → x &&& m < 2 ^ 32 :=
    fun x m hx => Nat.lt_of_le_of_lt Nat.and_le_left hx
  refine ⟨hlt, hidx, pack_flags f flags hfl, fun b hb => ?_, fun s p ty hv => ?_⟩
  · simp only [List.mem_cons, List.mem_singleton, List.not_mem_nil, or_false] at hb
    rcases hb with rfl | rfl | rfl | rfl
    · exact ⟨(sV _).trans hidx, (cV _ hlt).trans hidx⟩
    · exact ⟨(sD _).trans hidx, (cD _ hlt).trans hidx⟩
    · exact ⟨(sR _).trans hidx, (cR _ hlt).trans hidx⟩
    · exact ⟨(sO _).trans hidx, (cO _ hlt).trans hidx⟩
  · have hx : (s.pte p).frame < 2 ^ 32 := by rw [hv]; exact hlt
    have hi : (s.pte p).frame >>> PAGE_SHIFT = f := by rw [hv]; exact hidx
    refine ⟨?_, ?_, ?_, ?_⟩
    · have := mark_access_mapping_self s p ty hx
      unfold mapping at this
      simp only [Prod.mk.injEq] at this
      rw [this.2, hi]
    · rw [clear_victim_pte]
      simp only [if_true]
      rw [cV _ (hand _ _ hx), cD _ hx, hi]
    · unfold clock_ref
      rw [pte_set_frame_self, sR, hi]
    · unfold clear_ref
      simp only
      rw [cR _ hx, hi]

theorem packed_frame_index_and_flags_witness :
    ((5 <<< PAGE_SHIFT) ||| 11) >>> PAGE_SHIFT = 5 ∧
    ((5 <<< PAGE_SHIFT) ||| 11) &&& (PG_VALID ||| PG_DIRTY ||| PG_REF ||| PG_ONSWAP) = 11 ∧
    (((5 <<< PAGE_SHIFT) ||| 11) &&& bnot32 PG_ONSWAP) >>> PAGE_SHIFT = 5 :=
  ⟨(packed_frame_index_and_flags 5 11 (by decide) (by decide)).2.1,
    (packed_frame_index_and_flags 5 11 (by decide) (by decide)).2.2.1,
    ((packed_frame_index_and_flags 5 11 (by decide) (by decide)).2.2.2.1 PG_ONSWAP
      (by decide)).2⟩

/-! ## C29: allocate_frame keeps the REFERENCED bits -/

theorem and_ref_congr {x y : Nat} (h : tbit x 2 = tbit y 2) : x &&& PG_REF = y &&& PG_REF := by
  have e : PG_REF = 2 ^ 2 := rfl
  rw [e]
  apply Nat.eq_of_testBit_eq
  intro j
  rw [Nat.testBit_and, Nat.testBit_and, Nat.testBit_two_pow]
  by_cases hj : 2 = j
  · subst hj
    unfold tbit at h
    rw [h]
  · simp [hj]

theorem write_back_ref {w : World} {u s2 : State} {f : Nat} {v : PtePtr}
    (h : write_back w u f v = .ok s2) (q : PtePtr) :
    (s2.pte q).frame &&& PG_REF = (u.pte q).frame &&& PG_REF := by
  by_cases hd : (u.pte v).frame &&& PG_DIRTY ≠ 0
  · unfold write_back at h
    rw [if_pos hd] at h
    by_cases hr : w.swap_pageout u.log f (u.pte v).swap_off = INVALID_SWAP
    · rw [if_pos hr] at h
      simp at h
    · rw [if_neg hr] at h
      simp only [Except.ok.injEq] at h
      subst h
      show ((((u.emit _).set_pte v _).set_frame v _).pte q).frame &&& PG_REF = _
      rw [pte_set_frame, pte_set_pte, pte_set_pte]
      by_cases hq : q = v
      · subst hq
        simp only [if_true]
        apply and_ref_congr
        rw [tbit_or_onswap]
        simp
        rfl
      · simp only [hq, if_false]
        rfl
  · have := (write_back_clean h (not_not.1 hd)).2.1
    unfold State.pte
    rw [this]

theorem clear_victim_ref (x : State) (v q : PtePtr) :
    ((clear_victim x v).pte q).frame &&& PG_REF = (x.pte q).frame &&& PG_REF := by
  rw [clear_victim_pte]
  by_cases hq : q = v
  · subst hq
    simp only [if_true]
    apply and_ref_congr
    rw [tbit_clear_valid, tbit_clear_dirty]
    simp
  · simp only [hq, if_false]

/-- C29: the steps of `allocate_frame` itself never change a REFERENCED bit.  With a free
frame no PTE changes at all.  Otherwise, for the victim frame `g` returned by the eviction
function in state `u`, the REFERENCED bit of every PTE (the victim's included) is the same
in the state `allocate_frame` returns as in `u`; this holds for each step separately: the
write-back (`write_back`, dirty or clean), the clearing of DIRTY and VALID (`clear_victim`)
and the hand-over of the frame in the coremap (`set_coremap`). -/
theorem allocate_frame_keeps_referenced (w : World) (s sa : State) (p : PtePtr) (g : Nat)
    (h : allocate_frame w s p = .ok (g, sa)) :
    (∀ f0, first_free s.coremap 0 w.memsize = some f0 → ∀ q, sa.pte q = s.pte q) ∧
    (first_free s.coremap 0 w.memsize = none →
      ∃ u v s2, evict_fcn w s = .ok (g, u) ∧ (u.coremap g).pte = some v ∧
        write_back w u g v = .ok s2 ∧ sa = (clear_victim s2 v).set_coremap g p ∧
        (∀ q, (s2.pte q).frame &&& PG_REF = (u.pte q).frame &&& PG_REF) ∧
        (∀ q, ((clear_victim s2 v).pte q).frame &&& PG_REF = (s2.pte q).frame &&& PG_REF) ∧
        (∀ q, sa.pte q = (clear_victim s2 v).pte q) ∧
        ∀ q, (sa.pte q).frame &&& PG_REF = (u.pte q).frame &&& PG_REF) ∧
    (∀ (x y : State) (f : Nat) (v q : PtePtr), write_back w x f v = .ok y →
      (y.pte q).frame &&& PG_REF = (x.pte q).frame &&& PG_REF) ∧
    (∀ (x : State) (v q : PtePtr),
      ((clear_victim x v).pte q).frame &&& PG_REF = (x.pte q).frame &&& PG_REF) ∧
    (∀ (x : State) (f : Nat) (v q : PtePtr), (x.set_coremap f v).pte q = x.pte q) := by
  refine ⟨fun f0 hff q => ?_, fun hff => ?_, fun x y f v q hwb => write_back_ref hwb q,
    clear_victim_ref, fun _ _ _ _ => rfl⟩
  · obtain ⟨-, rfl⟩ := allocate_frame_free h hff
    rfl
  · obtain ⟨u, v, s2, h1, -, h3, h4, h5⟩ := allocate_frame_evict h hff
    refine ⟨u, v, s2, h1, h3, h4, h5, fun q => write_back_ref h4 q,
      fun q => clear_victim_ref s2 v q, fun q => by rw [h5]; rfl, fun q => ?_⟩
    rw [h5]
    show ((clear_victim s2 v).pte q).frame &&& PG_REF = _
    rw [clear_victim_ref, write_back_ref h4]

theorem allocate_frame_keeps_referenced_witness :
    first_free (state_after (demo_world 1 .lru 4) [(4096, 'S')]).coremap 0
      (demo_world 1 .lru 4).memsize = none ∧
    ((state_after (demo_world 1 .lru 4) [(4096, 'S')]).pte ⟨65536, 1⟩).frame &&& PG_REF
      = 4 ∧
    ((result_of (allocate_frame (demo_world 1 .lru 4)
      (state_after (demo_world 1 .lru 4) [(4096, 'S')]) ⟨65536, 2⟩)
      (init (demo_world 1 .lru 4))).2.pte ⟨65536, 1⟩).frame &&& PG_REF = 4 ∧
    ∃ u, evict_fcn (demo_world 1 .lru 4) (state_after (demo_world 1 .lru 4) [(4096, 'S')]) =
        .ok (0, u) ∧
      ∀ q, ((result_of (allocate_frame (demo_world 1 .lru 4)
          (state_after (demo_world 1 .lru 4) [(4096, 'S')]) ⟨65536, 2⟩)
          (init (demo_world 1 .lru 4))).2.pte q).frame &&& PG_REF =
        (u.pte q).frame &&& PG_REF :=
  ⟨rfl, by decide, by decide,
    match (allocate_frame_keeps_referenced (demo_world 1 .lru 4)
      (state_after (demo_world 1 .lru 4) [(4096, 'S')])
      (result_of (allocate_frame (demo_world 1 .lru 4)
        (state_after (demo_world 1 .lru 4) [(4096, 'S')]) ⟨65536, 2⟩)
        (init (demo_world 1 .lru 4))).2 ⟨65536, 2⟩ 0 rfl).2.1 rfl with
    | ⟨u, _, _, h1, _, _, _, _, _, _, h8⟩ => ⟨u, h1, h8⟩⟩

/-! ## C30: my_syscall and a failed allocation -/

namespace Interceptor

theorem add_pid_sysc_fails (e : Env) (k : Kernel) (pid sysc : Int)
    (hmem : e.kmalloc k.allocs = false) :
    add_pid_sysc e k pid sysc = (-ENOMEM, { k with allocs := k.allocs + 1 }) := by
  unfold add_pid_sysc
  rw [hmem]
  simp

/-- When the allocation in `add_pid_sysc` fails, `handle_start_monitoring` returns `-ENOMEM`
and leaves `table` as it was. -/
theorem handle_start_monitoring_fails (e : Env) (k : Kernel) (syscall pid : Int)
    (hfree : pid ∉ (k.table syscall).my_list) (hm : (k.table syscall).monitored ≠ 2)
    (hmem : e.kmalloc k.allocs = false) :
    (handle_start_monitoring e k syscall pid).1 = -ENOMEM ∧
    (handle_start_monitoring e k syscall pid).2.table = k.table := by
  have h1 : add_pid_sysc e k.lock_table pid syscall =
      (-ENOMEM, { k.lock_table with allocs := k.lock_table.allocs + 1 }) :=
    add_pid_sysc_fails e k.lock_table pid syscall hmem
  have hchk : check_pid_monitored k.lock_table syscall pid = 0 := by
    unfold check_pid_monitored
    exact if_neg hfree
  have hm2 : (k.lock_table.table syscall).monitored ≠ 2 := hm
  unfold handle_start_monitoring
  simp only [hchk, hm2, h1, ne_eq, not_true_eq_false, and_false, or_self, if_false]
  have hne : ¬ (-ENOMEM = (0 : Int)) := by decide
  simp only [hne, not_false_eq_true, if_true]
  exact ⟨trivial, rfl⟩

theorem context_check_values (c : Config) (k : Kernel) (cmd syscall pid r : Int)
    (h : context_check c k cmd syscall pid = some r) : r = -EINVAL ∨ r = -EBUSY := by
  unfold context_check at h
  repeat' split at h
  all_goals first
    | (simp only [Option.some.injEq] at h; subst h; first | exact Or.inl rfl | exact Or.inr rfl)
    | simp at h

/-- The values `my_syscall` can return. -/
theorem my_syscall_values (c : Config) (e : Env) (k k2 : Kernel) (cmd syscall pid r : Int)
    (h : my_syscall c e k cmd syscall pid = .ok (r, k2)) :
    r = -EINVAL ∨ r = -EPERM ∨ r = -EBUSY ∨ r = 0 := by
  unfold my_syscall at h
  split at h
  · simp only [Except.ok.injEq, Prod.mk.injEq] at h; exact Or.inl h.1.symm
  split at h
  · simp only [Except.ok.injEq, Prod.mk.injEq] at h; exact Or.inl h.1.symm
  split at h
  · simp only [Except.ok.injEq, Prod.mk.injEq] at h; exact Or.inl h.1.symm
  split at h
  · simp only [Except.ok.injEq, Prod.mk.injEq] at h; exact Or.inr (Or.inl h.1.symm)
  cases hd : monitoring_denied c e cmd pid with
  | error x => rw [hd] at h; simp [Except.bind] at h
  | ok d =>
    rw [hd] at h
    simp only [Except.bind] at h
    split at h
    · simp only [Except.ok.injEq, Prod.mk.injEq] at h; exact Or.inr (Or.inl h.1.symm)
    · split at h
      · rename_i r2 hr2
        simp only [Except.ok.injEq, Prod.mk.injEq] at h
        rcases context_check_values c _ cmd syscall pid r2 hr2 with e1 | e1
        · exact Or.inl (h.1.symm.trans e1)
        · exact Or.inr (Or.inr (Or.inl (h.1.symm.trans e1)))
      · simp only [Except.ok.injEq, Prod.mk.injEq] at h
        exact Or.inr (Or.inr (Or.inr h.1.symm))

/-- C30 (the code diverges): with cmd REQUEST_START_MONITORING, a valid system call number,
a valid pid, sufficient permission (the caller is root, or the pid is not 0 and has the
owner of the caller) and a pid that is not monitored yet, when the allocation in
`add_pid_sysc` fails, `handle_start_monitoring` does return `-ENOMEM`, but `my_syscall`
drops that value and returns 0, not `-ENOMEM`; `table` is unchanged.  Indeed no call of
`my_syscall` ever returns `-ENOMEM`. -/
theorem my_syscall_drops_enomem (c : Config) (e : Env) (k : Kernel) (syscall pid : Int)
    (hc : c.distinct)
    (hs : 0 ≤ syscall ∧ syscall ≤ c.NR_syscalls - 1 ∧ syscall ≠ c.MY_CUSTOM_SYSCALL)
    (hp : 0 ≤ pid ∧ (0 < pid → e.task_uid pid ≠ none))
    (hperm : e.current_uid = 0 ∨
      (pid ≠ 0 ∧ ∃ u, e.task_uid e.current_pid = some u ∧ e.task_uid pid = some u))
    (hfree : pid ∉ (k.table syscall).my_list ∧ (k.table syscall).monitored ≠ 2)
    (hmem : e.kmalloc k.allocs = false) :
    (handle_start_monitoring e k.lock_table.unlock_table syscall pid).1 = -ENOMEM ∧
    (∃ k2, my_syscall c e k c.REQUEST_START_MONITORING syscall pid = .ok (0, k2) ∧
      k2.table = k.table) ∧
    (0 : Int) ≠ -ENOMEM ∧
    ∀ cmd2 syscall2 pid2 r k2, my_syscall c e k cmd2 syscall2 pid2 = .ok (r, k2) →
      r ≠ -ENOMEM := by
  obtain ⟨c1, c2, c3, c4, c5, c6⟩ := hc
  have hh := handle_start_monitoring_fails e k.lock_table.unlock_table syscall pid
    hfree.1 hfree.2 hmem
  refine ⟨hh.1, ?_, by decide, fun cmd2 syscall2 pid2 r k2 h => ?_⟩
  · have hden : monitoring_denied c e c.REQUEST_START_MONITORING pid = .ok false := by
      unfold monitoring_denied
      rcases hperm with h0 | ⟨hp0, u, hu1, hu2⟩
      · simp [h0]
      · by_cases h0 : e.current_uid = 0
        · simp [h0]
        · simp only [true_or, ne_eq, h0, not_false_eq_true, and_self, if_true,
            check_pids_same_owner, hu1, hu2, Except.bind, not_true_eq_false, if_false, hp0,
            or_self, decide_False]
    have hctx : context_check c k.lock_table c.REQUEST_START_MONITORING syscall pid = none := by
      have hchk : check_pid_monitored k.lock_table syscall pid = 0 := by
        unfold check_pid_monitored
        exact if_neg hfree.1
      unfold context_check
      simp [hchk, c2.symm, c4.symm, c6]
    have hdisp : dispatch c e k.lock_table.unlock_table c.REQUEST_START_MONITORING syscall pid
        = (handle_start_monitoring e k.lock_table.unlock_table syscall pid).2 := by
      unfold dispatch
      simp [c2.symm, c4.symm]
    have hpid : ¬ (pid < 0 ∨ (pid > 0 ∧ e.task_uid pid = none)) := by
      rintro (h1 | ⟨h1, h2⟩)
      · omega
      · exact hp.2 h1 h2
    have hsys : ¬ (syscall < 0 ∨ syscall > c.NR_syscalls - 1 ∨ syscall = c.MY_CUSTOM_SYSCALL) := by
      rintro (h1 | h1 | h1)
      · omega
      · omega
      · exact hs.2.2 h1
    refine ⟨(handle_start_monitoring e k.lock_table.unlock_table syscall pid).2, ?_, hh.2⟩
    unfold my_syscall
    simp only [ne_eq, not_true_eq_false, false_and, and_false, if_false, hsys, hpid,
      c2.symm, c4.symm, false_or, or_self, hden, Except.bind, Bool.false_eq_true, hctx, hdisp]
  · rcases my_syscall_values c e k k2 cmd2 syscall2 pid2 r h with e1 | e1 | e1 | e1 <;>
      (rw [e1]; decide)

theorem my_syscall_drops_enomem_witness :
    my_syscall sample_config no_memory_env (init_function sample_config) 3 5 200 =
      .ok (0, (result_of_call (my_syscall sample_config no_memory_env
        (init_function sample_config) 3 5 200) (init_function sample_config)).2) ∧
    (handle_start_monitoring no_memory_env (init_function sample_config) 5 200).1 = -12 ∧
    ∃ k2, my_syscall sample_config no_memory_env (init_function sample_config)
        sample_config.REQUEST_START_MONITORING 5 200 = .ok (0, k2) ∧
      k2.table = (init_function sample_config).table :=
  ⟨rfl, by decide,
    (my_syscall_drops_enomem sample_config no_memory_env (init_function sample_config) 5 200
      (by decide) (by decide) ⟨by decide, fun _ => by decide⟩ (Or.inl rfl)
      ⟨by decide, by decide⟩ rfl).2.1⟩

end Interceptor

/-! ## C31: my_syscall for pid 0 and a caller that is not root -/

namespace Interceptor

theorem check_pids_same_owner_null (e : Env) (pid1 pid2 : Int)
    (h : e.task_uid pid2 = none) : check_pids_same_owner e pid1 pid2 = .error .null_deref := by
  unfold check_pids_same_owner
  rw [h]
  cases e.task_uid pid1 <;> rfl

/-- C31 (the code diverges): for cmd REQUEST_START_MONITORING or REQUEST_STOP_MONITORING
with a valid system call number, pid 0 and a caller that is not root, `my_syscall` reaches
`check_pids_same_owner(current->pid, 0)` (the left operand of `||`, evaluated before
`pid == 0`), which dereferences the task pointer of pid 0.  When the lookup for pid 0 yields
no task this is a NULL dereference: the call does not return -EPERM, it does not return at
all.  Only in a kernel where the lookup for pid 0 (and for the caller) yields a task does the
call return -EPERM with `table` unchanged. -/
theorem my_syscall_pid_zero_not_root (c : Config) (e : Env) (k : Kernel) (cmd syscall : Int)
    (hcmd : cmd = c.REQUEST_START_MONITORING ∨ cmd = c.REQUEST_STOP_MONITORING)
    (hc : c.distinct)
    (hs : 0 ≤ syscall ∧ syscall ≤ c.NR_syscalls - 1 ∧ syscall ≠ c.MY_CUSTOM_SYSCALL)
    (hroot : e.current_uid ≠ 0) :
    (e.task_uid 0 = none → my_syscall c e k cmd syscall 0 = .error .null_deref) ∧
    (e.task_uid e.current_pid = none →
      my_syscall c e k cmd syscall 0 = .error .null_deref) ∧
    ((∃ u, e.task_uid 0 = some u) → (∃ u, e.task_uid e.current_pid = some u) →
      my_syscall c e k cmd syscall 0 = .ok (-EPERM, k)) ∧
    monitoring_denied c e cmd 0 =
      (check_pids_same_owner e e.current_pid 0).bind fun r => .ok (decide (r ≠ 0 ∨ (0 : Int) = 0)) := by
  obtain ⟨c1, c2, c3, c4, c5, c6⟩ := hc
  have hsys : ¬ (syscall < 0 ∨ syscall > c.NR_syscalls - 1 ∨ syscall = c.MY_CUSTOM_SYSCALL) := by
    rintro (h1 | h1 | h1)
    · omega
    · omega
    · exact hs.2.2 h1
  have hfirst : ¬ (cmd ≠ c.REQUEST_SYSCALL_INTERCEPT ∧ cmd ≠ c.REQUEST_SYSCALL_RELEASE ∧
      cmd ≠ c.REQUEST_START_MONITORING ∧ cmd ≠ c.REQUEST_STOP_MONITORING) := by
    rintro ⟨-, -, h3, h4⟩
    rcases hcmd with h | h
    · exact h3 h
    · exact h4 h
  have hpid : ¬ ((cmd = c.REQUEST_START_MONITORING ∨ cmd = c.REQUEST_STOP_MONITORING) ∧
      ((0 : Int) < 0 ∨ ((0 : Int) > 0 ∧ e.task_uid 0 = none))) := by
    rintro ⟨-, h | ⟨h, -⟩⟩
    · omega
    · omega
  have hir : ¬ ((cmd = c.REQUEST_SYSCALL_INTERCEPT ∨ cmd = c.REQUEST_SYSCALL_RELEASE) ∧
      e.current_uid ≠ 0) := by
    rintro ⟨h | h, -⟩
    · rcases hcmd with h2 | h2
      · exact c2 (h.symm.trans h2)
      · exact c3 (h.symm.trans h2)
    · rcases hcmd with h2 | h2
      · exact c4 (h.symm.trans h2)
      · exact c5 (h.symm.trans h2)
  have hden : monitoring_denied c e cmd 0 =
      (check_pids_same_owner e e.current_pid 0).bind
        fun r => .ok (decide (r ≠ 0 ∨ (0 : Int) = 0)) := by
    unfold monitoring_denied
    rw [if_pos ⟨hcmd, hroot⟩]
  have hmy : my_syscall c e k cmd syscall 0 =
      (monitoring_denied c e cmd 0).bind fun denied =>
        if denied = true then .ok (-EPERM, k)
        else
          match context_check c k.lock_table cmd syscall 0 with
          | some r => .ok (r, k.lock_table.unlock_table)
          | none => .ok (0, dispatch c e k.lock_table.unlock_table cmd syscall 0) := by
    unfold my_syscall
    rw [if_neg hfirst, if_neg hsys, if_neg hpid, if_neg hir]
  refine ⟨fun h0 => ?_, fun h0 => ?_, fun ⟨u0, h0⟩ ⟨u1, h1⟩ => ?_, hden⟩
  · rw [hmy, hden, check_pids_same_owner_null e _ 0 h0]
    rfl
  · rw [hmy, hden]
    unfold check_pids_same_owner
    rw [h0]
    rfl
  · rw [hmy, hden]
    unfold check_pids_same_owner
    rw [h0, h1]
    simp [Except.bind]

theorem my_syscall_pid_zero_not_root_witness :
    my_syscall sample_config user_env (init_function sample_config) 3 5 0 =
      .error .null_deref ∧
    my_syscall sample_config user_env (init_function sample_config) 4 5 0 =
      .error .null_deref ∧
    user_env.task_uid 0 = none ∧ user_env.current_uid ≠ 0 ∧
    my_syscall sample_config user_env (init_function sample_config)
      sample_config.REQUEST_START_MONITORING 5 0 = .error .null_deref :=
  ⟨rfl, rfl, rfl, by decide,
    (my_syscall_pid_zero_not_root sample_config user_env (init_function sample_config)
      sample_config.REQUEST_START_MONITORING 5 (Or.inl rfl) (by decide) (by decide)
      (by decide)).1 rfl⟩

end Interceptor

/-! ## C32: frames in use and VALID entries -/

/-- With the coremap invariant, distinct VALID entries are at most `memsize` many. -/
theorem coreOk_valid_le {w : World} {s : State} (hc : CoreOk w s) (l : List PtePtr)
    (hnd : l.Nodup) (hv : ∀ q, q ∈ l → (s.pte q).frame &&& PG_VALID ≠ 0) :
    l.length ≤ w.memsize := by
  have hinj : ∀ q, q ∈ l → ∀ q2, q2 ∈ l →
      (s.pte q).frame >>> PAGE_SHIFT = (s.pte q2).frame >>> PAGE_SHIFT → q = q2 := by
    intro q hq q2 hq2 he
    have a := (hc.2.1 q (hv q hq)).2.2
    have b := (hc.2.1 q2 (hv q2 hq2)).2.2
    rw [he, b] at a
    exact (Option.some.inj a).symm
  have hnd2 : (l.map fun q => (s.pte q).frame >>> PAGE_SHIFT).Nodup :=
    List.Nodup.map_on hinj hnd
  have := nodup_lt_length_le (n := w.memsize) hnd2 (by
    intro x hx
    obtain ⟨q, hq, rfl⟩ := List.mem_map.1 hx
    exact (hc.2.1 q (hv q hq)).1)
  rw [List.length_map] at this
  exact this

/-- Pages that are pairwise different and have valid directory entries have pairwise
different PTEs. -/
theorem pages_nodup {s : State} (hd : DirOk s) (l : List Nat)
    (hpw : l.Pairwise (fun a b => ¬ same_page a b)) (hv : ∀ va, va ∈ l → dir_valid s va) :
    (l.map fun va => pte_ptr s va).Nodup := by
  induction l with
  | nil => exact List.nodup_nil
  | cons a l ih =>
    rw [List.pairwise_cons] at hpw
    rw [List.map_cons, List.nodup_cons]
    refine ⟨?_, ih hpw.2 (fun va hva => hv va (List.mem_cons_of_mem _ hva))⟩
    intro hmem
    obtain ⟨b, hb, he⟩ := List.mem_map.1 hmem
    exact hpw.1 b hb (pte_ptr_inj hd (hv a (List.mem_cons_self _ _))
      (hv b (List.mem_cons_of_mem _ hb)) he.symm)

/-- C32: in every state reached from the initial state by completed `find_physpage` calls,
every frame with `in_use` set holds a VALID PTE whose frame index is that frame, every VALID
PTE is held by the in-use frame of its frame index and by no other in-use frame, two
different in-use frames never hold the same PTE, and so at most `memsize` PTEs (and at most
`memsize` pages) are VALID. -/
theorem coremap_one_to_one (w : World) (tr : List (Nat × Char)) (s : State)
    (h : run w (init w) tr = .ok s) :
    (∀ f, f < w.memsize → (s.coremap f).in_use = true →
      ∃ q, (s.coremap f).pte = some q ∧ (s.pte q).frame &&& PG_VALID ≠ 0 ∧
        (s.pte q).frame >>> PAGE_SHIFT = f) ∧
    (∀ q, (s.pte q).frame &&& PG_VALID ≠ 0 →
      ∃ f, f < w.memsize ∧ (s.coremap f).in_use = true ∧ (s.coremap f).pte = some q ∧
        f = (s.pte q).frame >>> PAGE_SHIFT ∧
        ∀ g, g < w.memsize → (s.coremap g).in_use = true → (s.coremap g).pte = some q →
          g = f) ∧
    (∀ f g, f < w.memsize → g < w.memsize → (s.coremap f).in_use = true →
      (s.coremap g).in_use = true → (s.coremap f).pte = (s.coremap g).pte → f = g) ∧
    (∀ l : List PtePtr, l.Nodup → (∀ q, q ∈ l → (s.pte q).frame &&& PG_VALID ≠ 0) →
      l.length ≤ w.memsize) ∧
    (∀ l : List Nat, l.Pairwise (fun a b => ¬ same_page a b) →
      (∀ va, va ∈ l → resident s va) → l.length ≤ w.memsize) := by
  have hc := reachable_coreOk h
  have hd := reachable_dirOk h
  refine ⟨hc.1, fun q hq => ?_, fun f g hf hg huf hug he => ?_,
    fun l hnd hv => coreOk_valid_le hc l hnd hv, fun l hpw hres => ?_⟩
  · obtain ⟨a1, a2, a3⟩ := hc.2.1 q hq
    refine ⟨_, a1, a2, a3, rfl, fun g hg hug hgq => ?_⟩
    obtain ⟨q2, b1, -, b3⟩ := hc.1 g hg hug
    rw [hgq] at b1
    rw [← b3, ← Option.some.inj b1]
  · obtain ⟨q, b1, -, b3⟩ := hc.1 f hf huf
    obtain ⟨q2, c1, -, c3⟩ := hc.1 g hg hug
    rw [b1, c1] at he
    rw [← b3, ← c3, Option.some.inj he]
  · have hnd := pages_nodup hd l hpw (fun va hva => (hres va hva).1)
    have := coreOk_valid_le hc _ hnd (by
      intro q hq
      obtain ⟨va, hva, rfl⟩ := List.mem_map.1 hq
      exact (hres va hva).2)
    rw [List.length_map] at this
    exact this

theorem coremap_one_to_one_witness :
    ((state_after (demo_world 2 .lru 4) [(4096, 'L'), (8192, 'S'), (12288, 'L')]).coremap
      0).pte = some ⟨65536, 3⟩ ∧
    ((state_after (demo_world 2 .lru 4) [(4096, 'L'), (8192, 'S'), (12288, 'L')]).coremap
      1).pte = some ⟨65536, 2⟩ ∧
    ∀ l : List PtePtr, l.Nodup →
      (∀ q, q ∈ l →
        ((state_after (demo_world 2 .lru 4) [(4096, 'L'), (8192, 'S'), (12288, 'L')]).pte
          q).frame &&& PG_VALID ≠ 0) →
      l.length ≤ (demo_world 2 .lru 4).memsize :=
  ⟨rfl, rfl,
    (coremap_one_to_one (demo_world 2 .lru 4) [(4096, 'L'), (8192, 'S'), (12288, 'L')]
      (state_after (demo_world 2 .lru 4) [(4096, 'L'), (8192, 'S'), (12288, 'L')])
      rfl).2.2.2.1⟩

/-! ## C33: DIRTY only with VALID -/

/-- C33: in every state reached from the initial state by completed `find_physpage` calls,
every PTE with DIRTY set has VALID set, and so has the PTE of every page: a page that is not
resident is never marked dirty. -/
theorem dirty_implies_valid (w : World) (tr : List (Nat × Char)) (s : State)
    (h : run w (init w) tr = .ok s) :
    (∀ q, (s.pte q).frame &&& PG_DIRTY ≠ 0 → (s.pte q).frame &&& PG_VALID ≠ 0) ∧
    (∀ va, (page s va).frame &&& PG_DIRTY ≠ 0 → (page s va).frame &&& PG_VALID ≠ 0) ∧
    (∀ va, (page s va).frame &&& PG_DIRTY ≠ 0 → resident s va) := by
  have hp := reachable_allPteOk h
  have hpage : ∀ va, (page s va).frame &&& PG_DIRTY ≠ 0 →
      dir_valid s va ∧ (s.pte (pte_ptr s va)).frame &&& PG_VALID ≠ 0 := by
    intro va hd
    by_cases hv : dir_valid s va
    · rw [page_of_valid hv] at hd
      exact ⟨hv, (hp _).2.2 hd⟩
    · rw [page_of_invalid hv] at hd
      exact absurd rfl hd
  refine ⟨fun q hq => (hp q).2.2 hq, fun va hd => ?_, fun va hd => hpage va hd⟩
  rw [page_of_valid (hpage va hd).1]
  exact (hpage va hd).2

theorem dirty_implies_valid_witness :
    ((state_after (demo_world 1 .lru 4) [(4096, 'S'), (8192, 'L')]).pte
      ⟨65536, 1⟩).frame &&& PG_DIRTY = 0 ∧
    ((state_after (demo_world 1 .lru 4) [(4096, 'S'), (8192, 'L')]).pte
      ⟨65536, 2⟩).frame &&& PG_DIRTY ≠ 0 ∧
    ∀ q, ((state_after (demo_world 1 .lru 4) [(4096, 'S'), (8192, 'L')]).pte q).frame &&&
        PG_DIRTY ≠ 0 →
      ((state_after (demo_world 1 .lru 4) [(4096, 'S'), (8192, 'L')]).pte q).frame &&&
        PG_VALID ≠ 0 :=
  ⟨by decide, by decide,
    (dirty_implies_valid (demo_world 1 .lru 4) [(4096, 'S'), (8192, 'L')]
      (state_after (demo_world 1 .lru 4) [(4096, 'S'), (8192, 'L')]) rfl).1⟩

/-! ## C34: the LRU structure is well formed -/

/-- The links of a well-formed list, read off the nodes. -/
theorem lruRep_links {w : World} {s : State} {cells : List (Nat × Nat)}
    (h : LruRep w s cells) :
    (∀ a nd, s.list.head = some a → s.nodes a = some nd → nd.prev = none) ∧
    (∀ a nd, s.list.tail = some a → s.nodes a = some nd → nd.next = none) ∧
    (∀ c, c ∈ cells → ∃ nd, s.nodes c.1 = some nd ∧ nd.frame = c.2 ∧
      (∀ b, nd.next = some b → ∃ nb, s.nodes b = some nb ∧ nb.prev = some c.1 ∧
        b ∈ cells.map Prod.fst) ∧
      (∀ b, nd.prev = some b → ∃ nb, s.nodes b = some nb ∧ nb.next = some c.1 ∧
        b ∈ cells.map Prod.fst)) := by
  obtain ⟨hch, hhd, htl, -, -, -, -, -, -⟩ := h
  refine ⟨fun a nd ha hn => ?_, fun a nd ha hn => ?_, fun c hc => ?_⟩
  · cases cells with
    | nil => rw [hhd] at ha; simp [first_addr] at ha
    | cons c rest =>
      rw [hhd] at ha
      simp only [first_addr, Option.some.injEq] at ha
      subst ha
      rw [hch.1] at hn
      simp only [Option.some.injEq] at hn
      rw [← hn]
  · rcases List.eq_nil_or_concat cells with e | ⟨pre, c, e⟩
    · subst e
      rw [htl] at ha
      simp [last_addr] at ha
    · rw [List.concat_eq_append] at e
      subst e
      rw [htl, last_addr_snoc] at ha
      simp only [Option.some.injEq] at ha
      subst ha
      have := @chain_node_at _ pre [] _ _ _ hch
      rw [this] at hn
      simp only [Option.some.injEq] at hn
      rw [← hn]
      rfl
  · obtain ⟨pre, post, rfl⟩ := List.append_of_mem hc
    have hn := chain_node_at hch
    refine ⟨_, hn, rfl, fun b hb => ?_, fun b hb => ?_⟩
    · cases post with
      | nil => simp [first_addr] at hb
      | cons d post =>
        simp only [first_addr, Option.some.injEq] at hb
        subst hb
        have e : pre ++ c :: d :: post = (pre ++ [c]) ++ d :: post := by simp
        rw [e] at hch
        have hd := chain_node_at hch
        rw [last_addr_snoc] at hd
        exact ⟨_, hd, rfl, by simp⟩
    · rcases List.eq_nil_or_concat pre with e | ⟨pre2, d, e⟩
      · subst e
        simp [last_addr] at hb
      · rw [List.concat_eq_append] at e
        subst e
        simp only [last_addr_snoc, Option.some.injEq] at hb
        subst hb
        have e : pre2 ++ [d] ++ c :: post = pre2 ++ d :: (c :: post) := by simp
        rw [e] at hch
        have hd := chain_node_at hch
        exact ⟨_, hd, rfl, by simp⟩

/-- C34: after any sequence of `lru_ref` and `lru_evict` calls from `lru_init` that return
(an `lru_evict` on the empty list does not), the LRU structure is a well-formed doubly
linked list of cells (node address, frame): `head.prev` and `tail.next` are NULL, `next` and
`prev` are mutually inverse along the list, no frame and no node occurs twice, `list.size` is
the number of nodes, `head` and `tail` are NULL exactly when `size` is 0, and `map[f]` is the
node carrying `f` when `f` is in the list and NULL otherwise.  In such a state `lru_evict`
returns exactly when the list is not empty, and `lru_ref` returns for every frame index
below `memsize`, provided that `malloc` does not return NULL when the frame is not tracked
and a node is allocated. -/
theorem lru_structure_well_formed (w : World) (s0 t : State) (ops : List LruOp)
    (h : lru_run w (lru_init s0) ops = .ok t) :
    ∃ cells, LruRep w t cells ∧ lru_frames t = cells.map Prod.snd ∧
      (∀ a nd, t.list.head = some a → t.nodes a = some nd → nd.prev = none) ∧
      (∀ a nd, t.list.tail = some a → t.nodes a = some nd → nd.next = none) ∧
      (∀ c, c ∈ cells → ∃ nd, t.nodes c.1 = some nd ∧ nd.frame = c.2 ∧
        (∀ b, nd.next = some b → ∃ nb, t.nodes b = some nb ∧ nb.prev = some c.1 ∧
          b ∈ cells.map Prod.fst) ∧
        (∀ b, nd.prev = some b → ∃ nb, t.nodes b = some nb ∧ nb.next = some c.1 ∧
          b ∈ cells.map Prod.fst)) ∧
      (lru_frames t).Nodup ∧ (cells.map Prod.fst).Nodup ∧
      t.list.size = cells.length ∧ t.list.size = (lru_frames t).length ∧
      (t.list.size = 0 ↔ t.list.head = none) ∧ (t.list.size = 0 ↔ t.list.tail = none) ∧
      (∀ f, f ∈ lru_frames t → ∃ a nd, t.map f = some a ∧ t.nodes a = some nd ∧
        nd.frame = f ∧ (a, f) ∈ cells) ∧
      (∀ f, f ∉ lru_frames t → t.map f = none) ∧
      (t.list.size ≠ 0 → ∃ r, lru_evict w t = .ok r) ∧
      (t.list.size = 0 → lru_evict w t = .error .undefined) ∧
      (∀ p, (t.pte p).frame < 2 ^ 32 → (t.pte p).frame >>> PAGE_SHIFT < w.memsize →
        malloc_ok w t p → ∃ t2, lru_ref w t p = .ok t2) := by
  obtain ⟨cells, hr, -⟩ := lru_run_sorted ops (lru_init s0) t Stamps.init []
    (lruRep_init s0) ⟨List.Pairwise.nil, fun f hf => by simp at hf⟩ h
  have hfr := lru_frames_eq hr
  obtain ⟨l1, l2, l3⟩ := lruRep_links hr
  have hsz := hr.2.2.2.1
  refine ⟨cells, hr, hfr, l1, l2, l3, by rw [hfr]; exact hr.2.2.2.2.2.1, hr.2.2.2.2.1, hsz,
    by rw [hfr, List.length_map]; exact hsz, ?_, ?_, fun f hf => ?_, fun f hf => ?_,
    fun hne => ?_, fun he => ?_, fun p h32 hf hmal => ?_⟩
  · rw [hsz, hr.2.1]
    cases cells <;> simp [first_addr]
  · rw [hsz, hr.2.2.1]
    cases cells with
    | nil => simp [last_addr]
    | cons c rest =>
      obtain ⟨a, ha⟩ := last_addr_cons_some c rest none
      simp [ha]
  · rw [hfr] at hf
    obtain ⟨c, hc, rfl⟩ := List.mem_map.1 hf
    obtain ⟨nd, n1, n2, -⟩ := l3 c hc
    exact ⟨c.1, nd, hr.2.2.2.2.2.2.2.1 c hc, n1, n2, hc⟩
  · cases hm : t.map f with
    | none => rfl
    | some a =>
      exfalso
      apply hf
      rw [hfr]
      exact List.mem_map.2 ⟨_, hr.2.2.2.2.2.2.2.2 f a hm, rfl⟩
  · cases cells with
    | nil => exact absurd hsz hne
    | cons c rest =>
      obtain ⟨u, hu, -⟩ := lru_evict_spec hr
      exact ⟨_, hu⟩
  · cases cells with
    | nil => exact lru_evict_empty hr
    | cons c rest =>
      rw [he] at hsz
      simp at hsz
  · have hf2 : (t.pte p).frame >>> PAGE_SHIFT < 2 ^ 20 := by
      rw [Nat.shiftRight_eq_div_pow]
      apply Nat.div_lt_of_lt_mul
      unfold PAGE_SHIFT
      omega
    obtain ⟨t2, -, h2, -⟩ := lru_ref_spec hr hf hf2 hmal
    exact ⟨t2, h2⟩

theorem lru_structure_well_formed_witness :
    lru_frames (lru_after (demo_world 2 .lru 4) (lru_init (init (demo_world 2 .lru 4)))
      [.ref ⟨65536, 1⟩ 0, .ref ⟨65536, 2⟩ 4096, .evict, .ref ⟨65536, 3⟩ 0]) = [1, 0] ∧
    (lru_after (demo_world 2 .lru 4) (lru_init (init (demo_world 2 .lru 4)))
      [.ref ⟨65536, 1⟩ 0, .ref ⟨65536, 2⟩ 4096, .evict, .ref ⟨65536, 3⟩ 0]).list.size = 2 ∧
    ∃ cells, LruRep (demo_world 2 .lru 4)
        (lru_after (demo_world 2 .lru 4) (lru_init (init (demo_world 2 .lru 4)))
          [.ref ⟨65536, 1⟩ 0, .ref ⟨65536, 2⟩ 4096, .evict, .ref ⟨65536, 3⟩ 0]) cells ∧
      lru_frames (lru_after (demo_world 2 .lru 4) (lru_init (init (demo_world 2 .lru 4)))
        [.ref ⟨65536, 1⟩ 0, .ref ⟨65536, 2⟩ 4096, .evict, .ref ⟨65536, 3⟩ 0]) =
        cells.map Prod.snd :=
  ⟨by decide, by decide,
    match lru_structure_well_formed (demo_world 2 .lru 4) (init (demo_world 2 .lru 4))
      (lru_after (demo_world 2 .lru 4) (lru_init (init (demo_world 2 .lru 4)))
        [.ref ⟨65536, 1⟩ 0, .ref ⟨65536, 2⟩ 4096, .evict, .ref ⟨65536, 3⟩ 0])
      [.ref ⟨65536, 1⟩ 0, .ref ⟨65536, 2⟩ 4096, .evict, .ref ⟨65536, 3⟩ 0] rfl with
    | ⟨cells, h1, h2, _⟩ => ⟨cells, h1, h2⟩⟩

/-! ## C35: the LRU list holds the frames in use -/

/-- C35: under the LRU policy with `memsize ≥ 1`, in every state reached from the initial
state by completed `find_physpage` calls the frames in the LRU list are exactly the frames
below `memsize` with `in_use` set (each once).  Hence whenever `allocate_frame` is called
(after the directory walk of an access whose PTE is not VALID) and finds no free frame, the
list holds all `memsize` frames, `list.head` is not NULL and points at a live node, and
`lru_evict` returns the head frame instead of dereferencing NULL. -/
theorem lru_list_is_in_use_set (w : World) (tr : List (Nat × Char)) (s : State)
    (hpol : w.policy = .lru) (hm : 1 ≤ w.memsize) (h : run w (init w) tr = .ok s) :
    (∀ f, f ∈ lru_frames s ↔ (f < w.memsize ∧ (s.coremap f).in_use = true)) ∧
    (lru_frames s).Nodup ∧
    ∀ va s1, walk_pagetable w s va = .ok s1 →
      (s1.pte (pte_ptr s1 va)).frame &&& PG_VALID = 0 →
      first_free s1.coremap 0 w.memsize = none →
      (∀ f, f ∈ lru_frames s1 ↔ f < w.memsize) ∧
      (lru_frames s1).length = w.memsize ∧ s1.list.size = w.memsize ∧
      (∃ a nd, s1.list.head = some a ∧ s1.nodes a = some nd ∧
        some nd.frame = (lru_frames s1).head?) ∧
      ∃ f u, lru_evict w s1 = .ok (f, u) ∧ evict_fcn w s1 = .ok (f, u) ∧
        lru_frames s1 = f :: lru_frames u := by
  have hl := reachable_lruOk hpol h
  refine ⟨lruOk_mem hl, lruOk_nodup hl, fun va s1 hw hv hff => ?_⟩
  obtain ⟨c1, l1, -⟩ := walk_pagetable_frame hw
  obtain ⟨cells, hrep, hset⟩ := hl
  have hrep1 : LruRep w s1 cells := lruRep_sameLru l1 hrep
  have hfr1 := lru_frames_eq hrep1
  have hall := (first_free_none_iff_all w s1).1 hff
  have hmem : ∀ f, f ∈ lru_frames s1 ↔ f < w.memsize := by
    intro f
    rw [hfr1, hset f]
    constructor
    · exact fun x => x.1
    · intro hf
      refine ⟨hf, ?_⟩
      have := hall f hf
      rw [c1] at this
      exact this
  have hlen : (lru_frames s1).length = w.memsize := by
    apply Nat.le_antisymm
    · rw [hfr1, List.length_map]
      exact (lruRep_length_le hrep1).2
    · have hsub : Finset.range w.memsize ⊆ (lru_frames s1).toFinset := by
        intro f hf
        rw [List.mem_toFinset, hmem]
        exact Finset.mem_range.1 hf
      have := Finset.card_le_card hsub
      rw [Finset.card_range] at this
      exact Nat.le_trans this (List.toFinset_card_le _)
  have hsz : s1.list.size = w.memsize := by
    rw [hrep1.2.2.2.1, ← hlen, hfr1, List.length_map]
  cases cells with
  | nil =>
    rw [hfr1] at hlen
    simp at hlen
    omega
  | cons c rest =>
    obtain ⟨u, hu, hru, -⟩ := lru_evict_spec hrep1
    refine ⟨hmem, hlen, hsz, ⟨c.1, _, hrep1.2.1, hrep1.1.1, ?_⟩, c.2, u, hu, ?_, ?_⟩
    · rw [hfr1]
      rfl
    · unfold evict_fcn
      rw [hpol]
      exact hu
    · rw [hfr1, lru_frames_eq hru]
      rfl

theorem lru_list_is_in_use_set_witness :
    lru_frames (state_after (demo_world 2 .lru 4) [(4096, 'L'), (8192, 'S'), (4096, 'L')])
      = [1, 0] ∧
    first_free (state_after (demo_world 2 .lru 4)
      [(4096, 'L'), (8192, 'S'), (4096, 'L')]).coremap 0 (demo_world 2 .lru 4).memsize
      = none ∧
    ∀ f, f ∈ lru_frames (state_after (demo_world 2 .lru 4)
        [(4096, 'L'), (8192, 'S'), (4096, 'L')]) ↔
      (f < (demo_world 2 .lru 4).memsize ∧
        ((state_after (demo_world 2 .lru 4)
          [(4096, 'L'), (8192, 'S'), (4096, 'L')]).coremap f).in_use = true) :=
  ⟨by decide, rfl,
    (lru_list_is_in_use_set (demo_world 2 .lru 4) [(4096, 'L'), (8192, 'S'), (4096, 'L')]
      (state_after (demo_world 2 .lru 4) [(4096, 'L'), (8192, 'S'), (4096, 'L')])
      rfl (by decide) rfl).1⟩

/-! ## Counting the frames in use -/

theorem used_below_succ (cm : Nat → frame) (n : Nat) :
    used_below cm (n + 1) = used_below cm n + if (cm n).in_use = true then 1 else 0 := by
  unfold used_below
  rw [List.range_succ, List.countP_append]
  by_cases h : (cm n).in_use = true <;> simp [h]

theorem used_below_le (cm : Nat → frame) (n : Nat) : used_below cm n ≤ n := by
  unfold used_below
  have := List.countP_le_length (fun i => (cm i).in_use) (l := List.range n)
  rw [List.length_range] at this
  exact this

theorem used_below_congr {cm cm2 : Nat → frame} : ∀ (n : Nat),
    (∀ i, i < n → (cm2 i).in_use = (cm i).in_use) → used_below cm2 n = used_below cm n := by
  intro n
  induction n with
  | zero => intro _; rfl
  | succ n ih =>
    intro h
    rw [used_below_succ, used_below_succ, ih (fun i hi => h i (by omega)), h n (by omega)]

theorem used_below_mono {cm cm2 : Nat → frame} : ∀ (n : Nat),
    (∀ i, i < n → (cm i).in_use = true → (cm2 i).in_use = true) →
    used_below cm n ≤ used_below cm2 n := by
  intro n
  induction n with
  | zero => intro _; exact Nat.le_refl _
  | succ n ih =>
    intro h
    rw [used_below_succ, used_below_succ]
    have i1 := ih (fun i hi => h i (by omega))
    by_cases hn : (cm n).in_use = true
    · rw [if_pos hn, if_pos (h n (by omega) hn)]
      omega
    · rw [if_neg hn]
      omega

theorem used_below_all (cm : Nat → frame) : ∀ (n : Nat),
    (∀ i, i < n → (cm i).in_use = true) → used_below cm n = n := by
  intro n
  induction n with
  | zero => intro _; rfl
  | succ n ih =>
    intro h
    rw [used_below_succ, ih (fun i hi => h i (by omega)), if_pos (h n (by omega))]

/-- Giving a frame that was free to a page adds one to the number of frames in use. -/
theorem used_below_set_free {cm cm2 : Nat → frame} {f : Nat} (hf : (cm f).in_use = false)
    (h2 : (cm2 f).in_use = true) (hother : ∀ i, i ≠ f → (cm2 i).in_use = (cm i).in_use) :
    ∀ (n : Nat), f < n → used_below cm2 n = used_below cm n + 1 := by
  intro n
  induction n with
  | zero => intro h; omega
  | succ n ih =>
    intro h
    rw [used_below_succ, used_below_succ]
    by_cases hfn : f = n
    · subst hfn
      rw [used_below_congr f (fun i hi => hother i (by omega)), if_pos h2]
      simp [hf]
    · rw [ih (by omega), hother n (fun e => hfn e.symm)]
      omega

/-- When the frames in use are an initial segment, they are the frames below their
number. -/
theorem used_below_segment (cm : Nat → frame) : ∀ (n : Nat),
    (∀ f g, g < f → f < n → (cm f).in_use = true → (cm g).in_use = true) →
    ∀ i, i < n → ((cm i).in_use = true ↔ i < used_below cm n) := by
  intro n
  induction n with
  | zero => intro _ i hi; omega
  | succ n ih =>
    intro hseg i hi
    have ih2 := ih (fun f g hg hf hu => hseg f g hg (by omega) hu)
    rw [used_below_succ]
    by_cases hn : (cm n).in_use = true
    · have hall : ∀ j, j < n → (cm j).in_use = true := fun j hj => hseg n j hj (by omega) hn
      rw [used_below_all cm n hall, if_pos hn]
      by_cases hin : i = n
      · subst hin
        simp [hn]
      · simp [hall i (by omega), hi]
    · rw [if_neg hn, Nat.add_zero]
      by_cases hin : i = n
      · subst hin
        have := used_below_le cm i
        constructor
        · intro h; exact absurd h hn
        · intro h; omega
      · exact ih2 i (by omega)

/-- One access: a miss either takes a free frame or is an eviction made with every frame in
use; a hit changes neither the coremap nor the miss and eviction counters. -/
theorem find_physpage_in_use {w : World} {s t : State} {va : Nat} {ty : Char} {r : Nat}
    (h : find_physpage w s va ty = .ok (r, t)) (hp : AllPteOk s) :
    t.miss_count + in_use_count w s + s.evict_clean_count + s.evict_dirty_count =
      s.miss_count + in_use_count w t + t.evict_clean_count + t.evict_dirty_count ∧
    (∀ f, (s.coremap f).in_use = true → (t.coremap f).in_use = true) ∧
    (t.evict_clean_count + t.evict_dirty_count ≠ s.evict_clean_count + s.evict_dirty_count →
      in_use_count w s = w.memsize) := by
  have h0 := h
  unfold find_physpage at h0
  obtain ⟨s1, hw, -⟩ := bind_ok h0
  obtain ⟨c1, -⟩ := walk_pagetable_frame hw
  obtain ⟨k1, k2, k3, k4, k5⟩ := walk_pagetable_counters hw
  have hp1 := walk_pagetable_allPteOk hw hp
  by_cases hv : (s1.pte (pte_ptr s1 va)).frame &&& PG_VALID = 0
  · obtain ⟨f, sa, ha, -, b2, b3, b4, -, b6, -⟩ := find_physpage_fault_summary hw hv h hp
    obtain ⟨hf, hcm, hcase⟩ := allocate_frame_effect ha hp1
    have hcnt := allocate_frame_counters ha
    have hcmt : ∀ i, t.coremap i =
        if i = f then { in_use := true, pte := some (pte_ptr s1 va) } else s.coremap i := by
      intro i
      rw [b2, hcm, ← c1]
      rfl
    have hmono : ∀ g, (s.coremap g).in_use = true → (t.coremap g).in_use = true := by
      intro g hg
      rw [hcmt]
      by_cases hgf : g = f
      · simp [hgf]
      · simp only [hgf, if_false]
        exact hg
    rcases hcase with ⟨hff, -⟩ | ⟨hff, -⟩
    · obtain ⟨d1, d2, d3, d4, d5⟩ := hcnt.1 (by rw [hff]; simp)
      have hfree := (first_free_some _ _ _ _ hff).2.2.1
      rw [c1] at hfree
      have hcount : in_use_count w t = in_use_count w s + 1 := by
        unfold in_use_count
        refine used_below_set_free hfree ?_ ?_ w.memsize hf
        · rw [hcmt]; simp
        · intro i hi
          rw [hcmt]
          simp [hi]
      refine ⟨by omega, hmono, fun hne => absurd (by omega) hne⟩
    · obtain ⟨d1, d2, d3, d4⟩ := hcnt.2 hff
      have hall := (first_free_none_iff_all w s1).1 hff
      have hfull : in_use_count w s = w.memsize := by
        unfold in_use_count
        apply used_below_all
        intro i hi
        have := hall i hi
        rw [c1] at this
        exact this
      have hcount : in_use_count w t = in_use_count w s := by
        unfold in_use_count
        apply used_below_congr
        intro i hi
        rw [hcmt]
        by_cases hif : i = f
        · have := hall i hi
          rw [c1] at this
          rw [if_pos hif, this]
        · rw [if_neg hif]
      refine ⟨by omega, hmono, fun _ => hfull⟩
  · have hs1 := walk_pagetable_hit hw hv
    subst hs1
    obtain ⟨-, g2, -, -, -, -, g7, -, g9, g10⟩ := find_physpage_hit hw hv h
    have hcount : in_use_count w t = in_use_count w s1 := by
      unfold in_use_count
      rw [g2]
    refine ⟨by omega, fun f hf => by rw [g2]; exact hf, fun hne => absurd (by omega) hne⟩

theorem run_in_use {w : World} (tr : List (Nat × Char)) : ∀ {s t : State},
    run w s tr = .ok t → AllPteOk s →
    t.miss_count + in_use_count w s + s.evict_clean_count + s.evict_dirty_count =
      s.miss_count + in_use_count w t + t.evict_clean_count + t.evict_dirty_count ∧
    (∀ f, (s.coremap f).in_use = true → (t.coremap f).in_use = true) ∧
    (t.evict_clean_count + t.evict_dirty_count ≠ s.evict_clean_count + s.evict_dirty_count →
      in_use_count w t = w.memsize) := by
  induction tr with
  | nil =>
    intro s t h _
    simp only [run, Except.ok.injEq] at h
    subst h
    exact ⟨rfl, fun _ hf => hf, fun hne => absurd rfl hne⟩
  | cons a tr ih =>
    intro s t h hp
    obtain ⟨r, u, h1, h2⟩ := run_cons_ok h
    obtain ⟨a1, a2, a3⟩ := find_physpage_in_use h1 hp
    obtain ⟨b1, b2, b3⟩ := ih h2 (find_physpage_allPteOk h1 hp)
    refine ⟨by omega, fun f hf => b2 f (a2 f hf), fun hne => ?_⟩
    by_cases hu : t.evict_clean_count + t.evict_dirty_count =
        u.evict_clean_count + u.evict_dirty_count
    · have hsu : in_use_count w u = w.memsize := by
        have := a3 (by omega)
        have hle : in_use_count w s ≤ in_use_count w u :=
          used_below_mono _ (fun i _ hi => a2 i hi)
        have := used_below_le u.coremap w.memsize
        unfold in_use_count at *
        omega
      have hle : in_use_count w u ≤ in_use_count w t :=
        used_below_mono _ (fun i _ hi => b2 i hi)
      have := used_below_le t.coremap w.memsize
      unfold in_use_count at *
      omega
    · exact b3 hu

/-! ## C36: misses, frames in use and evictions -/

theorem in_use_count_init (w : World) : in_use_count w (init w) = 0 := by
  unfold in_use_count
  have h : ∀ n, used_below (init w).coremap n = 0 := by
    intro n
    induction n with
    | zero => rfl
    | succ n ih => rw [used_below_succ, ih, init_coremap]; rfl
  exact h _

/-- C36: in every state `s` reached from the initial state by completed `find_physpage`
calls, `miss_count` is the number of frames in use plus `evict_clean_count` plus
`evict_dirty_count`; the frames in use are exactly the frames with an index below their
number (they are taken in index order), that number is `min(miss_count, memsize)`, and a
frame in use stays in use along every further run. -/
theorem miss_count_accounting (w : World) (tr tr2 : List (Nat × Char)) (s t : State)
    (h : run w (init w) tr = .ok s) (h2 : run w s tr2 = .ok t) :
    s.miss_count = in_use_count w s + s.evict_clean_count + s.evict_dirty_count ∧
    in_use_count w s = min s.miss_count w.memsize ∧
    (∀ i, i < w.memsize → ((s.coremap i).in_use = true ↔ i < in_use_count w s)) ∧
    (s.evict_clean_count + s.evict_dirty_count ≠ 0 → in_use_count w s = w.memsize) ∧
    (∀ f, (s.coremap f).in_use = true → (t.coremap f).in_use = true) ∧
    in_use_count w s ≤ in_use_count w t := by
  obtain ⟨a1, -, a3⟩ := run_in_use tr h (allPteOk_init w)
  obtain ⟨-, b2, -⟩ := run_in_use tr2 h2 (reachable_allPteOk h)
  obtain ⟨c1, c2, c3, c4, c5⟩ := init_counters w
  rw [in_use_count_init] at a1
  have hle : in_use_count w s ≤ w.memsize := used_below_le _ _
  have hev : s.evict_clean_count + s.evict_dirty_count ≠ 0 → in_use_count w s = w.memsize := by
    intro hne
    apply a3
    omega
  refine ⟨by omega, ?_, used_below_segment _ _ (reachable_coreOk h).2.2.2, hev, b2,
    used_below_mono _ (fun i _ hi => b2 i hi)⟩
  by_cases hz : s.evict_clean_count + s.evict_dirty_count = 0
  · omega
  · have := hev hz
    omega

theorem miss_count_accounting_witness :
    (state_after (demo_world 2 .lru 4) [(4096, 'L'), (8192, 'S'), (12288, 'L')]).miss_count
      = 3 ∧
    in_use_count (demo_world 2 .lru 4)
      (state_after (demo_world 2 .lru 4) [(4096, 'L'), (8192, 'S'), (12288, 'L')]) = 2 ∧
    (state_after (demo_world 2 .lru 4)
      [(4096, 'L'), (8192, 'S'), (12288, 'L')]).evict_dirty_count = 1 ∧
    (state_after (demo_world 2 .lru 4) [(4096, 'L'), (8192, 'S'), (12288, 'L')]).miss_count =
      in_use_count (demo_world 2 .lru 4)
        (state_after (demo_world 2 .lru 4) [(4096, 'L'), (8192, 'S'), (12288, 'L')]) +
      (state_after (demo_world 2 .lru 4)
        [(4096, 'L'), (8192, 'S'), (12288, 'L')]).evict_clean_count +
      (state_after (demo_world 2 .lru 4)
        [(4096, 'L'), (8192, 'S'), (12288, 'L')]).evict_dirty_count :=
  ⟨by decide, by decide, by decide,
    (miss_count_accounting (demo_world 2 .lru 4) [(4096, 'L'), (8192, 'S'), (12288, 'L')]
      [(4096, 'L')]
      (state_after (demo_world 2 .lru 4) [(4096, 'L'), (8192, 'S'), (12288, 'L')])
      (state_after (demo_world 2 .lru 4)
        [(4096, 'L'), (8192, 'S'), (12288, 'L'), (4096, 'L')]) rfl rfl).1⟩

/-! ## ON_SWAP entries and page-ins -/

theorem clock_loop_log {w : World} (n : Nat) : ∀ {s t : State} {f : Nat},
    clock_loop w n s = .ok (f, t) →
    ∃ l, t.log = s.log ++ l ∧ ∀ e, e ∈ l → ∃ r, e = Event.random r := by
  induction n with
  | zero => intro s t f h; simp [clock_loop] at h
  | succ n ih =>
    intro s t f h
    simp only [clock_loop] at h
    split at h
    · simp at h
    · split at h
      · simp at h
      · split at h
        · obtain ⟨l, h1, h2⟩ := ih h
          refine ⟨Event.random (w.random s.log) :: l, ?_, ?_⟩
          · rw [h1]
            show (s.log ++ [_]) ++ l = _
            simp
          · intro e he
            rcases List.mem_cons.1 he with e1 | e1
            · exact ⟨_, e1⟩
            · exact h2 e e1
        · simp only [Except.ok.injEq, Prod.mk.injEq] at h
          obtain ⟨-, rfl⟩ := h
          refine ⟨[Event.random (w.random s.log)], rfl, ?_⟩
          intro e he
          exact ⟨_, List.mem_singleton.1 he⟩

theorem evict_fcn_log {w : World} {s t : State} {f : Nat} (h : evict_fcn w s = .ok (f, t)) :
    ∃ l, t.log = s.log ++ l ∧ ∀ e, e ∈ l → ∃ r, e = Event.random r := by
  unfold evict_fcn at h
  split at h
  · refine ⟨[], ?_, fun e he => by simp at he⟩
    rw [(lru_evict_lru_only h).2.2.2.2.2.2]
    simp
  · exact clock_loop_log _ h

/-- An entry that is ON_SWAP after an access was written out by it or was ON_SWAP before
and is not the accessed entry. -/
theorem find_physpage_onswap {w : World} {s t : State} {va : Nat} {ty : Char} {r : Nat}
    (h : find_physpage w s va ty = .ok (r, t)) (hp : AllPteOk s) :
    ∃ s1, walk_pagetable w s va = .ok s1 ∧
      ∀ q, (t.pte q).frame &&& PG_ONSWAP ≠ 0 →
        written_out w s va = some q ∨
          ((s1.pte q).frame &&& PG_ONSWAP ≠ 0 ∧ q ≠ pte_ptr s1 va) := by
  have h0 := h
  unfold find_physpage at h0
  obtain ⟨s1, hw, -⟩ := bind_ok h0
  refine ⟨s1, hw, fun q hq => ?_⟩
  have hp1 := walk_pagetable_allPteOk hw hp
  by_cases hv : (s1.pte (pte_ptr s1 va)).frame &&& PG_VALID = 0
  · have hac : alloc_call w s va = some s1 := by
      unfold alloc_call
      rw [hw]
      simp only [hv, if_true]
    obtain ⟨f, sa, ha, b1, -, -, -, -, -, -, -, -, -, b11, -⟩ :=
      find_physpage_fault_summary hw hv h hp
    have hqp : q ≠ pte_ptr s1 va := by
      intro e
      rw [e] at hq
      exact hq b11
    rw [b1 q hqp] at hq
    cases hff : first_free s1.coremap 0 w.memsize with
    | some f0 =>
      obtain ⟨-, rfl⟩ := allocate_frame_free ha hff
      exact Or.inr ⟨hq, hqp⟩
    | none =>
      obtain ⟨u, v, hev, hf, hv2, c1, c2, c3⟩ := allocate_frame_dirty ha hff
      have hwo : written_out w s va =
          if (u.pte v).frame &&& PG_DIRTY ≠ 0 then some v else none := by
        unfold written_out
        rw [hac]
        simp only [hff, hev, hv2]
      have e1 := evict_fcn_pte hev
      have hbit : ∀ q, (u.pte q).frame &&& PG_ONSWAP ≠ 0 → (s1.pte q).frame &&& PG_ONSWAP ≠ 0 := by
        intro q hq
        rw [ne_eq, onswap_eq_zero_iff] at hq ⊢
        rw [← (e1 q).2 3 (by decide) (by decide)]
        exact hq
      by_cases hqv : q = v
      · by_cases hd : (u.pte v).frame &&& PG_DIRTY ≠ 0
        · left
          rw [hwo, if_pos hd, hqv]
        · right
          obtain ⟨-, d3, -, -⟩ := c3 (not_not.1 hd)
          rw [hqv, d3] at hq
          refine ⟨?_, hqp⟩
          rw [hqv]
          apply hbit
          rw [ne_eq, onswap_eq_zero_iff] at hq ⊢
          simp only [tbit_clear_valid, tbit_clear_dirty] at hq
          intro hz
          rw [hz] at hq
          simp at hq
      · right
        rw [c1 q hqv] at hq
        exact ⟨hbit q hq, hqp⟩
  · have hs1 := walk_pagetable_hit hw hv
    subst hs1
    obtain ⟨g1, -⟩ := find_physpage_hit hw hv h
    have : t.pte q = (mark_access s1 (pte_ptr s1 va) ty).pte q := by
      unfold State.pte
      rw [g1]
    rw [this, mark_access_pte] at hq
    right
    by_cases hqp : q = pte_ptr s1 va
    · exfalso
      simp only [hqp, if_true] at hq
      apply hq
      rw [onswap_eq_zero_iff, tbit_clear_onswap]
      simp
    · simp only [hqp, if_false] at hq
      exact ⟨hq, hqp⟩

theorem onSwapOk_init (w : World) : OnSwapOk (init w) := by
  intro q hq
  have : (init w).pte q = { frame := 0, swap_off := INVALID_SWAP } := by
    unfold init
    cases w.policy <;> rfl
  rw [this] at hq
  exact absurd rfl hq

theorem walk_pagetable_onSwapOk {w : World} {s s1 : State} {va : Nat}
    (hw : walk_pagetable w s va = .ok s1) (hs : OnSwapOk s) : OnSwapOk s1 := by
  obtain ⟨-, -, -, -, c5, -⟩ := walk_pagetable_frame hw
  intro q hq
  rcases c5 q with e | e
  · rw [e] at hq ⊢
    exact hs q hq
  · rw [e] at hq
    exact absurd rfl hq

theorem find_physpage_onSwapOk {w : World} {s t : State} {va : Nat} {ty : Char} {r : Nat}
    (h : find_physpage w s va ty = .ok (r, t)) (hp : AllPteOk s) (hs : OnSwapOk s) :
    OnSwapOk t := by
  obtain ⟨s1, hw, a1, a2⟩ := find_physpage_swap_off h hp
  obtain ⟨s1b, hwb, b⟩ := find_physpage_onswap h hp
  rw [hw] at hwb
  simp only [Except.ok.injEq] at hwb
  subst hwb
  have hs1 := walk_pagetable_onSwapOk hw hs
  intro q hq
  by_cases hwo : written_out w s va = some q
  · exact (a2 q hwo).2.1
  · rw [a1 q hwo]
    rcases b q hq with e | ⟨e, -⟩
    · exact absurd e hwo
    · exact hs1 q e

theorem run_onSwapOk {w : World} (tr : List (Nat × Char)) : ∀ {s t : State},
    run w s tr = .ok t → AllPteOk s → OnSwapOk s → OnSwapOk t := by
  induction tr with
  | nil => intro s t h _ hs; simp only [run, Except.ok.injEq] at h; subst h; exact hs
  | cons a tr ih =>
    intro s t h hp hs
    obtain ⟨r, u, h1, h2⟩ := run_cons_ok h
    exact ih h2 (find_physpage_allPteOk h1 hp) (find_physpage_onSwapOk h1 hp hs)

/-- The events of one access: a page-in, if any, reads the offset stored in the accessed
PTE, which is ON_SWAP. -/
theorem find_physpage_pagein_log {w : World} {s t : State} {va : Nat} {ty : Char} {r : Nat}
    (h : find_physpage w s va ty = .ok (r, t)) (hp : AllPteOk s) :
    ∃ s1 l, walk_pagetable w s va = .ok s1 ∧ t.log = s.log ++ l ∧
      ∀ f off ret, Event.pagein f off ret ∈ l →
        (s1.pte (pte_ptr s1 va)).frame &&& PG_ONSWAP ≠ 0 ∧
        off = (s1.pte (pte_ptr s1 va)).swap_off := by
  have h0 := h
  unfold find_physpage at h0
  obtain ⟨s1, hw, -⟩ := bind_ok h0
  have hp1 := walk_pagetable_allPteOk hw hp
  have hlw := walk_pagetable_log hw
  have hwe : ∀ f off ret, Event.pagein f off ret ∉ walk_events s va := by
    intro f off ret hm
    rcases walk_events_cases s va with e | e <;> rw [e] at hm <;> simp at hm
  by_cases hv : (s1.pte (pte_ptr s1 va)).frame &&& PG_VALID = 0
  · obtain ⟨f, sa, ha, -, -, -, -, -, -, -, -, -, -, -, -, b13, b14⟩ :=
      find_physpage_fault_summary hw hv h hp
    have hsa : ∃ l2, sa.log = s1.log ++ l2 ∧ ∀ f off ret, Event.pagein f off ret ∉ l2 := by
      cases hff : first_free s1.coremap 0 w.memsize with
      | some f0 =>
        obtain ⟨-, rfl⟩ := allocate_frame_free ha hff
        exact ⟨[], by simp [State.set_coremap], fun _ _ _ hm => by simp at hm⟩
      | none =>
        obtain ⟨u, v, hev, -, -, -, c2, c3⟩ := allocate_frame_dirty ha hff
        obtain ⟨l, hl, hr⟩ := evict_fcn_log hev
        by_cases hd : (u.pte v).frame &&& PG_DIRTY ≠ 0
        · refine ⟨l ++ [Event.pageout f (u.pte v).swap_off
              (w.swap_pageout u.log f (u.pte v).swap_off)], ?_, ?_⟩
          · rw [(c2 hd).2.1, hl, List.append_assoc]
          · intro f off ret hm
            rcases List.mem_append.1 hm with e | e
            · obtain ⟨x, hx⟩ := hr _ e
              simp at hx
            · simp at e
        · refine ⟨l, by rw [(c3 (not_not.1 hd)).1, hl], ?_⟩
          intro f off ret hm
          obtain ⟨x, hx⟩ := hr _ hm
          simp at hx
    obtain ⟨l2, hl2, hn2⟩ := hsa
    by_cases hsw : (s1.pte (pte_ptr s1 va)).frame &&& PG_ONSWAP = 0
    · refine ⟨s1, walk_events s va ++ l2 ++ [Event.init_frame f va], hw, ?_, ?_⟩
      · rw [(b13 hsw).1, hl2, hlw]
        simp
      · intro g off ret hm
        simp only [List.mem_append, List.mem_singleton] at hm
        rcases hm with (e | e) | e
        · exact absurd e (hwe _ _ _)
        · exact absurd e (hn2 _ _ _)
        · simp at e
    · refine ⟨s1, walk_events s va ++ l2 ++
        [Event.pagein f (s1.pte (pte_ptr s1 va)).swap_off 0], hw, ?_, ?_⟩
      · rw [(b14 hsw).1, hl2, hlw]
        simp
      · intro g off ret hm
        simp only [List.mem_append, List.mem_singleton] at hm
        rcases hm with (e | e) | e
        · exact absurd e (hwe _ _ _)
        · exact absurd e (hn2 _ _ _)
        · simp only [Event.pagein.injEq] at e
          exact ⟨hsw, e.2.1⟩
  · have hs1 := walk_pagetable_hit hw hv
    subst hs1
    obtain ⟨-, -, g3, -⟩ := find_physpage_hit hw hv h
    exact ⟨s1, [], hw, by rw [g3]; simp, fun _ _ _ hm => by simp at hm⟩

theorem run_pagein_log {w : World} (tr : List (Nat × Char)) : ∀ {s t : State},
    run w s tr = .ok t → AllPteOk s → OnSwapOk s →
    (∀ f off ret, Event.pagein f off ret ∈ s.log → off ≠ INVALID_SWAP) →
    ∀ f off ret, Event.pagein f off ret ∈ t.log → off ≠ INVALID_SWAP := by
  induction tr with
  | nil => intro s t h _ _ hl; simp only [run, Except.ok.injEq] at h; subst h; exact hl
  | cons a tr ih =>
    intro s t h hp hs hl
    obtain ⟨r, u, h1, h2⟩ := run_cons_ok h
    refine ih h2 (find_physpage_allPteOk h1 hp) (find_physpage_onSwapOk h1 hp hs) ?_
    obtain ⟨s1, l, hw, hlog, hin⟩ := find_physpage_pagein_log h1 hp
    intro f off ret hm
    rw [hlog] at hm
    rcases List.mem_append.1 hm with e | e
    · exact hl f off ret e
    · obtain ⟨x1, x2⟩ := hin f off ret e
      rw [x2]
      exact walk_pagetable_onSwapOk hw hs _ x1

/-! ## C37: ON_SWAP entries have a swap offset -/

/-- C37: in every state reached from the initial state by completed `find_physpage` calls,
every PTE with ON_SWAP set has `swap_off ≠ INVALID_SWAP`.  Hence `swap_pagein` is never
called with an invalid offset: in the state in which `find_physpage` fills the allocated
frame, a faulting PTE that is ON_SWAP (the case in which `swap_pagein` is called with its
`swap_off`) has a valid offset, and every page-in recorded in the event log was made with
an offset other than INVALID_SWAP. -/
theorem onswap_has_swap_offset (w : World) (tr : List (Nat × Char)) (s : State)
    (h : run w (init w) tr = .ok s) :
    (∀ q, (s.pte q).frame &&& PG_ONSWAP ≠ 0 → (s.pte q).swap_off ≠ INVALID_SWAP) ∧
    (∀ va, (page s va).frame &&& PG_ONSWAP ≠ 0 → (page s va).swap_off ≠ INVALID_SWAP) ∧
    (∀ va s1 f sa, walk_pagetable w s va = .ok s1 →
      (s1.pte (pte_ptr s1 va)).frame &&& PG_VALID = 0 →
      allocate_frame w s1 (pte_ptr s1 va) = .ok (f, sa) →
      (sa.pte (pte_ptr s1 va)).frame &&& PG_ONSWAP ≠ 0 →
      (sa.pte (pte_ptr s1 va)).swap_off ≠ INVALID_SWAP) ∧
    (∀ f off ret, Event.pagein f off ret ∈ s.log → off ≠ INVALID_SWAP) := by
  have hp := reachable_allPteOk h
  have hs : OnSwapOk s := run_onSwapOk tr h (allPteOk_init w) (onSwapOk_init w)
  refine ⟨hs, fun va hq => ?_, fun va s1 f sa hw hv ha hq => ?_, ?_⟩
  · by_cases hv : dir_valid s va
    · rw [page_of_valid hv] at hq ⊢
      exact hs _ hq
    · rw [page_of_invalid hv] at hq
      exact absurd rfl hq
  · have hp1 := walk_pagetable_allPteOk hw hp
    obtain ⟨e1, e2⟩ := allocate_frame_pte_invalid ha hp1 hv
    rw [e1]
    apply walk_pagetable_onSwapOk hw hs
    rw [ne_eq, onswap_eq_zero_iff] at hq ⊢
    rw [← e2 3 (by decide) (by decide)]
    exact hq
  · refine run_pagein_log tr h (allPteOk_init w) (onSwapOk_init w) ?_
    intro f off ret hm
    rw [init_log] at hm
    simp at hm

theorem onswap_has_swap_offset_witness :
    ((state_after (ample_world 1 .lru) [(4096, 'L'), (8192, 'L')]).pte
      ⟨65536, 1⟩).frame &&& PG_ONSWAP ≠ 0 ∧
    ((state_after (ample_world 1 .lru) [(4096, 'L'), (8192, 'L')]).pte
      ⟨65536, 1⟩).swap_off = 0 ∧
    (state_after (ample_world 1 .lru) [(4096, 'L'), (8192, 'L'), (4096, 'L')]).log =
      [.memalign true, .init_frame 0 4096, .pageout 0 (-1) 0, .init_frame 0 8192,
        .pageout 0 (-1) 16, .pagein 0 0 0] ∧
    ∀ q, ((state_after (ample_world 1 .lru) [(4096, 'L'), (8192, 'L')]).pte q).frame &&&
        PG_ONSWAP ≠ 0 →
      ((state_after (ample_world 1 .lru) [(4096, 'L'), (8192, 'L')]).pte q).swap_off ≠
        INVALID_SWAP :=
  ⟨by decide, by decide, by decide,
    (onswap_has_swap_offset (ample_world 1 .lru) [(4096, 'L'), (8192, 'L')]
      (state_after (ample_world 1 .lru) [(4096, 'L'), (8192, 'L')]) rfl).1⟩

/-! ## C40: the type of an inode -/

namespace ReadImage

theorem and_two_pow_eq_self_iff (x k : Nat) : x &&& 2 ^ k = 2 ^ k ↔ x.testBit k = true := by
  constructor
  · intro h
    have := congrArg (fun y => y.testBit k) h
    simpa [Nat.testBit_and, Nat.testBit_two_pow] using this
  · intro h
    apply Nat.eq_of_testBit_eq
    intro j
    rw [Nat.testBit_and, Nat.testBit_two_pow]
    by_cases hj : k = j
    · subst hj
      simp [h]
    · simp [hj]

theorem ifdir_iff (m : Nat) : m &&& EXT2_S_IFDIR = EXT2_S_IFDIR ↔ m.testBit 14 = true :=
  and_two_pow_eq_self_iff m 14

theorem ifreg_iff (m : Nat) : m &&& EXT2_S_IFREG = EXT2_S_IFREG ↔ m.testBit 15 = true :=
  and_two_pow_eq_self_iff m 15

theorem iflnk_imp (m : Nat) (h : m &&& EXT2_S_IFLNK = EXT2_S_IFLNK) : m.testBit 15 = true := by
  have := congrArg (fun y => y.testBit 15) h
  have e : EXT2_S_IFLNK.testBit 15 = true := by decide
  simpa [Nat.testBit_and, e] using this

theorem field_bits (m c : Nat) (h : file_type_field m = c) :
    m.testBit 14 = c.testBit 14 ∧ m.testBit 15 = c.testBit 15 := by
  unfold file_type_field at h
  have h14 := congrArg (fun y => y.testBit 14) h
  have h15 := congrArg (fun y => y.testBit 15) h
  have e14 : (0xF000 : Nat).testBit 14 = true := by decide
  have e15 : (0xF000 : Nat).testBit 15 = true := by decide
  simp only [Nat.testBit_and, e14, e15, Bool.and_true] at h14 h15
  exact ⟨h14, h15⟩

/-- C40 (the code diverges): `get_inode_type` does not compare the file-type field with the
three codes, it tests `(i_mode & C) == C` for each code `C` in turn.  So it returns 'd'
exactly when bit 0x4000 of `i_mode` is set (also for a block device, 0x6000, and a socket,
0xC000), 'f' exactly when bit 0x4000 is clear and bit 0x8000 is set, which includes every
symbolic link (0xA000), and it never returns 'l': the test for EXT2_S_IFLNK can only hold
when the test for EXT2_S_IFREG, made before, holds.  Directories and regular files are
classified as claimed. -/
theorem get_inode_type_by_bits (m : Nat) :
    (get_inode_type m = 'd' ↔ m.testBit 14 = true) ∧
    (get_inode_type m = 'f' ↔ (m.testBit 14 = false ∧ m.testBit 15 = true)) ∧
    get_inode_type m ≠ 'l' ∧
    (get_inode_type m = Char.ofNat 0 ↔ (m.testBit 14 = false ∧ m.testBit 15 = false)) ∧
    (file_type_field m = EXT2_S_IFDIR → get_inode_type m = 'd') ∧
    (file_type_field m = EXT2_S_IFREG → get_inode_type m = 'f') ∧
    (file_type_field m = EXT2_S_IFLNK → get_inode_type m = 'f') ∧
    (file_type_field m = 0x6000 → get_inode_type m = 'd') ∧
    (file_type_field m = 0xC000 → get_inode_type m = 'd') ∧
    get_inode_type 0xA1FF = 'f' ∧ file_type_field 0xA1FF = EXT2_S_IFLNK := by
  have hd : get_inode_type m = 'd' ↔ m.testBit 14 = true := by
    unfold get_inode_type
    by_cases h14 : m.testBit 14 = true
    · rw [if_pos ((ifdir_iff m).2 h14)]
      simp [h14]
    · rw [if_neg (fun h => h14 ((ifdir_iff m).1 h))]
      simp only [h14, iff_false]
      split
      · decide
      · split
        · decide
        · decide
  have hf : get_inode_type m = 'f' ↔ (m.testBit 14 = false ∧ m.testBit 15 = true) := by
    unfold get_inode_type
    by_cases h14 : m.testBit 14 = true
    · rw [if_pos ((ifdir_iff m).2 h14)]
      simp [h14]
    · rw [if_neg (fun h => h14 ((ifdir_iff m).1 h))]
      by_cases h15 : m.testBit 15 = true
      · rw [if_pos ((ifreg_iff m).2 h15)]
        simp [h14, h15]
      · rw [if_neg (fun h => h15 ((ifreg_iff m).1 h)),
          if_neg (fun h => h15 (iflnk_imp m h))]
        constructor
        · intro h
          exact absurd h (by decide)
        · intro h
          exact absurd h.2 h15
  have hl : get_inode_type m ≠ 'l' := by
    unfold get_inode_type
    by_cases h14 : m.testBit 14 = true
    · rw [if_pos ((ifdir_iff m).2 h14)]
      decide
    · rw [if_neg (fun h => h14 ((ifdir_iff m).1 h))]
      by_cases h15 : m.testBit 15 = true
      · rw [if_pos ((ifreg_iff m).2 h15)]
        decide
      · rw [if_neg (fun h => h15 ((ifreg_iff m).1 h)),
          if_neg (fun h => h15 (iflnk_imp m h))]
        decide
  have h0 : get_inode_type m = Char.ofNat 0 ↔ (m.testBit 14 = false ∧ m.testBit 15 = false) := by
    unfold get_inode_type
    by_cases h14 : m.testBit 14 = true
    · rw [if_pos ((ifdir_iff m).2 h14)]
      simp only [h14, Bool.true_eq_false, false_and, iff_false]
      decide
    · rw [if_neg (fun h => h14 ((ifdir_iff m).1 h))]
      by_cases h15 : m.testBit 15 = true
      · rw [if_pos ((ifreg_iff m).2 h15)]
        simp only [h15, Bool.true_eq_false, and_false, iff_false]
        decide
      · rw [if_neg (fun h => h15 ((ifreg_iff m).1 h)),
          if_neg (fun h => h15 (iflnk_imp m h))]
        simp [h14, h15]
  refine ⟨hd, hf, hl, h0, fun h => ?_, fun h => ?_, fun h => ?_, fun h => ?_, fun h => ?_,
    by decide, by decide⟩
  · exact hd.2 ((field_bits m _ h).1.trans (by decide))
  · exact hf.2 ⟨(field_bits m _ h).1.trans (by decide), (field_bits m _ h).2.trans (by decide)⟩
  · exact hf.2 ⟨(field_bits m _ h).1.trans (by decide), (field_bits m _ h).2.trans (by decide)⟩
  · exact hd.2 ((field_bits m _ h).1.trans (by decide))
  · exact hd.2 ((field_bits m _ h).1.trans (by decide))

end ReadImage

/-! ## One access under LRU, seen from the pages -/

theorem pte_key_valid (e : pgtbl_entry_t) : e.frame &&& PG_VALID ≠ 0 ↔ (pte_key e).1 = true := by
  rw [ne_eq, valid_eq_zero_iff]
  unfold pte_key
  simp

/-- A hit under LRU: the frame of the page is returned and moves to the most-recently-used
end; only the accessed page changes, and it keeps its frame. -/
theorem lru_hit {w : World} {s t : State} {va : Nat} {ty : Char} {r : Nat}
    (hpol : w.policy = .lru) (h : find_physpage w s va ty = .ok (r, t)) (hi : LruInv w s)
    (hv : resident s va) :
    r = ((page s va).frame >>> PAGE_SHIFT) * w.SIMPAGESIZE ∧ t.coremap = s.coremap ∧
    t.pgdir = s.pgdir ∧ t.ntables = s.ntables ∧
    lru_frames t = lru_touch (lru_frames s) ((page s va).frame >>> PAGE_SHIFT) ∧
    (∀ vb, ¬ same_page va vb → page t vb = page s vb) ∧
    pte_key (page t va) = (true, true, (page s va).frame >>> PAGE_SHIFT) ∧
    t.hit_count = s.hit_count + 1 ∧ t.miss_count = s.miss_count ∧
    t.evict_clean_count = s.evict_clean_count ∧
    t.evict_dirty_count = s.evict_dirty_count := by
  obtain ⟨hp, hd, hc, hl, hh⟩ := hi
  obtain ⟨hdv, hval⟩ := hv
  have h0 := h
  unfold find_physpage at h0
  obtain ⟨s1, hw, -⟩ := bind_ok h0
  have e1 := walk_pagetable_valid hw hdv
  rw [e1] at hw
  clear e1 h0
  obtain ⟨g1, g2, -, g4, -, g6, g7, -, g9, g10⟩ := find_physpage_hit hw hval h
  obtain ⟨-, s2, hw1, lhit, -⟩ := find_physpage_lru_step hpol h hp hc hl
  rw [hw] at hw1
  simp only [Except.ok.injEq] at hw1
  rw [← hw1] at lhit
  have hpg : page s va = s.pte (pte_ptr s va) := page_of_valid hdv
  have hdvt : dir_valid t va := by unfold dir_valid at hdv ⊢; rw [g4]; exact hdv
  have hptr : pte_ptr t va = pte_ptr s va := by unfold pte_ptr; rw [g4]
  have htp : ∀ q, t.pte q = (mark_access s (pte_ptr s va) ty).pte q := fun q => pte_of_pgtbls g1 q
  have hmap := mark_access_mapping_self s (pte_ptr s va) ty (hp _).1
  have href := mark_access_ref s (pte_ptr s va) ty
  refine ⟨?_, g2, g4, ((find_physpage_pgdir h).1 hdv).2, ?_, ?_, ?_, g6, g7, g9, g10⟩
  · rw [find_physpage_result hw h, htp, hpg]
    exact congrArg (fun x => x * w.SIMPAGESIZE) (congrArg Prod.snd hmap)
  · rw [hpg]
    exact lhit hval
  · intro vb hne
    apply page_eq_of g4
    intro hvb
    rw [htp]
    apply mark_access_pte_other
    intro e
    exact hne (pte_ptr_inj hd hdv hvb e.symm)
  · rw [page_of_valid hdvt, hptr, htp, hpg]
    unfold pte_key
    have a1 : tbit ((mark_access s (pte_ptr s va) ty).pte (pte_ptr s va)).frame 0 = true :=
      congrArg Prod.fst hmap
    have a2 : tbit ((mark_access s (pte_ptr s va) ty).pte (pte_ptr s va)).frame 2 = true := by
      rw [ne_eq, ref_eq_zero_iff] at href
      simpa using href
    have a3 : ((mark_access s (pte_ptr s va) ty).pte (pte_ptr s va)).frame >>> PAGE_SHIFT =
        (s.pte (pte_ptr s va)).frame >>> PAGE_SHIFT := congrArg Prod.snd hmap
    rw [a1, a2, a3]

theorem pte_key_installed {e : pgtbl_entry_t} {f : Nat} (hv : e.frame &&& PG_VALID ≠ 0)
    (hr : e.frame &&& PG_REF ≠ 0) (hi : e.frame >>> PAGE_SHIFT = f) :
    pte_key e = (true, true, f) := by
  rw [ne_eq, valid_eq_zero_iff] at hv
  rw [ne_eq, ref_eq_zero_iff] at hr
  unfold pte_key
  rw [hi]
  simp only [Bool.not_eq_false] at hv hr
  rw [hv, hr]

theorem pte_key_evicted_dirty (x : Nat) (so : Int) (hx : x < 2 ^ 32) :
    pte_key { frame := (((x ||| PG_ONSWAP) &&& bnot32 PG_DIRTY) &&& bnot32 PG_VALID),
              swap_off := so } = (false, tbit x 2, x >>> PAGE_SHIFT) := by
  unfold pte_key
  simp only
  have h0 : tbit ((((x ||| PG_ONSWAP) &&& bnot32 PG_DIRTY) &&& bnot32 PG_VALID)) 0 = false := by
    simp [tbit_clear_valid]
  have h2 : tbit ((((x ||| PG_ONSWAP) &&& bnot32 PG_DIRTY) &&& bnot32 PG_VALID)) 2 =
      tbit x 2 := by
    simp [tbit_clear_valid, tbit_clear_dirty, tbit_or_onswap]
  have h3 : (((x ||| PG_ONSWAP) &&& bnot32 PG_DIRTY) &&& bnot32 PG_VALID) >>> PAGE_SHIFT =
      x >>> PAGE_SHIFT := by
    apply eq_of_tbit_eq
    intro j
    simp only [tbit_shift, tbit_clear_valid, tbit_clear_dirty, tbit_or_onswap]
    by_cases hj : PAGE_SHIFT + j < 32
    · have a1 : ¬ 3 = PAGE_SHIFT + j := by unfold PAGE_SHIFT; omega
      have a2 : ¬ 1 = PAGE_SHIFT + j := by unfold PAGE_SHIFT; omega
      have a3 : ¬ 0 = PAGE_SHIFT + j := by unfold PAGE_SHIFT; omega
      simp [hj, a1, a2, a3]
    · simp [hj, tbit_of_lt_two_pow hx (by omega : 32 ≤ PAGE_SHIFT + j)]
  rw [h0, h2, h3]

theorem pte_key_evicted_clean (x : Nat) (so : Int) (hx : x < 2 ^ 32) :
    pte_key { frame := ((x &&& bnot32 PG_DIRTY) &&& bnot32 PG_VALID),
              swap_off := so } = (false, tbit x 2, x >>> PAGE_SHIFT) := by
  unfold pte_key
  simp only
  have h0 : tbit (((x &&& bnot32 PG_DIRTY) &&& bnot32 PG_VALID)) 0 = false := by
    simp [tbit_clear_valid]
  have h2 : tbit (((x &&& bnot32 PG_DIRTY) &&& bnot32 PG_VALID)) 2 = tbit x 2 := by
    simp [tbit_clear_valid, tbit_clear_dirty]
  have h3 : ((x &&& bnot32 PG_DIRTY) &&& bnot32 PG_VALID) >>> PAGE_SHIFT =
      x >>> PAGE_SHIFT := by
    apply eq_of_tbit_eq
    intro j
    simp only [tbit_shift, tbit_clear_valid, tbit_clear_dirty]
    by_cases hj : PAGE_SHIFT + j < 32
    · have a2 : ¬ 1 = PAGE_SHIFT + j := by unfold PAGE_SHIFT; omega
      have a3 : ¬ 0 = PAGE_SHIFT + j := by unfold PAGE_SHIFT; omega
      simp [hj, a2, a3]
    · simp [hj, tbit_of_lt_two_pow hx (by omega : 32 ≤ PAGE_SHIFT + j)]
  rw [h0, h2, h3]

/-- Two resident pages in the same frame are the same page. -/
theorem same_frame_same_page {w : World} {s : State} (hd : DirOk s) (hc : CoreOk w s)
    {va vb : Nat} (ha : resident s va) (hb : resident s vb)
    (he : (page s va).frame >>> PAGE_SHIFT = (page s vb).frame >>> PAGE_SHIFT) :
    same_page va vb := by
  rw [page_of_valid ha.1, page_of_valid hb.1] at he
  have k1 := (hc.2.1 _ ha.2).2.2
  have k2 := (hc.2.1 _ hb.2).2.2
  rw [he, k2] at k1
  simp only [Option.some.injEq] at k1
  exact pte_ptr_inj hd ha.1 hb.1 k1.symm

theorem key_after_same (f : Nat) (k : Bool × Bool × Nat) : key_after true f k = (true, true, f) := by
  simp [key_after]

theorem key_after_other {f : Nat} {k : Bool × Bool × Nat} (h : ¬ (k.1 = true ∧ k.2.2 = f)) :
    key_after false f k = k := by
  unfold key_after
  simp only [Bool.false_eq_true, if_false]
  rw [if_neg h]

theorem key_after_victim {f : Nat} {k : Bool × Bool × Nat} (h1 : k.1 = true) (h2 : k.2.2 = f) :
    key_after false f k = (false, k.2.1, f) := by
  unfold key_after
  simp only [Bool.false_eq_true, if_false]
  rw [if_pos ⟨h1, h2⟩]

theorem resident_key (s : State) (va : Nat) : resident s va ↔ (pte_key (page s va)).1 = true := by
  rw [resident_iff, pte_key_valid]

/-- One access under LRU, in terms of the frame it uses: that frame is returned and becomes
the most recently used; the accessed page ends VALID and REFERENCED in it, the page that
held it (on an eviction) loses VALID, and no other page changes its VALID bit, REFERENCED
bit or frame. -/
theorem lru_step {w : World} {s t : State} {va : Nat} {ty : Char} {r : Nat}
    (hpol : w.policy = .lru) (h : find_physpage w s va ty = .ok (r, t)) (hi : LruInv w s) :
    r = lru_frame_for w s va * w.SIMPAGESIZE ∧
    lru_frames t = lru_touch (lru_frames s) (lru_frame_for w s va) ∧
    (∀ vb, pte_key (page t vb) =
      key_after (decide (same_page va vb)) (lru_frame_for w s va) (pte_key (page s vb))) ∧
    (resident s va → t.coremap = s.coremap ∧ t.hit_count = s.hit_count + 1 ∧
      t.miss_count = s.miss_count ∧ t.evict_clean_count = s.evict_clean_count ∧
      t.evict_dirty_count = s.evict_dirty_count) ∧
    (¬ resident s va →
      t.coremap = (s.set_coremap (lru_frame_for w s va) (pte_ptr t va)).coremap ∧
      t.hit_count = s.hit_count ∧ t.miss_count = s.miss_count + 1 ∧
      t.evict_clean_count + t.evict_dirty_count =
        s.evict_clean_count + s.evict_dirty_count +
          (if first_free s.coremap 0 w.memsize = none then 1 else 0)) ∧
    (¬ resident s va → first_free s.coremap 0 w.memsize = none →
      ∃ rest, lru_frames s = lru_frame_for w s va :: rest) := by
  have hi0 := hi
  obtain ⟨hp, hd, hc, hl, hh⟩ := hi
  by_cases hres : resident s va
  · have hf : lru_frame_for w s va = (page s va).frame >>> PAGE_SHIFT := by
      unfold lru_frame_for
      rw [if_pos ((resident_iff s va).1 hres)]
    rw [hf]
    obtain ⟨a1, a2, a3, a4, a5, a6, a7, a8, a9, a10, a11⟩ := lru_hit hpol h hi0 hres
    refine ⟨a1, a5, fun vb => ?_, fun _ => ⟨a2, a8, a9, a10, a11⟩, fun hn => absurd hres hn,
      fun hn => absurd hres hn⟩
    by_cases hsp : same_page va vb
    · rw [← page_same_page hsp, a7]
      simp [hsp, key_after_same]
    · rw [a6 vb hsp]
      simp only [hsp, decide_False]
      rw [key_after_other]
      intro ⟨k1, k2⟩
      exact hsp (same_frame_same_page hd hc hres ((resident_key s vb).2 k1) k2.symm)
  · have hnv : (page s va).frame &&& PG_VALID = 0 := by
      by_contra hne
      exact hres ((resident_iff s va).2 hne)
    cases hff : first_free s.coremap 0 w.memsize with
    | some f0 =>
      have hf : lru_frame_for w s va = f0 := by
        unfold lru_frame_for
        rw [if_neg (not_not.2 hnv), hff]
      rw [hf]
      obtain ⟨-, a2, a3, a4, a5, a6, a7, a8, a9, a10, a11, a12⟩ :=
        lru_fault_free hpol h hi0 hnv hff
      obtain ⟨-, -, hfree, -⟩ := first_free_some _ _ _ _ hff
      refine ⟨a2, a6, fun vb => ?_, fun hn => absurd hn hres,
        fun _ => ⟨a3, a9, a10, by simp; omega⟩, fun _ hn => by simp at hn⟩
      by_cases hsp : same_page va vb
      · rw [← page_same_page hsp, pte_key_installed a8.1 a8.2.1 a8.2.2.2.1]
        simp [hsp, key_after_same]
      · rw [a7 vb hsp]
        simp only [hsp, decide_False]
        rw [key_after_other]
        intro ⟨k1, k2⟩
        have hrb := (resident_key s vb).2 k1
        have k3 := (hc.2.1 _ hrb.2).2.1
        rw [page_of_valid hrb.1] at k2
        unfold pte_key at k2
        simp only at k2
        rw [k2, hfree] at k3
        exact absurd k3 (by decide)
    | none =>
      -- the head of the LRU list and the page it holds
      obtain ⟨-, s1, hw, -, lfault⟩ := find_physpage_lru_step hpol h hp hc hl
      obtain ⟨c1, -⟩ := walk_pagetable_frame hw
      obtain ⟨-, hdv1, -⟩ := walk_pagetable_dirOk hw hd
      have hpv : page s va = s1.pte (pte_ptr s1 va) := by
        rw [← page_walk hw hd va, page_of_valid hdv1]
      rw [hpv] at hnv
      obtain ⟨f0, sa, -, -, -, e3⟩ := lfault hnv
      rw [c1] at e3
      have hfr := e3 hff
      rw [← hpv] at hnv
      have hf : lru_frame_for w s va = f0 := by
        unfold lru_frame_for
        rw [if_neg (not_not.2 hnv), hff, hfr]
        rfl
      rw [hf]
      have hmem : f0 ∈ lru_frames s := by rw [hfr]; simp
      obtain ⟨hfm, hfu⟩ := (lruOk_mem hl f0).1 hmem
      obtain ⟨q, q1, q2, q3⟩ := hc.1 f0 hfm hfu
      obtain ⟨vv, hdvv, hq⟩ := hh f0 q q1
      rw [hq] at q1 q2 q3
      have hrv : resident s vv := ⟨hdvv, q2⟩
      obtain ⟨a1, a2, a3, a4, a5, a6, a7, a8, a9, a10, a11, a12⟩ :=
        lru_fault_evict hpol h hi0 hnv hff hfr q1 hdvv
      have hnd := lruOk_nodup hl
      rw [hfr] at hnd
      have hnot : f0 ∉ lru_frames sa := (List.nodup_cons.1 hnd).1
      have hx : (page s vv).frame < 2 ^ 32 := by
        rw [page_of_valid hdvv]
        exact (hp _).1
      have hkv : pte_key (page s vv) = (true, tbit (page s vv).frame 2, f0) := by
        unfold pte_key
        rw [page_of_valid hdvv, q3]
        have := q2
        rw [ne_eq, valid_eq_zero_iff] at this
        simp only [Bool.not_eq_false] at this
        rw [this]
      have hkt : pte_key (page t vv) = (false, tbit (page s vv).frame 2, f0) := by
        have hidx : (page s vv).frame >>> PAGE_SHIFT = f0 := by
          rw [page_of_valid hdvv]
          exact q3
        by_cases hdirty : (page s vv).frame &&& PG_DIRTY = 0
        · obtain ⟨-, d2, -⟩ := a12 hdirty
          rw [d2, pte_key_evicted_clean _ _ hx, hidx]
        · obtain ⟨-, -, d3, -⟩ := a11 hdirty
          rw [d3, pte_key_evicted_dirty _ _ hx, hidx]
      have hcnt : t.evict_clean_count + t.evict_dirty_count =
          s.evict_clean_count + s.evict_dirty_count + 1 := by
        by_cases hdirty : (page s vv).frame &&& PG_DIRTY = 0
        · obtain ⟨-, -, d3, d4⟩ := a12 hdirty
          omega
        · obtain ⟨-, -, -, d4, d5⟩ := a11 hdirty
          omega
      refine ⟨a1, ?_, fun vb => ?_, fun hn => absurd hn hres,
        fun _ => ⟨a2, a8, a9, by simpa using hcnt⟩, fun _ _ => ⟨_, hfr⟩⟩
      · rw [a5, hfr]
        unfold lru_touch
        rw [List.erase_cons_head, List.erase_of_not_mem hnot]
      · by_cases hsp : same_page va vb
        · rw [← page_same_page hsp, pte_key_installed a7.1 a7.2.1 a7.2.2.2.1]
          simp [hsp, key_after_same]
        · simp only [hsp, decide_False]
          by_cases hsv : same_page vv vb
          · rw [← page_same_page hsv, ← page_same_page hsv, hkt, hkv]
            exact (key_after_victim (k := (true, tbit (page s vv).frame 2, f0)) rfl rfl).symm
          · rw [a6 vb hsp hsv]
            rw [key_after_other]
            intro ⟨k1, k2⟩
            have hrb := (resident_key s vb).2 k1
            apply hsv
            apply same_frame_same_page hd hc hrv hrb
            rw [page_of_valid hdvv, q3]
            exact k2.symm

/-! ## Runs that differ only in the access types -/

theorem sameButDirty_refl (s : State) : SameButDirty s s :=
  ⟨⟨rfl, rfl⟩, rfl, rfl, fun _ => rfl, rfl, rfl, rfl, rfl⟩

theorem sameButDirty_resident {s t : State} (h : SameButDirty s t) (va : Nat) :
    resident t va ↔ resident s va := by
  rw [resident_key, resident_key, h.2.2.2.1 va]

theorem lru_frame_for_congr {w1 w2 : World} {s t : State} (hm : w2.memsize = w1.memsize)
    (h : SameButDirty s t) (va : Nat) : lru_frame_for w2 t va = lru_frame_for w1 s va := by
  obtain ⟨-, hcm, hfr, hk, -⟩ := h
  have hv : (page t va).frame &&& PG_VALID ≠ 0 ↔ (page s va).frame &&& PG_VALID ≠ 0 := by
    rw [pte_key_valid, pte_key_valid, hk va]
  have hidx : (page t va).frame >>> PAGE_SHIFT = (page s va).frame >>> PAGE_SHIFT :=
    congrArg (fun k => k.2.2) (hk va)
  unfold lru_frame_for
  rw [hm, hcm, hfr, hidx]
  by_cases hs : (page s va).frame &&& PG_VALID ≠ 0
  · rw [if_pos hs, if_pos (hv.2 hs)]
  · rw [if_neg hs, if_neg (fun e => hs (hv.1 e))]

/-- One access made in two states that agree up to DIRTY bits and swap state, with any two
access types: the same frame is returned, the access is a hit in both or a miss in both, and
the states after the access agree in the same way. -/
theorem sameButDirty_step {w1 w2 : World} {s t s2 t2 : State} {va : Nat} {ty1 ty2 : Char}
    {r1 r2 : Nat} (hp1 : w1.policy = .lru) (hp2 : w2.policy = .lru)
    (hm : w2.memsize = w1.memsize) (hsz : w2.SIMPAGESIZE = w1.SIMPAGESIZE)
    (hs : LruInv w1 s) (ht : LruInv w2 t) (hst : SameButDirty s t)
    (h1 : find_physpage w1 s va ty1 = .ok (r1, s2))
    (h2 : find_physpage w2 t va ty2 = .ok (r2, t2)) :
    r2 = r1 ∧ SameButDirty s2 t2 := by
  obtain ⟨a1, a2, a3, a4, a5, a6⟩ := lru_step hp1 h1 hs
  obtain ⟨b1, b2, b3, b4, b5, b6⟩ := lru_step hp2 h2 ht
  have hf := @lru_frame_for_congr w1 w2 s t hm hst va
  have hres := sameButDirty_resident hst va
  obtain ⟨⟨d1, d2⟩, hcm, hfr, hk, c1, c2, c3, c4⟩ := hst
  have hdv : dir_valid t va ↔ dir_valid s va := by unfold dir_valid; rw [d1]
  have hdir : SameDir s2 t2 := by
    by_cases hv : dir_valid s va
    · obtain ⟨e1, e2⟩ := (find_physpage_pgdir h1).1 hv
      obtain ⟨e3, e4⟩ := (find_physpage_pgdir h2).1 (hdv.2 hv)
      exact ⟨by rw [e1, e3, d1], by rw [e2, e4, d2]⟩
    · obtain ⟨e1, e2⟩ := (find_physpage_pgdir h1).2 hv
      obtain ⟨e3, e4⟩ := (find_physpage_pgdir h2).2 (fun e => hv (hdv.1 e))
      exact ⟨by rw [e2, e4, d1, d2], by rw [e1, e3, d2]⟩
  have hptr : pte_ptr t2 va = pte_ptr s2 va := by unfold pte_ptr; rw [hdir.1]
  have hrc1 := (find_physpage_counters h1).1
  have hrc2 := (find_physpage_counters h2).1
  refine ⟨by rw [a1, b1, hf, hsz], hdir, ?_, by rw [a2, b2, hf, hfr], fun vb => ?_, ?_, ?_,
    by omega, ?_⟩
  · by_cases hv : resident s va
    · rw [(a4 hv).1, (b4 (hres.2 hv)).1, hcm]
    · rw [(a5 hv).1, (b5 (fun e => hv (hres.1 e))).1, hf, hptr]
      show (fun i => if i = _ then _ else t.coremap i) = fun i => if i = _ then _ else s.coremap i
      rw [hcm]
  · rw [a3 vb, b3 vb, hf, hk vb]
  · by_cases hv : resident s va
    · have := (a4 hv).2.1
      have := (b4 (hres.2 hv)).2.1
      omega
    · have := (a5 hv).2.1
      have := (b5 (fun e => hv (hres.1 e))).2.1
      omega
  · by_cases hv : resident s va
    · have := (a4 hv).2.2.1
      have := (b4 (hres.2 hv)).2.2.1
      omega
    · have := (a5 hv).2.2.1
      have := (b5 (fun e => hv (hres.1 e))).2.2.1
      omega
  · by_cases hv : resident s va
    · obtain ⟨-, -, -, x1, x2⟩ := a4 hv
      obtain ⟨-, -, -, y1, y2⟩ := b4 (hres.2 hv)
      omega
    · have x := (a5 hv).2.2.2
      have y := (b5 (fun e => hv (hres.1 e))).2.2.2
      rw [hm, hcm] at y
      omega

theorem run_sameButDirty {w1 w2 : World} (hp1 : w1.policy = .lru) (hp2 : w2.policy = .lru)
    (hm : w2.memsize = w1.memsize) (hsz : w2.SIMPAGESIZE = w1.SIMPAGESIZE)
    (tr1 : List (Nat × Char)) : ∀ (tr2 : List (Nat × Char)) {s t s2 t2 : State},
    tr2.map Prod.fst = tr1.map Prod.fst →
    run w1 s tr1 = .ok s2 → run w2 t tr2 = .ok t2 →
    LruInv w1 s → LruInv w2 t → SameButDirty s t →
    LruInv w1 s2 ∧ LruInv w2 t2 ∧ SameButDirty s2 t2 := by
  induction tr1 with
  | nil =>
    intro tr2 s t s2 t2 hva h1 h2 hs ht hst
    cases tr2 with
    | nil =>
      simp only [run, Except.ok.injEq] at h1 h2
      subst h1
      subst h2
      exact ⟨hs, ht, hst⟩
    | cons b tr2 => simp at hva
  | cons a tr1 ih =>
    intro tr2 s t s2 t2 hva h1 h2 hs ht hst
    cases tr2 with
    | nil => simp at hva
    | cons b tr2 =>
      simp only [List.map_cons, List.cons.injEq] at hva
      obtain ⟨hab, hva2⟩ := hva
      obtain ⟨r1, u1, g1, g2⟩ := run_cons_ok h1
      obtain ⟨r2, u2, g3, g4⟩ := run_cons_ok h2
      rw [hab] at g3
      exact ih tr2 hva2 g2 g4 (find_physpage_lruInv hp1 g1 hs) (find_physpage_lruInv hp2 g3 ht)
        (sameButDirty_step hp1 hp2 hm hsz hs ht hst g1 g3).2

theorem init_lru (w1 w2 : World) (hp1 : w1.policy = .lru) (hp2 : w2.policy = .lru) :
    init w2 = init w1 := by
  unfold init
  rw [hp1, hp2]

/-- The accessed page is found through a valid directory entry after the access. -/
theorem find_physpage_dir_valid {w : World} {s t : State} {va : Nat} {ty : Char} {r : Nat}
    (h : find_physpage w s va ty = .ok (r, t)) (hd : DirOk s) : dir_valid t va := by
  have h0 := h
  unfold find_physpage at h0
  obtain ⟨s1, hw, -⟩ := bind_ok h0
  obtain ⟨-, hdv, -⟩ := walk_pagetable_dirOk hw hd
  have hsd := find_physpage_sameDir hw h
  unfold dir_valid at hdv ⊢
  rw [hsd.1]
  exact hdv

/-! ## C38: the access types do not change the outcome under LRU -/

/-- C38: under LRU, take two runs from the initial state with the same `memsize` (and frame
size) whose traces have the same sequence of virtual addresses but any access types, both
completed, reaching `s` and `t`.  Then the hit, miss and reference counts agree and so does
the number of evictions (`evict_clean_count + evict_dirty_count`); the states agree on the
directory, the coremap, the LRU order and the VALID bit, REFERENCED bit and frame of every
page, so the same pages are resident.  And the next access to any address, of any two
types, returns the same pointer and the same frame in both runs and is a hit in both or a
miss in both; as `s` and `t` are the states after any two such prefixes, this holds for
every access of the two runs.  DIRTY bits, ON_SWAP bits, `swap_off`, the swap log and the
split of the evictions into clean and dirty are not claimed equal. -/
theorem lru_outcomes_independent_of_access_types (w1 w2 : World)
    (hp1 : w1.policy = .lru) (hp2 : w2.policy = .lru)
    (hm : w2.memsize = w1.memsize) (hsz : w2.SIMPAGESIZE = w1.SIMPAGESIZE)
    (tr1 tr2 : List (Nat × Char)) (hva : tr2.map Prod.fst = tr1.map Prod.fst)
    (s t : State) (h1 : run w1 (init w1) tr1 = .ok s) (h2 : run w2 (init w2) tr2 = .ok t) :
    t.hit_count = s.hit_count ∧ t.miss_count = s.miss_count ∧ t.ref_count = s.ref_count ∧
    t.evict_clean_count + t.evict_dirty_count = s.evict_clean_count + s.evict_dirty_count ∧
    SameButDirty s t ∧ (∀ va, resident t va ↔ resident s va) ∧
    ∀ va ty1 ty2 r1 r2 s2 t2,
      find_physpage w1 s va ty1 = .ok (r1, s2) → find_physpage w2 t va ty2 = .ok (r2, t2) →
      r2 = r1 ∧ accessed_frame t2 va = accessed_frame s2 va ∧
      (t2.hit_count = t.hit_count + 1 ↔ s2.hit_count = s.hit_count + 1) ∧
      (t2.miss_count = t.miss_count + 1 ↔ s2.miss_count = s.miss_count + 1) := by
  have hinit : SameButDirty (init w1) (init w2) := by
    rw [init_lru w1 w2 hp1 hp2]
    exact sameButDirty_refl _
  obtain ⟨hs, ht, hst⟩ := run_sameButDirty hp1 hp2 hm hsz tr1 tr2 hva h1 h2
    (lruInv_init w1 hp1) (lruInv_init w2 hp2) hinit
  refine ⟨hst.2.2.2.2.1, hst.2.2.2.2.2.1, hst.2.2.2.2.2.2.1, hst.2.2.2.2.2.2.2, hst,
    sameButDirty_resident hst, ?_⟩
  intro va ty1 ty2 r1 r2 s2 t2 g1 g2
  obtain ⟨e1, e2⟩ := sameButDirty_step hp1 hp2 hm hsz hs ht hst g1 g2
  have d1 := find_physpage_dir_valid g1 hs.2.1
  have d2 := find_physpage_dir_valid g2 ht.2.1
  refine ⟨e1, ?_, ?_, ?_⟩
  · rw [accessed_frame_page d1, accessed_frame_page d2]
    exact congrArg (fun k => k.2.2) (e2.2.2.2.1 va)
  · rw [e2.2.2.2.2.1, hst.2.2.2.2.1]
  · rw [e2.2.2.2.2.2.1, hst.2.2.2.2.2.1]

theorem lru_outcomes_independent_of_access_types_witness :
    (state_after (demo_world 1 .lru 4)
      [(4096, 'S'), (8192, 'S'), (4096, 'S'), (8192, 'S')]).miss_count =
      (state_after (demo_world 1 .lru 4)
        [(4096, 'L'), (8192, 'L'), (4096, 'L'), (8192, 'L')]).miss_count ∧
    (state_after (demo_world 1 .lru 4)
      [(4096, 'L'), (8192, 'L'), (4096, 'L'), (8192, 'L')]).evict_clean_count = 1 ∧
    (state_after (demo_world 1 .lru 4)
      [(4096, 'L'), (8192, 'L'), (4096, 'L'), (8192, 'L')]).evict_dirty_count = 2 ∧
    (state_after (demo_world 1 .lru 4)
      [(4096, 'S'), (8192, 'S'), (4096, 'S'), (8192, 'S')]).evict_clean_count = 0 ∧
    (state_after (demo_world 1 .lru 4)
      [(4096, 'S'), (8192, 'S'), (4096, 'S'), (8192, 'S')]).evict_dirty_count = 3 :=
  ⟨(lru_outcomes_independent_of_access_types (demo_world 1 .lru 4) (demo_world 1 .lru 4)
      rfl rfl rfl rfl [(4096, 'L'), (8192, 'L'), (4096, 'L'), (8192, 'L')]
      [(4096, 'S'), (8192, 'S'), (4096, 'S'), (8192, 'S')] rfl
      (state_after (demo_world 1 .lru 4) [(4096, 'L'), (8192, 'L'), (4096, 'L'), (8192, 'L')])
      (state_after (demo_world 1 .lru 4) [(4096, 'S'), (8192, 'S'), (4096, 'S'), (8192, 'S')])
      rfl rfl).2.1, by decide, by decide, by decide, by decide⟩

/-! ## The pages kept under LRU -/

theorem run_snoc {w : World} (tr : List (Nat × Char)) (a : Nat × Char) : ∀ {s t : State},
    run w s (tr ++ [a]) = .ok t →
    ∃ u r, run w s tr = .ok u ∧ find_physpage w u a.1 a.2 = .ok (r, t) := by
  induction tr with
  | nil =>
    intro s t h
    obtain ⟨r, u, h1, h2⟩ := @run_cons_ok w s t a [] h
    simp only [run, Except.ok.injEq] at h2
    subst h2
    exact ⟨s, r, rfl, h1⟩
  | cons b tr ih =>
    intro s t h
    obtain ⟨r, u, h1, h2⟩ := @run_cons_ok w s t b (tr ++ [a]) h
    obtain ⟨v, r2, h3, h4⟩ := ih h2
    refine ⟨v, r2, ?_, h4⟩
    unfold run
    rw [h1]
    exact h3

theorem last_access_lt (hist : List (Nat × Char)) : ∀ (va i : Nat),
    last_access hist va = some i → i < hist.length := by
  induction hist using List.reverseRecOn with
  | nil =>
    intro va i h
    simp [last_access] at h
  | append_singleton l a ih =>
    intro va i h
    rw [last_access_snoc] at h
    rw [List.length_append, List.length_singleton]
    split at h
    · simp only [Option.some.injEq] at h
      omega
    · have := ih va i h
      omega

/-- The states reached under LRU satisfy the LRU invariants, and the timestamps kept along
the run order the LRU list. -/
theorem reachable_lruInv {w : World} (hpol : w.policy = .lru) {tr : List (Nat × Char)}
    {s : State} (h : run w (init w) tr = .ok s) :
    LruInv w s ∧ ∃ st, TsInv s st tr := by
  obtain ⟨st, hrun⟩ := run_run_ts tr ts_lru_init h
  obtain ⟨hp, hd, hc, hl, hh, hts⟩ := reachable_ts_inv hpol hrun
  exact ⟨⟨hp, hd, hc, hl, hh⟩, st, hts⟩

theorem reachable_in_use_count {w : World} {tr : List (Nat × Char)} {s : State}
    (h : run w (init w) tr = .ok s) : in_use_count w s = min s.miss_count w.memsize := by
  obtain ⟨a1, -, a3⟩ := run_in_use tr h (allPteOk_init w)
  obtain ⟨c1, c2, c3, c4, c5⟩ := init_counters w
  rw [in_use_count_init] at a1
  have hle : in_use_count w s ≤ w.memsize := used_below_le _ _
  by_cases hz : s.evict_clean_count + s.evict_dirty_count = 0
  · omega
  · have := a3 (by omega)
    omega

theorem full_in_use_count {w : World} {s : State}
    (h : first_free s.coremap 0 w.memsize = none) : in_use_count w s = w.memsize := by
  apply used_below_all
  intro i hi
  exact (first_free_none_iff _ _ _).1 h i (Nat.zero_le _) (by omega)

theorem in_use_count_full {w : World} {s : State} (hc : CoreOk w s)
    (h : in_use_count w s = w.memsize) : first_free s.coremap 0 w.memsize = none := by
  rw [first_free_none_iff]
  intro j _ hj
  have := used_below_segment s.coremap w.memsize hc.2.2.2 j (by omega)
  rw [this]
  unfold in_use_count at h
  omega

/-- A frame of the LRU list holds a resident page. -/
theorem frame_holder {w : World} {s : State} (hi : LruInv w s) {f : Nat}
    (hf : f ∈ lru_frames s) :
    ∃ vv, resident s vv ∧ (page s vv).frame >>> PAGE_SHIFT = f := by
  obtain ⟨hp, hd, hc, hl, hh⟩ := hi
  obtain ⟨hfm, hfu⟩ := (lruOk_mem hl f).1 hf
  obtain ⟨q, q1, q2, q3⟩ := hc.1 f hfm hfu
  obtain ⟨vv, hdvv, hq⟩ := hh f q q1
  rw [hq] at q2 q3
  exact ⟨vv, ⟨hdvv, q2⟩, by rw [page_of_valid hdvv]; exact q3⟩

/-- The frame of a resident page is in the LRU list. -/
theorem resident_frame_mem {w : World} {s : State} (hi : LruInv w s) {va : Nat}
    (hv : resident s va) : (page s va).frame >>> PAGE_SHIFT ∈ lru_frames s := by
  obtain ⟨hp, hd, hc, hl, hh⟩ := hi
  rw [page_of_valid hv.1]
  obtain ⟨k1, k2, -⟩ := hc.2.1 _ hv.2
  exact (lruOk_mem hl _).2 ⟨k1, k2⟩

/-- The page in the frame at the head of the LRU list was referenced before every other
resident page. -/
theorem lru_victim_oldest {w : World} {s : State} {st : Stamps} {hist : List (Nat × Char)}
    (hi : LruInv w s) (hts : TsInv s st hist) {f : Nat} {rest : List Nat}
    (hfr : lru_frames s = f :: rest) {vv vc : Nat} (hv : resident s vv)
    (hvf : (page s vv).frame >>> PAGE_SHIFT = f) (hc : resident s vc)
    (hne : ¬ same_page vv vc) :
    ∃ i j, last_access hist vv = some i ∧ last_access hist vc = some j ∧ i < j := by
  obtain ⟨-, ⟨hsort, -⟩, h3⟩ := hts
  refine ⟨_, _, h3 vv hv, h3 vc hc, ?_⟩
  rw [accessed_frame_page hv.1, accessed_frame_page hc.1, hvf]
  have hmem := resident_frame_mem hi hc
  rw [hfr] at hmem hsort
  have hg : (page s vc).frame >>> PAGE_SHIFT ≠ f := by
    intro e
    exact hne (same_frame_same_page hi.2.1 hi.2.2.1 hv hc (by rw [hvf, e]))
  have hmem2 : (page s vc).frame >>> PAGE_SHIFT ∈ rest := by
    rcases List.mem_cons.1 hmem with e | e
    · exact absurd e hg
    · exact e
  exact (List.pairwise_cons.1 hsort).1 _ hmem2

/-- The resident pages after one access under LRU: the accessed page, and the pages that
were resident in another frame than the one the access uses. -/
theorem lru_step_resident {w : World} {s t : State} {va : Nat} {ty : Char} {r : Nat}
    (hpol : w.policy = .lru) (h : find_physpage w s va ty = .ok (r, t)) (hi : LruInv w s)
    (vb : Nat) :
    resident t vb ↔ (same_page va vb ∨
      (resident s vb ∧ (page s vb).frame >>> PAGE_SHIFT ≠ lru_frame_for w s va)) := by
  obtain ⟨-, -, a3, -⟩ := lru_step hpol h hi
  rw [resident_key, a3 vb, resident_key]
  by_cases hsp : same_page va vb
  · simp [hsp, key_after_same]
  · simp only [hsp, decide_False, false_or]
    by_cases hk : (pte_key (page s vb)).1 = true ∧ (pte_key (page s vb)).2.2 = lru_frame_for w s va
    · rw [key_after_victim hk.1 hk.2]
      constructor
      · intro e
        exact Bool.noConfusion e
      · intro ⟨_, e⟩
        exact absurd hk.2 e
    · rw [key_after_other hk]
      constructor
      · intro e
        exact ⟨e, fun e2 => hk ⟨e, e2⟩⟩
      · intro e
        exact e.1

/-- Unless the access evicts, no page stops being resident. -/
theorem lru_step_keeps {w : World} {s : State} {va : Nat} (hi : LruInv w s)
    (hcase : resident s va ∨ first_free s.coremap 0 w.memsize ≠ none)
    {vb : Nat} (hb : resident s vb) (hne : ¬ same_page va vb) :
    (page s vb).frame >>> PAGE_SHIFT ≠ lru_frame_for w s va := by
  intro e
  by_cases hres : resident s va
  · have hf : lru_frame_for w s va = (page s va).frame >>> PAGE_SHIFT := by
      unfold lru_frame_for
      rw [if_pos ((resident_iff s va).1 hres)]
    rw [hf] at e
    exact hne (same_frame_same_page hi.2.1 hi.2.2.1 hres hb e.symm)
  · rcases hcase with hc | hc
    · exact hres hc
    · cases hff : first_free s.coremap 0 w.memsize with
      | none => exact hc hff
      | some f0 =>
        have hnv : ¬ (page s va).frame &&& PG_VALID ≠ 0 := fun e2 =>
          hres ((resident_iff s va).2 e2)
        have hf : lru_frame_for w s va = f0 := by
          unfold lru_frame_for
          rw [if_neg hnv, hff]
        rw [hf] at e
        obtain ⟨-, -, hfree, -⟩ := first_free_some _ _ _ _ hff
        have k3 := (hi.2.2.1.2.1 _ hb.2).2.1
        rw [page_of_valid hb.1] at e
        rw [e, hfree] at k3
        exact absurd k3 (by decide)

/-- On an eviction the frame used is the head of the LRU list. -/
theorem lru_step_evicts {w : World} {s t : State} {va : Nat} {ty : Char} {r : Nat}
    (hpol : w.policy = .lru) (h : find_physpage w s va ty = .ok (r, t)) (hi : LruInv w s)
    {vb : Nat} (hb : resident s vb) (hne : ¬ same_page va vb)
    (he : (page s vb).frame >>> PAGE_SHIFT = lru_frame_for w s va) :
    ¬ resident s va ∧ first_free s.coremap 0 w.memsize = none ∧
    ∃ rest, lru_frames s = lru_frame_for w s va :: rest := by
  have hcase : ¬ (resident s va ∨ first_free s.coremap 0 w.memsize ≠ none) := fun hc =>
    lru_step_keeps hi hc hb hne he
  rw [not_or, not_not] at hcase
  obtain ⟨-, -, -, -, -, a6⟩ := lru_step hpol h hi
  exact ⟨hcase.1, hcase.2, a6 hcase.1 hcase.2⟩

theorem not_resident_init (w : World) (va : Nat) : ¬ resident (init w) va := by
  rw [resident_iff, page_init]
  simp

/-- Under LRU the resident pages of a reachable state are closed under "referenced more
recently", and while a frame is free every page referenced so far is resident. -/
theorem reachable_recency {w : World} (hpol : w.policy = .lru) (tr : List (Nat × Char)) :
    ∀ (s : State), run w (init w) tr = .ok s →
    recency_closed s tr ∧
    (first_free s.coremap 0 w.memsize ≠ none →
      ∀ vc j, last_access tr vc = some j → resident s vc) := by
  induction tr using List.reverseRecOn with
  | nil =>
    intro s _
    constructor
    · intro va vb i j _ hi
      simp [last_access] at hi
    · intro _ vc j hj
      simp [last_access] at hj
  | append_singleton l a ih =>
    intro t h
    obtain ⟨s, r, hs, hstep⟩ := run_snoc l a h
    obtain ⟨hcl, hne⟩ := ih s hs
    obtain ⟨hi, st, hts⟩ := reachable_lruInv hpol hs
    constructor
    · intro vb vc i j hb hli hlj hij
      rw [last_access_snoc] at hli hlj
      by_cases hsc : same_page a.1 vc
      · exact (lru_step_resident hpol hstep hi vc).2 (Or.inl hsc)
      · rw [if_neg hsc] at hlj
        have hjl := last_access_lt l vc j hlj
        by_cases hsb : same_page a.1 vb
        · rw [if_pos hsb] at hli
          simp only [Option.some.injEq] at hli
          omega
        · rw [if_neg hsb] at hli
          rcases (lru_step_resident hpol hstep hi vb).1 hb with e | ⟨hbs, hbf⟩
          · exact absurd e hsb
          · have hcs := hcl vb vc i j hbs hli hlj hij
            refine (lru_step_resident hpol hstep hi vc).2 (Or.inr ⟨hcs, fun e => ?_⟩)
            obtain ⟨-, -, rest, hfr⟩ := lru_step_evicts hpol hstep hi hcs hsc e
            have hnp : ¬ same_page vc vb := by
              intro e2
              rw [page_same_page e2] at e
              exact hbf e
            obtain ⟨i2, j2, k1, k2, k3⟩ := lru_victim_oldest hi hts hfr hcs e hbs hnp
            rw [hlj] at k1
            rw [hli] at k2
            simp only [Option.some.injEq] at k1 k2
            omega
    · intro hfree vc j hlj
      have hfs : first_free s.coremap 0 w.memsize ≠ none := by
        intro e
        apply hfree
        rw [first_free_none_iff] at e ⊢
        intro i h1 h2
        exact (find_physpage_in_use hstep hi.1).2.1 i (e i h1 h2)
      rw [last_access_snoc] at hlj
      by_cases hsc : same_page a.1 vc
      · exact (lru_step_resident hpol hstep hi vc).2 (Or.inl hsc)
      · rw [if_neg hsc] at hlj
        have hcs := hne hfs vc j hlj
        exact (lru_step_resident hpol hstep hi vc).2
          (Or.inr ⟨hcs, lru_step_keeps hi (Or.inr hfs) hcs hsc⟩)

/-- The inclusion property of LRU: with the same trace, the pages resident with fewer
frames are resident with more frames, and more frames never give more misses. -/
theorem run_inclusion {w1 w2 : World} (hp1 : w1.policy = .lru) (hp2 : w2.policy = .lru)
    (hm : w1.memsize ≤ w2.memsize) (tr : List (Nat × Char)) :
    ∀ (s1 s2 : State), run w1 (init w1) tr = .ok s1 → run w2 (init w2) tr = .ok s2 →
    (∀ va, resident s1 va → resident s2 va) ∧ s2.miss_count ≤ s1.miss_count := by
  induction tr using List.reverseRecOn with
  | nil =>
    intro s1 s2 h1 h2
    simp only [run, Except.ok.injEq] at h1 h2
    subst h1
    subst h2
    refine ⟨fun va hv => absurd hv (not_resident_init w1 va), ?_⟩
    have a := init_counters w1
    have b := init_counters w2
    omega
  | append_singleton l a ih =>
    intro t1 t2 h1 h2
    obtain ⟨s1, r1, hs1, g1⟩ := run_snoc l a h1
    obtain ⟨s2, r2, hs2, g2⟩ := run_snoc l a h2
    obtain ⟨hsub, hmiss⟩ := ih s1 s2 hs1 hs2
    obtain ⟨hi1, st1, hts1⟩ := reachable_lruInv hp1 hs1
    obtain ⟨hi2, st2, hts2⟩ := reachable_lruInv hp2 hs2
    obtain ⟨-, -, -, a4, a5, a6⟩ := lru_step hp1 g1 hi1
    obtain ⟨-, -, -, b4, b5, -⟩ := lru_step hp2 g2 hi2
    constructor
    · intro vb hb1
      rcases (lru_step_resident hp1 g1 hi1 vb).1 hb1 with e | ⟨hbs1, hfne1⟩
      · exact (lru_step_resident hp2 g2 hi2 vb).2 (Or.inl e)
      · have hbs2 := hsub vb hbs1
        by_cases hsp : same_page a.1 vb
        · exact (lru_step_resident hp2 g2 hi2 vb).2 (Or.inl hsp)
        · refine (lru_step_resident hp2 g2 hi2 vb).2 (Or.inr ⟨hbs2, fun e2 => ?_⟩)
          obtain ⟨hnres2, hfull2, rest2, hfr2⟩ := lru_step_evicts hp2 g2 hi2 hbs2 hsp e2
          have hnres1 : ¬ resident s1 a.1 := fun e => hnres2 (hsub _ e)
          have hfull1 : first_free s1.coremap 0 w1.memsize = none := by
            apply in_use_count_full hi1.2.2.1
            have c2 := full_in_use_count hfull2
            have d1 := reachable_in_use_count hs1
            have d2 := reachable_in_use_count hs2
            omega
          obtain ⟨rest1, hfr1⟩ := a6 hnres1 hfull1
          obtain ⟨vv, hv1, hvf1⟩ := frame_holder hi1
            (show lru_frame_for w1 s1 a.1 ∈ lru_frames s1 by rw [hfr1]; simp)
          have hnp : ¬ same_page vv vb := by
            intro e
            rw [page_same_page e] at hvf1
            exact hfne1 hvf1
          have hnp2 : ¬ same_page vb vv := fun e => hnp (same_page_symm e)
          obtain ⟨i, j, k1, k2, k3⟩ := lru_victim_oldest hi1 hts1 hfr1 hv1 hvf1 hbs1 hnp
          obtain ⟨i2, j2, k4, k5, k6⟩ :=
            lru_victim_oldest hi2 hts2 hfr2 hbs2 e2 (hsub vv hv1) hnp2
          rw [k2] at k4
          rw [k1] at k5
          simp only [Option.some.injEq] at k4 k5
          omega
    · by_cases hv2 : resident s2 a.1
      · have := (b4 hv2).2.2.1
        by_cases hv1 : resident s1 a.1
        · have := (a4 hv1).2.2.1
          omega
        · have := (a5 hv1).2.2.1
          omega
      · have hv1 : ¬ resident s1 a.1 := fun e => hv2 (hsub _ e)
        have := (a5 hv1).2.2.1
        have := (b5 hv2).2.2.1
        omega

/-! ## C39: more frames keep more pages under LRU -/

/-- C39: under LRU, run the same trace from the initial state with `n` frames and with
`n + 1` frames, both runs completed.  Every page VALID (resident) after the run with `n`
frames is VALID after the run with `n + 1` frames, and `miss_count` with `n + 1` frames is
at most `miss_count` with `n` frames.  In both runs the resident pages are the most
recently referenced ones: every resident page was referenced, every page referenced later
than a resident page is resident, and as soon as some referenced page is not resident all
frames (`n` resp. `n + 1`) are in use. -/
theorem lru_more_frames_keep_more_pages (w1 w2 : World)
    (hp1 : w1.policy = .lru) (hp2 : w2.policy = .lru) (hm : w2.memsize = w1.memsize + 1)
    (tr : List (Nat × Char)) (s1 s2 : State)
    (h1 : run w1 (init w1) tr = .ok s1) (h2 : run w2 (init w2) tr = .ok s2) :
    (∀ va, resident s1 va → resident s2 va) ∧ s2.miss_count ≤ s1.miss_count ∧
    recency_closed s1 tr ∧ recency_closed s2 tr ∧
    (∀ va, resident s2 va → ∃ i, last_access tr va = some i) ∧
    ((∃ vc j, last_access tr vc = some j ∧ ¬ resident s1 vc) →
      in_use_count w1 s1 = w1.memsize) ∧
    ((∃ vc j, last_access tr vc = some j ∧ ¬ resident s2 vc) →
      in_use_count w2 s2 = w2.memsize) := by
  obtain ⟨a1, a2⟩ := run_inclusion hp1 hp2 (by omega) tr s1 s2 h1 h2
  obtain ⟨b1, b2⟩ := reachable_recency hp1 tr s1 h1
  obtain ⟨c1, c2⟩ := reachable_recency hp2 tr s2 h2
  have hfresh := reachable_freshOk h2
  refine ⟨a1, a2, b1, c1, fun va hv => ?_, fun ⟨vc, j, hj, hn⟩ => ?_,
    fun ⟨vc, j, hj, hn⟩ => ?_⟩
  · cases hl : last_access tr va with
    | none => exact absurd ((resident_iff s2 va).1 hv) (not_not.2 (hfresh va hl).1)
    | some i => exact ⟨i, rfl⟩
  · apply full_in_use_count
    by_contra hfree
    exact hn (b2 hfree vc j hj)
  · apply full_in_use_count
    by_contra hfree
    exact hn (c2 hfree vc j hj)

theorem lru_more_frames_keep_more_pages_witness :
    (demo_world 2 .lru 4).memsize = (demo_world 1 .lru 4).memsize + 1 ∧
    (state_after (demo_world 2 .lru 4) [(4096, 'L'), (8192, 'L'), (4096, 'L')]).miss_count ≤
      (state_after (demo_world 1 .lru 4) [(4096, 'L'), (8192, 'L'), (4096, 'L')]).miss_count ∧
    (state_after (demo_world 1 .lru 4) [(4096, 'L'), (8192, 'L'), (4096, 'L')]).miss_count
      = 3 ∧
    (state_after (demo_world 2 .lru 4) [(4096, 'L'), (8192, 'L'), (4096, 'L')]).miss_count
      = 2 :=
  ⟨rfl, (lru_more_frames_keep_more_pages (demo_world 1 .lru 4) (demo_world 2 .lru 4)
      rfl rfl rfl [(4096, 'L'), (8192, 'L'), (4096, 'L')]
      (state_after (demo_world 1 .lru 4) [(4096, 'L'), (8192, 'L'), (4096, 'L')])
      (state_after (demo_world 2 .lru 4) [(4096, 'L'), (8192, 'L'), (4096, 'L')])
      rfl rfl).2.1, by decide, by decide⟩

end VMSim
